import Mathlib

/-! # Mino compiler front end: a shallow embedding

The definitions below transcribe, function by function, the C sources of the
Mino compiler:

* `src/v1.x/v1.0/src/lexer/lexer.c`      (the scanner),
* `src/v0.x/v0.2.5/src/parser/parser.c`  (the recursive-descent parser),
* `src/v0.x/v0.2.5/src/ast/ast.c`        (node constructors),
* `src/v1.x/v1.0/src/semantic/semantic.c` (symbol table and type checker).

Conventions of the embedding.

* A C string is a `List Char`; the terminating NUL is implicit: reading at or
  past the end of the list yields `Char.ofNat 0`.
* Pointers into the source buffer are indices (`Nat`).
* A nullable pointer to a node is an `Option`; a pointer the C code
  dereferences without a test is a plain value.
* Loops whose termination is not structural take a fuel argument.  For the
  scanner the callers pass a fuel that is provably sufficient; for the parser
  and the type checker the fuel is exposed and `none` means "did not return
  within this many steps".
-/

set_option autoImplicit false

namespace Mino

/-! ## Tokens (`include/tokens.h`) -/

/-- Token kinds of `tokens.h`, with `TOKEN_ARROW` as used by the v1.0 scanner. -/
inductive TokenType where
  | TOKEN_LEFT_PAREN | TOKEN_RIGHT_PAREN
  | TOKEN_LEFT_BRACE | TOKEN_RIGHT_BRACE
  | TOKEN_LEFT_BRACKET | TOKEN_RIGHT_BRACKET
  | TOKEN_COMMA | TOKEN_DOT | TOKEN_SEMICOLON
  | TOKEN_COLON | TOKEN_QUESTION
  | TOKEN_PLUS | TOKEN_MINUS
  | TOKEN_STAR | TOKEN_SLASH | TOKEN_PERCENT
  | TOKEN_BANG | TOKEN_BANG_EQUAL
  | TOKEN_EQUAL | TOKEN_EQUAL_EQUAL
  | TOKEN_GREATER | TOKEN_GREATER_EQUAL
  | TOKEN_LESS | TOKEN_LESS_EQUAL
  | TOKEN_AMPERSAND | TOKEN_AMPERSAND_AMPERSAND
  | TOKEN_PIPE | TOKEN_PIPE_PIPE
  | TOKEN_ARROW
  | TOKEN_IDENTIFIER | TOKEN_STRING | TOKEN_NUMBER
  | TOKEN_FUNC | TOKEN_CLASS | TOKEN_LET | TOKEN_VAR
  | TOKEN_IF | TOKEN_ELSE | TOKEN_WHILE | TOKEN_FOR
  | TOKEN_RETURN | TOKEN_TRUE | TOKEN_FALSE | TOKEN_NULL
  | TOKEN_AND | TOKEN_OR | TOKEN_NEW | TOKEN_THIS
  | TOKEN_SUPER | TOKEN_INCLUDE
  | TOKEN_INT | TOKEN_FLOAT | TOKEN_BOOL | TOKEN_STRING_TYPE
  | TOKEN_VOID
  | TOKEN_HASH | TOKEN_HASH_INCLUDE
  | TOKEN_ERROR | TOKEN_EOF
  deriving DecidableEq, Repr

/-- The `Token` struct: `start`/`length` are kept as the slice they denote. -/
structure Token where
  type : TokenType
  lexeme : List Char
  line : Nat
  deriving DecidableEq, Repr

/-! ## Scanner (`src/v1.x/v1.0/src/lexer/lexer.c`) -/

/-- The NUL character that terminates a C string. -/
def NUL : Char := Char.ofNat 0

/-- The double-quote character. -/
def DQUOTE : Char := Char.ofNat 34

/-- The `Lexer` struct; `start` and `current` are offsets into `source`. -/
structure Lexer where
  source : List Char
  start : Nat
  current : Nat
  line : Nat
  deriving DecidableEq, Repr

/-- Read `source[i]`; the byte after the last character is the NUL. -/
def charAt (s : List Char) (i : Nat) : Char := s.getD i NUL

/-- C library `isalpha` in the C locale. -/
def isalpha (c : Char) : Bool :=
  (decide (97 ≤ c.toNat) && decide (c.toNat ≤ 122)) ||
  (decide (65 ≤ c.toNat) && decide (c.toNat ≤ 90))

/-- C library `isdigit`. -/
def isdigit (c : Char) : Bool :=
  decide (48 ≤ c.toNat) && decide (c.toNat ≤ 57)

/-- Lexer constructor `initLexer`. -/
def initLexer (source : List Char) : Lexer :=
  { source := source, start := 0, current := 0, line := 1 }

/-- Test `*lexer->current == 0`. -/
def isAtEnd (lx : Lexer) : Bool := charAt lx.source lx.current == NUL

/-- Step `lexer->current++`, returning the character stepped over. -/
def advance (lx : Lexer) : Char × Lexer :=
  (charAt lx.source lx.current, { lx with current := lx.current + 1 })

/-- Read `*lexer->current`. -/
def peek (lx : Lexer) : Char := charAt lx.source lx.current

/-- Read `lexer->current[1]`, or NUL at the end. -/
def peekNext (lx : Lexer) : Char :=
  if isAtEnd lx then NUL else charAt lx.source (lx.current + 1)

/-- Conditional advance `match(lexer, expected)` of the scanner. -/
def lexMatch (lx : Lexer) (expected : Char) : Bool × Lexer :=
  if isAtEnd lx then (false, lx)
  else if charAt lx.source lx.current != expected then (false, lx)
  else (true, { lx with current := lx.current + 1 })

/-- Loop `while (peek != newline && !isAtEnd) advance` of a line comment. -/
def lineCommentLoop : Nat → Lexer → Lexer
  | 0, lx => lx
  | fuel + 1, lx =>
    if peek lx != '\n' && !isAtEnd lx then lineCommentLoop fuel (advance lx).2
    else lx

/-- Loop of a block comment body: advance until the closer or the end. -/
def blockCommentLoop : Nat → Lexer → Lexer
  | 0, lx => lx
  | fuel + 1, lx =>
    if !(peek lx == '*' && peekNext lx == '/') && !isAtEnd lx then
      let lx1 := if peek lx == '\n' then { lx with line := lx.line + 1 } else lx
      blockCommentLoop fuel (advance lx1).2
    else lx

/-- The `while (1)` loop of `skipWhitespace`. -/
def skipWhitespaceLoop : Nat → Lexer → Lexer
  | 0, lx => lx
  | fuel + 1, lx =>
    let c := peek lx
    if c == ' ' || c == '\t' || c == '\r' then
      skipWhitespaceLoop fuel (advance lx).2
    else if c == '\n' then
      skipWhitespaceLoop fuel (advance { lx with line := lx.line + 1 }).2
    else if c == '/' then
      if peekNext lx == '/' then
        skipWhitespaceLoop fuel (lineCommentLoop lx.source.length lx)
      else if peekNext lx == '*' then
        let lx1 := (advance (advance lx).2).2
        let lx2 := blockCommentLoop lx1.source.length lx1
        let lx3 := if !isAtEnd lx2 then (advance (advance lx2).2).2 else lx2
        skipWhitespaceLoop fuel lx3
      else lx
    else lx

/-- Function `skipWhitespace`; every iteration but the last consumes input. -/
def skipWhitespace (lx : Lexer) : Lexer :=
  skipWhitespaceLoop (lx.source.length + 1) lx

/-- The slice `[start, current)` of the source. -/
def slice (lx : Lexer) : List Char :=
  (lx.source.drop lx.start).take (lx.current - lx.start)

/-- Function `makeToken`. -/
def makeToken (lx : Lexer) (type : TokenType) : Token :=
  { type := type, lexeme := slice lx, line := lx.line }

/-- Function `errorToken`: the lexeme is the message. -/
def errorToken (lx : Lexer) (message : List Char) : Token :=
  { type := TokenType.TOKEN_ERROR, lexeme := message, line := lx.line }

/-- Expression `memcmp(lexer->start + off, rest, strlen rest) == 0`. -/
def memcmpEq (lx : Lexer) (off : Nat) (rest : List Char) : Bool :=
  (lx.source.drop (lx.start + off)).take rest.length == rest

/-- Function `identifierType`: the keyword switch on the first character. -/
def identifierType (lx : Lexer) : TokenType :=
  let len := lx.current - lx.start
  let c0 := charAt lx.source lx.start
  if c0 == 'a' then
    if decide (len > 1) && charAt lx.source (lx.start + 1) == 'n' &&
        decide (len = 3) && charAt lx.source (lx.start + 2) == 'd' then
      TokenType.TOKEN_AND
    else TokenType.TOKEN_IDENTIFIER
  else if c0 == 'b' then
    if decide (len = 4) && memcmpEq lx 1 "ool".toList then TokenType.TOKEN_BOOL
    else TokenType.TOKEN_IDENTIFIER
  else if c0 == 'c' then
    if decide (len = 5) && memcmpEq lx 1 "lass".toList then TokenType.TOKEN_CLASS
    else TokenType.TOKEN_IDENTIFIER
  else if c0 == 'e' then
    if decide (len = 4) && memcmpEq lx 1 "lse".toList then TokenType.TOKEN_ELSE
    else TokenType.TOKEN_IDENTIFIER
  else if c0 == 'f' then
    if decide (len > 1) then
      if decide (len = 5) && memcmpEq lx 1 "alse".toList then TokenType.TOKEN_FALSE
      else if decide (len = 5) && memcmpEq lx 1 "loat".toList then TokenType.TOKEN_FLOAT
      else if decide (len = 3) && memcmpEq lx 1 "or".toList then TokenType.TOKEN_FOR
      else if decide (len = 4) && memcmpEq lx 1 "unc".toList then TokenType.TOKEN_FUNC
      else TokenType.TOKEN_IDENTIFIER
    else TokenType.TOKEN_IDENTIFIER
  else if c0 == 'i' then
    if decide (len = 2) && memcmpEq lx 1 "f".toList then TokenType.TOKEN_IF
    else if decide (len = 3) && memcmpEq lx 1 "nt".toList then TokenType.TOKEN_INT
    else TokenType.TOKEN_IDENTIFIER
  else if c0 == 'l' then
    if decide (len = 3) && memcmpEq lx 1 "et".toList then TokenType.TOKEN_LET
    else TokenType.TOKEN_IDENTIFIER
  else if c0 == 'n' then
    if decide (len > 1) then
      if decide (len = 3) && memcmpEq lx 1 "ew".toList then TokenType.TOKEN_NEW
      else if decide (len = 4) && memcmpEq lx 1 "ull".toList then TokenType.TOKEN_NULL
      else TokenType.TOKEN_IDENTIFIER
    else TokenType.TOKEN_IDENTIFIER
  else if c0 == 'o' then
    if decide (len = 2) && memcmpEq lx 1 "r".toList then TokenType.TOKEN_OR
    else TokenType.TOKEN_IDENTIFIER
  else if c0 == 'r' then
    if decide (len = 6) && memcmpEq lx 1 "eturn".toList then TokenType.TOKEN_RETURN
    else TokenType.TOKEN_IDENTIFIER
  else if c0 == 's' then
    if decide (len > 1) then
      if decide (len = 6) && memcmpEq lx 1 "tring".toList then TokenType.TOKEN_STRING_TYPE
      else if decide (len = 6) && memcmpEq lx 1 "uper".toList then TokenType.TOKEN_SUPER
      else if decide (len = 4) && memcmpEq lx 1 "can".toList then TokenType.TOKEN_IDENTIFIER
      else TokenType.TOKEN_IDENTIFIER
    else TokenType.TOKEN_IDENTIFIER
  else if c0 == 't' then
    if decide (len > 1) then
      if decide (len = 4) && memcmpEq lx 1 "his".toList then TokenType.TOKEN_THIS
      else if decide (len = 4) && memcmpEq lx 1 "rue".toList then TokenType.TOKEN_TRUE
      else TokenType.TOKEN_IDENTIFIER
    else TokenType.TOKEN_IDENTIFIER
  else if c0 == 'v' then
    if decide (len > 1) then
      if decide (len = 3) && memcmpEq lx 1 "ar".toList then TokenType.TOKEN_VAR
      else if decide (len = 4) && memcmpEq lx 1 "oid".toList then TokenType.TOKEN_VOID
      else TokenType.TOKEN_IDENTIFIER
    else TokenType.TOKEN_IDENTIFIER
  else if c0 == 'w' then
    if decide (len = 5) && memcmpEq lx 1 "hile".toList then TokenType.TOKEN_WHILE
    else TokenType.TOKEN_IDENTIFIER
  else TokenType.TOKEN_IDENTIFIER

/-- Loop `while (isalpha(peek) || isdigit(peek) || peek == underscore) advance`. -/
def identifierLoop : Nat → Lexer → Lexer
  | 0, lx => lx
  | fuel + 1, lx =>
    if isalpha (peek lx) || isdigit (peek lx) || peek lx == '_' then
      identifierLoop fuel (advance lx).2
    else lx

/-- Function `identifier`. -/
def identifier (lx : Lexer) : Token × Lexer :=
  let lx1 := identifierLoop lx.source.length lx
  (makeToken lx1 (identifierType lx1), lx1)

/-- Loop `while (isdigit(peek)) advance`. -/
def digitLoop : Nat → Lexer → Lexer
  | 0, lx => lx
  | fuel + 1, lx =>
    if isdigit (peek lx) then digitLoop fuel (advance lx).2 else lx

/-- Function `number`. -/
def number (lx : Lexer) : Token × Lexer :=
  let lx1 := digitLoop lx.source.length lx
  let lx2 :=
    if peek lx1 == '.' && isdigit (peekNext lx1) then
      digitLoop lx1.source.length (advance lx1).2
    else lx1
  (makeToken lx2 TokenType.TOKEN_NUMBER, lx2)

/-- Loop `while (peek != quote && !isAtEnd)` of `string`, counting newlines. -/
def stringLoop : Nat → Lexer → Lexer
  | 0, lx => lx
  | fuel + 1, lx =>
    if peek lx != DQUOTE && !isAtEnd lx then
      let lx1 := if peek lx == '\n' then { lx with line := lx.line + 1 } else lx
      stringLoop fuel (advance lx1).2
    else lx

/-- Function `string`. -/
def string (lx : Lexer) : Token × Lexer :=
  let lx1 := stringLoop lx.source.length lx
  if isAtEnd lx1 then (errorToken lx1 "Unterminated string.".toList, lx1)
  else
    let lx2 := (advance lx1).2
    (makeToken lx2 TokenType.TOKEN_STRING, lx2)

/-- Loop `while (isalpha(peek)) advance` after a hash sign. -/
def alphaLoop : Nat → Lexer → Lexer
  | 0, lx => lx
  | fuel + 1, lx =>
    if isalpha (peek lx) then alphaLoop fuel (advance lx).2 else lx

/-- Token made after a one-character lookahead `match(lexer, expected)`. -/
def twoCharToken (lx : Lexer) (expected : Char) (yes no : TokenType) : Token × Lexer :=
  let r := lexMatch lx expected
  (makeToken r.2 (if r.1 then yes else no), r.2)

/-- Body of `scanToken` after the end-of-input test: consume one character
and dispatch on it. -/
def scanBody (lx0 : Lexer) : Token × Lexer :=
  let c := (advance lx0).1
  let lx := (advance lx0).2
  if c == '#' then
    let lx1 := alphaLoop lx.source.length lx
    let length := lx1.current - lx1.start
    if decide (length = 8) && memcmpEq lx1 0 "#include".toList then
      (makeToken lx1 TokenType.TOKEN_INCLUDE, lx1)
    else (errorToken lx1 "Unknown preprocessor directive".toList, lx1)
  else if isalpha c || c == '_' then identifier lx
  else if isdigit c then number lx
  else if c == '(' then (makeToken lx TokenType.TOKEN_LEFT_PAREN, lx)
  else if c == ')' then (makeToken lx TokenType.TOKEN_RIGHT_PAREN, lx)
  else if c == Char.ofNat 123 then (makeToken lx TokenType.TOKEN_LEFT_BRACE, lx)
  else if c == Char.ofNat 125 then (makeToken lx TokenType.TOKEN_RIGHT_BRACE, lx)
  else if c == '[' then (makeToken lx TokenType.TOKEN_LEFT_BRACKET, lx)
  else if c == ']' then (makeToken lx TokenType.TOKEN_RIGHT_BRACKET, lx)
  else if c == ';' then (makeToken lx TokenType.TOKEN_SEMICOLON, lx)
  else if c == ',' then (makeToken lx TokenType.TOKEN_COMMA, lx)
  else if c == '.' then (makeToken lx TokenType.TOKEN_DOT, lx)
  else if c == ':' then (makeToken lx TokenType.TOKEN_COLON, lx)
  else if c == '?' then (makeToken lx TokenType.TOKEN_QUESTION, lx)
  else if c == '+' then (makeToken lx TokenType.TOKEN_PLUS, lx)
  else if c == '/' then (makeToken lx TokenType.TOKEN_SLASH, lx)
  else if c == '*' then (makeToken lx TokenType.TOKEN_STAR, lx)
  else if c == '%' then (makeToken lx TokenType.TOKEN_PERCENT, lx)
  else if c == '!' then
    twoCharToken lx '=' TokenType.TOKEN_BANG_EQUAL TokenType.TOKEN_BANG
  else if c == '=' then
    twoCharToken lx '=' TokenType.TOKEN_EQUAL_EQUAL TokenType.TOKEN_EQUAL
  else if c == '<' then
    twoCharToken lx '=' TokenType.TOKEN_LESS_EQUAL TokenType.TOKEN_LESS
  else if c == '>' then
    twoCharToken lx '=' TokenType.TOKEN_GREATER_EQUAL TokenType.TOKEN_GREATER
  else if c == '-' then
    twoCharToken lx '>' TokenType.TOKEN_ARROW TokenType.TOKEN_MINUS
  else if c == '&' then
    twoCharToken lx '&' TokenType.TOKEN_AMPERSAND_AMPERSAND TokenType.TOKEN_AMPERSAND
  else if c == '|' then
    twoCharToken lx '|' TokenType.TOKEN_PIPE_PIPE TokenType.TOKEN_PIPE
  else if c == DQUOTE then string lx
  else (errorToken lx "Unexpected character.".toList, lx)

/-- Function `scanToken`. -/
def scanToken (lx : Lexer) : Token × Lexer :=
  let lx0 := skipWhitespace lx
  let lx1 := { lx0 with start := lx0.current }
  if isAtEnd lx1 then (makeToken lx1 TokenType.TOKEN_EOF, lx1)
  else scanBody lx1

/-- Lexer state after `n` calls of `scanToken`. -/
def scanState : Nat → Lexer → Lexer
  | 0, lx => lx
  | n + 1, lx => scanState n (scanToken lx).2

/-- Token returned by call number `n` (counting from 0) of `scanToken`. -/
def scanNth (n : Nat) (lx : Lexer) : Token := (scanToken (scanState n lx)).1

/-! ## Syntax trees (`include/ast.h`, `src/v0.x/v0.2.5/src/ast/ast.c`) -/

/-- The `ASTNode` tagged union.  Children that the consumers test against NULL
are optional; `params` entries and an assignment target are dereferenced
unconditionally by `typeCheck` and are therefore plain nodes.  The first
field of every constructor is `node->line`. -/
inductive ASTNode where
  | program (line : Nat) (statements : List (Option ASTNode))
  | functionDecl (line : Nat) (name : List Char) (params : List ASTNode)
      (returnType : Option ASTNode) (body : Option ASTNode)
  | varDecl (line : Nat) (name : List Char) (type : Option ASTNode)
      (initializer : Option ASTNode)
  | literal (line : Nat) (token : Token)
  | variable (line : Nat) (name : List Char)
  | call (line : Nat) (callee : Option ASTNode) (args : List (Option ASTNode))
  | get (line : Nat) (object : Option ASTNode) (name : List Char)
  | binary (line : Nat) (op : Token) (left : Option ASTNode) (right : Option ASTNode)
  | assign (line : Nat) (target : ASTNode) (value : Option ASTNode)
  | returnStmt (line : Nat) (value : Option ASTNode)
  | includeNode (line : Nat) (filename : List Char)

/-- Field `node->line`. -/
def ASTNode.line : ASTNode → Nat
  | .program l _ => l
  | .functionDecl l _ _ _ _ => l
  | .varDecl l _ _ _ => l
  | .literal l _ => l
  | .variable l _ => l
  | .call l _ _ => l
  | .get l _ _ => l
  | .binary l _ _ _ => l
  | .assign l _ _ => l
  | .returnStmt l _ => l
  | .includeNode l _ => l

/-- Constructor `createProgramNode`. -/
def createProgramNode (statements : List (Option ASTNode)) : ASTNode :=
  ASTNode.program 0 statements

/-- Constructor `createFunctionNode`. -/
def createFunctionNode (name : List Char) (params : List ASTNode)
    (returnType : Option ASTNode) (body : Option ASTNode) : ASTNode :=
  ASTNode.functionDecl 0 name params returnType body

/-- Constructor `createVarNode`. -/
def createVarNode (name : List Char) (type : Option ASTNode)
    (initializer : Option ASTNode) : ASTNode :=
  ASTNode.varDecl 0 name type initializer

/-- Constructor `createLiteralNode`: the line is the token line. -/
def createLiteralNode (token : Token) : ASTNode :=
  ASTNode.literal token.line token

/-- Constructor `createVarRefNode`. -/
def createVarRefNode (name : List Char) : ASTNode :=
  ASTNode.variable 0 name

/-- Constructor `createBinaryNode`: the line is the operator line. -/
def createBinaryNode (op : Token) (left right : Option ASTNode) : ASTNode :=
  ASTNode.binary op.line op left right

/-- Constructor `createReturnNode`: the line of the value when there is one. -/
def createReturnNode (value : Option ASTNode) : ASTNode :=
  match value with
  | some v => ASTNode.returnStmt v.line value
  | none => ASTNode.returnStmt 0 none

/-- Constructor `createCallNode`. -/
def createCallNode (callee : Option ASTNode) (args : List (Option ASTNode)) : ASTNode :=
  ASTNode.call 0 callee args

/-- Constructor `createGetNode`. -/
def createGetNode (object : Option ASTNode) (name : List Char) : ASTNode :=
  ASTNode.get 0 object name

/-! ## Parser (`src/v0.x/v0.2.5/src/parser/parser.c`)

The parser pulls its tokens from `scanToken`.  The v0.2.5 tree ships only
`lexer.h`; the scanner run here is the repository's `lexer.c` transcribed
above, which implements that header. -/

/-- One line written to `stderr` by `errorAt`. -/
structure Diagnostic where
  line : Nat
  location : List Char
  message : List Char
  deriving DecidableEq, Repr

/-- The `Parser` struct, together with the text it has written to `stderr`. -/
structure Parser where
  lexer : Lexer
  current : Token
  previous : Token
  hadError : Bool
  panicMode : Bool
  diagnostics : List Diagnostic
  deriving DecidableEq, Repr

/-- Function `errorAt`. -/
def errorAt (p : Parser) (token : Token) (message : List Char) : Parser :=
  if p.panicMode then p
  else
    let location : List Char :=
      if token.type = TokenType.TOKEN_EOF then " at end".toList
      else if token.type = TokenType.TOKEN_ERROR then []
      else " at ".toList ++ [Char.ofNat 39] ++ token.lexeme ++ [Char.ofNat 39]
    { p with
      panicMode := true
      hadError := true
      diagnostics := p.diagnostics ++
        [{ line := token.line, location := location, message := message }] }

/-- Function `errorAtCurrent`. -/
def errorAtCurrent (p : Parser) (message : List Char) : Parser :=
  errorAt p p.current message

/-- Function `advance` of the parser. -/
def Parser.advance (p : Parser) : Parser :=
  let r := scanToken p.lexer
  { p with previous := p.current, current := r.1, lexer := r.2 }

/-- Function `check`. -/
def check (p : Parser) (t : TokenType) : Bool := p.current.type == t

/-- Function `match` of the parser. -/
def pmatch (p : Parser) (t : TokenType) : Bool × Parser :=
  if !check p t then (false, p) else (true, p.advance)

/-- A chain `match(p, t1) || match(p, t2) || ...`: the first kind that fits
is consumed. -/
def matchAny (p : Parser) : List TokenType → Bool × Parser
  | [] => (false, p)
  | t :: ts => if (pmatch p t).1 then (pmatch p t) else matchAny p ts

/-- Function `peekType`. -/
def peekType (p : Parser) : TokenType := p.current.type

/-- Function `consume`. -/
def consume (p : Parser) (t : TokenType) (message : List Char) : Parser :=
  if p.current.type = t then p.advance else errorAtCurrent p message

/-- Function `initParser`.  The C struct starts uninitialised; the two token
fields are given an arbitrary value here, which `advance` overwrites
(`current`) or which is never read before the next `advance` (`previous`). -/
def initParser (lexer : Lexer) : Parser :=
  let blank : Token := { type := TokenType.TOKEN_EOF, lexeme := [], line := 0 }
  Parser.advance
    { lexer := lexer, current := blank, previous := blank,
      hadError := false, panicMode := false, diagnostics := [] }

/-- The outcome of a parsing function: `none` when the fuel ran out,
otherwise the returned node pointer and the parser state. -/
abbrev PResult := Option (Option ASTNode × Parser)

mutual

/-- Function `finishCall`. -/
def finishCall : Nat → Parser → ASTNode → PResult
  | 0, _, _ => none
  | fuel + 1, p, callee =>
    if !(pmatch p TokenType.TOKEN_LEFT_PAREN).1 then
      some (none, errorAtCurrent p "Expect '(' after function name.".toList)
    else
      let p1 := (pmatch p TokenType.TOKEN_LEFT_PAREN).2
      if !check p1 TokenType.TOKEN_RIGHT_PAREN then
        match finishCallArgs fuel p1 [] with
        | none => none
        | some (args, p2) =>
          some (some (createCallNode (some callee) args),
            consume p2 TokenType.TOKEN_RIGHT_PAREN "Expect ')' after arguments.".toList)
      else
        some (some (createCallNode (some callee) []),
          consume p1 TokenType.TOKEN_RIGHT_PAREN "Expect ')' after arguments.".toList)

/-- The `do ... while (match(parser, TOKEN_COMMA))` loop of `finishCall`. -/
def finishCallArgs : Nat → Parser → List (Option ASTNode) →
    Option (List (Option ASTNode) × Parser)
  | 0, _, _ => none
  | fuel + 1, p, args =>
    match expression fuel p with
    | none => none
    | some (arg, p1) =>
      let args1 := match arg with
        | some a => args ++ [some a]
        | none => args
      if (pmatch p1 TokenType.TOKEN_COMMA).1 then
        finishCallArgs fuel (pmatch p1 TokenType.TOKEN_COMMA).2 args1
      else some (args1, p1)

/-- The `while (1)` loop of `primary` that follows an identifier. -/
def primaryChain : Nat → Parser → ASTNode → PResult
  | 0, _, _ => none
  | fuel + 1, p, node =>
    if (pmatch p TokenType.TOKEN_DOT).1 then
      let p1 := consume (pmatch p TokenType.TOKEN_DOT).2 TokenType.TOKEN_IDENTIFIER
        "Expect member name after '.'.".toList
      primaryChain fuel p1 (createGetNode (some node) p1.previous.lexeme)
    else if check p TokenType.TOKEN_LEFT_PAREN then finishCall fuel p node
    else some (some node, p)

/-- Function `primary`. -/
def primary : Nat → Parser → PResult
  | 0, _ => none
  | fuel + 1, p =>
    let lit := matchAny p [TokenType.TOKEN_TRUE, TokenType.TOKEN_FALSE,
      TokenType.TOKEN_NULL, TokenType.TOKEN_NUMBER]
    if lit.1 then some (some (createLiteralNode lit.2.previous), lit.2)
    else if (pmatch p TokenType.TOKEN_IDENTIFIER).1 then
      let p1 := (pmatch p TokenType.TOKEN_IDENTIFIER).2
      primaryChain fuel p1 (createVarRefNode p1.previous.lexeme)
    else if (pmatch p TokenType.TOKEN_LEFT_PAREN).1 then
      match expression fuel (pmatch p TokenType.TOKEN_LEFT_PAREN).2 with
      | none => none
      | some (expr, p1) =>
        some (expr, consume p1 TokenType.TOKEN_RIGHT_PAREN "Expect ')' after expression.".toList)
    else some (none, errorAtCurrent p "Expect expression.".toList)

/-- The `while (1)` loop of `binary`. -/
def binaryLoop : Nat → Parser → Option ASTNode → PResult
  | 0, _, _ => none
  | fuel + 1, p, left =>
    let m := matchAny p [TokenType.TOKEN_PLUS, TokenType.TOKEN_MINUS,
      TokenType.TOKEN_STAR, TokenType.TOKEN_SLASH]
    if m.1 then
      let op := m.2.previous
      match primary fuel m.2 with
      | none => none
      | some (right, p1) => binaryLoop fuel p1 (some (createBinaryNode op left right))
    else some (left, p)

/-- Function `binary`. -/
def binary : Nat → Parser → PResult
  | 0, _ => none
  | fuel + 1, p =>
    match primary fuel p with
    | none => none
    | some (left, p1) => binaryLoop fuel p1 left

/-- Function `expression`. -/
def expression : Nat → Parser → PResult
  | 0, _ => none
  | fuel + 1, p => binary fuel p

end

/-- Function `expressionStatement`. -/
def expressionStatement (fuel : Nat) (p : Parser) : PResult :=
  match expression fuel p with
  | none => none
  | some (expr, p1) =>
    some (expr, consume p1 TokenType.TOKEN_SEMICOLON "Expect ';' after expression.".toList)

/-- Function `returnStatement`. -/
def returnStatement (fuel : Nat) (p : Parser) : PResult :=
  if !check p TokenType.TOKEN_SEMICOLON then
    match expression fuel p with
    | none => none
    | some (value, p1) =>
      some (some (createReturnNode value),
        consume p1 TokenType.TOKEN_SEMICOLON "Expect ';' after return value.".toList)
  else
    some (some (createReturnNode none),
      consume p TokenType.TOKEN_SEMICOLON "Expect ';' after return value.".toList)

/-- The four type keywords accepted in declarations. -/
def typeKeywords : List TokenType :=
  [TokenType.TOKEN_INT, TokenType.TOKEN_FLOAT, TokenType.TOKEN_BOOL,
    TokenType.TOKEN_STRING_TYPE]

/-- Function `varDeclaration` (the `let` or `var` keyword is already consumed). -/
def varDeclaration (fuel : Nat) (p : Parser) : PResult :=
  let p1 := consume p TokenType.TOKEN_IDENTIFIER "Expect variable name.".toList
  let name := p1.previous.lexeme
  let afterInit (p2 : Parser) (typeNode : Option ASTNode) : PResult :=
    if (pmatch p2 TokenType.TOKEN_EQUAL).1 then
      match expression fuel (pmatch p2 TokenType.TOKEN_EQUAL).2 with
      | none => none
      | some (initializer, p3) =>
        some (some (createVarNode name typeNode initializer),
          consume p3 TokenType.TOKEN_SEMICOLON "Expect ';' after variable declaration.".toList)
    else
      some (some (createVarNode name typeNode none),
        consume p2 TokenType.TOKEN_SEMICOLON "Expect ';' after variable declaration.".toList)
  if (pmatch p1 TokenType.TOKEN_COLON).1 then
    let p2 := (pmatch p1 TokenType.TOKEN_COLON).2
    let m := matchAny p2 typeKeywords
    if m.1 then afterInit m.2 (some (createLiteralNode m.2.previous))
    else some (none, errorAtCurrent p2 "Expect type after :".toList)
  else if peekType p1 ∈ typeKeywords then
    let p2 := p1.advance
    afterInit p2 (some (createLiteralNode p2.previous))
  else afterInit p1 none

/-- Function `statement`. -/
def statement (fuel : Nat) (p : Parser) : PResult :=
  if (pmatch p TokenType.TOKEN_RETURN).1 then
    returnStatement fuel (pmatch p TokenType.TOKEN_RETURN).2
  else
    let m := matchAny p [TokenType.TOKEN_LET, TokenType.TOKEN_VAR]
    if m.1 then varDeclaration fuel m.2
    else expressionStatement fuel p

/-- The `do ... while (match(parser, TOKEN_COMMA))` loop over the parameters
in `functionDeclaration`. -/
def paramLoop : Nat → Parser → List ASTNode → Option (List ASTNode × Parser)
  | 0, _, _ => none
  | fuel + 1, p, params =>
    let m := matchAny p typeKeywords
    if !m.1 then some (params, errorAtCurrent p "Expect parameter type.".toList)
    else
      let paramType := m.2.previous
      let p1 := consume m.2 TokenType.TOKEN_IDENTIFIER "Expect parameter name.".toList
      let paramName := p1.previous.lexeme
      let paramNode := createVarNode paramName (some (createLiteralNode paramType)) none
      let params1 := params ++ [paramNode]
      if (pmatch p1 TokenType.TOKEN_COMMA).1 then
        paramLoop fuel (pmatch p1 TokenType.TOKEN_COMMA).2 params1
      else some (params1, p1)

/-- The `while (!check(RIGHT_BRACE) && !check(EOF))` loop over the body
statements in `functionDeclaration`. -/
def bodyLoop : Nat → Parser → List (Option ASTNode) →
    Option (List (Option ASTNode) × Parser)
  | 0, _, _ => none
  | fuel + 1, p, stmts =>
    if !check p TokenType.TOKEN_RIGHT_BRACE && !check p TokenType.TOKEN_EOF then
      match statement fuel p with
      | none => none
      | some (stmt, p1) =>
        match stmt with
        | some s => bodyLoop fuel p1 (stmts ++ [some s])
        | none => bodyLoop fuel p1 stmts
    else some (stmts, p)

/-- Function `functionDeclaration` (the `func` keyword is already consumed). -/
def functionDeclaration (fuel : Nat) (p : Parser) : PResult :=
  let hasType : Bool := decide (peekType p ∈ typeKeywords ++ [TokenType.TOKEN_VOID])
  let p1 := if hasType then p.advance else p
  let returnType : Option ASTNode :=
    if hasType then some (createLiteralNode p1.previous) else none
  let p2 := consume p1 TokenType.TOKEN_IDENTIFIER "Expect function name.".toList
  let name := p2.previous.lexeme
  let p3 := consume p2 TokenType.TOKEN_LEFT_PAREN "Expect '(' after function name.".toList
  let paramsResult : Option (List ASTNode × Parser) :=
    if !check p3 TokenType.TOKEN_RIGHT_PAREN then paramLoop fuel p3 []
    else some ([], p3)
  match paramsResult with
  | none => none
  | some (params, p4) =>
    let p5 := consume p4 TokenType.TOKEN_RIGHT_PAREN "Expect ')' after parameters.".toList
    let p6 := consume p5 TokenType.TOKEN_LEFT_BRACE "Expect '\x7b' before function body.".toList
    match bodyLoop fuel p6 [] with
    | none => none
    | some (bodyStatements, p7) =>
      let p8 := consume p7 TokenType.TOKEN_RIGHT_BRACE "Expect '\x7d' after function body.".toList
      some (some (createFunctionNode name params returnType
        (some (createProgramNode bodyStatements))), p8)

/-- Function `includeDeclaration`: skip to the next `func` or the end. -/
def includeDeclaration : Nat → Parser → PResult
  | 0, _ => none
  | fuel + 1, p =>
    if !check p TokenType.TOKEN_EOF && p.current.type != TokenType.TOKEN_FUNC then
      includeDeclaration fuel p.advance
    else some (none, p)

/-- Function `declaration`. -/
def declaration (fuel : Nat) (p : Parser) : PResult :=
  if check p TokenType.TOKEN_INCLUDE then includeDeclaration fuel p.advance
  else if (pmatch p TokenType.TOKEN_FUNC).1 then
    functionDeclaration fuel (pmatch p TokenType.TOKEN_FUNC).2
  else
    let m := matchAny p [TokenType.TOKEN_LET, TokenType.TOKEN_VAR]
    if m.1 then varDeclaration fuel m.2
    else statement fuel p

/-- The `while (!check(&parser, TOKEN_EOF))` loop of `parse`. -/
def parseLoop : Nat → Parser → List (Option ASTNode) →
    Option (List (Option ASTNode) × Parser)
  | 0, _, _ => none
  | fuel + 1, p, statements =>
    if !check p TokenType.TOKEN_EOF then
      match declaration fuel p with
      | none => none
      | some (stmt, p1) =>
        match stmt with
        | some s => parseLoop fuel p1 (statements ++ [some s])
        | none => parseLoop fuel p1 statements
    else some (statements, p)

/-- Function `parse`.  The result is `none` when the run does not finish
within `fuel` steps; otherwise it is the returned node pointer (`none` for
NULL) together with the final parser state, which holds the `hadError` flag
and the diagnostics written so far. -/
def parse (fuel : Nat) (source : List Char) : PResult :=
  match parseLoop fuel (initParser (initLexer source)) [] with
  | none => none
  | some (statements, p) =>
    if p.hadError then some (none, p)
    else some (some (createProgramNode statements), p)

/-! ## Symbol table (`src/v1.x/v1.0/src/semantic/semantic.c`, `include/semantic.h`)

The messages that `semantic.c` prints to `stderr` are not part of the
embedding: only return values, the table and the tree are. -/

/-- Constant `TABLE_SIZE`. -/
def TABLE_SIZE : Nat := 64

/-- The `while (*str)` loop of `hash`: FNV-1a on 32-bit unsigned arithmetic. -/
def hashLoop : Nat → List Char → Nat
  | h, [] => h
  | h, c :: cs => hashLoop (((h ^^^ (c.toNat % 256)) * 16777619) % 4294967296) cs

/-- Function `hash`. -/
def hash (str : List Char) : Nat := hashLoop 2166136261 str

/-- Enumeration `SymbolType`. -/
inductive SymbolType where
  | SYM_VARIABLE | SYM_FUNCTION | SYM_PARAMETER | SYM_CLASS
  deriving DecidableEq, Repr

/-- The `Symbol` struct; the `next` link is the tail of the bucket list.
The borrowed pointer `typeNode` is kept as the node it points to. -/
structure Symbol where
  name : List Char
  type : SymbolType
  typeNode : Option ASTNode
  scopeDepth : Int
  definedLine : Nat

/-- The `SymbolTable` struct: `buckets` is the array of `capacity` chains. -/
structure SymbolTable where
  buckets : List (List Symbol)
  capacity : Nat
  count : Int
  scopeDepth : Int

/-- Function `createSymbolTable`. -/
def createSymbolTable : SymbolTable :=
  { buckets := List.replicate TABLE_SIZE [], capacity := TABLE_SIZE,
    count := 0, scopeDepth := 0 }

/-- Function `enterScope` (the table pointer is not NULL). -/
def enterScope (table : SymbolTable) : Bool × SymbolTable :=
  (true, { table with scopeDepth := table.scopeDepth + 1 })

/-- The inner `while (curr)` loop of `exitScope` on one chain: unlink every
symbol of depth `d`; the second component counts the unlinked symbols. -/
def unlinkDepth (d : Int) : List Symbol → List Symbol × Nat
  | [] => ([], 0)
  | curr :: rest =>
    if curr.scopeDepth = d then ((unlinkDepth d rest).1, (unlinkDepth d rest).2 + 1)
    else (curr :: (unlinkDepth d rest).1, (unlinkDepth d rest).2)

/-- The outer `for` loop of `exitScope` over the buckets. -/
def unlinkAll (d : Int) : List (List Symbol) → List (List Symbol) × Nat
  | [] => ([], 0)
  | b :: bs =>
    ((unlinkDepth d b).1 :: (unlinkAll d bs).1, (unlinkDepth d b).2 + (unlinkAll d bs).2)

/-- Function `exitScope`. -/
def exitScope (table : SymbolTable) : Bool × SymbolTable :=
  if table.scopeDepth ≤ 0 then (false, table)
  else
    (true,
      { table with
        buckets := (unlinkAll table.scopeDepth table.buckets).1
        count := table.count - ((unlinkAll table.scopeDepth table.buckets).2 : Int)
        scopeDepth := table.scopeDepth - 1 })

/-- The `while (existing)` loop of `defineSymbol`: is there a symbol of this
name and depth in the chain? -/
def definedInChain (name : List Char) (depth : Int) : List Symbol → Bool
  | [] => false
  | existing :: rest =>
    if existing.name = name ∧ existing.scopeDepth = depth then true
    else definedInChain name depth rest

/-- Function `defineSymbol` (table and name are not NULL). -/
def defineSymbol (table : SymbolTable) (name : List Char) (type : SymbolType)
    (typeNode : Option ASTNode) (line : Nat) : Bool × SymbolTable :=
  let index := hash name % table.capacity
  if definedInChain name table.scopeDepth (table.buckets.getD index []) then (false, table)
  else
    let symbol : Symbol :=
      { name := name, type := type, typeNode := typeNode,
        scopeDepth := table.scopeDepth, definedLine := line }
    (true,
      { table with
        buckets := table.buckets.set index (symbol :: table.buckets.getD index [])
        count := table.count + 1 })

/-- The `while (symbol)` loop of `resolveSymbol`, carrying `found` and
`foundDepth`. -/
def resolveLoop (name : List Char) : List Symbol → Option Symbol → Int → Option Symbol
  | [], found, _ => found
  | symbol :: rest, found, foundDepth =>
    if symbol.name = name ∧ symbol.scopeDepth > foundDepth then
      resolveLoop name rest (some symbol) symbol.scopeDepth
    else resolveLoop name rest found foundDepth

/-- Function `resolveSymbol` (table and name are not NULL). -/
def resolveSymbol (table : SymbolTable) (name : List Char) : Option Symbol :=
  resolveLoop name (table.buckets.getD (hash name % table.capacity) []) none (-1)

/-- All symbols stored in the table, bucket after bucket. -/
def SymbolTable.symbols (table : SymbolTable) : List Symbol := table.buckets.flatten

/-! ## Type checker (`src/v1.x/v1.0/src/semantic/semantic.c`) -/

/-- The `TypeInfo` struct (`base` is always NULL and is left out). -/
structure TypeInfo where
  name : List Char
  size : Nat
  isArray : Bool
  isPrimitive : Bool
  deriving DecidableEq, Repr

/-- Function `createTypeInfo`. -/
def createTypeInfo (name : List Char) (size : Nat) (isPrimitive : Bool) : TypeInfo :=
  { name := name, size := size, isArray := false, isPrimitive := isPrimitive }

/-- Function `areTypesCompatible`. -/
def areTypesCompatible (t1 t2 : Option TypeInfo) : Bool :=
  match t1, t2 with
  | some a, some b => a.name == b.name
  | _, _ => false

/-- The `NODE_LITERAL` case of `getTypeInfo`: the switch on the token kind
(`sizeof(int) = sizeof(float) = 4`, `sizeof(char*) = 8`). -/
def literalTypeInfo (token : Token) : Option TypeInfo :=
  match token.type with
  | TokenType.TOKEN_NUMBER =>
    if token.lexeme.any (fun c => c == '.') then some (createTypeInfo "float".toList 4 true)
    else some (createTypeInfo "int".toList 4 true)
  | TokenType.TOKEN_STRING => some (createTypeInfo "string".toList 8 true)
  | TokenType.TOKEN_TRUE => some (createTypeInfo "bool".toList 4 true)
  | TokenType.TOKEN_FALSE => some (createTypeInfo "bool".toList 4 true)
  | TokenType.TOKEN_INT => some (createTypeInfo "int".toList 4 true)
  | TokenType.TOKEN_FLOAT => some (createTypeInfo "float".toList 4 true)
  | TokenType.TOKEN_BOOL => some (createTypeInfo "bool".toList 4 true)
  | TokenType.TOKEN_STRING_TYPE => some (createTypeInfo "string".toList 8 true)
  | TokenType.TOKEN_VOID => some (createTypeInfo "void".toList 0 true)
  | _ => none

/-- The switch on `typeToken.type` in the `NODE_VARIABLE` case of
`getTypeInfo`. -/
def annotationTypeInfo (typeToken : Token) : Option TypeInfo :=
  match typeToken.type with
  | TokenType.TOKEN_INT => some (createTypeInfo "int".toList 4 true)
  | TokenType.TOKEN_FLOAT => some (createTypeInfo "float".toList 4 true)
  | TokenType.TOKEN_BOOL => some (createTypeInfo "bool".toList 4 true)
  | TokenType.TOKEN_STRING_TYPE => some (createTypeInfo "string".toList 8 true)
  | TokenType.TOKEN_VOID => some (createTypeInfo "void".toList 0 true)
  | _ => none

/-- The nested helper `getNameRecursive` (and its copy `getNameRecursive2`)
on a node that is not NULL: the dotted name of a variable or member chain. -/
def getNameOfNode : ASTNode → Option (List Char)
  | ASTNode.variable _ name => some name
  | ASTNode.get _ (some object) name =>
    match getNameOfNode object with
    | none => none
    | some left => some (left ++ ['.'] ++ name)
  | _ => none
termination_by structural n => n

/-- The nested helper `getNameRecursive` of `getTypeInfo`. -/
def getNameRecursive : Option ASTNode → Option (List Char)
  | none => none
  | some n => getNameOfNode n

/-- The test `symbol->type == SYM_FUNCTION && symbol->typeNode &&
symbol->typeNode->type == NODE_FUNCTION_DECL`, returning the parameters and
the return type of the declaration when it holds. -/
def functionOfSymbol (symbol : Symbol) : Option (List ASTNode × Option ASTNode) :=
  if symbol.type = SymbolType.SYM_FUNCTION then
    match symbol.typeNode with
    | some (ASTNode.functionDecl _ _ params returnType _) => some (params, returnType)
    | _ => none
  else none

/-- Read `params[i]->variable.type`.  The parser builds every parameter as a
variable declaration; for a node of another kind the C code reads the union
through the wrong member, which is not modelled and yields NULL here. -/
def paramTypeNode : ASTNode → Option ASTNode
  | ASTNode.varDecl _ _ type _ => type
  | _ => none

/-- The argument loop of the external (`sys`) branch of a call: every
argument must have type `int` or `float`.  `typeOf` is `getTypeInfo` on the
current table; `none` means that it ran out of fuel. -/
def externalArgsOk (typeOf : Option ASTNode → Option (Option TypeInfo)) :
    List (Option ASTNode) → Option Bool
  | [] => some true
  | arg :: rest =>
    match typeOf arg with
    | none => none
    | some none => some false
    | some (some argType) =>
      if argType.name != "int".toList && argType.name != "float".toList then some false
      else externalArgsOk typeOf rest

/-- The argument loop of a call to a declared function: argument `i` is
compared with `params[i]`. -/
def callArgsOk (typeOf : Option ASTNode → Option (Option TypeInfo)) :
    List (Option ASTNode) → List ASTNode → Option Bool
  | arg :: args, param :: params =>
    match typeOf arg with
    | none => none
    | some argType =>
      match typeOf (paramTypeNode param) with
      | none => none
      | some paramType =>
        if argType.isNone || paramType.isNone then some false
        else if !areTypesCompatible argType paramType then some false
        else callArgsOk typeOf args params
  | _, _ => some true

/-- Function `getTypeInfo`.  The outer `none` means that the fuel ran out;
`some none` is the NULL result. -/
def getTypeInfo : Nat → Option ASTNode → SymbolTable → Option (Option TypeInfo)
  | 0, _, _ => none
  | _ + 1, none, _ => some none
  | fuel + 1, some node, symbols =>
    match node with
    | ASTNode.literal _ token => some (literalTypeInfo token)
    | ASTNode.variable _ name =>
      match resolveSymbol symbols name with
      | none => some none
      | some symbol =>
        match functionOfSymbol symbol with
        | some (_, returnType) => getTypeInfo fuel returnType symbols
        | none =>
          match symbol.typeNode with
          | some (ASTNode.literal _ typeToken) => some (annotationTypeInfo typeToken)
          | _ => some none
    | ASTNode.binary _ _ left right =>
      match getTypeInfo fuel left symbols with
      | none => none
      | some leftType =>
        match getTypeInfo fuel right symbols with
        | none => none
        | some rightType =>
          match leftType, rightType with
          | some l, some r => if l.name != r.name then some none else some (some l)
          | _, _ => some none
    | ASTNode.get _ object name =>
      match getNameRecursive object with
      | none => some none
      | some fullname =>
        match resolveSymbol symbols (fullname ++ ['.'] ++ name) with
        | none => some none
        | some symbol =>
          match functionOfSymbol symbol with
          | some (_, returnType) => getTypeInfo fuel returnType symbols
          | none =>
            match symbol.typeNode with
            | some (ASTNode.literal l t) => getTypeInfo fuel (some (ASTNode.literal l t)) symbols
            | _ => some none
    | ASTNode.call _ callee args =>
      match getNameRecursive callee with
      | none => some none
      | some calleeName =>
        match resolveSymbol symbols calleeName with
        | none =>
          if calleeName.take 3 = "sys".toList then
            match externalArgsOk (fun a => getTypeInfo fuel a symbols) args with
            | none => none
            | some false => some none
            | some true => some (some (createTypeInfo "int".toList 4 true))
          else some none
        | some symbol =>
          match functionOfSymbol symbol with
          | none => some none
          | some (params, returnType) =>
            if params.length ≠ args.length then some none
            else
              match callArgsOk (fun a => getTypeInfo fuel a symbols) args params with
              | none => none
              | some false => some none
              | some true => getTypeInfo fuel returnType symbols
    | _ => some none

/-- The outcome of `typeCheck`: the returned flag, the node after the
in-place updates, and the table after the call. -/
structure CheckResult where
  ok : Bool
  node : Option ASTNode
  symbols : SymbolTable

/-- First loop of the `NODE_PROGRAM` case: define every function of the
statement list; stop at the first failing definition. -/
def declareFunctions : List (Option ASTNode) → SymbolTable → Bool × SymbolTable
  | [], symbols => (true, symbols)
  | some (ASTNode.functionDecl line name params returnType body) :: rest, symbols =>
    let r := defineSymbol symbols name SymbolType.SYM_FUNCTION
      (some (ASTNode.functionDecl line name params returnType body)) line
    if !r.1 then (false, r.2) else declareFunctions rest r.2
  | _ :: rest, symbols => declareFunctions rest symbols

/-- Second loop of the `NODE_PROGRAM` case: check the statements in order and
stop at the first failure.  `checkOne` is `typeCheck` with less fuel. -/
def checkStatements (checkOne : Option ASTNode → SymbolTable → Option CheckResult) :
    List (Option ASTNode) → SymbolTable → Option (Bool × List (Option ASTNode) × SymbolTable)
  | [], symbols => some (true, [], symbols)
  | s :: rest, symbols =>
    match checkOne s symbols with
    | none => none
    | some r =>
      if !r.ok then some (false, r.node :: rest, r.symbols)
      else
        match checkStatements checkOne rest r.symbols with
        | none => none
        | some (ok, rest1, symbols1) => some (ok, r.node :: rest1, symbols1)

/-- The parameter loop of the `NODE_FUNCTION_DECL` case. -/
def defineParams : List ASTNode → SymbolTable → Bool × SymbolTable
  | [], symbols => (true, symbols)
  | ASTNode.varDecl line name type _ :: rest, symbols =>
    let r := defineSymbol symbols name SymbolType.SYM_PARAMETER type line
    if !r.1 then (false, r.2) else defineParams rest r.2
  | _ :: rest, symbols => defineParams rest symbols

/-- The token kind chosen for an inferred type name in the `NODE_VAR_DECL`
case. -/
def tokenTypeOfName (name : List Char) : TokenType :=
  if name = "int".toList then TokenType.TOKEN_INT
  else if name = "float".toList then TokenType.TOKEN_FLOAT
  else if name = "bool".toList then TokenType.TOKEN_BOOL
  else if name = "string".toList then TokenType.TOKEN_STRING_TYPE
  else TokenType.TOKEN_IDENTIFIER

/-- Function `typeCheck`.  The outer `none` means that the fuel ran out. -/
def typeCheck : Nat → Option ASTNode → SymbolTable → Option CheckResult
  | 0, _, _ => none
  | _ + 1, none, symbols => some { ok := true, node := none, symbols := symbols }
  | fuel + 1, some node, symbols =>
    match node with
    | ASTNode.program line statements =>
      let d := declareFunctions statements symbols
      if !d.1 then some { ok := false, node := some node, symbols := d.2 }
      else
        match checkStatements (typeCheck fuel) statements d.2 with
        | none => none
        | some (ok, statements1, symbols1) =>
          some { ok := ok, node := some (ASTNode.program line statements1), symbols := symbols1 }
    | ASTNode.varDecl line name type initializer =>
      let register (type1 : Option ASTNode) : Option CheckResult :=
        let r := defineSymbol symbols name SymbolType.SYM_VARIABLE type1 line
        some { ok := r.1, node := some (ASTNode.varDecl line name type1 initializer),
               symbols := r.2 }
      match initializer with
      | none => register type
      | some _ =>
        match getTypeInfo fuel initializer symbols with
        | none => none
        | some initType =>
          match getTypeInfo fuel type symbols with
          | none => none
          | some declType =>
            if initType.isNone && declType.isNone then
              some { ok := false, node := some node, symbols := symbols }
            else
              let type1 : Option ASTNode :=
                match declType, initType with
                | none, some it =>
                  some (createLiteralNode
                    { type := tokenTypeOfName it.name, lexeme := it.name, line := line })
                | _, _ => type
              match type1 with
              | none => register type1
              | some _ =>
                match getTypeInfo fuel initializer symbols with
                | none => none
                | some finalInit =>
                  match getTypeInfo fuel type1 symbols with
                  | none => none
                  | some finalDecl =>
                    if finalInit.isNone || finalDecl.isNone then
                      some { ok := false,
                             node := some (ASTNode.varDecl line name type1 initializer),
                             symbols := symbols }
                    else if !areTypesCompatible finalInit finalDecl then
                      some { ok := false,
                             node := some (ASTNode.varDecl line name type1 initializer),
                             symbols := symbols }
                    else register type1
    | ASTNode.functionDecl line name params returnType body =>
      let entered := (enterScope symbols).2
      let d := defineParams params entered
      if !d.1 then some { ok := false, node := some node, symbols := (exitScope d.2).2 }
      else
        match typeCheck fuel body d.2 with
        | none => none
        | some r =>
          some { ok := r.ok,
                 node := some (ASTNode.functionDecl line name params returnType r.node),
                 symbols := (exitScope r.symbols).2 }
    | ASTNode.assign _ target value =>
      match target with
      | ASTNode.variable _ varName =>
        match resolveSymbol symbols varName with
        | none => some { ok := false, node := some node, symbols := symbols }
        | some symbol =>
          match getTypeInfo fuel symbol.typeNode symbols with
          | none => none
          | some targetType =>
            match getTypeInfo fuel value symbols with
            | none => none
            | some valueType =>
              if targetType.isNone || valueType.isNone then
                some { ok := false, node := some node, symbols := symbols }
              else
                some { ok := areTypesCompatible targetType valueType,
                       node := some node, symbols := symbols }
      | _ => some { ok := false, node := some node, symbols := symbols }
    | ASTNode.returnStmt line value =>
      match value with
      | some _ =>
        match typeCheck fuel value symbols with
        | none => none
        | some r =>
          some { ok := r.ok, node := some (ASTNode.returnStmt line r.node),
                 symbols := r.symbols }
      | none => some { ok := true, node := some node, symbols := symbols }
    | ASTNode.binary _ _ _ _ =>
      match getTypeInfo fuel (some node) symbols with
      | none => none
      | some t => some { ok := t.isSome, node := some node, symbols := symbols }
    | _ => some { ok := true, node := some node, symbols := symbols }

/-! ## Auxiliary notions used in the statements -/

/-- Token kinds on which `primary` reports an error without consuming, on
which the loop of `binary` stops, and which `consume` of a semicolon rejects. -/
def stuckInStatement (t : TokenType) : Bool :=
  !([TokenType.TOKEN_TRUE, TokenType.TOKEN_FALSE, TokenType.TOKEN_NULL,
    TokenType.TOKEN_NUMBER, TokenType.TOKEN_IDENTIFIER, TokenType.TOKEN_LEFT_PAREN,
    TokenType.TOKEN_PLUS, TokenType.TOKEN_MINUS, TokenType.TOKEN_STAR,
    TokenType.TOKEN_SLASH, TokenType.TOKEN_SEMICOLON, TokenType.TOKEN_RETURN,
    TokenType.TOKEN_LET, TokenType.TOKEN_VAR].contains t)

/-- Source text with a stray parenthesis in a function body. -/
def srcBody : List Char := "func f() \x7b ) \x7d".toList

/-- The parser state `q` is obtained from `p` by calls of `advance` and
`errorAt` only. -/
inductive Reaches : Parser → Parser → Prop where
  | refl (p : Parser) : Reaches p p
  | advance {p q : Parser} : Reaches p q → Reaches p q.advance
  | error {p q : Parser} (tok : Token) (msg : List Char) : Reaches p q → Reaches p (errorAt q tok msg)

/-- The flag `hadError` is set exactly when a diagnostic has been written. -/
def errorFlagSound (p : Parser) : Prop := p.hadError = true ↔ p.diagnostics ≠ []

/-- Source text of the spec example with the closing parenthesis missing. -/
def srcMissingParen : List Char :=
  "func int add(int a, int b \x7b return a + b; \x7d".toList

/-- Source text of a call with the closing parenthesis missing. -/
def srcCallMissingParen : List Char := "f(1, 2;".toList

/-- The lexer `b` continues `a`: same source, cursor not moved back, and
still inside the source when it was inside before. -/
def Adv (a b : Lexer) : Prop :=
  b.source = a.source ∧ a.current ≤ b.current ∧
    (a.current ≤ a.source.length → b.current ≤ a.source.length)

/-- The cursor is inside the source or on its terminator. -/
def Lexer.inBounds (lx : Lexer) : Prop := lx.current ≤ lx.source.length


/-- Tables built from `createSymbolTable` by calls of `enterScope`,
`exitScope` and `defineSymbol`. -/
inductive TableReachable : SymbolTable → Prop where
  | create : TableReachable createSymbolTable
  | enter {t : SymbolTable} : TableReachable t → TableReachable (enterScope t).2
  | exit {t : SymbolTable} : TableReachable t → TableReachable (exitScope t).2
  | define {t : SymbolTable} (name : List Char) (type : SymbolType)
      (typeNode : Option ASTNode) (line : Nat) :
      TableReachable t → TableReachable (defineSymbol t name type typeNode line).2

/-- Two symbols with the same name and the same scope depth. -/
def sameKey (a c : Symbol) : Prop := a.name = c.name ∧ a.scopeDepth = c.scopeDepth

/-- Well-formedness of a table: the bucket array has `TABLE_SIZE` chains,
every symbol sits in the chain of its hash, depths lie between 0 and the
current depth, no chain holds two symbols of the same name and depth, and
`count` is the number of stored symbols. -/
structure SymbolTable.WF (t : SymbolTable) : Prop where
  capacity_eq : t.capacity = TABLE_SIZE
  length_eq : t.buckets.length = TABLE_SIZE
  depth_nonneg : 0 ≤ t.scopeDepth
  placed : ∀ i, ∀ s ∈ t.buckets.getD i [],
    hash s.name % TABLE_SIZE = i ∧ 0 ≤ s.scopeDepth ∧ s.scopeDepth ≤ t.scopeDepth
  distinct : ∀ i, (t.buckets.getD i []).Pairwise (fun a c => ¬ sameKey a c)
  count_eq : t.count = (t.symbols.length : Int)

/-- A run of `defineSymbol` calls that all succeed; `none` when one fails. -/
def defineAll : SymbolTable → List (List Char × SymbolType × Option ASTNode × Nat) →
    Option SymbolTable
  | t, [] => some t
  | t, (name, type, typeNode, line) :: rest =>
    if (defineSymbol t name type typeNode line).1 then
      defineAll (defineSymbol t name type typeNode line).2 rest
    else none

/-- Definition record of a variable `x` without annotation on a given line. -/
def defX (line : Nat) : List Char × SymbolType × Option ASTNode × Nat :=
  ("x".toList, SymbolType.SYM_VARIABLE, none, line)

/-- Table with `x` defined at depth 0 on line 1. -/
def tableOuterX : SymbolTable :=
  (defineSymbol createSymbolTable "x".toList SymbolType.SYM_VARIABLE none 1).2

/-- Table with `x` defined at depth 0 on line 1 and again, after
`enterScope`, at depth 1 on line 2. -/
def tableShadowX : SymbolTable :=
  (defineSymbol (enterScope tableOuterX).2 "x".toList SymbolType.SYM_VARIABLE none 2).2

/-- The table `u` is `t` after `enterScope` and some successful definitions:
unlinking the symbols of the inner depth from `u` gives back `t`. -/
def InnerOf (t u : SymbolTable) : Prop :=
  u.capacity = t.capacity ∧ u.buckets.length = t.buckets.length ∧
  u.scopeDepth = t.scopeDepth + 1 ∧
  (unlinkAll (t.scopeDepth + 1) u.buckets).1 = t.buckets ∧
  u.count - ((unlinkAll (t.scopeDepth + 1) u.buckets).2 : Int) = t.count


/-- Run the front end as `main.c` does: parse the source, then type-check the
tree with a fresh symbol table.  The result is `none` when either stage does
not finish within the fuel. -/
def checkSource (fuel : Nat) (source : List Char) : Option CheckResult :=
  match parse fuel source with
  | none => none
  | some (ast, _) => typeCheck fuel ast createSymbolTable

/-- Source: `g` takes one `int`; `f` calls it with two arguments in an
expression statement and with none in a return statement. -/
def srcBadCallCount : List Char :=
  "func int g(int a) \x7b return a; \x7d func int f() \x7b g(1, 2); return g(); \x7d".toList

/-- Source: `g` takes one `int`; `f` calls it with a `float` argument in an
expression statement and in a return statement. -/
def srcBadCallType : List Char :=
  "func int g(int a) \x7b return a; \x7d func int f() \x7b g(1.5); return g(2.5); \x7d".toList

/-- Source: the same wrong call as the initializer of a variable. -/
def srcBadCallInit : List Char :=
  "func int g(int a) \x7b return a; \x7d func int f() \x7b let y = g(1, 2); return 0; \x7d".toList

/-- Source: a well-typed call, for comparison. -/
def srcGoodCall : List Char :=
  "func int g(int a) \x7b return a; \x7d func int f() \x7b g(1); return g(2); \x7d".toList

/-- Source of the claim: a return statement whose value is an undefined name. -/
def srcReturnUndefined : List Char := "func int f() \x7b return nope; \x7d".toList

/-- Source: an undefined name as a bare expression statement. -/
def srcStatementUndefined : List Char := "func int f() \x7b nope; return 0; \x7d".toList

/-- Source: an undefined name as the initializer of a variable. -/
def srcInitUndefined : List Char := "func int f() \x7b let y = nope; return 0; \x7d".toList

/-- A type annotation node for the keyword `int` on line 1. -/
def intAnnotation : ASTNode :=
  createLiteralNode { type := TokenType.TOKEN_INT, lexeme := "int".toList, line := 1 }

/-- The declaration `let x: int = "hi";`: annotation `int`, initializer the
string literal token. -/
def declIntFromString : ASTNode :=
  ASTNode.varDecl 0 "x".toList (some intAnnotation)
    (some (createLiteralNode
      { type := TokenType.TOKEN_STRING, lexeme := [DQUOTE, 'h', 'i', DQUOTE], line := 1 }))

/-- The declaration `let x: int = 3;`. -/
def declIntFromInt : ASTNode :=
  ASTNode.varDecl 0 "x".toList (some intAnnotation)
    (some (createLiteralNode
      { type := TokenType.TOKEN_NUMBER, lexeme := "3".toList, line := 1 }))

/-- The exit test of the `skipWhitespace` loop: the next character is
neither blank, nor a newline, nor the start of a comment. -/
def skipDone (lx : Lexer) : Bool :=
  !(peek lx == ' ' || peek lx == '\t' || peek lx == '\r') && !(peek lx == '\n') &&
    !(peek lx == '/' && (peekNext lx == '/' || peekNext lx == '*'))

/-! ## Structural equality test on trees -/

mutual

/-- Structural equality of two nodes, field by field. -/
def ASTNode.beq : ASTNode → ASTNode → Bool
  | .program l s, .program l2 s2 => l == l2 && beqOptList s s2
  | .functionDecl l n ps rt b, .functionDecl l2 n2 ps2 rt2 b2 =>
    l == l2 && n == n2 && beqNodeList ps ps2 && beqOpt rt rt2 && beqOpt b b2
  | .varDecl l n t i, .varDecl l2 n2 t2 i2 => l == l2 && n == n2 && beqOpt t t2 && beqOpt i i2
  | .literal l t, .literal l2 t2 => l == l2 && t == t2
  | .variable l n, .variable l2 n2 => l == l2 && n == n2
  | .call l c a, .call l2 c2 a2 => l == l2 && beqOpt c c2 && beqOptList a a2
  | .get l o n, .get l2 o2 n2 => l == l2 && beqOpt o o2 && n == n2
  | .binary l op a b, .binary l2 op2 a2 b2 => l == l2 && op == op2 && beqOpt a a2 && beqOpt b b2
  | .assign l t v, .assign l2 t2 v2 => l == l2 && ASTNode.beq t t2 && beqOpt v v2
  | .returnStmt l v, .returnStmt l2 v2 => l == l2 && beqOpt v v2
  | .includeNode l f, .includeNode l2 f2 => l == l2 && f == f2
  | _, _ => false
termination_by structural x => x

/-- Structural equality of two nullable node pointers. -/
def beqOpt : Option ASTNode → Option ASTNode → Bool
  | none, none => true
  | some a, some b => ASTNode.beq a b
  | _, _ => false
termination_by structural x => x

/-- Structural equality of two node arrays. -/
def beqNodeList : List ASTNode → List ASTNode → Bool
  | [], [] => true
  | a :: as, b :: bs => ASTNode.beq a b && beqNodeList as bs
  | _, _ => false
termination_by structural x => x

/-- Structural equality of two arrays of nullable node pointers. -/
def beqOptList : List (Option ASTNode) → List (Option ASTNode) → Bool
  | [], [] => true
  | a :: as, b :: bs => beqOpt a b && beqOptList as bs
  | _, _ => false
termination_by structural x => x

end

/-- The type names that the retrofit of a variable declaration can record. -/
def inferableNames : List (List Char) :=
  ["int".toList, "float".toList, "bool".toList, "string".toList]

/-- The token kind of the annotation of a variable declaration, when the
node is a variable declaration annotated with a literal node. -/
def annotationTokenType : Option ASTNode → Option TokenType
  | some (ASTNode.varDecl _ _ (some (ASTNode.literal _ token)) _) => some token.type
  | _ => none

/-- A number literal node on line 1. -/
def numberLiteral (lexeme : List Char) : ASTNode :=
  createLiteralNode { type := TokenType.TOKEN_NUMBER, lexeme := lexeme, line := 1 }

/-- The declaration `let y = 3.5;`: no annotation, a number initializer. -/
def declYFloat : ASTNode :=
  ASTNode.varDecl 0 "y".toList none (some (numberLiteral "3.5".toList))

/-- The declaration `let x;`: no annotation and no initializer. -/
def declBare : ASTNode := ASTNode.varDecl 0 "x".toList none none

/-- The declaration `let x = nope;` with `nope` undefined. -/
def declFromUndefined : ASTNode :=
  ASTNode.varDecl 0 "x".toList none (some (ASTNode.variable 0 "nope".toList))

/-- An operator token on line 1. -/
def opToken (type : TokenType) (lexeme : List Char) : Token :=
  { type := type, lexeme := lexeme, line := 1 }

/-- The expression `1 op 2.5` for an arbitrary operator token. -/
def exprIntOpFloat (op : Token) : ASTNode :=
  createBinaryNode op (some (numberLiteral "1".toList)) (some (numberLiteral "2.5".toList))

/-- The expression `1 + 2`. -/
def exprIntPlusInt : ASTNode :=
  createBinaryNode (opToken TokenType.TOKEN_PLUS "+".toList)
    (some (numberLiteral "1".toList)) (some (numberLiteral "2".toList))

/-- The token kinds for which the `NODE_LITERAL` case of `getTypeInfo` has a
`case` label. -/
def typedLiteralKinds : List TokenType :=
  [TokenType.TOKEN_NUMBER, TokenType.TOKEN_STRING, TokenType.TOKEN_TRUE,
    TokenType.TOKEN_FALSE, TokenType.TOKEN_INT, TokenType.TOKEN_FLOAT,
    TokenType.TOKEN_BOOL, TokenType.TOKEN_STRING_TYPE, TokenType.TOKEN_VOID]

/-- The name of an optional type. -/
def typeName (t : Option TypeInfo) : Option (List Char) := t.map (fun i => i.name)

/-- The call `system(1)`. -/
def callSystem : ASTNode :=
  createCallNode (some (createVarRefNode "system".toList)) [some (numberLiteral "1".toList)]

/-- The call `sysx.f(1)`. -/
def callSysxF : ASTNode :=
  createCallNode (some (createGetNode (some (createVarRefNode "sysx".toList)) "f".toList))
    [some (numberLiteral "1".toList)]

/-- The call `sys.IO.print(1)`. -/
def callSysPrint : ASTNode :=
  createCallNode
    (some (createGetNode (some (createGetNode (some (createVarRefNode "sys".toList))
      "IO".toList)) "print".toList))
    [some (numberLiteral "1".toList)]

/-- The call `other.f(1)`. -/
def callOtherF : ASTNode :=
  createCallNode (some (createGetNode (some (createVarRefNode "other".toList)) "f".toList))
    [some (numberLiteral "1".toList)]

/-- Is the type named `int` or `float`? -/
def isNumeric (t : TypeInfo) : Prop := t.name = "int".toList ∨ t.name = "float".toList

/-- Table with the variable `x` annotated `int`, defined at depth 0. -/
def tableIntX : SymbolTable :=
  (defineSymbol createSymbolTable "x".toList SymbolType.SYM_VARIABLE (some intAnnotation) 1).2

/-- The assignment `x = value`. -/
def assignX (value : ASTNode) : ASTNode :=
  ASTNode.assign 0 (createVarRefNode "x".toList) (some value)

/-- The assignment `a.b = 1`, whose target is a member access. -/
def assignMember : ASTNode :=
  ASTNode.assign 0 (createGetNode (some (createVarRefNode "a".toList)) "b".toList)
    (some (numberLiteral "1".toList))

/-- The assignment `y = 1`, with `y` undefined. -/
def assignUndefined : ASTNode :=
  ASTNode.assign 0 (createVarRefNode "y".toList) (some (numberLiteral "1".toList))

/-- Source: `f` calls `g`, declared after it, in a variable initializer. -/
def srcForwardCall : List Char :=
  "func int f() \x7b let y = g(1); return y; \x7d func int g(int a) \x7b return a; \x7d".toList

/-- Source: the same forward call with one argument too many. -/
def srcForwardCallBad : List Char :=
  "func int f() \x7b let y = g(1, 2); return y; \x7d func int g(int a) \x7b return a; \x7d".toList

/-- Source: the call of `srcForwardCall` with `g` declared first. -/
def srcBackwardCall : List Char :=
  "func int g(int a) \x7b return a; \x7d func int f() \x7b let y = g(1); return y; \x7d".toList

/-- Source: the call of `srcForwardCallBad` with `g` declared first. -/
def srcBackwardCallBad : List Char :=
  "func int g(int a) \x7b return a; \x7d func int f() \x7b let y = g(1, 2); return y; \x7d".toList

/-- Source: two functions that call each other in variable initializers. -/
def srcMutualRecursion : List Char :=
  "func int f(int a) \x7b let y = g(a); return y; \x7d func int g(int a) \x7b let z = f(a); return z; \x7d".toList

/-- Source: two top-level functions with the same name. -/
def srcDuplicateFunction : List Char :=
  "func int f() \x7b return 1; \x7d func int f() \x7b return 2; \x7d".toList

/-- A function declaration with no parameters, no return type and an empty
body. -/
def emptyFunction (name : List Char) : ASTNode :=
  createFunctionNode name [] none (some (createProgramNode []))

/-! ## Token runs ahead of the parser cursor -/

/-- The parser state after `k` further calls of `advance`. -/
def Parser.advanceN (p : Parser) : Nat → Parser
  | 0 => p
  | k + 1 => Parser.advanceN p.advance k

/-- The node `functionDeclaration` builds for one parameter, written as the
type keyword token `x.1` followed by the name token `x.2`. -/
def paramNode (x : Token × Token) : ASTNode :=
  createVarNode x.2.lexeme (some (createLiteralNode x.1)) none

/-- The two tokens at the cursor are the type keyword `x.1` and the
identifier `x.2`. -/
def paramAt (p : Parser) (x : Token × Token) : Bool :=
  p.current == x.1 && decide (x.1.type ∈ typeKeywords) &&
    p.advance.current == x.2 && x.2.type == TokenType.TOKEN_IDENTIFIER

/-- The tokens from the cursor on spell the parameter list `pairs`: a closing
parenthesis when the list is empty, otherwise for each pair a type keyword
and an identifier, with a comma between two pairs and no comma after the
last pair. -/
def paramsAhead (p : Parser) : List (Token × Token) → Bool
  | [] => p.current.type == TokenType.TOKEN_RIGHT_PAREN
  | [x] => paramAt p x && p.advance.advance.current.type != TokenType.TOKEN_COMMA
  | x :: y :: rest =>
    paramAt p x && p.advance.advance.current.type == TokenType.TOKEN_COMMA &&
      paramsAhead p.advance.advance.advance (y :: rest)

/-- The source text of C18. -/
def srcAdd : List Char := "func int add(int a, int b) \x7b return a + b; \x7d".toList

/-- The keyword token `int` on line 1. -/
def intToken : Token := { type := TokenType.TOKEN_INT, lexeme := "int".toList, line := 1 }

/-- The tree described for `srcAdd`: one function `add` with return type
`int`, the parameters `a` and `b` of type `int`, and a body of one return
statement over `a + b`. -/
def addTree : ASTNode :=
  ASTNode.program 0
    [some (ASTNode.functionDecl 0 "add".toList
      [ASTNode.varDecl 0 "a".toList (some (ASTNode.literal 1 intToken)) none,
       ASTNode.varDecl 0 "b".toList (some (ASTNode.literal 1 intToken)) none]
      (some (ASTNode.literal 1 intToken))
      (some (ASTNode.program 0
        [some (ASTNode.returnStmt 1
          (some (ASTNode.binary 1
            { type := TokenType.TOKEN_PLUS, lexeme := "+".toList, line := 1 }
            (some (ASTNode.variable 0 "a".toList))
            (some (ASTNode.variable 0 "b".toList)))))])))]

/-- The four operator kinds `binary` accepts. -/
def binaryOperators : List TokenType :=
  [TokenType.TOKEN_PLUS, TokenType.TOKEN_MINUS, TokenType.TOKEN_STAR, TokenType.TOKEN_SLASH]

/-- The tokens from the cursor of the first state on are `op primary op
primary ...`: each step lists the operator token and the node `primary`
(run with the given fuel) returns for the operand behind it, and at the last
state the current token is not an operator. -/
inductive BinaryTail (fuel : Nat) : Parser → List (Token × Option ASTNode) → Parser → Prop where
  | stop (p : Parser) (h : p.current.type ∉ binaryOperators) : BinaryTail fuel p [] p
  | step (p p1 q : Parser) (right : Option ASTNode) (rest : List (Token × Option ASTNode))
      (hop : p.current.type ∈ binaryOperators)
      (hprim : primary fuel p.advance = some (right, p1))
      (htail : BinaryTail fuel p1 rest q) :
      BinaryTail fuel p ((p.current, right) :: rest) q

/-- The left-nested tree over a first operand and the following (operator,
operand) steps. -/
def leftNested (left : Option ASTNode) (steps : List (Token × Option ASTNode)) :
    Option ASTNode :=
  steps.foldl (fun acc s => some (createBinaryNode s.1 acc s.2)) left

/-- The expression `a + b * c`. -/
def srcMixedOperators : List Char := "a + b * c".toList

/-- The expression `a - b - c`. -/
def srcRepeatedMinus : List Char := "a - b - c".toList

/-- The operator token of the given kind and spelling on line 1. -/
def operatorToken (type : TokenType) (lexeme : String) : Token :=
  { type := type, lexeme := lexeme.toList, line := 1 }

/-- The tree `(a + b) * c`. -/
def treeMixedOperators : ASTNode :=
  ASTNode.binary 1 (operatorToken TokenType.TOKEN_STAR "*")
    (some (ASTNode.binary 1 (operatorToken TokenType.TOKEN_PLUS "+")
      (some (ASTNode.variable 0 "a".toList)) (some (ASTNode.variable 0 "b".toList))))
    (some (ASTNode.variable 0 "c".toList))

/-- The tree `(a - b) - c`. -/
def treeRepeatedMinus : ASTNode :=
  ASTNode.binary 1 (operatorToken TokenType.TOKEN_MINUS "-")
    (some (ASTNode.binary 1 (operatorToken TokenType.TOKEN_MINUS "-")
      (some (ASTNode.variable 0 "a".toList)) (some (ASTNode.variable 0 "b".toList))))
    (some (ASTNode.variable 0 "c".toList))

/-- The tokens from the cursor on are `. name . name ...` for the identifier
tokens `names`, and the token behind them is not a dot. -/
def chainAhead (p : Parser) : List Token → Bool
  | [] => p.current.type != TokenType.TOKEN_DOT
  | name :: rest =>
    p.current.type == TokenType.TOKEN_DOT && p.advance.current == name &&
      name.type == TokenType.TOKEN_IDENTIFIER && chainAhead p.advance.advance rest

/-- The left-nested member-access chain over a base node and the member
name tokens. -/
def memberChain (base : ASTNode) (names : List Token) : ASTNode :=
  names.foldl (fun acc name => createGetNode (some acc) name.lexeme) base

/-- The tokens from the cursor of the first state on are `expression ,
expression ...`: the list holds what `expression` (run with the given fuel)
returns for each argument in source order, and at the last state the current
token is not a comma. -/
inductive ArgList (fuel : Nat) : Parser → List (Option ASTNode) → Parser → Prop where
  | last (p q : Parser) (arg : Option ASTNode)
      (hexpr : expression fuel p = some (arg, q))
      (hend : q.current.type ≠ TokenType.TOKEN_COMMA) : ArgList fuel p [arg] q
  | more (p p1 q : Parser) (arg : Option ASTNode) (rest : List (Option ASTNode))
      (hexpr : expression fuel p = some (arg, p1))
      (hcomma : p1.current.type = TokenType.TOKEN_COMMA)
      (htail : ArgList fuel p1.advance rest q) : ArgList fuel p (arg :: rest) q

/-- The expression `sys.IO.print(1, x)`. -/
def srcChainCall : List Char := "sys.IO.print(1, x)".toList

/-- The tree of `srcChainCall`: one call whose callee is the chain
`sys.IO.print` and whose arguments are `1` and `x`. -/
def treeChainCall : ASTNode :=
  ASTNode.call 0
    (some (ASTNode.get 0
      (some (ASTNode.get 0 (some (ASTNode.variable 0 "sys".toList)) "IO".toList))
      "print".toList))
    [some (ASTNode.literal 1
       { type := TokenType.TOKEN_NUMBER, lexeme := "1".toList, line := 1 }),
     some (ASTNode.variable 0 "x".toList)]

/-- The expression `a.b.c`. -/
def srcChain : List Char := "a.b.c".toList

/-- The tree of `srcChain`. -/
def treeChain : ASTNode :=
  ASTNode.get 0 (some (ASTNode.get 0 (some (ASTNode.variable 0 "a".toList)) "b".toList))
    "c".toList

/-- The expression `f()`. -/
def srcEmptyCall : List Char := "f()".toList

/-- The parser state at the start of the given source text. -/
def parserAt (source : List Char) : Parser := initParser (initLexer source)

/-- The identifier token of the given spelling on line 1. -/
def identToken (name : String) : Token :=
  { type := TokenType.TOKEN_IDENTIFIER, lexeme := name.toList, line := 1 }

/-- The parser state of `srcAdd` once `declaration` has consumed `func`. -/
def afterFunc : Parser := (parserAt srcAdd).advance

/-- The two parameters of `srcAdd` as (type token, name token) pairs. -/
def addParams : List (Token × Token) :=
  [(intToken, identToken "a"), (intToken, identToken "b")]

/-- A function header without return type: `f(bool p) \x7b \x7d`, as the
tokens behind `func`. -/
def srcUntypedHeader : List Char := "f(bool p) \x7b \x7d".toList

/-- The keyword token `bool` on line 1. -/
def boolToken : Token := { type := TokenType.TOKEN_BOOL, lexeme := "bool".toList, line := 1 }

/-- The literal token `1` on line 1. -/
def oneToken : Token := { type := TokenType.TOKEN_NUMBER, lexeme := "1".toList, line := 1 }

/-- The member name tokens of `srcChainCall`. -/
def chainCallNames : List Token := [identToken "IO", identToken "print"]

/-- The member name tokens of `srcChain`. -/
def chainNames : List Token := [identToken "b", identToken "c"]

/-- The expression `x`. -/
def srcBareName : List Char := "x".toList

/-! ## The unread input of the scanner -/

/-- The unread input: the characters of the source from the cursor on. -/
def Lexer.rest (lx : Lexer) : List Char := lx.source.drop lx.current

/-- The lexer with the cursor moved `k` characters on. -/
def Lexer.skip (lx : Lexer) (k : Nat) : Lexer := { lx with current := lx.current + k }

/-- The longest prefix of the input of the form digits, or digits, a dot and
digits: the leading digits, and the dot with the digits behind it when a
digit follows the dot. -/
def numberPrefix (input : List Char) : List Char :=
  let digits := input.takeWhile isdigit
  match input.dropWhile isdigit with
  | '.' :: d :: tl =>
    if isdigit d then digits ++ '.' :: (d :: tl).takeWhile isdigit else digits
  | _ => digits

/-- The text matches `[0-9]+(\.[0-9]+)?`: at least one digit, then either
nothing or a dot followed by at least one digit and nothing but digits. -/
def matchesNumber (text : List Char) : Bool :=
  let digits := text.takeWhile isdigit
  let tl := text.dropWhile isdigit
  !digits.isEmpty &&
    (tl.isEmpty || (tl.head? == some '.' && !tl.tail.isEmpty && tl.tail.all isdigit))

/-- The first `n` tokens `scanToken` returns on a source text. -/
def scanFirst (n : Nat) (source : List Char) : List Token :=
  (List.range n).map (fun i => scanNth i (initLexer source))

/-- A token on line 1. -/
def tokenOnLine1 (type : TokenType) (lexeme : String) : Token :=
  { type := type, lexeme := lexeme.toList, line := 1 }

/-- The source text `x = "hi" + "a`: a closed string literal and an open
one. -/
def srcStrings : List Char :=
  "x = ".toList ++ DQUOTE :: "hi".toList ++ DQUOTE :: " + ".toList ++ DQUOTE :: "a".toList

/-! ## The scanner behind a prefix of the source -/

/-- The lexer `lx` seen behind a prefix `pre` of its source that spans `d`
more lines: the offsets count the prefix as well and the line is `d` higher. -/
def Lexer.shift (pre : List Char) (d : Nat) (lx : Lexer) : Lexer :=
  { source := pre ++ lx.source, start := lx.start + pre.length,
    current := lx.current + pre.length, line := lx.line + d }

/-- The token with its line number increased by `d`. -/
def Token.bump (d : Nat) (t : Token) : Token := { t with line := t.line + d }

/-- A result of the scanner (token and lexer) behind a prefix. -/
def shiftResult (pre : List Char) (d : Nat) (r : Token × Lexer) : Token × Lexer :=
  (r.1.bump d, r.2.shift pre d)

/-- The test of the loop in `identifier`: a letter, a digit or an
underscore. -/
def isIdentChar (c : Char) : Bool := isalpha c || isdigit c || c == '_'

/-- The test of the line comment loop, on the character under the cursor:
neither a newline nor the end of the text. -/
def inLineComment (c : Char) : Bool := c != '\n' && c != NUL

/-- The test of the loop in `string`, on the character under the cursor:
neither a quote nor the end of the text. -/
def inString (c : Char) : Bool := c != DQUOTE && c != NUL

/-- The characters the loop over a block comment body steps over: all up to
the first `*/` or the end of the text. -/
def blockBody : List Char → List Char
  | [] => []
  | c :: tl =>
    if c == NUL then []
    else if c == '*' && tl.headD NUL == '/' then []
    else c :: blockBody tl

/-- The loop of `skipWhitespace` read off the unread input alone: the number
of characters it steps over and the number of newlines it counts, with the
same fuel as `skipWhitespaceLoop`. -/
def wsSpan : Nat → List Char → Nat × Nat
  | 0, _ => (0, 0)
  | _ + 1, [] => (0, 0)
  | n + 1, c :: tl =>
    if c == ' ' || c == '\t' || c == '\r' then ((wsSpan n tl).1 + 1, (wsSpan n tl).2)
    else if c == '\n' then ((wsSpan n tl).1 + 1, (wsSpan n tl).2 + 1)
    else if c == '/' then
      if tl.headD NUL == '/' then
        let k := ((c :: tl).takeWhile inLineComment).length
        ((wsSpan n ((c :: tl).drop k)).1 + k, (wsSpan n ((c :: tl).drop k)).2)
      else if tl.headD NUL == '*' then
        let body := blockBody tl.tail
        let after := tl.tail.drop body.length
        let close := if after.headD NUL != NUL then 2 else 0
        ((wsSpan n (after.drop close)).1 + (2 + body.length + close),
          (wsSpan n (after.drop close)).2 + body.count '\n')
      else (0, 0)
    else (0, 0)

/-- What `skipWhitespace` steps over on the unread input: the number of
characters and the number of newlines. -/
def wsSkip (input : List Char) : Nat × Nat := wsSpan (input.length + 1) input

/-! ## Well-formed trees -/

mutual

/-- The node and everything below it is well formed: the operands of a
binary node, the callee of a call, the object of a member access, the body
of a function and the value of an assignment are present; statement lists
and argument lists hold no NULL entry; every parameter is a variable
declaration.  The type and the initializer of a variable declaration, the
return type of a function and the value of a return statement may be
absent. -/
def ASTNode.wellFormed : ASTNode → Bool
  | .program _ statements => entriesWellFormed statements
  | .functionDecl _ _ params returnType body =>
    paramsWellFormed params && optionalWellFormed returnType && requiredWellFormed body
  | .varDecl _ _ type initializer => optionalWellFormed type && optionalWellFormed initializer
  | .literal _ _ => true
  | .variable _ _ => true
  | .call _ callee args => requiredWellFormed callee && entriesWellFormed args
  | .get _ object _ => requiredWellFormed object
  | .binary _ _ left right => requiredWellFormed left && requiredWellFormed right
  | .assign _ target value => ASTNode.wellFormed target && requiredWellFormed value
  | .returnStmt _ value => optionalWellFormed value
  | .includeNode _ _ => true
termination_by structural x => x

/-- A child that must be present, and is well formed. -/
def requiredWellFormed : Option ASTNode → Bool
  | none => false
  | some n => ASTNode.wellFormed n
termination_by structural x => x

/-- A child that may be absent, and is well formed when present. -/
def optionalWellFormed : Option ASTNode → Bool
  | none => true
  | some n => ASTNode.wellFormed n
termination_by structural x => x

/-- A statement or argument list without NULL entry whose entries are well
formed. -/
def entriesWellFormed : List (Option ASTNode) → Bool
  | [] => true
  | e :: rest => requiredWellFormed e && entriesWellFormed rest
termination_by structural x => x

/-- A parameter list whose entries are well-formed variable declarations. -/
def paramsWellFormed : List ASTNode → Bool
  | [] => true
  | .varDecl _ _ type initializer :: rest =>
    optionalWellFormed type && optionalWellFormed initializer && paramsWellFormed rest
  | _ :: _ => false
termination_by structural x => x

end

/-- The node kinds `expression` returns: literal, variable reference, call,
member access, binary expression. -/
def isExpressionNode : ASTNode → Bool
  | .literal _ _ => true
  | .variable _ _ => true
  | .call _ _ _ => true
  | .get _ _ _ => true
  | .binary _ _ _ _ => true
  | _ => false

/-- An absent node or a literal node. -/
def isLiteralOrNull : Option ASTNode → Bool
  | none => true
  | some (.literal _ _) => true
  | _ => false

/-- An absent node or an expression node. -/
def isExpressionOrNull : Option ASTNode → Bool
  | none => true
  | some n => isExpressionNode n

/-- The nodes `statement` returns: a return statement over an expression, a
variable declaration with a literal annotation and an expression
initializer (each possibly absent), or an expression. -/
def statementShape : ASTNode → Bool
  | .returnStmt _ value => isExpressionOrNull value
  | .varDecl _ _ type initializer => isLiteralOrNull type && isExpressionOrNull initializer
  | n => isExpressionNode n

/-- A parameter as `functionDeclaration` builds it: a variable declaration
with a literal annotation and no initializer. -/
def paramShape : ASTNode → Bool
  | .varDecl _ _ (some (.literal _ _)) none => true
  | _ => false

/-- A statement list whose entries are present and are statements. -/
def statementsShape (statements : List (Option ASTNode)) : Bool :=
  statements.all (fun s => match s with
    | some n => statementShape n
    | none => false)

/-- The nodes `functionDeclaration` returns: a literal or absent return
type, parameters of `paramShape`, and a body that is a Program node over
statements. -/
def functionShape : ASTNode → Bool
  | .functionDecl _ _ params returnType (some (.program _ statements)) =>
    isLiteralOrNull returnType && params.all paramShape && statementsShape statements
  | _ => false

/-- The tree `parse` returns: a Program node whose entries are functions and
statements. -/
def programShape : ASTNode → Bool
  | .program _ statements =>
    statements.all (fun s => match s with
      | some n => functionShape n || statementShape n
      | none => false)
  | _ => false

/-- The parser flags are consistent: the panic flag is only set together
with the error flag. -/
def panicSound (p : Parser) : Prop := p.panicMode = true → p.hadError = true

/-- A result of `expression` that is present, well formed and an expression
node. -/
def goodExpression : Option ASTNode → Bool
  | some n => n.wellFormed && isExpressionNode n
  | none => false

/-- A statement list whose entries are present, well formed, and functions
or statements. -/
def topLevelShape (statements : List (Option ASTNode)) : Bool :=
  statements.all (fun s => match s with
    | some n => functionShape n || statementShape n
    | none => false)

/-! ## The `#include` directive -/

/-- The number of statements of a Program node (0 for another node). -/
def statementCount : ASTNode → Nat
  | .program _ statements => statements.length
  | _ => 0

/-- A directive line, then a variable declaration, then a function. -/
def srcIncludeThenLet : List Char :=
  "#include <io>\nlet x = 1;\nfunc f() \x7b \x7d".toList

/-- The declarations of `srcIncludeThenLet` without the directive line. -/
def srcLetThenFunc : List Char := "let x = 1;\nfunc f() \x7b \x7d".toList

/-- A directive line, then an expression statement, then a function. -/
def srcIncludeThenCall : List Char :=
  "#include <io>\ng(1);\nfunc f() \x7b \x7d".toList

/-- The declarations of `srcIncludeThenCall` without the directive line. -/
def srcCallThenFunc : List Char := "g(1);\nfunc f() \x7b \x7d".toList

/-- A directive followed by a function on the same line. -/
def srcIncludeThenFunc : List Char :=
  "#include <io> func int one() \x7b return 1; \x7d".toList

/-- The function of `srcIncludeThenFunc` alone. -/
def srcFuncAlone : List Char := "func int one() \x7b return 1; \x7d".toList

/-- The tree of `srcFuncAlone`. -/
def oneTree : ASTNode :=
  ASTNode.program 0
    [some (ASTNode.functionDecl 0 "one".toList []
      (some (ASTNode.literal 1 intToken))
      (some (ASTNode.program 0
        [some (ASTNode.returnStmt 1 (some (ASTNode.literal 1 oneToken)))])))]

/-- The token kinds at which `includeDeclaration` stops. -/
def includeStop (t : TokenType) : Bool :=
  t == TokenType.TOKEN_EOF || t == TokenType.TOKEN_FUNC

/-! ## Scope discipline of `typeCheck` -/

/-- The chains of the table restricted to the symbols of depth at most `d`
(order inside each chain kept). -/
def SymbolTable.atMost (t : SymbolTable) (d : Int) : List (List Symbol) :=
  t.buckets.map (fun b => b.filter (fun s => decide (s.scopeDepth ≤ d)))

/-- Relation between the table before and after a call that leaves the
scope as it found it: same depth, same capacity, the same symbols below the
current depth, and well-formedness is kept. -/
structure Keeps (t u : SymbolTable) : Prop where
  depth : u.scopeDepth = t.scopeDepth
  capacity : u.capacity = t.capacity
  outer : u.atMost (t.scopeDepth - 1) = t.atMost (t.scopeDepth - 1)
  wf : t.WF → u.WF

/-- The largest value of `symbols->scopeDepth` during the statement loop of
the `NODE_PROGRAM` case; `checkOne` is `typeCheck` and `peakOne` the peak
depth of one call, both with less fuel. -/
def statementsPeak (checkOne : Option ASTNode → SymbolTable → Option CheckResult)
    (peakOne : Option ASTNode → SymbolTable → Int) :
    List (Option ASTNode) → SymbolTable → Int
  | [], symbols => symbols.scopeDepth
  | s :: rest, symbols =>
    match checkOne s symbols with
    | none => peakOne s symbols
    | some r =>
      if !r.ok then max (peakOne s symbols) r.symbols.scopeDepth
      else max (peakOne s symbols) (statementsPeak checkOne peakOne rest r.symbols)

/-- The largest value that `symbols->scopeDepth` takes during the call
`typeCheck(node, symbols)` (as far as the fuel lets the call run): the depth
only changes in `enterScope` and `exitScope` of the `NODE_FUNCTION_DECL`
case, and the recursive calls are those of `typeCheck`. -/
def typeCheckPeak : Nat → Option ASTNode → SymbolTable → Int
  | 0, _, symbols => symbols.scopeDepth
  | _ + 1, none, symbols => symbols.scopeDepth
  | fuel + 1, some node, symbols =>
    match node with
    | ASTNode.program _ statements =>
      let d := declareFunctions statements symbols
      if !d.1 then max symbols.scopeDepth d.2.scopeDepth
      else max symbols.scopeDepth
        (statementsPeak (typeCheck fuel) (typeCheckPeak fuel) statements d.2)
    | ASTNode.functionDecl _ _ params _ body =>
      let entered := (enterScope symbols).2
      let d := defineParams params entered
      if !d.1 then
        max symbols.scopeDepth (max entered.scopeDepth (max d.2.scopeDepth
          (exitScope d.2).2.scopeDepth))
      else
        match typeCheck fuel body d.2 with
        | none => max symbols.scopeDepth (max entered.scopeDepth (typeCheckPeak fuel body d.2))
        | some r =>
          max symbols.scopeDepth (max entered.scopeDepth (max (typeCheckPeak fuel body d.2)
            (exitScope r.symbols).2.scopeDepth))
    | ASTNode.returnStmt _ value =>
      match value with
      | some _ => typeCheckPeak fuel value symbols
      | none => symbols.scopeDepth
    | _ => symbols.scopeDepth

mutual

/-- Number of nodes of the tree below and including the node. -/
def ASTNode.size : ASTNode → Nat
  | .program _ statements => 1 + sizeEntries statements
  | .functionDecl _ _ params returnType body =>
    1 + sizeNodes params + sizeOptional returnType + sizeOptional body
  | .varDecl _ _ type initializer => 1 + sizeOptional type + sizeOptional initializer
  | .literal _ _ => 1
  | .variable _ _ => 1
  | .call _ callee args => 1 + sizeOptional callee + sizeEntries args
  | .get _ object _ => 1 + sizeOptional object
  | .binary _ _ left right => 1 + sizeOptional left + sizeOptional right
  | .assign _ target value => 1 + ASTNode.size target + sizeOptional value
  | .returnStmt _ value => 1 + sizeOptional value
  | .includeNode _ _ => 1
termination_by structural x => x

/-- Number of nodes of a child that may be NULL. -/
def sizeOptional : Option ASTNode → Nat
  | none => 0
  | some n => ASTNode.size n
termination_by structural x => x

/-- Number of nodes of a statement or argument list. -/
def sizeEntries : List (Option ASTNode) → Nat
  | [] => 0
  | e :: rest => sizeOptional e + sizeEntries rest
termination_by structural x => x

/-- Number of nodes of a parameter list. -/
def sizeNodes : List ASTNode → Nat
  | [] => 0
  | n :: rest => ASTNode.size n + sizeNodes rest
termination_by structural x => x

end

/-- The nodes a symbol of a checked parser tree points to: nothing, a type
literal, or a function declaration whose return type and parameter
annotations are literals or absent. -/
def flatTypeNode : Option ASTNode → Bool
  | none => true
  | some (.literal _ _) => true
  | some (.functionDecl _ _ params returnType _) =>
    isLiteralOrNull returnType && params.all (fun p => isLiteralOrNull (paramTypeNode p))
  | _ => false

/-- Every symbol of the table points to a node of `flatTypeNode`. -/
def TableFlat (t : SymbolTable) : Prop := ∀ s ∈ t.symbols, flatTypeNode s.typeNode = true

mutual

/-- In the part of the tree that `typeCheck` walks (statements of a Program,
body of a function, value of a return statement), every annotation of a
variable declaration, every parameter annotation and every return type is a
literal or absent. -/
def ASTNode.plainTypes : ASTNode → Bool
  | .program _ statements => entriesPlain statements
  | .functionDecl _ _ params returnType body =>
    isLiteralOrNull returnType && params.all (fun p => isLiteralOrNull (paramTypeNode p))
      && optionalPlain body
  | .varDecl _ _ type _ => isLiteralOrNull type
  | .returnStmt _ value => optionalPlain value
  | _ => true
termination_by structural x => x

/-- The predicate `ASTNode.plainTypes` on a child that may be NULL. -/
def optionalPlain : Option ASTNode → Bool
  | none => true
  | some n => ASTNode.plainTypes n
termination_by structural x => x

/-- The predicate `ASTNode.plainTypes` on every entry of a statement list. -/
def entriesPlain : List (Option ASTNode) → Bool
  | [] => true
  | e :: rest => optionalPlain e && entriesPlain rest
termination_by structural x => x

end

/-- The function `func int f(int x) \x7b let y = 1; return x; \x7d` as a
tree: its parameter shadows a global `x`, its body declares a local `y`. -/
def fnShadowsX : ASTNode :=
  ASTNode.functionDecl 1 "f".toList
    [ASTNode.varDecl 1 "x".toList (some (ASTNode.literal 1 intToken)) none]
    (some (ASTNode.literal 1 intToken))
    (some (ASTNode.program 0
      [some (ASTNode.varDecl 1 "y".toList none (some (ASTNode.literal 1 oneToken))),
       some (ASTNode.returnStmt 1 (some (ASTNode.variable 1 "x".toList)))]))

/-- The function `func int f(int x) \x7b let x = 1; \x7d` as a tree: the
local `x` collides with the parameter, so the check of the body fails. -/
def fnRedefinesX : ASTNode :=
  ASTNode.functionDecl 1 "f".toList
    [ASTNode.varDecl 1 "x".toList (some (ASTNode.literal 1 intToken)) none]
    (some (ASTNode.literal 1 intToken))
    (some (ASTNode.program 0
      [some (ASTNode.varDecl 1 "x".toList none (some (ASTNode.literal 1 oneToken)))]))

/-! ## Code generator (`src/v1.x/v1.0/src/codegen/codegen.c`) -/

/-- The registers named in the emitted text. -/
inductive Reg where
  | rax | rbx | rcx | rdx | rsi | rdi | r8 | r9 | rbp | rsp
  deriving DecidableEq, Repr

/-- One line of the emitted assembly text; every constructor stands for one
`fprintf` format of the generator, its arguments are the values printed. -/
inductive Instr where
  | sectionRodata
  | stringLabel (index : Nat)
  | asciz (text : List Char)
  | textSection
  | globalMain
  | globl (name : List Char)
  | label (name : List Char)
  | pushReg (r : Reg)
  | popReg (r : Reg)
  | movReg (src dst : Reg)
  | movImm (text : List Char) (dst : Reg)
  | movLabel (index : Nat) (dst : Reg)
  | storeReg (src : Reg) (offset : Nat)
  | storeImm (text : List Char) (offset : Nat)
  | load (offset : Nat) (dst : Reg)
  | subImm (value : Nat) (dst : Reg)
  | add (src dst : Reg)
  | sub (src dst : Reg)
  | imul (src dst : Reg)
  | cqo
  | idiv (r : Reg)
  | call (name : List Char)
  | leave
  | ret
  | comment (text : List Char)
  deriving DecidableEq, Repr

/-- The spelling of a register in the emitted text. -/
def Reg.name : Reg → List Char
  | .rax => "%rax".toList
  | .rbx => "%rbx".toList
  | .rcx => "%rcx".toList
  | .rdx => "%rdx".toList
  | .rsi => "%rsi".toList
  | .rdi => "%rdi".toList
  | .r8 => "%r8".toList
  | .r9 => "%r9".toList
  | .rbp => "%rbp".toList
  | .rsp => "%rsp".toList

/-- The output of `%d` for a count or offset that is not negative. -/
def decimal (n : Nat) : List Char := (Nat.repr n).toList

/-- The characters the generator writes for a line, newline included. -/
def Instr.render : Instr → List Char
  | .sectionRodata => "\t.section .rodata\n".toList
  | .stringLabel i => ".LC".toList ++ decimal i ++ ":\n".toList
  | .asciz s => "\t.asciz \"".toList ++ s ++ "\"\n".toList
  | .textSection => "\t.text\n".toList
  | .globalMain => "\t.global main\n".toList
  | .globl name => "\t.globl ".toList ++ name ++ "\n".toList
  | .label name => name ++ ":\n".toList
  | .pushReg r => "\tpush ".toList ++ r.name ++ "\n".toList
  | .popReg r => "\tpop ".toList ++ r.name ++ "\n".toList
  | .movReg src dst => "\tmov ".toList ++ src.name ++ ", ".toList ++ dst.name ++ "\n".toList
  | .movImm text dst => "\tmov $".toList ++ text ++ ", ".toList ++ dst.name ++ "\n".toList
  | .movLabel i dst =>
    "\tmov $ .LC".toList ++ decimal i ++ ", ".toList ++ dst.name ++ "\n".toList
  | .storeReg src offset =>
    "\tmov ".toList ++ src.name ++ ", -".toList ++ decimal offset ++ "(%rbp)\n".toList
  | .storeImm text offset =>
    "\tmov $".toList ++ text ++ ", -".toList ++ decimal offset ++ "(%rbp)\n".toList
  | .load offset dst =>
    "\tmov -".toList ++ decimal offset ++ "(%rbp), ".toList ++ dst.name ++ "\n".toList
  | .subImm value dst =>
    "\tsub $".toList ++ decimal value ++ ", ".toList ++ dst.name ++ "\n".toList
  | .add src dst => "\tadd ".toList ++ src.name ++ ", ".toList ++ dst.name ++ "\n".toList
  | .sub src dst => "\tsub ".toList ++ src.name ++ ", ".toList ++ dst.name ++ "\n".toList
  | .imul src dst => "\timul ".toList ++ src.name ++ ", ".toList ++ dst.name ++ "\n".toList
  | .cqo => "\tcqo\n".toList
  | .idiv r => "\tidiv ".toList ++ r.name ++ "\n".toList
  | .call name => "\tcall ".toList ++ name ++ "\n".toList
  | .leave => "\tleave\n".toList
  | .ret => "\tret\n".toList
  | .comment text => "\t# ".toList ++ text ++ "\n".toList

/-- The `CGContext` struct without the output stream (the emitted lines are
the results of the generating functions) and without the unused
`labelCount`.  A NULL name array is `none`; `strLits` with `strCount` is the
list of pool entries, NULL when empty. -/
structure CGContext where
  paramNames : Option (List (List Char))
  paramCount : Nat
  localNames : Option (List (List Char))
  localCount : Nat
  strLits : List (List Char)

/-- Function `flattenName`. -/
def flattenName (name : List Char) : List Char :=
  name.map (fun c => if c = '.' then '_' else c)

/-- A search loop `for (i = ...; ...; i++) if (strcmp(names[i], s) == 0)`
that stops at the first match; `i` is the index of the head of the list. -/
def firstIndex : List (List Char) → List Char → Nat → Option Nat
  | [], _, _ => none
  | n :: rest, s, i => if n = s then some i else firstIndex rest s (i + 1)

/-- Function `findStringLiteral`; `none` is the result `-1`. -/
def findStringLiteral (pool : List (List Char)) (s : List Char) : Option Nat :=
  firstIndex pool s 0

/-- Function `addStringLiteral`: the returned index and the pool after the
call. -/
def addStringLiteral (pool : List (List Char)) (s : List Char) : Nat × List (List Char) :=
  match findStringLiteral pool s with
  | some idx => (idx, pool)
  | none => (pool.length, pool ++ [s])

mutual

/-- Function `collectStringLiterals` on a node that is not NULL; the pool is
the state of `ctx->strLits`. -/
def collectNode : ASTNode → List (List Char) → List (List Char)
  | .literal _ t, pool =>
    if t.type = TokenType.TOKEN_STRING then (addStringLiteral pool t.lexeme).2 else pool
  | .program _ statements, pool => collectEntries statements pool
  | .functionDecl _ _ params returnType body, pool =>
    collectStringLiterals body (collectParams params (collectStringLiterals returnType pool))
  | .varDecl _ _ type initializer, pool =>
    collectStringLiterals initializer (collectStringLiterals type pool)
  | .call _ callee args, pool => collectEntries args (collectStringLiterals callee pool)
  | .get _ object _, pool => collectStringLiterals object pool
  | .binary _ _ left right, pool =>
    collectStringLiterals right (collectStringLiterals left pool)
  | .returnStmt _ value, pool => collectStringLiterals value pool
  | .variable _ _, pool => pool
  | .assign _ _ _, pool => pool
  | .includeNode _ _, pool => pool
termination_by structural x => x

/-- Function `collectStringLiterals`. -/
def collectStringLiterals : Option ASTNode → List (List Char) → List (List Char)
  | none, pool => pool
  | some n, pool => collectNode n pool
termination_by structural x => x

/-- The loops of `collectStringLiterals` over statements and arguments. -/
def collectEntries : List (Option ASTNode) → List (List Char) → List (List Char)
  | [], pool => pool
  | e :: rest, pool => collectEntries rest (collectStringLiterals e pool)
termination_by structural x => x

/-- The loop of `collectStringLiterals` over the parameters. -/
def collectParams : List ASTNode → List (List Char) → List (List Char)
  | [], pool => pool
  | p :: rest, pool => collectParams rest (collectNode p pool)
termination_by structural x => x

end

/-- Function `getCalleeName` on a node that is not NULL. -/
def getCalleeNameOfNode : ASTNode → Option (List Char)
  | ASTNode.variable _ name => some name
  | ASTNode.get _ (some object) name =>
    match getCalleeNameOfNode object with
    | none => none
    | some left => some (left ++ ['.'] ++ name)
  | _ => none
termination_by structural n => n

/-- Function `getCalleeName`. -/
def getCalleeName : Option ASTNode → Option (List Char)
  | none => none
  | some n => getCalleeNameOfNode n

/-- Function `emitPrologue`. -/
def emitPrologue : List Instr := [Instr.pushReg Reg.rbp, Instr.movReg Reg.rsp Reg.rbp]

/-- Function `emitEpilogue`. -/
def emitEpilogue : List Instr := [Instr.leave, Instr.ret]

/-- The array `regs` of argument registers. -/
def argRegs : List Reg := [Reg.rdi, Reg.rsi, Reg.rdx, Reg.rcx, Reg.r8, Reg.r9]

/-- The value of `node->type` as `%d` prints it (position in `NodeType`). -/
def nodeTypeNumber : ASTNode → Nat
  | .program _ _ => 0
  | .functionDecl _ _ _ _ _ => 1
  | .varDecl _ _ _ _ => 3
  | .returnStmt _ _ => 5
  | .binary _ _ _ _ => 9
  | .call _ _ _ => 11
  | .get _ _ _ => 12
  | .literal _ _ => 14
  | .variable _ _ => 15
  | .assign _ _ _ => 16
  | .includeNode _ _ => 17

/-- The two search loops of the `NODE_VARIABLE` case: the slot index of a
name, parameters first; `none` is `-1`.  The loops read the first
`paramCount` and `localCount` entries of the name arrays. -/
def slotIndexOf (ctx : CGContext) (name : List Char) : Option Nat :=
  let inParams : Option Nat :=
    match ctx.paramNames with
    | none => none
    | some names => firstIndex (names.take ctx.paramCount) name 0
  match inParams with
  | some i => some i
  | none =>
    match ctx.localNames with
    | none => none
    | some names =>
      match firstIndex (names.take ctx.localCount) name 0 with
      | some i => some (ctx.paramCount + i)
      | none => none

/-- The operator switch of the `NODE_BINARY_EXPR` case. -/
def binaryOpCode (op : TokenType) : List Instr :=
  match op with
  | TokenType.TOKEN_PLUS => [Instr.add Reg.rbx Reg.rax]
  | TokenType.TOKEN_MINUS => [Instr.sub Reg.rax Reg.rbx, Instr.movReg Reg.rbx Reg.rax]
  | TokenType.TOKEN_STAR => [Instr.imul Reg.rbx Reg.rax]
  | TokenType.TOKEN_SLASH =>
    [Instr.movReg Reg.rax Reg.rcx, Instr.movReg Reg.rbx Reg.rax, Instr.cqo,
      Instr.idiv Reg.rcx]
  | _ => [Instr.comment "unsupported binary op".toList]

/-- The `NODE_LITERAL` case of `genExpression`.  A number is printed through
`char buf[64]` with `snprintf(buf, sizeof(buf), ...)`, which keeps at most
63 characters of the lexeme. -/
def genLiteral (ctx : CGContext) (t : Token) : List Instr :=
  if t.type = TokenType.TOKEN_NUMBER then [Instr.movImm (t.lexeme.take 63) Reg.rax]
  else if t.type = TokenType.TOKEN_STRING then
    match findStringLiteral ctx.strLits t.lexeme with
    | some idx => [Instr.movLabel idx Reg.rax]
    | none => [Instr.movImm "0".toList Reg.rax]
  else [Instr.movImm "0".toList Reg.rax]

mutual

/-- Function `genExpression` on a node that is not NULL: the lines it
writes.  The parameter `funcName` is passed along and never read. -/
def genExpressionNode (ctx : CGContext) : ASTNode → List Instr
  | .literal _ t => genLiteral ctx t
  | .variable _ name =>
    match slotIndexOf ctx name with
    | none =>
      [Instr.comment ("variable ".toList ++ name ++
          " not found in locals/params, default 0".toList),
        Instr.movImm "0".toList Reg.rax]
    | some slotIndex => [Instr.load (8 * (slotIndex + 1)) Reg.rax]
  | .binary _ op left right =>
    genExpression ctx left ++ [Instr.pushReg Reg.rax] ++ genExpression ctx right ++
      [Instr.popReg Reg.rbx] ++ binaryOpCode op.type
  | .call _ callee args =>
    genArgs ctx args 0 ++
      (match getCalleeName callee with
       | none => []
       | some name => [Instr.call (flattenName name)])
  | .get _ _ name =>
    [Instr.comment ("get expr (placeholder) ".toList ++ name),
      Instr.movImm "0".toList Reg.rax]
  | .program l s =>
    [Instr.comment ("expr type ".toList ++ decimal (nodeTypeNumber (.program l s)) ++
        " not implemented".toList), Instr.movImm "0".toList Reg.rax]
  | .functionDecl l n p r b =>
    [Instr.comment ("expr type ".toList ++ decimal (nodeTypeNumber (.functionDecl l n p r b))
        ++ " not implemented".toList), Instr.movImm "0".toList Reg.rax]
  | .varDecl l n t i =>
    [Instr.comment ("expr type ".toList ++ decimal (nodeTypeNumber (.varDecl l n t i)) ++
        " not implemented".toList), Instr.movImm "0".toList Reg.rax]
  | .assign l t v =>
    [Instr.comment ("expr type ".toList ++ decimal (nodeTypeNumber (.assign l t v)) ++
        " not implemented".toList), Instr.movImm "0".toList Reg.rax]
  | .returnStmt l v =>
    [Instr.comment ("expr type ".toList ++ decimal (nodeTypeNumber (.returnStmt l v)) ++
        " not implemented".toList), Instr.movImm "0".toList Reg.rax]
  | .includeNode l f =>
    [Instr.comment ("expr type ".toList ++ decimal (nodeTypeNumber (.includeNode l f)) ++
        " not implemented".toList), Instr.movImm "0".toList Reg.rax]
termination_by structural x => x

/-- Function `genExpression`: nothing is written for NULL. -/
def genExpression (ctx : CGContext) : Option ASTNode → List Instr
  | none => []
  | some n => genExpressionNode ctx n
termination_by structural x => x

/-- The argument loop of `genCall` from index `i` on: the first six
arguments are evaluated and moved to their registers. -/
def genArgs (ctx : CGContext) : List (Option ASTNode) → Nat → List Instr
  | [], _ => []
  | arg :: rest, i =>
    match argRegs.get? i with
    | none => []
    | some r => genExpression ctx arg ++ [Instr.movReg Reg.rax r] ++ genArgs ctx rest (i + 1)
termination_by structural x => x

end

/-- Function `genCall` on the fields of a call node. -/
def genCall (ctx : CGContext) (callee : Option ASTNode) (args : List (Option ASTNode)) :
    List Instr :=
  genArgs ctx args 0 ++
    (match getCalleeName callee with
     | none => []
     | some name => [Instr.call (flattenName name)])

/-- Read `params[i]->variable.name` for every parameter; `none` when a
parameter is not a variable declaration (the C code then reads the union
through the wrong member, which is not modelled). -/
def paramNamesOf : List ASTNode → Option (List (List Char))
  | [] => some []
  | ASTNode.varDecl _ name _ _ :: rest =>
    match paramNamesOf rest with
    | none => none
    | some names => some (name :: names)
  | _ :: _ => none

/-- The names of the variable declarations directly in the body, in order:
the loop that fills `ctx->localNames`. -/
def localNamesOf : List (Option ASTNode) → List (List Char)
  | [] => []
  | some (ASTNode.varDecl _ name _ _) :: rest => name :: localNamesOf rest
  | _ :: rest => localNamesOf rest

/-- The stores of the register parameters into their slots, from index `i`
on (`i < paramCount && i < 6`). -/
def storeParams : Nat → Nat → List Instr
  | 0, _ => []
  | remaining + 1, i =>
    match argRegs.get? i with
    | none => []
    | some r => Instr.storeReg r (8 * (i + 1)) :: storeParams remaining (i + 1)

/-- The `switch (s->type)` of the statement loop of `genFunction` for a
statement that is not NULL. -/
def genStatement (ctx : CGContext) (paramCount : Nat) (s : ASTNode) : List Instr :=
  match s with
  | ASTNode.varDecl _ name _ initializer =>
    let varIndex : Nat :=
      match ctx.localNames with
      | none => 0
      | some names => (firstIndex (names.take ctx.localCount) name 0).getD 0
    let offset := 8 * (paramCount + varIndex + 1)
    match initializer with
    | some _ => genExpression ctx initializer ++ [Instr.storeReg Reg.rax offset]
    | none => [Instr.storeImm "0".toList offset]
  | ASTNode.returnStmt _ value => genExpression ctx value ++ emitEpilogue
  | ASTNode.call _ _ _ => genExpressionNode ctx s
  | ASTNode.binary _ _ _ _ => genExpressionNode ctx s
  | ASTNode.variable _ _ => genExpressionNode ctx s
  | _ => []

/-- The statement loop of `genFunction`. -/
def genStatements (ctx : CGContext) (paramCount : Nat) : List (Option ASTNode) → List Instr
  | [] => []
  | none :: rest => genStatements ctx paramCount rest
  | some s :: rest => genStatement ctx paramCount s ++ genStatements ctx paramCount rest

/-- The loop `for (int i = 0; i < count; i++) if (names[i]) free(names[i]);`
from index `i` on, over an array of `size` pointers (each a `strdup` result):
the indices whose strings are freed, in order; `none` when the loop reads
`names[i]` at an index outside the array. -/
def freeNamesLoop (size : Nat) : Nat → Nat → Option (List Nat)
  | 0, _ => some []
  | remaining + 1, i =>
    if i < size then (freeNamesLoop size remaining (i + 1)).map (fun freed => i :: freed)
    else none

/-- A clean-up block of `genFunction`,
`if (names) \x7b for (...) if (names[i]) free(names[i]); free(names); names = NULL; \x7d`,
on the array `old` left by the previous function (`none` is NULL), when the
count field holds `count`: the indices of the strings that are freed, or
`none` when the array is read outside its bounds. -/
def clearNames (old : Option (List (List Char))) (count : Nat) : Option (List Nat) :=
  match old with
  | none => some []
  | some names => freeNamesLoop names.length count 0

/-- Both clean-up blocks of `genFunction` stay inside the arrays that the
previous function left in `ctx`, when the count fields have been assigned
the counts of the new function. -/
def cleanupInBounds (ctx : CGContext) (paramCount localCount : Nat) : Bool :=
  (clearNames ctx.paramNames paramCount).isSome &&
    (clearNames ctx.localNames localCount).isSome

/-- Function `genFunction`: the lines written and the context left behind.
`none` when the call does not run to its end as written: the node is not a
function declaration whose body is a Program node and whose parameters are
variable declarations (the C code reads these fields without a test), or a
clean-up loop reads the name array of the previous function outside its
bounds (`ctx->paramCount` and `ctx->localCount` hold the counts of the new
function when the loops run).  `stackSize` is
`((totalSlots * 8) + 15) & ~15`. -/
def genFunction (ctx : CGContext) (func : ASTNode) : Option (List Instr × CGContext) :=
  match func with
  | ASTNode.functionDecl _ name params _ (some (ASTNode.program _ statements)) =>
    match paramNamesOf params with
    | none => none
    | some names =>
      let locals := localNamesOf statements
      if cleanupInBounds ctx params.length locals.length then
        let ctx1 : CGContext :=
          { ctx with
            paramCount := params.length
            paramNames := if params.length > 0 then some names else none
            localCount := locals.length
            localNames := if locals.length > 0 then some locals else none }
        let totalSlots := params.length + locals.length
        let stackSize := (totalSlots * 8 + 15) / 16 * 16
        some
          ([Instr.globl name, Instr.label name] ++ emitPrologue ++
            (if stackSize > 0 then [Instr.subImm stackSize Reg.rsp] else []) ++
            storeParams params.length 0 ++
            (if name = "main".toList then [Instr.call "initSystem".toList] else []) ++
            genStatements ctx1 params.length statements ++
            [Instr.movImm "0".toList Reg.rax] ++ emitEpilogue,
          ctx1)
      else none
  | _ => none

/-- The `.rodata` lines of the pool from index `i` on. -/
def poolLines : List (List Char) → Nat → List Instr
  | [], _ => []
  | s :: rest, i => Instr.stringLabel i :: Instr.asciz s :: poolLines rest (i + 1)

/-- The loop of `codegen_generateExecutable` over the top-level statements:
`genFunction` for every function declaration. -/
def genFunctions : CGContext → List (Option ASTNode) → Option (List Instr)
  | _, [] => some []
  | ctx, some (ASTNode.functionDecl l n p r b) :: rest =>
    match genFunction ctx (ASTNode.functionDecl l n p r b) with
    | none => none
    | some (lines, ctx1) =>
      match genFunctions ctx1 rest with
      | none => none
      | some more => some (lines ++ more)
  | ctx, _ :: rest => genFunctions ctx rest

/-- Function `codegen_generateExecutable` up to `fclose`: the lines written
to `build/out.s` for a Program node (opening the file and running the
linker are outside the model); `none` when the tree is not a Program with
functions on which `genFunction` runs to its end. -/
def codegen_generateExecutable (ast : ASTNode) : Option (List Instr) :=
  match ast with
  | ASTNode.program _ statements =>
    let pool := collectStringLiterals (some ast) []
    let ctx : CGContext :=
      { paramNames := none, paramCount := 0, localNames := none, localCount := 0,
        strLits := pool }
    match genFunctions ctx statements with
    | none => none
    | some lines =>
      some ((if pool.length > 0 then Instr.sectionRodata :: poolLines pool 0 else []) ++
        [Instr.textSection, Instr.globalMain] ++ lines)
  | _ => none

/-! ## Meaning of the emitted instructions -/

/-- Number of values of a 64-bit register. -/
def WORD : Nat := 18446744073709551616

/-- State of the processor as far as the emitted code uses it: the 64-bit
registers and the memory as 8-byte cells by address (all accesses of the
emitted code are `%rsp`- or `%rbp`-relative in steps of eight). -/
structure Machine where
  reg : Reg → Nat
  mem : Nat → Nat

/-- Write a register (the value is reduced to 64 bits). -/
def Machine.set (m : Machine) (r : Reg) (v : Nat) : Machine :=
  { m with reg := fun x => if x = r then v % WORD else m.reg x }

/-- Write a memory cell. -/
def Machine.store (m : Machine) (addr v : Nat) : Machine :=
  { m with mem := fun a => if a = addr then v else m.mem a }

/-- The address `base - offset` on 64 bits. -/
def addrBelow (base offset : Nat) : Nat := (base % WORD + (WORD - offset % WORD)) % WORD

/-- What lies outside the emitted text: the effect of a `call` up to its
return (`none` when it does not return) and the addresses of the pool
labels. -/
structure Env where
  call : List Char → Machine → Option Machine
  labelAddr : Nat → Nat

/-- A decimal numeral: digits only, at least one. -/
def isDecimal (text : List Char) : Bool := !text.isEmpty && text.all isdigit

/-- The number a decimal numeral denotes. -/
def decimalValue (text : List Char) : Nat :=
  text.foldl (fun acc c => acc * 10 + (c.toNat - 48)) 0

/-- An octal digit. -/
def isOctalDigit (c : Char) : Bool := decide (48 ≤ c.toNat) && decide (c.toNat ≤ 55)

/-- The number an octal numeral denotes. -/
def octalValue (text : List Char) : Nat :=
  text.foldl (fun acc c => acc * 8 + (c.toNat - 48)) 0

/-- The value of an immediate operand `$text` as the assembler reads a digit
string: a numeral that begins with `0` is octal, any other one is decimal,
and the value has to fit 64 bits.  `none` for a text that the assembler
rejects (a digit 8 or 9 in a numeral that begins with `0`, a decimal value
of 2^64 or more) and for a text outside the model (anything that is not a
digit string, an octal numeral of 2^64 or more). -/
def immValue (text : List Char) : Option Nat :=
  if !isDecimal text then none
  else if text.head? = some '0' then
    if text.all isOctalDigit && decide (octalValue text < WORD) then some (octalValue text)
    else none
  else if decimalValue text < WORD then some (decimalValue text)
  else none

/-- The signed reading of a value of the given width. -/
def toSigned (bits v : Nat) : Int :=
  if v % 2 ^ bits < 2 ^ (bits - 1) then (v % 2 ^ bits : Nat) else (v % 2 ^ bits : Nat) - 2 ^ bits

/-- The standard meaning of one line: directives, labels and comments do
nothing; `push` decrements `%rsp` by eight and stores; `pop` loads and
increments; `mov`, `add`, `sub`, `imul` with a register operand work on 64
bits (destination last); the `mov` of an immediate to memory names no
register and is assembled as a store of 32 bits, which replaces the low half
of the cell (`none` for an immediate that does not fit 32 bits);
`cqo` sign-extends `%rax` into `%rdx`; `idiv` divides `%rdx:%rax` with
truncation and faults on a zero divisor or a quotient out of range;
`leave` is `mov %rbp, %rsp` followed by `pop %rbp`.  `none` is a fault, or a
line that does not continue with the next one (`ret`, a call that does not
return). -/
def step (env : Env) (i : Instr) (m : Machine) : Option Machine :=
  match i with
  | .sectionRodata => some m
  | .stringLabel _ => some m
  | .asciz _ => some m
  | .textSection => some m
  | .globalMain => some m
  | .globl _ => some m
  | .label _ => some m
  | .comment _ => some m
  | .pushReg r =>
    let sp := addrBelow (m.reg Reg.rsp) 8
    some ((m.store sp (m.reg r)).set Reg.rsp sp)
  | .popReg r =>
    let v := m.mem (m.reg Reg.rsp % WORD)
    some ((m.set Reg.rsp (m.reg Reg.rsp + 8)).set r v)
  | .movReg src dst => some (m.set dst (m.reg src))
  | .movImm text dst =>
    match immValue text with
    | none => none
    | some v => some (m.set dst v)
  | .movLabel index dst => some (m.set dst (env.labelAddr index))
  | .storeReg src offset => some (m.store (addrBelow (m.reg Reg.rbp) offset) (m.reg src))
  | .storeImm text offset =>
    match immValue text with
    | none => none
    | some v =>
      if v < 4294967296 then
        let addr := addrBelow (m.reg Reg.rbp) offset
        some (m.store addr (m.mem addr / 4294967296 * 4294967296 + v))
      else none
  | .load offset dst => some (m.set dst (m.mem (addrBelow (m.reg Reg.rbp) offset)))
  | .subImm value dst => some (m.set dst (addrBelow (m.reg dst) value))
  | .add src dst => some (m.set dst (m.reg dst + m.reg src))
  | .sub src dst => some (m.set dst (m.reg dst % WORD + (WORD - m.reg src % WORD)))
  | .imul src dst => some (m.set dst (m.reg dst * m.reg src))
  | .cqo =>
    some (m.set Reg.rdx (if m.reg Reg.rax % WORD < WORD / 2 then 0 else WORD - 1))
  | .idiv r =>
    let divisor := toSigned 64 (m.reg r)
    let dividend := toSigned 128 (m.reg Reg.rdx % WORD * WORD + m.reg Reg.rax % WORD)
    if divisor = 0 then none
    else
      let q := Int.tdiv dividend divisor
      let rem := Int.tmod dividend divisor
      if q < -(WORD / 2 : Nat) ∨ (WORD / 2 : Nat) ≤ q then none
      else
        some ((m.set Reg.rax (q % (WORD : Nat)).toNat).set Reg.rdx (rem % (WORD : Nat)).toNat)
  | .call name => env.call name m
  | .leave =>
    let sp := m.reg Reg.rbp
    some (((m.set Reg.rsp sp).set Reg.rbp (m.mem (sp % WORD))).set Reg.rsp (sp + 8))
  | .ret => none

/-- Run the lines one after the other; `none` when one of them faults or
does not continue with the next line. -/
def exec (env : Env) : List Instr → Machine → Option Machine
  | [], m => some m
  | i :: rest, m =>
    match step env i m with
    | none => none
    | some m1 => exec env rest m1

/-- Run a routine from its first line to its first `ret`: the state in
which the `ret` is reached; `none` on a fault or when the lines end before
a `ret`. -/
def runToRet (env : Env) : List Instr → Machine → Option Machine
  | [], _ => none
  | Instr.ret :: _, m => some m
  | i :: rest, m =>
    match step env i m with
    | none => none
    | some m1 => runToRet env rest m1

/-! ## Arithmetic expressions -/

/-- An expression tree built from integer literals (number tokens whose
lexeme is a decimal numeral) with the operators `+`, `-` and `*`. -/
def isArith : ASTNode → Bool
  | ASTNode.literal _ t => t.type == TokenType.TOKEN_NUMBER && isDecimal t.lexeme
  | ASTNode.binary _ op (some left) (some right) =>
    (op.type == TokenType.TOKEN_PLUS || op.type == TokenType.TOKEN_MINUS ||
      op.type == TokenType.TOKEN_STAR) && isArith left && isArith right
  | _ => false
termination_by structural n => n

/-- The value of an arithmetic expression as an integer. -/
def evalArith : ASTNode → Int
  | ASTNode.literal _ t => (decimalValue t.lexeme : Nat)
  | ASTNode.binary _ op (some left) (some right) =>
    if op.type = TokenType.TOKEN_PLUS then evalArith left + evalArith right
    else if op.type = TokenType.TOKEN_MINUS then evalArith left - evalArith right
    else evalArith left * evalArith right
  | _ => 0
termination_by structural n => n

/-- A decimal numeral that the assembler reads with its decimal value: the
digit `0`, or digits that do not begin with `0`, with a value below 2^64. -/
def plainNumeral (text : List Char) : Bool :=
  isDecimal text && (text == ['0'] || text.head? != some '0') &&
    decide (decimalValue text < WORD)

/-- Every literal of the expression is a plain numeral. -/
def plainLiterals : ASTNode → Bool
  | ASTNode.literal _ t => plainNumeral t.lexeme
  | ASTNode.binary _ _ (some left) (some right) => plainLiterals left && plainLiterals right
  | _ => true
termination_by structural n => n

/-- Every literal of the expression has a lexeme of at most 63 characters. -/
def shortLiterals : ASTNode → Bool
  | ASTNode.literal _ t => decide (t.lexeme.length ≤ 63)
  | ASTNode.binary _ _ (some left) (some right) => shortLiterals left && shortLiterals right
  | _ => true
termination_by structural n => n

/-- A number token with the given lexeme on line 1. -/
def numberToken (lexeme : List Char) : Token :=
  { type := TokenType.TOKEN_NUMBER, lexeme := lexeme, line := 1 }

/-- The integer literal of 64 characters `000...01`: 63 zeros and a one. -/
def longLiteral : ASTNode :=
  ASTNode.literal 1 (numberToken (List.replicate 63 '0' ++ ['1']))

/-- The source `func int main() \x7b return 1 + 2; \x7d`. -/
def srcMain : List Char := "func int main() \x7b return 1 + 2; \x7d".toList

/-- The tree of `1 + 2` as the parser builds it. -/
def onePlusTwo : ASTNode :=
  ASTNode.binary 1 { type := TokenType.TOKEN_PLUS, lexeme := "+".toList, line := 1 }
    (some (ASTNode.literal 1 (numberToken "1".toList)))
    (some (ASTNode.literal 1 (numberToken "2".toList)))

/-- The tree of `srcMain`. -/
def mainTree : ASTNode :=
  ASTNode.program 0
    [some (ASTNode.functionDecl 0 "main".toList []
      (some (ASTNode.literal 1 intToken))
      (some (ASTNode.program 0 [some (ASTNode.returnStmt 1 (some onePlusTwo))])))]

/-- The lines emitted for `mainTree`. -/
def mainLines : List Instr :=
  [Instr.textSection, Instr.globalMain,
    Instr.globl "main".toList, Instr.label "main".toList,
    Instr.pushReg Reg.rbp, Instr.movReg Reg.rsp Reg.rbp,
    Instr.call "initSystem".toList,
    Instr.movImm "1".toList Reg.rax, Instr.pushReg Reg.rax,
    Instr.movImm "2".toList Reg.rax, Instr.popReg Reg.rbx,
    Instr.add Reg.rbx Reg.rax,
    Instr.leave, Instr.ret,
    Instr.movImm "0".toList Reg.rax, Instr.leave, Instr.ret]

/-! ## String literals of a tree -/

mutual

/-- The texts of the string-literal nodes of a tree, in the order of a walk
through the fields as the source text shows them (return type, parameters,
body; annotation, initializer; callee, arguments; left, right).  With
`underAssign` the target and the value of assignment nodes are walked too,
without it assignment nodes are passed over. -/
def stringLiterals (underAssign : Bool) : ASTNode → List (List Char)
  | .literal _ t => if t.type = TokenType.TOKEN_STRING then [t.lexeme] else []
  | .program _ statements => entriesLiterals underAssign statements
  | .functionDecl _ _ params returnType body =>
    optionalLiterals underAssign returnType ++ paramsLiterals underAssign params ++
      optionalLiterals underAssign body
  | .varDecl _ _ type initializer =>
    optionalLiterals underAssign type ++ optionalLiterals underAssign initializer
  | .call _ callee args =>
    optionalLiterals underAssign callee ++ entriesLiterals underAssign args
  | .get _ object _ => optionalLiterals underAssign object
  | .binary _ _ left right =>
    optionalLiterals underAssign left ++ optionalLiterals underAssign right
  | .returnStmt _ value => optionalLiterals underAssign value
  | .variable _ _ => []
  | .assign _ target value =>
    if underAssign then stringLiterals underAssign target ++ optionalLiterals underAssign value
    else []
  | .includeNode _ _ => []
termination_by structural x => x

/-- The string literals of a child that may be NULL. -/
def optionalLiterals (underAssign : Bool) : Option ASTNode → List (List Char)
  | none => []
  | some n => stringLiterals underAssign n
termination_by structural x => x

/-- The string literals of a statement or argument list. -/
def entriesLiterals (underAssign : Bool) : List (Option ASTNode) → List (List Char)
  | [] => []
  | e :: rest => optionalLiterals underAssign e ++ entriesLiterals underAssign rest
termination_by structural x => x

/-- The string literals of a parameter list. -/
def paramsLiterals (underAssign : Bool) : List ASTNode → List (List Char)
  | [] => []
  | p :: rest => stringLiterals underAssign p ++ paramsLiterals underAssign rest
termination_by structural x => x

end

/-- A run of `addStringLiteral` calls on the pool. -/
def addAll (pool : List (List Char)) (texts : List (List Char)) : List (List Char) :=
  texts.foldl (fun p s => (addStringLiteral p s).2) pool

/-- Relation `ExprCalls e n`: the call `genExpression(ctx, e, ...)` runs
`genExpression` on the node `n`: on `e` itself, on the operands of a binary
node, and through `genCall` on the first six arguments of a call. -/
inductive ExprCalls : ASTNode → ASTNode → Prop where
  | self (e : ASTNode) : ExprCalls e e
  | left {l : Nat} {op : Token} {a : ASTNode} {right : Option ASTNode} {n : ASTNode} :
      ExprCalls a n → ExprCalls (ASTNode.binary l op (some a) right) n
  | right {l : Nat} {op : Token} {left : Option ASTNode} {b : ASTNode} {n : ASTNode} :
      ExprCalls b n → ExprCalls (ASTNode.binary l op left (some b)) n
  | arg {l : Nat} {callee : Option ASTNode} {args : List (Option ASTNode)} {i : Nat}
      {a n : ASTNode} : i < 6 → args.get? i = some (some a) → ExprCalls a n →
      ExprCalls (ASTNode.call l callee args) n

/-- Relation `StatementCalls s n`: the statement switch of `genFunction` on the body
statement `s` runs `genExpression` on `n`: through the initializer of a
variable declaration, the value of a return statement, or the statement
itself when it is a call, a binary expression or a variable. -/
inductive StatementCalls : ASTNode → ASTNode → Prop where
  | initializer {l : Nat} {name : List Char} {type : Option ASTNode} {e n : ASTNode} :
      ExprCalls e n → StatementCalls (ASTNode.varDecl l name type (some e)) n
  | value {l : Nat} {e n : ASTNode} :
      ExprCalls e n → StatementCalls (ASTNode.returnStmt l (some e)) n
  | callStatement {l : Nat} {callee : Option ASTNode} {args : List (Option ASTNode)}
      {n : ASTNode} :
      ExprCalls (ASTNode.call l callee args) n → StatementCalls (ASTNode.call l callee args) n
  | binaryStatement {l : Nat} {op : Token} {left right : Option ASTNode} {n : ASTNode} :
      ExprCalls (ASTNode.binary l op left right) n →
      StatementCalls (ASTNode.binary l op left right) n
  | variableStatement {l : Nat} {name : List Char} {n : ASTNode} :
      ExprCalls (ASTNode.variable l name) n → StatementCalls (ASTNode.variable l name) n

/-- Relation `ProgramCalls ast n`: generating the code of the Program `ast` runs
`genExpression` on `n`, for a statement of the body of one of its top-level
functions. -/
inductive ProgramCalls : ASTNode → ASTNode → Prop where
  | inFunction {l fl bl : Nat} {statements body : List (Option ASTNode)} {name : List Char}
      {params : List ASTNode} {returnType : Option ASTNode} {s n : ASTNode} :
      some (ASTNode.functionDecl fl name params returnType (some (ASTNode.program bl body)))
        ∈ statements →
      some s ∈ body → StatementCalls s n → ProgramCalls (ASTNode.program l statements) n

/-- The text `"hi"` of a string token, quotes included. -/
def hiText : List Char := [DQUOTE, 'h', 'i', DQUOTE]

/-- A string-literal node with the given text. -/
def stringNode (text : List Char) : ASTNode :=
  ASTNode.literal 1 { type := TokenType.TOKEN_STRING, lexeme := text, line := 1 }

/-- A Program whose function `main` holds the assignment `x = "hi";`. -/
def assignTree : ASTNode :=
  ASTNode.program 0
    [some (ASTNode.functionDecl 0 "main".toList [] (some (ASTNode.literal 1 intToken))
      (some (ASTNode.program 0
        [some (ASTNode.assign 1 (ASTNode.variable 1 "x".toList) (some (stringNode hiText)))])))]

/-- A Program whose function `main` holds `let a = "hi"; let b = "yo";
return f("hi");`: the text `"hi"` occurs twice. -/
def twiceTree : ASTNode :=
  ASTNode.program 0
    [some (ASTNode.functionDecl 0 "main".toList [] (some (ASTNode.literal 1 intToken))
      (some (ASTNode.program 0
        [some (ASTNode.varDecl 1 "a".toList none (some (stringNode hiText))),
         some (ASTNode.varDecl 1 "b".toList none
           (some (stringNode [DQUOTE, 'y', 'o', DQUOTE]))),
         some (ASTNode.returnStmt 1 (some (ASTNode.call 1
           (some (ASTNode.variable 1 "f".toList)) [some (stringNode hiText)])))])))]

/-! ## The parser behind a prefix of the source -/

/-- The diagnostic with its line number increased by `d`. -/
def Diagnostic.bump (d : Nat) (x : Diagnostic) : Diagnostic := { x with line := x.line + d }

/-- The parser `p` seen behind a prefix `pre` of its source that spans `d`
more lines: the lexer is shifted, and the lines of the two tokens and of the
diagnostics are `d` higher. -/
def Parser.shift (pre : List Char) (d : Nat) (p : Parser) : Parser :=
  { lexer := p.lexer.shift pre d, current := p.current.bump d, previous := p.previous.bump d,
    hadError := p.hadError, panicMode := p.panicMode,
    diagnostics := p.diagnostics.map (Diagnostic.bump d) }

mutual

/-- The tree with the line numbers it takes from tokens increased by `d`:
the lines of literal and binary nodes and of the tokens they hold, and the
line of a return statement, which is the line of its value.  The other node
kinds are created with line 0. -/
def ASTNode.relocate (d : Nat) : ASTNode → ASTNode
  | .program l statements => .program l (relocateEntries d statements)
  | .functionDecl l name params returnType body =>
    .functionDecl l name (relocateNodes d params) (relocateOptional d returnType)
      (relocateOptional d body)
  | .varDecl l name type initializer =>
    .varDecl l name (relocateOptional d type) (relocateOptional d initializer)
  | .literal l t => .literal (l + d) (t.bump d)
  | .variable l name => .variable l name
  | .call l callee args => .call l (relocateOptional d callee) (relocateEntries d args)
  | .get l object name => .get l (relocateOptional d object) name
  | .binary l op left right =>
    .binary (l + d) (op.bump d) (relocateOptional d left) (relocateOptional d right)
  | .assign l target value => .assign l (ASTNode.relocate d target) (relocateOptional d value)
  | .returnStmt _ value => createReturnNode (relocateOptional d value)
  | .includeNode l filename => .includeNode l filename
termination_by structural x => x

/-- The function `ASTNode.relocate` on a child that may be NULL. -/
def relocateOptional (d : Nat) : Option ASTNode → Option ASTNode
  | none => none
  | some n => some (ASTNode.relocate d n)
termination_by structural x => x

/-- The function `ASTNode.relocate` on a statement or argument list. -/
def relocateEntries (d : Nat) : List (Option ASTNode) → List (Option ASTNode)
  | [] => []
  | e :: rest => relocateOptional d e :: relocateEntries d rest
termination_by structural x => x

/-- The function `ASTNode.relocate` on a parameter list. -/
def relocateNodes (d : Nat) : List ASTNode → List ASTNode
  | [] => []
  | n :: rest => ASTNode.relocate d n :: relocateNodes d rest
termination_by structural x => x

end

/-- A result of a parsing function behind a prefix of the source. -/
def shiftPResult (pre : List Char) (d : Nat) (r : PResult) : PResult :=
  r.map (fun x => (relocateOptional d x.1, x.2.shift pre d))

/-- A result of a statement loop behind a prefix of the source. -/
def shiftEntries (pre : List Char) (d : Nat)
    (r : Option (List (Option ASTNode) × Parser)) : Option (List (Option ASTNode) × Parser) :=
  r.map (fun x => (relocateEntries d x.1, x.2.shift pre d))

/-- A result of the parameter loop behind a prefix of the source. -/
def shiftNodes (pre : List Char) (d : Nat)
    (r : Option (List ASTNode × Parser)) : Option (List ASTNode × Parser) :=
  r.map (fun x => (relocateNodes d x.1, x.2.shift pre d))

/-- The directive line `#include <io>` with its newline. -/
def includeLine : List Char := "#include <io>\n".toList

/-- Two functions, the first with a body statement on a second line. -/
def srcTwoFunctions : List Char :=
  "func int one() \x7b\n  return 1 + 2;\n\x7d\nfunc two(int a) \x7b let b = a; \x7d".toList

/-! ## Return statements and the declared return type -/

/-- Source: the function is declared `int` and returns the float `1.5`. -/
def srcReturnFloat : List Char := "func int f() \x7b return 1.5; \x7d".toList

/-- The returned value of `srcReturnFloat`. -/
def floatValue : ASTNode :=
  ASTNode.literal 1 { type := TokenType.TOKEN_NUMBER, lexeme := "1.5".toList, line := 1 }

/-- The tree of `srcReturnFloat`. -/
def returnFloatTree : ASTNode :=
  ASTNode.program 0
    [some (ASTNode.functionDecl 0 "f".toList []
      (some (ASTNode.literal 1 intToken))
      (some (ASTNode.program 0 [some (ASTNode.returnStmt 1 (some floatValue))])))]

/-! ## Panic mode -/

/-- Source with two independent syntax errors: the `return` statements of `f`
(line 1) and of `h` (line 3) lack their `;`, and the function `g` between
them (line 2) is correct. -/
def srcTwoErrors : List Char :=
  ("func f() \x7b return 1 \x7d\nfunc g() \x7b return 2; \x7d\n" ++
    "func h() \x7b return 3 \x7d").toList

/-- The third function of `srcTwoErrors` alone, on the same line. -/
def srcSecondError : List Char := "\n\nfunc h() \x7b return 3 \x7d".toList

/-- The diagnostic for a missing semicolon behind a return value, reported at
a closing brace on line `n`. -/
def missingSemicolon (n : Nat) : Diagnostic :=
  { line := n, location := " at ".toList ++ [Char.ofNat 39] ++ "\x7d".toList ++ [Char.ofNat 39],
    message := "Expect ';' after return value.".toList }

/-- The state in which every parser finds its two error fields: no diagnostic
has been written while `panicMode` is 0, and exactly one once it is 1. -/
def panicOnce (p : Parser) : Prop :=
  (p.panicMode = false → p.diagnostics = []) ∧
  (p.panicMode = true → p.diagnostics.length = 1)

/-! ## Callee names -/

/-- Relation between a callee node and the components of its name: a variable
reference `a` has the components `[a]`, and a member access `object.name`
those of `object` followed by `name`. -/
inductive NameChain : ASTNode → List (List Char) → Prop where
  | base (line : Nat) (name : List Char) : NameChain (ASTNode.variable line name) [name]
  | member (line : Nat) (object : ASTNode) (components : List (List Char)) (name : List Char) :
      NameChain object components →
      NameChain (ASTNode.get line (some object) name) (components ++ [name])

/-- The components joined by dots. -/
def dotJoined (components : List (List Char)) : List Char :=
  ['.'].intercalate components

/-- The callee `sys.IO.print.PrintInt`. -/
def printIntCallee : ASTNode :=
  ASTNode.get 1 (some (ASTNode.get 1 (some (ASTNode.get 1
    (some (ASTNode.variable 1 "sys".toList)) "IO".toList)) "print".toList)) "PrintInt".toList

/-! ## Stack frame of a function -/

/-- The context in which `genFunction` generates the statements of a function
with the given parameter names and local names: the state of `ctx` after the
two blocks that store the name maps (an array is allocated only for a count
above zero). -/
def bodyContext (ctx : CGContext) (names locals : List (List Char)) : CGContext :=
  { ctx with
    paramCount := names.length
    paramNames := if names.length > 0 then some names else none
    localCount := locals.length
    localNames := if locals.length > 0 then some locals else none }

/-- The value of `stackSize` for a number of slots. -/
def stackSizeOf (totalSlots : Nat) : Nat := (totalSlots * 8 + 15) / 16 * 16

/-- The lines that `genFunction` writes in front of the code of the body
statements: directive, label, prologue, stack reservation, parameter stores
and, for `main`, the call of `initSystem`. -/
def frameLines (name : List Char) (paramCount localCount : Nat) : List Instr :=
  [Instr.globl name, Instr.label name] ++ emitPrologue ++
    (if stackSizeOf (paramCount + localCount) > 0
      then [Instr.subImm (stackSizeOf (paramCount + localCount)) Reg.rsp] else []) ++
    storeParams paramCount 0 ++
    (if name = "main".toList then [Instr.call "initSystem".toList] else [])

/-- The parameters of `srcSlots`. -/
def slotParams : List ASTNode :=
  [ASTNode.varDecl 0 "a".toList (some (ASTNode.literal 1 intToken)) none,
    ASTNode.varDecl 0 "b".toList (some (ASTNode.literal 1 intToken)) none]

/-- The body statements of `srcSlots`. -/
def slotBody : List (Option ASTNode) :=
  [some (ASTNode.varDecl 0 "c".toList none (some (ASTNode.literal 1 oneToken))),
    some (ASTNode.varDecl 0 "d".toList none none),
    some (ASTNode.returnStmt 0 (some (ASTNode.variable 0 "a".toList)))]

/-- The function of `srcSlots`. -/
def slotFunction : ASTNode :=
  ASTNode.functionDecl 0 "f".toList slotParams (some (ASTNode.literal 1 intToken))
    (some (ASTNode.program 0 slotBody))

/-- A context as `codegen_generateExecutable` sets it up, with an empty
pool. -/
def emptyContext : CGContext :=
  { paramNames := none, paramCount := 0, localNames := none, localCount := 0, strLits := [] }

/-- The context that `genFunction` leaves behind a function with the three
parameters `x`, `y`, `z` and the two locals `u`, `v`. -/
def priorContext : CGContext :=
  bodyContext emptyContext ["x".toList, "y".toList, "z".toList] ["u".toList, "v".toList]

/-! ## Shape of a generated routine -/

/-- A call statement `initSystem();` as the parser builds it. -/
def initSystemCall : ASTNode :=
  ASTNode.call 0 (some (ASTNode.variable 0 "initSystem".toList)) []

/-- Source: a function that is not `main` and calls `initSystem` itself. -/
def srcCallsInit : List Char := "func f() \x7b initSystem(); \x7d".toList

/-- The function of `srcCallsInit`. -/
def callsInitFunction : ASTNode :=
  ASTNode.functionDecl 0 "f".toList [] none (some (ASTNode.program 0 [some initSystemCall]))

/-- Source: `main` calling `initSystem` itself. -/
def srcMainCallsInit : List Char := "func main() \x7b initSystem(); \x7d".toList

/-- The function of `srcMainCallsInit`. -/
def mainCallsInitFunction : ASTNode :=
  ASTNode.functionDecl 0 "main".toList [] none
    (some (ASTNode.program 0 [some initSystemCall]))

/-! ## Argument registers -/

/-- The arguments of `f(1, g(2))`. -/
def nestedArgs : List (Option ASTNode) :=
  [some (numberLiteral "1".toList),
    some (ASTNode.call 0 (some (ASTNode.variable 0 "g".toList)) [some (numberLiteral "2".toList)])]

/-- The arguments of `f(1, 2, 3, 8 / 2)`. -/
def divisionArgs : List (Option ASTNode) :=
  [some (numberLiteral "1".toList), some (numberLiteral "2".toList), some (numberLiteral "3".toList),
    some (ASTNode.binary 1 { type := TokenType.TOKEN_SLASH, lexeme := "/".toList, line := 1 }
      (some (numberLiteral "8".toList)) (some (numberLiteral "2".toList)))]

/-- The callee `f`. -/
def calleeF : Option ASTNode := some (ASTNode.variable 0 "f".toList)

/-- Source of the first call of the claim. -/
def srcNestedCall : List Char := "f(1, g(2))".toList

/-- Source of the second call of the claim. -/
def srcDivisionCall : List Char := "f(1, 2, 3, 8 / 2)".toList

/-- Surroundings in which every called routine returns at once and leaves
all registers and the memory as they were. -/
def quietEnv : Env := { call := fun _ m => some m, labelAddr := fun _ => 0 }

/-- A machine state with every register and every memory cell zero. -/
def idleMachine : Machine := { reg := fun _ => 0, mem := fun _ => 0 }

/-! ## Discarding the name lists of the previous function -/

/-- The two clean-up blocks as `genFunction` runs them for `func` on the
context left by the previous function: `ctx->paramCount` and
`ctx->localCount` are assigned the counts of `func` before the loops over
the old arrays run.  The result is the outcome of `clearNames` for the
parameter names and for the local names. -/
def genFunctionCleanup (ctx : CGContext) (func : ASTNode) :
    Option (Option (List Nat) × Option (List Nat)) :=
  match func with
  | ASTNode.functionDecl _ _ params _ (some (ASTNode.program _ statements)) =>
    some (clearNames ctx.paramNames params.length,
      clearNames ctx.localNames (localNamesOf statements).length)
  | _ => none

/-- A parameter `int <name>` as the parser builds it. -/
def intParam (name : List Char) : ASTNode :=
  ASTNode.varDecl 0 name (some (ASTNode.literal 1 intToken)) none

/-- A function `func <name>(<params>) \x7b <statements> \x7d` without return
type. -/
def plainFunction (name : List Char) (params : List ASTNode)
    (statements : List (Option ASTNode)) : ASTNode :=
  ASTNode.functionDecl 0 name params none (some (ASTNode.program 0 statements))

/-- Source: a function with one parameter followed by one with two. -/
def srcOneThenTwo : List Char :=
  "func f(int a) \x7b \x7d func g(int a, int b) \x7b \x7d".toList

/-- The functions of `srcOneThenTwo`. -/
def oneParamFunction : ASTNode := plainFunction "f".toList [intParam "a".toList] []

/-- The second function of `srcOneThenTwo`. -/
def twoParamFunction : ASTNode :=
  plainFunction "g".toList [intParam "a".toList, intParam "b".toList] []

/-- Source: a function with two locals followed by one with none. -/
def srcTwoLocalsThenNone : List Char :=
  "func f() \x7b let a = 1; let b = 2; \x7d func g() \x7b \x7d".toList

/-- The first function of `srcTwoLocalsThenNone`. -/
def twoLocalsFunction : ASTNode :=
  plainFunction "f".toList []
    [some (ASTNode.varDecl 0 "a".toList none (some (numberLiteral "1".toList))),
      some (ASTNode.varDecl 0 "b".toList none (some (numberLiteral "2".toList)))]

/-- The second function of `srcTwoLocalsThenNone`. -/
def noLocalsFunction : ASTNode := plainFunction "g".toList [] []

/-! ## The v0.2 scanner (`src/v0.x/v0.2/src/lexer/lexer.c`)

The v0.2 scanner has the `Lexer` struct and the functions `isAtEnd`,
`advance`, `peek`, `peekNext`, `match`, `skipWhitespace`, `makeToken`,
`errorToken`, `number` and `string` of the v1.0 scanner, character for
character; the definitions above stand for both.  It differs in
`checkKeyword` and `identifierType`, and in `scanToken` for the character
`-`. -/

namespace V02

/-- Expression `memcmp(lexer->start + off, rest, n) == 0` for a string
literal `rest`: the bytes compared with are the characters of the literal
followed by its terminating NUL. -/
def memcmpN (lx : Lexer) (off : Nat) (rest : List Char) (n : Nat) : Bool :=
  (List.range n).all
    (fun k => charAt lx.source (lx.start + off + k) == (rest ++ [NUL]).getD k NUL)

/-- Function `checkKeyword`. -/
def checkKeyword (lx : Lexer) (start length : Nat) (rest : List Char) (type : TokenType) :
    TokenType :=
  if decide (lx.current - lx.start = start + length) && memcmpN lx start rest length then type
  else TokenType.TOKEN_IDENTIFIER

/-- Function `identifierType`: the switch on the first character, with the
inner switches on the second one. -/
def identifierType (lx : Lexer) : TokenType :=
  let len := lx.current - lx.start
  let c0 := charAt lx.source lx.start
  let c1 := charAt lx.source (lx.start + 1)
  if c0 == 'c' then checkKeyword lx 1 4 "lass".toList TokenType.TOKEN_CLASS
  else if c0 == 'e' then checkKeyword lx 1 3 "lse".toList TokenType.TOKEN_ELSE
  else if c0 == 'f' then
    if decide (len > 1) then
      if c1 == 'a' then checkKeyword lx 2 3 "lse".toList TokenType.TOKEN_FALSE
      else if c1 == 'o' then checkKeyword lx 2 1 "r".toList TokenType.TOKEN_FOR
      else if c1 == 'u' then checkKeyword lx 2 2 "nc".toList TokenType.TOKEN_FUNC
      else TokenType.TOKEN_IDENTIFIER
    else TokenType.TOKEN_IDENTIFIER
  else if c0 == 'i' then
    if decide (len > 1) then
      if c1 == 'f' then TokenType.TOKEN_IF
      else if c1 == 'n' then checkKeyword lx 2 2 "t".toList TokenType.TOKEN_INT
      else TokenType.TOKEN_IDENTIFIER
    else TokenType.TOKEN_IDENTIFIER
  else if c0 == 'l' then checkKeyword lx 1 2 "et".toList TokenType.TOKEN_LET
  else if c0 == 'n' then checkKeyword lx 1 3 "ull".toList TokenType.TOKEN_NULL
  else if c0 == 'r' then checkKeyword lx 1 5 "eturn".toList TokenType.TOKEN_RETURN
  else if c0 == 's' then
    if decide (len > 1) then
      if c1 == 'u' then checkKeyword lx 2 3 "per".toList TokenType.TOKEN_SUPER
      else if c1 == 't' then checkKeyword lx 2 4 "ring".toList TokenType.TOKEN_STRING_TYPE
      else TokenType.TOKEN_IDENTIFIER
    else TokenType.TOKEN_IDENTIFIER
  else if c0 == 't' then
    if decide (len > 1) then
      if c1 == 'h' then checkKeyword lx 2 2 "is".toList TokenType.TOKEN_THIS
      else if c1 == 'r' then checkKeyword lx 2 2 "ue".toList TokenType.TOKEN_TRUE
      else TokenType.TOKEN_IDENTIFIER
    else TokenType.TOKEN_IDENTIFIER
  else if c0 == 'v' then
    if decide (len > 1) then
      if c1 == 'a' then checkKeyword lx 2 1 "r".toList TokenType.TOKEN_VAR
      else if c1 == 'o' then checkKeyword lx 2 2 "id".toList TokenType.TOKEN_VOID
      else TokenType.TOKEN_IDENTIFIER
    else TokenType.TOKEN_IDENTIFIER
  else if c0 == 'w' then checkKeyword lx 1 4 "hile".toList TokenType.TOKEN_WHILE
  else TokenType.TOKEN_IDENTIFIER

/-- Function `identifier`. -/
def identifier (lx : Lexer) : Token × Lexer :=
  let lx1 := identifierLoop lx.source.length lx
  (makeToken lx1 (identifierType lx1), lx1)

/-- Body of `scanToken` after the end-of-input test: consume one character
and dispatch on it. -/
def scanBody (lx0 : Lexer) : Token × Lexer :=
  let c := (advance lx0).1
  let lx := (advance lx0).2
  if c == '#' then
    let lx1 := alphaLoop lx.source.length lx
    let length := lx1.current - lx1.start
    if decide (length = 8) && memcmpEq lx1 0 "#include".toList then
      (makeToken lx1 TokenType.TOKEN_INCLUDE, lx1)
    else (errorToken lx1 "Unknown preprocessor directive".toList, lx1)
  else if isalpha c || c == '_' then identifier lx
  else if isdigit c then number lx
  else if c == '(' then (makeToken lx TokenType.TOKEN_LEFT_PAREN, lx)
  else if c == ')' then (makeToken lx TokenType.TOKEN_RIGHT_PAREN, lx)
  else if c == Char.ofNat 123 then (makeToken lx TokenType.TOKEN_LEFT_BRACE, lx)
  else if c == Char.ofNat 125 then (makeToken lx TokenType.TOKEN_RIGHT_BRACE, lx)
  else if c == '[' then (makeToken lx TokenType.TOKEN_LEFT_BRACKET, lx)
  else if c == ']' then (makeToken lx TokenType.TOKEN_RIGHT_BRACKET, lx)
  else if c == ';' then (makeToken lx TokenType.TOKEN_SEMICOLON, lx)
  else if c == ',' then (makeToken lx TokenType.TOKEN_COMMA, lx)
  else if c == '.' then (makeToken lx TokenType.TOKEN_DOT, lx)
  else if c == ':' then (makeToken lx TokenType.TOKEN_COLON, lx)
  else if c == '?' then (makeToken lx TokenType.TOKEN_QUESTION, lx)
  else if c == '-' then (makeToken lx TokenType.TOKEN_MINUS, lx)
  else if c == '+' then (makeToken lx TokenType.TOKEN_PLUS, lx)
  else if c == '/' then (makeToken lx TokenType.TOKEN_SLASH, lx)
  else if c == '*' then (makeToken lx TokenType.TOKEN_STAR, lx)
  else if c == '%' then (makeToken lx TokenType.TOKEN_PERCENT, lx)
  else if c == '!' then
    twoCharToken lx '=' TokenType.TOKEN_BANG_EQUAL TokenType.TOKEN_BANG
  else if c == '=' then
    twoCharToken lx '=' TokenType.TOKEN_EQUAL_EQUAL TokenType.TOKEN_EQUAL
  else if c == '<' then
    twoCharToken lx '=' TokenType.TOKEN_LESS_EQUAL TokenType.TOKEN_LESS
  else if c == '>' then
    twoCharToken lx '=' TokenType.TOKEN_GREATER_EQUAL TokenType.TOKEN_GREATER
  else if c == '&' then
    twoCharToken lx '&' TokenType.TOKEN_AMPERSAND_AMPERSAND TokenType.TOKEN_AMPERSAND
  else if c == '|' then
    twoCharToken lx '|' TokenType.TOKEN_PIPE_PIPE TokenType.TOKEN_PIPE
  else if c == DQUOTE then string lx
  else (errorToken lx "Unexpected character.".toList, lx)

/-- Function `scanToken`. -/
def scanToken (lx : Lexer) : Token × Lexer :=
  let lx0 := skipWhitespace lx
  let lx1 := { lx0 with start := lx0.current }
  if isAtEnd lx1 then (makeToken lx1 TokenType.TOKEN_EOF, lx1)
  else scanBody lx1

end V02

/-- A lexeme that matches `[A-Za-z_][A-Za-z0-9_]*`. -/
def isWord (w : List Char) : Bool :=
  match w with
  | [] => false
  | c :: cs => (isalpha c || c == '_') && cs.all isIdentChar

/-- The keyword table of the claim: spelling and token kind. -/
def keywordTable : List (String × TokenType) :=
  [("class", TokenType.TOKEN_CLASS), ("else", TokenType.TOKEN_ELSE),
    ("false", TokenType.TOKEN_FALSE), ("for", TokenType.TOKEN_FOR),
    ("func", TokenType.TOKEN_FUNC), ("if", TokenType.TOKEN_IF),
    ("int", TokenType.TOKEN_INT), ("let", TokenType.TOKEN_LET),
    ("null", TokenType.TOKEN_NULL), ("return", TokenType.TOKEN_RETURN),
    ("string", TokenType.TOKEN_STRING_TYPE), ("super", TokenType.TOKEN_SUPER),
    ("this", TokenType.TOKEN_THIS), ("true", TokenType.TOKEN_TRUE),
    ("var", TokenType.TOKEN_VAR), ("void", TokenType.TOKEN_VOID),
    ("while", TokenType.TOKEN_WHILE)]

/-- The kinds that the v0.2 scanner returns for the spellings of a table. -/
def v02Kinds (table : List (String × TokenType)) : List (String × TokenType) :=
  table.map (fun e => (e.1, (V02.scanToken (initLexer e.1.toList)).1.type))

/-- The lexer after scanning a source that consists of one word. -/
def wordLexer (w : List Char) : Lexer :=
  { source := w, start := 0, current := w.length, line := 1 }

/-- The kind that a keyword table assigns to a lexeme: the kind listed for
that spelling, and an identifier when the spelling is not listed. -/
def tableKind (table : List (String × TokenType)) (w : List Char) : TokenType :=
  match table.find? (fun e => e.1.toList == w) with
  | some e => e.2
  | none => TokenType.TOKEN_IDENTIFIER

/-! # Theorems -/

/-! ## Scanner: cursor bounds and progress -/

theorem adv_refl (a : Lexer) : Adv a a := ⟨rfl, le_refl _, fun h => h⟩

theorem adv_trans {a b c : Lexer} (h1 : Adv a b) (h2 : Adv b c) : Adv a c := by
  obtain ⟨s1, c1, b1⟩ := h1
  obtain ⟨s2, c2, b2⟩ := h2
  refine ⟨s2.trans s1, le_trans c1 c2, fun h => ?_⟩
  have := b2 (by rw [s1]; exact b1 h)
  rwa [s1] at this

theorem peek_eq_NUL_of_atEnd {lx : Lexer} (h : isAtEnd lx = true) : peek lx = NUL := by
  simpa [isAtEnd, peek] using h

theorem lt_of_not_atEnd {lx : Lexer} (h : isAtEnd lx = false) :
    lx.current < lx.source.length := by
  by_contra hc
  have hd : charAt lx.source lx.current = NUL := by
    unfold charAt
    exact List.getD_eq_default _ _ (by omega)
  simp [isAtEnd, hd] at h

theorem not_atEnd_of_peek_ne {lx : Lexer} (h : peek lx ≠ NUL) : isAtEnd lx = false := by
  cases hb : isAtEnd lx
  · rfl
  · exact absurd (peek_eq_NUL_of_atEnd hb) h

theorem adv_advance {lx : Lexer} (h : isAtEnd lx = false) : Adv lx (advance lx).2 := by
  have := lt_of_not_atEnd h
  refine ⟨rfl, ?_, fun _ => ?_⟩
  · simp [Mino.advance]
  · simp only [Mino.advance]
    omega

theorem advance_current (lx : Lexer) : (advance lx).2.current = lx.current + 1 := rfl

theorem adv_setLine (lx : Lexer) (l : Nat) : Adv lx { lx with line := l } :=
  ⟨rfl, le_refl _, fun h => h⟩

theorem adv_setStart (lx : Lexer) (s : Nat) : Adv lx { lx with start := s } :=
  ⟨rfl, le_refl _, fun h => h⟩

theorem isAtEnd_setLine (lx : Lexer) (l : Nat) : isAtEnd { lx with line := l } = isAtEnd lx := rfl

theorem isalpha_NUL : isalpha NUL = false := by decide
theorem isdigit_NUL : isdigit NUL = false := by decide

theorem lineCommentLoop_adv (n : Nat) : ∀ lx, Adv lx (lineCommentLoop n lx) := by
  induction n with
  | zero => intro lx; exact adv_refl _
  | succ n ih =>
    intro lx
    simp only [lineCommentLoop]
    split
    · rename_i h
      have hne : isAtEnd lx = false := by
        cases hb : isAtEnd lx
        · rfl
        · simp [hb] at h
      exact adv_trans (adv_advance hne) (ih _)
    · exact adv_refl _

theorem blockCommentLoop_adv (n : Nat) : ∀ lx, Adv lx (blockCommentLoop n lx) := by
  induction n with
  | zero => intro lx; exact adv_refl _
  | succ n ih =>
    intro lx
    simp only [blockCommentLoop]
    split
    · rename_i h
      have hne : isAtEnd lx = false := by
        cases hb : isAtEnd lx
        · rfl
        · simp [hb] at h
      split
      · exact adv_trans (adv_setLine lx _) (adv_trans (@adv_advance { lx with line := lx.line + 1 } hne) (ih _))
      · exact adv_trans (adv_advance hne) (ih _)
    · exact adv_refl _

/-- With fuel for every remaining character the block comment loop stops
only at the closer or at the end of the source. -/
theorem blockCommentLoop_exit (n : Nat) : ∀ lx, lx.source.length - lx.current ≤ n →
    isAtEnd (blockCommentLoop n lx) = false →
    peek (blockCommentLoop n lx) = '*' ∧ peekNext (blockCommentLoop n lx) = '/' := by
  induction n with
  | zero =>
    intro lx hn hne
    have := @lt_of_not_atEnd lx hne
    omega
  | succ n ih =>
    intro lx hn
    simp only [blockCommentLoop]
    split
    · rename_i h
      split
      · exact ih _ (by simp [Mino.advance]; omega)
      · exact ih _ (by simp [Mino.advance]; omega)
    · rename_i h
      intro hne
      simpa [hne] using h

theorem identifierLoop_adv (n : Nat) : ∀ lx, Adv lx (identifierLoop n lx) := by
  induction n with
  | zero => intro lx; exact adv_refl _
  | succ n ih =>
    intro lx
    simp only [identifierLoop]
    split
    · rename_i h
      have hne : isAtEnd lx = false := by
        cases hb : isAtEnd lx
        · rfl
        · have hp := peek_eq_NUL_of_atEnd hb
          rw [hp] at h
          revert h
          decide
      exact adv_trans (adv_advance hne) (ih _)
    · exact adv_refl _

theorem digitLoop_adv (n : Nat) : ∀ lx, Adv lx (digitLoop n lx) := by
  induction n with
  | zero => intro lx; exact adv_refl _
  | succ n ih =>
    intro lx
    simp only [digitLoop]
    split
    · rename_i h
      have hne : isAtEnd lx = false := by
        cases hb : isAtEnd lx
        · rfl
        · have hp := peek_eq_NUL_of_atEnd hb
          rw [hp] at h
          revert h
          decide
      exact adv_trans (adv_advance hne) (ih _)
    · exact adv_refl _

theorem alphaLoop_adv (n : Nat) : ∀ lx, Adv lx (alphaLoop n lx) := by
  induction n with
  | zero => intro lx; exact adv_refl _
  | succ n ih =>
    intro lx
    simp only [alphaLoop]
    split
    · rename_i h
      have hne : isAtEnd lx = false := by
        cases hb : isAtEnd lx
        · rfl
        · have hp := peek_eq_NUL_of_atEnd hb
          rw [hp] at h
          revert h
          decide
      exact adv_trans (adv_advance hne) (ih _)
    · exact adv_refl _

theorem stringLoop_adv (n : Nat) : ∀ lx, Adv lx (stringLoop n lx) := by
  induction n with
  | zero => intro lx; exact adv_refl _
  | succ n ih =>
    intro lx
    simp only [stringLoop]
    split
    · rename_i h
      have hne : isAtEnd lx = false := by
        cases hb : isAtEnd lx
        · rfl
        · simp [hb] at h
      split
      · exact adv_trans (adv_setLine lx _) (adv_trans (@adv_advance { lx with line := lx.line + 1 } hne) (ih _))
      · exact adv_trans (adv_advance hne) (ih _)
    · exact adv_refl _

theorem not_atEnd_of_peekNext {lx : Lexer} {c : Char} (h : peekNext lx = c) (hc : c ≠ NUL) :
    isAtEnd lx = false ∧ isAtEnd (advance lx).2 = false := by
  unfold peekNext at h
  split at h
  · exact absurd h.symm hc
  · rename_i hb
    refine ⟨by simpa using hb, ?_⟩
    simp only [isAtEnd, Mino.advance, h]
    simpa using hc

theorem skipWhitespaceLoop_adv (n : Nat) : ∀ lx, Adv lx (skipWhitespaceLoop n lx) := by
  induction n with
  | zero => intro lx; exact adv_refl _
  | succ n ih =>
    intro lx
    simp only [skipWhitespaceLoop]
    split
    · rename_i h
      have hne : isAtEnd lx = false := by
        cases hb : isAtEnd lx
        · rfl
        · have hp := peek_eq_NUL_of_atEnd hb
          rw [hp] at h
          revert h
          decide
      exact adv_trans (adv_advance hne) (ih _)
    · split
      · rename_i h
        have hne : isAtEnd lx = false := by
          cases hb : isAtEnd lx
          · rfl
          · have hp := peek_eq_NUL_of_atEnd hb
            rw [hp] at h
            revert h
            decide
        exact adv_trans (adv_setLine lx _)
          (adv_trans (@adv_advance { lx with line := lx.line + 1 } hne) (ih _))
      · split
        · split
          · exact adv_trans (lineCommentLoop_adv _ _) (ih _)
          · split
            · rename_i h
              have h2 := @not_atEnd_of_peekNext lx '*' (by simpa using h) (by decide)
              have a1 : Adv lx (advance (advance lx).2).2 :=
                adv_trans (adv_advance h2.1) (adv_advance h2.2)
              have a2 := blockCommentLoop_adv (advance (advance lx).2).2.source.length
                (advance (advance lx).2).2
              refine adv_trans (adv_trans a1 (adv_trans a2 ?_)) (ih _)
              split
              · rename_i hne
                have hne1 : isAtEnd (blockCommentLoop (advance (advance lx).2).2.source.length
                    (advance (advance lx).2).2) = false := by simpa using hne
                have hx := blockCommentLoop_exit _ _ (by simp) hne1
                have h3 := @not_atEnd_of_peekNext _ '/' hx.2 (by decide)
                exact adv_trans (adv_advance h3.1) (adv_advance h3.2)
              · exact adv_refl _
            · exact adv_refl _
        · exact adv_refl _

theorem skipWhitespace_adv (lx : Lexer) : Adv lx (skipWhitespace lx) :=
  skipWhitespaceLoop_adv _ lx

theorem ite_type_ne_eof (c : Prop) [Decidable c] (a b : TokenType)
    (ha : a ≠ TokenType.TOKEN_EOF) (hb : b ≠ TokenType.TOKEN_EOF) :
    (if c then a else b) ≠ TokenType.TOKEN_EOF := by
  split <;> assumption

theorem ite_token_ne_eof (c : Prop) [Decidable c] (a b : Token × Lexer)
    (ha : a.1.type ≠ TokenType.TOKEN_EOF) (hb : b.1.type ≠ TokenType.TOKEN_EOF) :
    (if c then a else b).1.type ≠ TokenType.TOKEN_EOF := by
  split <;> assumption

theorem ite_adv (c : Prop) [Decidable c] (x : Lexer) (a b : Token × Lexer)
    (ha : Adv x a.2) (hb : Adv x b.2) : Adv x (if c then a else b).2 := by
  split <;> assumption

theorem identifierType_ne_eof (lx : Lexer) : identifierType lx ≠ TokenType.TOKEN_EOF := by
  unfold identifierType
  simp only []
  repeat' apply ite_type_ne_eof
  all_goals decide

theorem identifier_type (lx : Lexer) : (identifier lx).1.type ≠ TokenType.TOKEN_EOF := by
  simp [identifier, makeToken, identifierType_ne_eof]

theorem identifier_adv (lx : Lexer) : Adv lx (identifier lx).2 := identifierLoop_adv _ lx

theorem number_type (lx : Lexer) : (number lx).1.type ≠ TokenType.TOKEN_EOF := by
  simp [number, makeToken]

theorem number_adv (lx : Lexer) : Adv lx (number lx).2 := by
  simp only [number]
  refine adv_trans (digitLoop_adv lx.source.length lx) ?_
  split
  · rename_i h
    have hne : isAtEnd (digitLoop lx.source.length lx) = false := by
      cases hb : isAtEnd (digitLoop lx.source.length lx)
      · rfl
      · have hp := peek_eq_NUL_of_atEnd hb
        rw [hp] at h
        have hd : (NUL == '.') = false := by decide
        simp [hd] at h
    exact adv_trans (adv_advance hne) (digitLoop_adv _ _)
  · exact adv_refl _

theorem string_type (lx : Lexer) : (string lx).1.type ≠ TokenType.TOKEN_EOF := by
  simp only [string]
  split <;> simp [errorToken, makeToken]

theorem string_adv (lx : Lexer) : Adv lx (string lx).2 := by
  simp only [string]
  split
  · exact stringLoop_adv _ _
  · rename_i h
    exact adv_trans (stringLoop_adv _ _) (adv_advance (by simpa using h))

theorem twoCharToken_type (lx : Lexer) (c : Char) (yes no : TokenType)
    (hy : yes ≠ TokenType.TOKEN_EOF) (hn : no ≠ TokenType.TOKEN_EOF) :
    (twoCharToken lx c yes no).1.type ≠ TokenType.TOKEN_EOF := by
  simp only [twoCharToken, makeToken]
  split <;> assumption

theorem lexMatch_adv (lx : Lexer) (c : Char) : Adv lx (lexMatch lx c).2 := by
  unfold lexMatch
  split
  · exact adv_refl _
  · rename_i h
    split
    · exact adv_refl _
    · exact adv_advance (by simpa using h)

theorem twoCharToken_adv (lx : Lexer) (c : Char) (yes no : TokenType) :
    Adv lx (twoCharToken lx c yes no).2 := lexMatch_adv lx c

theorem scanBody_type (lx : Lexer) : (scanBody lx).1.type ≠ TokenType.TOKEN_EOF := by
  unfold scanBody
  simp only []
  refine ite_token_ne_eof _ _ _ ?_ ?_
  · refine ite_token_ne_eof _ _ _ ?_ ?_ <;> simp [makeToken, errorToken]
  refine ite_token_ne_eof _ _ _ (identifier_type _) ?_
  refine ite_token_ne_eof _ _ _ (number_type _) ?_
  iterate 15 refine ite_token_ne_eof _ _ _ (by simp [makeToken]) ?_
  iterate 7 refine ite_token_ne_eof _ _ _ (twoCharToken_type _ _ _ _ (by decide) (by decide)) ?_
  refine ite_token_ne_eof _ _ _ (string_type _) ?_
  simp [errorToken]

theorem scanBody_adv (lx : Lexer) : Adv (advance lx).2 (scanBody lx).2 := by
  unfold scanBody
  simp only []
  refine ite_adv _ _ _ _ ?_ ?_
  · refine ite_adv _ _ _ _ ?_ ?_ <;> exact alphaLoop_adv _ _
  refine ite_adv _ _ _ _ (identifier_adv _) ?_
  refine ite_adv _ _ _ _ (number_adv _) ?_
  iterate 15 refine ite_adv _ _ _ _ (adv_refl _) ?_
  iterate 7 refine ite_adv _ _ _ _ (twoCharToken_adv _ _ _ _) ?_
  refine ite_adv _ _ _ _ (string_adv _) ?_
  exact adv_refl _

theorem scanToken_source (lx : Lexer) : (scanToken lx).2.source = lx.source := by
  unfold scanToken
  simp only []
  have h1 := skipWhitespace_adv lx
  split
  · exact h1.1
  · rename_i h
    have h2 := scanBody_adv { skipWhitespace lx with start := (skipWhitespace lx).current }
    rw [h2.1]
    exact h1.1

theorem scanToken_inBounds (lx : Lexer) (h : lx.inBounds) : (scanToken lx).2.inBounds := by
  unfold scanToken
  simp only []
  have h1 := skipWhitespace_adv lx
  split
  · have := h1.2.2 h
    simp only [Lexer.inBounds]
    rw [h1.1]
    exact this
  · rename_i hne
    have hne1 : isAtEnd { skipWhitespace lx with start := (skipWhitespace lx).current } = false := by
      simpa using hne
    have h2 := adv_trans (adv_trans h1 (adv_setStart _ (skipWhitespace lx).current))
      (adv_trans (adv_advance hne1) (scanBody_adv _))
    simp only [Lexer.inBounds]
    rw [h2.1]
    exact h2.2.2 h

theorem scanToken_progress (lx : Lexer) (h : (scanToken lx).1.type ≠ TokenType.TOKEN_EOF) :
    lx.current < (scanToken lx).2.current := by
  unfold scanToken at h ⊢
  simp only [] at h ⊢
  have h1 := skipWhitespace_adv lx
  split
  · rename_i hat
    rw [if_pos hat] at h
    simp [makeToken] at h
  · have h2 := scanBody_adv { skipWhitespace lx with start := (skipWhitespace lx).current }
    have := h2.2.1
    have := h1.2.1
    simp only [advance_current] at *
    omega

theorem skipWhitespace_atEnd (lx : Lexer) (h : isAtEnd lx = true) : skipWhitespace lx = lx := by
  have hp := peek_eq_NUL_of_atEnd h
  simp only [skipWhitespace, skipWhitespaceLoop, hp]
  rfl

theorem scanToken_eof_stable (lx : Lexer) (h : (scanToken lx).1.type = TokenType.TOKEN_EOF) :
    scanToken (scanToken lx).2 = scanToken lx := by
  have key : isAtEnd { skipWhitespace lx with start := (skipWhitespace lx).current } = true := by
    by_contra hc
    unfold scanToken at h
    simp only [] at h
    rw [if_neg hc] at h
    exact scanBody_type _ h
  have e1 : scanToken lx = (makeToken { skipWhitespace lx with start := (skipWhitespace lx).current }
      TokenType.TOKEN_EOF, { skipWhitespace lx with start := (skipWhitespace lx).current }) := by
    unfold scanToken
    simp only []
    rw [if_pos key]
  rw [e1]
  simp only []
  unfold scanToken
  simp only []
  rw [skipWhitespace_atEnd _ key, if_pos key]

theorem scanState_succ_right (n : Nat) : ∀ lx, scanState (n + 1) lx = (scanToken (scanState n lx)).2 := by
  induction n with
  | zero => intro lx; rfl
  | succ n ih => intro lx; exact ih (scanToken lx).2

theorem scanState_inBounds (n : Nat) : ∀ lx : Lexer, lx.inBounds → (scanState n lx).inBounds := by
  induction n with
  | zero => intro lx h; exact h
  | succ n ih => intro lx h; exact ih _ (scanToken_inBounds lx h)

theorem exists_eof_within (d : Nat) : ∀ lx : Lexer, lx.inBounds →
    lx.source.length - lx.current ≤ d →
    ∃ k, k ≤ d ∧ (scanNth k lx).type = TokenType.TOKEN_EOF := by
  induction d with
  | zero =>
    intro lx hb hd
    refine ⟨0, le_refl _, ?_⟩
    by_contra hne
    have hp := scanToken_progress lx hne
    have hb2 := scanToken_inBounds lx hb
    simp only [Lexer.inBounds, scanToken_source] at hb hb2
    omega
  | succ d ih =>
    intro lx hb hd
    by_cases h0 : (scanToken lx).1.type = TokenType.TOKEN_EOF
    · exact ⟨0, Nat.zero_le _, h0⟩
    · have hp := scanToken_progress lx h0
      have hb2 := scanToken_inBounds lx hb
      have hs := scanToken_source lx
      obtain ⟨k, hk, he⟩ := ih (scanToken lx).2 hb2 (by rw [hs]; omega)
      exact ⟨k + 1, by omega, he⟩

/-- C4: scanning any source from `initLexer` returns `TOKEN_EOF` within
`|s| + 1` calls; a call that returns another token moves the cursor forward;
and a call made after a `TOKEN_EOF` returns `TOKEN_EOF` again and leaves the
lexer state unchanged. -/
theorem scanToken_reaches_eof_and_stays (s : List Char) :
    (∃ k, k ≤ s.length ∧ (scanNth k (initLexer s)).type = TokenType.TOKEN_EOF) ∧
    (∀ n, (scanNth n (initLexer s)).type ≠ TokenType.TOKEN_EOF →
      (scanState n (initLexer s)).current < (scanState (n + 1) (initLexer s)).current) ∧
    (∀ n, (scanNth n (initLexer s)).type = TokenType.TOKEN_EOF →
      (scanNth (n + 1) (initLexer s)).type = TokenType.TOKEN_EOF ∧
      scanState (n + 2) (initLexer s) = scanState (n + 1) (initLexer s)) := by
  refine ⟨?_, ?_, ?_⟩
  · exact exists_eof_within s.length (initLexer s) (Nat.zero_le _) (by simp [initLexer])
  · intro n hn
    rw [scanState_succ_right]
    exact scanToken_progress _ hn
  · intro n hn
    have hst := scanToken_eof_stable (scanState n (initLexer s)) hn
    constructor
    · show (scanToken (scanState (n + 1) (initLexer s))).1.type = TokenType.TOKEN_EOF
      rw [scanState_succ_right, hst]
      exact hn
    · rw [scanState_succ_right (n + 1), scanState_succ_right n, hst]

/-- C3 (refuted on the code): the keyword `super` is not recognised.  The
lexeme `super` is scanned as an identifier, while the six-letter lexemes
`superX` and `supers`, which are not keywords, are scanned as `TOKEN_SUPER`;
`iffy` and `Int` are identifiers as claimed. -/
theorem scanToken_super_misclassified :
    (scanToken (initLexer "super".toList)).1.type = TokenType.TOKEN_IDENTIFIER ∧
    (scanToken (initLexer "superX".toList)).1.type = TokenType.TOKEN_SUPER ∧
    (scanToken (initLexer "supers".toList)).1.type = TokenType.TOKEN_SUPER ∧
    (scanToken (initLexer "iffy".toList)).1.type = TokenType.TOKEN_IDENTIFIER ∧
    (scanToken (initLexer "Int".toList)).1.type = TokenType.TOKEN_IDENTIFIER := by
  decide

/-! ## Scanner: the fuel passed to the loops suffices -/

theorem lineCommentLoop_exit (n : Nat) : ∀ lx, lx.source.length - lx.current ≤ n →
    (peek (lineCommentLoop n lx) != '\n' && !isAtEnd (lineCommentLoop n lx)) = false := by
  induction n with
  | zero =>
    intro lx hn
    cases hb : isAtEnd lx
    · have := lt_of_not_atEnd hb
      omega
    · simp [lineCommentLoop, hb]
  | succ n ih =>
    intro lx hn
    simp only [lineCommentLoop]
    split
    · exact ih _ (by simp only [Mino.advance]; omega)
    · rename_i h
      simpa using h

theorem identifierLoop_exit (n : Nat) : ∀ lx, lx.source.length - lx.current ≤ n →
    (isalpha (peek (identifierLoop n lx)) || isdigit (peek (identifierLoop n lx)) ||
      peek (identifierLoop n lx) == '_') = false := by
  induction n with
  | zero =>
    intro lx hn
    cases hb : isAtEnd lx
    · have := lt_of_not_atEnd hb
      omega
    · rw [identifierLoop, peek_eq_NUL_of_atEnd hb]
      decide
  | succ n ih =>
    intro lx hn
    simp only [identifierLoop]
    split
    · exact ih _ (by simp only [Mino.advance]; omega)
    · rename_i h
      simpa using h

theorem digitLoop_exit (n : Nat) : ∀ lx, lx.source.length - lx.current ≤ n →
    isdigit (peek (digitLoop n lx)) = false := by
  induction n with
  | zero =>
    intro lx hn
    cases hb : isAtEnd lx
    · have := lt_of_not_atEnd hb
      omega
    · rw [digitLoop, peek_eq_NUL_of_atEnd hb]
      decide
  | succ n ih =>
    intro lx hn
    simp only [digitLoop]
    split
    · exact ih _ (by simp only [Mino.advance]; omega)
    · rename_i h
      simpa using h

theorem alphaLoop_exit (n : Nat) : ∀ lx, lx.source.length - lx.current ≤ n →
    isalpha (peek (alphaLoop n lx)) = false := by
  induction n with
  | zero =>
    intro lx hn
    cases hb : isAtEnd lx
    · have := lt_of_not_atEnd hb
      omega
    · rw [alphaLoop, peek_eq_NUL_of_atEnd hb]
      decide
  | succ n ih =>
    intro lx hn
    simp only [alphaLoop]
    split
    · exact ih _ (by simp only [Mino.advance]; omega)
    · rename_i h
      simpa using h

theorem stringLoop_exit (n : Nat) : ∀ lx, lx.source.length - lx.current ≤ n →
    (peek (stringLoop n lx) != DQUOTE && !isAtEnd (stringLoop n lx)) = false := by
  induction n with
  | zero =>
    intro lx hn
    cases hb : isAtEnd lx
    · have := lt_of_not_atEnd hb
      omega
    · simp [stringLoop, hb]
  | succ n ih =>
    intro lx hn
    simp only [stringLoop]
    split
    · split
      · exact ih _ (by simp only [Mino.advance]; omega)
      · exact ih _ (by simp only [Mino.advance]; omega)
    · rename_i h
      simpa using h

theorem not_atEnd_of_peek_eq {lx : Lexer} {c : Char} (h : peek lx = c) (hc : c ≠ NUL) :
    isAtEnd lx = false := not_atEnd_of_peek_ne (by rw [h]; exact hc)

/-- With fuel for every remaining character and one more, the loop of
`skipWhitespace` stops only where the C loop returns. -/
theorem skipWhitespaceLoop_exit (n : Nat) : ∀ lx, lx.source.length - lx.current < n →
    skipDone (skipWhitespaceLoop n lx) = true := by
  induction n with
  | zero => intro lx hn; omega
  | succ n ih =>
    intro lx hn
    simp only [skipWhitespaceLoop]
    split
    · rename_i h
      have hne : isAtEnd lx = false := by
        cases hb : isAtEnd lx
        · rfl
        · rw [peek_eq_NUL_of_atEnd hb] at h
          revert h
          decide
      have := lt_of_not_atEnd hne
      exact ih _ (by simp only [Mino.advance]; omega)
    · rename_i h1
      split
      · rename_i h
        have hne : isAtEnd lx = false := by
          cases hb : isAtEnd lx
          · rfl
          · rw [peek_eq_NUL_of_atEnd hb] at h
            revert h
            decide
        have := lt_of_not_atEnd hne
        exact ih _ (by simp only [Mino.advance]; omega)
      · rename_i h2
        split
        · rename_i h3
          have hne : isAtEnd lx = false :=
            not_atEnd_of_peek_eq (by simpa using h3) (by decide)
          have hlt := lt_of_not_atEnd hne
          split
          · obtain ⟨k, hk⟩ : ∃ k, lx.source.length = k + 1 := ⟨lx.source.length - 1, by omega⟩
            have hstep : lineCommentLoop lx.source.length lx
                = lineCommentLoop k (advance lx).2 := by
              rw [hk]
              simp only [lineCommentLoop]
              rw [if_pos]
              have hp : peek lx = '/' := by simpa using h3
              simp [hp, hne]
            have hadv := lineCommentLoop_adv k (advance lx).2
            apply ih
            rw [hstep, hadv.1]
            have := hadv.2.1
            simp only [Mino.advance] at this ⊢
            omega
          · split
            · rename_i _ h5
              have h2a := @not_atEnd_of_peekNext lx '*' (by simpa using h5) (by decide)
              have hb := blockCommentLoop_adv (advance (advance lx).2).2.source.length
                (advance (advance lx).2).2
              generalize blockCommentLoop (advance (advance lx).2).2.source.length
                (advance (advance lx).2).2 = lx2 at hb ⊢
              have hsrc : lx2.source = lx.source := hb.1
              have hcur : lx.current + 1 + 1 ≤ lx2.current := hb.2.1
              apply ih
              split
              · show lx2.source.length - (lx2.current + 1 + 1) < n
                rw [hsrc]
                omega
              · rw [hsrc]
                omega
            · rename_i h4 h5
              simp only [skipDone]
              simp only [Bool.not_eq_true] at h1 h2 h4 h5
              simp [h1, h2, h4, h5]
        · rename_i h3
          simp only [skipDone]
          simp only [Bool.not_eq_true] at h1 h2 h3
          simp [h1, h2, h3]

theorem skipWhitespace_done (lx : Lexer) : skipDone (skipWhitespace lx) = true :=
  skipWhitespaceLoop_exit _ lx (by omega)

/-! ## Parser: basic facts -/

theorem errorAt_panic (p : Parser) (tok : Token) (msg : List Char) (h : p.panicMode = true) :
    errorAt p tok msg = p := by
  simp [errorAt, h]

theorem errorAt_panicMode (p : Parser) (tok : Token) (msg : List Char) :
    (errorAt p tok msg).panicMode = true := by
  unfold errorAt
  by_cases h : p.panicMode = true <;> simp [h]

theorem errorAt_current (p : Parser) (tok : Token) (msg : List Char) :
    (errorAt p tok msg).current = p.current := by
  unfold errorAt
  by_cases h : p.panicMode = true <;> simp [h]

theorem errorAt_errorAt (p : Parser) (t1 t2 : Token) (m1 m2 : List Char) :
    errorAt (errorAt p t1 m1) t2 m2 = errorAt p t1 m1 :=
  errorAt_panic _ _ _ (errorAt_panicMode p t1 m1)

theorem primary_stuck (fuel : Nat) (p : Parser) (h : stuckInStatement p.current.type = true) :
    primary (fuel + 1) p = some (none, errorAtCurrent p "Expect expression.".toList) := by
  simp [stuckInStatement] at h
  simp [primary, matchAny, pmatch, check, h]

theorem expression_stuck (fuel : Nat) (p : Parser) (h : stuckInStatement p.current.type = true) :
    expression (fuel + 3) p = some (none, errorAtCurrent p "Expect expression.".toList) := by
  have hp := primary_stuck fuel p h
  simp [stuckInStatement] at h
  simp [expression, binary, hp, binaryLoop, matchAny, pmatch, check, errorAtCurrent, errorAt_current, h]

theorem expression_small (p : Parser) (fuel : Nat) (h : fuel < 3) : expression fuel p = none := by
  rcases fuel with _ | _ | _ | n
  · rfl
  · rfl
  · simp [expression, binary, primary]
  · omega

theorem expression_stuck_cases (fuel : Nat) (p : Parser)
    (h : stuckInStatement p.current.type = true) :
    expression fuel p = none ∨
      expression fuel p = some (none, errorAtCurrent p "Expect expression.".toList) := by
  by_cases hf : fuel < 3
  · exact Or.inl (expression_small p fuel hf)
  · obtain ⟨n, rfl⟩ : ∃ n, fuel = n + 3 := ⟨fuel - 3, by omega⟩
    exact Or.inr (expression_stuck n p h)

theorem statement_stuck (fuel : Nat) (p : Parser)
    (h : stuckInStatement p.current.type = true) :
    statement fuel p = none ∨
      statement fuel p = some (none, errorAtCurrent p "Expect expression.".toList) := by
  have hs : statement fuel p = expressionStatement fuel p := by
    simp [stuckInStatement] at h
    simp [statement, matchAny, pmatch, check, h]
  rw [hs]
  rcases expression_stuck_cases fuel p h with he | he
  · left; simp [expressionStatement, he]
  · right
    simp [stuckInStatement] at h
    simp [expressionStatement, he, consume, errorAtCurrent, errorAt_current, errorAt_errorAt, h]

theorem declaration_stuck (fuel : Nat) (p : Parser)
    (h : stuckInStatement p.current.type = true)
    (hi : p.current.type ≠ TokenType.TOKEN_INCLUDE) (hf : p.current.type ≠ TokenType.TOKEN_FUNC) :
    declaration fuel p = none ∨
      declaration fuel p = some (none, errorAtCurrent p "Expect expression.".toList) := by
  have hs : declaration fuel p = statement fuel p := by
    simp [stuckInStatement] at h
    simp [declaration, matchAny, pmatch, check, h, hi, hf]
  rw [hs]
  exact statement_stuck fuel p h

/-- The top-level loop never returns from a state whose current token starts
no declaration and is not consumed by error recovery. -/
theorem parseLoop_stuck (fuel : Nat) : ∀ (p : Parser) (stmts : List (Option ASTNode)),
    stuckInStatement p.current.type = true →
    p.current.type ≠ TokenType.TOKEN_INCLUDE → p.current.type ≠ TokenType.TOKEN_FUNC →
    p.current.type ≠ TokenType.TOKEN_EOF →
    parseLoop fuel p stmts = none := by
  induction fuel with
  | zero => intro p stmts _ _ _ _; rfl
  | succ n ih =>
    intro p stmts h hi hf he
    rcases declaration_stuck n p h hi hf with hd | hd
    · simp [parseLoop, check, he, hd]
    · simp only [parseLoop, check, hd]
      simp [he]
      apply ih
      · simpa [errorAtCurrent, errorAt_current] using h
      · simpa [errorAtCurrent, errorAt_current] using hi
      · simpa [errorAtCurrent, errorAt_current] using hf
      · simpa [errorAtCurrent, errorAt_current] using he

/-- The body loop of a function never returns from such a state either. -/
theorem bodyLoop_stuck (fuel : Nat) : ∀ (p : Parser) (stmts : List (Option ASTNode)),
    stuckInStatement p.current.type = true →
    p.current.type ≠ TokenType.TOKEN_RIGHT_BRACE → p.current.type ≠ TokenType.TOKEN_EOF →
    bodyLoop fuel p stmts = none := by
  induction fuel with
  | zero => intro p stmts _ _ _; rfl
  | succ n ih =>
    intro p stmts h hb he
    rcases statement_stuck n p h with hd | hd
    · simp [bodyLoop, check, he, hb, hd]
    · simp only [bodyLoop, check, hd]
      simp [he, hb]
      apply ih
      · simpa [errorAtCurrent, errorAt_current] using h
      · simpa [errorAtCurrent, errorAt_current] using hb
      · simpa [errorAtCurrent, errorAt_current] using he

theorem parse_stuck (fuel : Nat) (src : List Char)
    (h : stuckInStatement (initParser (initLexer src)).current.type = true)
    (hi : (initParser (initLexer src)).current.type ≠ TokenType.TOKEN_INCLUDE)
    (hf : (initParser (initLexer src)).current.type ≠ TokenType.TOKEN_FUNC)
    (he : (initParser (initLexer src)).current.type ≠ TokenType.TOKEN_EOF) :
    parse fuel src = none := by
  simp [parse, parseLoop_stuck fuel _ [] h hi hf he]

set_option maxRecDepth 4000 in
theorem parse_srcBody (fuel : Nat) : parse fuel srcBody = none := by
  cases fuel with
  | zero => rfl
  | succ n =>
    have hc : check (initParser (initLexer srcBody)) TokenType.TOKEN_EOF = false := by decide
    have hi : check (initParser (initLexer srcBody)) TokenType.TOKEN_INCLUDE = false := by decide
    have hf : (pmatch (initParser (initLexer srcBody)) TokenType.TOKEN_FUNC).1 = true := by decide
    have hd : declaration n (initParser (initLexer srcBody)) = none := by
      unfold declaration
      simp only [hi, hf, if_true, Bool.false_eq_true, if_false]
      unfold functionDeclaration
      simp only []
      split
      · rfl
      · rename_i params p4 heq
        rw [if_neg (by decide)] at heq
        cases heq
        rw [bodyLoop_stuck n _ _ (by decide) (by decide) (by decide)]
    simp [parse, parseLoop, hc, hd]

/-- C1 (refuted on the code): `parse` does not return on every source.  On
the sources `)` and `@`, and on `func f() { ) }`, no amount of fuel makes
`parse` return: the top-level loop, respectively the function-body loop,
re-parses the same unconsumed token forever. -/
theorem parse_never_returns_on_stray_token :
    (∀ fuel, parse fuel ")".toList = none) ∧
    (∀ fuel, parse fuel "@".toList = none) ∧
    (∀ fuel, parse fuel srcBody = none) :=
  ⟨fun fuel => parse_stuck fuel _ (by decide) (by decide) (by decide) (by decide),
   fun fuel => parse_stuck fuel _ (by decide) (by decide) (by decide) (by decide),
   parse_srcBody⟩

theorem reaches_trans {p q r : Parser} (h1 : Reaches p q) (h2 : Reaches q r) : Reaches p r := by
  induction h2 with
  | refl => exact h1
  | advance _ ih => exact Reaches.advance ih
  | error tok msg _ ih => exact Reaches.error tok msg ih

theorem reaches_errorAtCurrent {p q : Parser} (msg : List Char) (h : Reaches p q) :
    Reaches p (errorAtCurrent q msg) := Reaches.error _ _ h

theorem reaches_consume {p q : Parser} (t : TokenType) (msg : List Char)
    (h : Reaches p q) : Reaches p (consume q t msg) := by
  unfold consume
  split
  · exact Reaches.advance h
  · exact reaches_errorAtCurrent msg h

theorem reaches_pmatch {p q : Parser} (t : TokenType) (h : Reaches p q) :
    Reaches p (pmatch q t).2 := by
  unfold pmatch
  split
  · exact h
  · exact Reaches.advance h

theorem reaches_matchAny {p q : Parser} (ts : List TokenType) (h : Reaches p q) :
    Reaches p (matchAny q ts).2 := by
  induction ts with
  | nil => exact h
  | cons t ts ih =>
    unfold matchAny
    split
    · exact reaches_pmatch t h
    · exact ih

theorem expression_reaches (fuel : Nat) :
    (∀ p c r q, finishCall fuel p c = some (r, q) → Reaches p q) ∧
    (∀ p a r q, finishCallArgs fuel p a = some (r, q) → Reaches p q) ∧
    (∀ p c r q, primaryChain fuel p c = some (r, q) → Reaches p q) ∧
    (∀ p r q, primary fuel p = some (r, q) → Reaches p q) ∧
    (∀ p l r q, binaryLoop fuel p l = some (r, q) → Reaches p q) ∧
    (∀ p r q, binary fuel p = some (r, q) → Reaches p q) ∧
    (∀ p r q, expression fuel p = some (r, q) → Reaches p q) := by
  induction fuel with
  | zero =>
    refine ⟨?_, ?_, ?_, ?_, ?_, ?_, ?_⟩ <;> intros <;> rename_i h <;>
      simp [finishCall, finishCallArgs, primaryChain, primary, binaryLoop, binary, expression] at h
  | succ n ih =>
    obtain ⟨ihFC, ihArgs, ihChain, ihPrim, ihBL, ihBin, ihExpr⟩ := ih
    refine ⟨?_, ?_, ?_, ?_, ?_, ?_, ?_⟩
    · intro p c r q h
      simp only [finishCall] at h
      split at h
      · cases h; exact reaches_errorAtCurrent _ (Reaches.refl _)
      · split at h
        · split at h
          · cases h
          · rename_i args p2 hargs
            cases h
            exact reaches_consume _ _
              (reaches_trans (reaches_pmatch _ (Reaches.refl _)) (ihArgs _ _ _ _ hargs))
        · cases h
          exact reaches_consume _ _ (reaches_pmatch _ (Reaches.refl _))
    · intro p a r q h
      simp only [finishCallArgs] at h
      split at h
      · cases h
      · rename_i arg p1 hexpr
        split at h
        · exact reaches_trans (reaches_pmatch _ (ihExpr _ _ _ hexpr)) (ihArgs _ _ _ _ h)
        · cases h; exact ihExpr _ _ _ hexpr
    · intro p c r q h
      simp only [primaryChain] at h
      split at h
      · exact reaches_trans (reaches_consume _ _ (reaches_pmatch _ (Reaches.refl _)))
          (ihChain _ _ _ _ h)
      · split at h
        · exact ihFC _ _ _ _ h
        · cases h; exact Reaches.refl _
    · intro p r q h
      simp only [primary] at h
      split at h
      · cases h; exact reaches_matchAny _ (Reaches.refl _)
      · split at h
        · exact reaches_trans (reaches_pmatch _ (Reaches.refl _)) (ihChain _ _ _ _ h)
        · split at h
          · split at h
            · cases h
            · rename_i e p1 hexpr
              cases h
              exact reaches_consume _ _
                (reaches_trans (reaches_pmatch _ (Reaches.refl _)) (ihExpr _ _ _ hexpr))
          · cases h; exact reaches_errorAtCurrent _ (Reaches.refl _)
    · intro p l r q h
      simp only [binaryLoop] at h
      split at h
      · split at h
        · cases h
        · rename_i right p1 hprim
          exact reaches_trans
            (reaches_trans (reaches_matchAny _ (Reaches.refl _)) (ihPrim _ _ _ hprim))
            (ihBL _ _ _ _ h)
      · cases h; exact Reaches.refl _
    · intro p r q h
      simp only [binary] at h
      split at h
      · cases h
      · rename_i left p1 hprim
        exact reaches_trans (ihPrim _ _ _ hprim) (ihBL _ _ _ _ h)
    · intro p r q h
      simp only [expression] at h
      exact ihBin _ _ _ h

theorem expression_reach {fuel : Nat} {p q : Parser} {r : Option ASTNode}
    (h : expression fuel p = some (r, q)) : Reaches p q :=
  (expression_reaches fuel).2.2.2.2.2.2 p r q h

theorem expressionStatement_reach {fuel : Nat} {p q : Parser} {r : Option ASTNode}
    (h : expressionStatement fuel p = some (r, q)) : Reaches p q := by
  simp only [expressionStatement] at h
  split at h
  · cases h
  · rename_i e p1 he
    cases h
    exact reaches_consume _ _ (expression_reach he)

theorem returnStatement_reach {fuel : Nat} {p q : Parser} {r : Option ASTNode}
    (h : returnStatement fuel p = some (r, q)) : Reaches p q := by
  simp only [returnStatement] at h
  split at h
  · split at h
    · cases h
    · rename_i e p1 he
      cases h
      exact reaches_consume _ _ (expression_reach he)
  · cases h
    exact reaches_consume _ _ (Reaches.refl _)

theorem varDeclaration_reach {fuel : Nat} {p q : Parser} {r : Option ASTNode}
    (h : varDeclaration fuel p = some (r, q)) : Reaches p q := by
  have after : ∀ (p2 : Parser) (name : List Char) (ty : Option ASTNode),
      Reaches p p2 →
      (if (pmatch p2 TokenType.TOKEN_EQUAL).1 = true then
        match expression fuel (pmatch p2 TokenType.TOKEN_EQUAL).2 with
        | none => none
        | some (initializer, p3) =>
          some (some (createVarNode name ty initializer),
            consume p3 TokenType.TOKEN_SEMICOLON "Expect ';' after variable declaration.".toList)
      else
        some (some (createVarNode name ty none),
          consume p2 TokenType.TOKEN_SEMICOLON "Expect ';' after variable declaration.".toList))
        = some (r, q) → Reaches p q := by
    intro p2 name ty hp2 h2
    split at h2
    · split at h2
      · cases h2
      · rename_i e p3 he
        cases h2
        exact reaches_consume _ _
          (reaches_trans (reaches_pmatch _ hp2) (expression_reach he))
    · cases h2
      exact reaches_consume _ _ hp2
  simp only [varDeclaration] at h
  split at h
  · split at h
    · exact after _ _ _ (reaches_matchAny _ (reaches_pmatch _
        (reaches_consume _ _ (Reaches.refl _)))) h
    · cases h
      exact reaches_errorAtCurrent _ (reaches_pmatch _
        (reaches_consume _ _ (Reaches.refl _)))
  · split at h
    · exact after _ _ _ (Reaches.advance (reaches_consume _ _ (Reaches.refl _))) h
    · exact after _ _ _ (reaches_consume _ _ (Reaches.refl _)) h

theorem statement_reach {fuel : Nat} {p q : Parser} {r : Option ASTNode}
    (h : statement fuel p = some (r, q)) : Reaches p q := by
  simp only [statement] at h
  split at h
  · exact reaches_trans (reaches_pmatch _ (Reaches.refl _)) (returnStatement_reach h)
  · split at h
    · exact reaches_trans (reaches_matchAny _ (Reaches.refl _)) (varDeclaration_reach h)
    · exact expressionStatement_reach h

theorem paramLoop_reach (fuel : Nat) : ∀ {p q : Parser} {ps r : List ASTNode},
    paramLoop fuel p ps = some (r, q) → Reaches p q := by
  induction fuel with
  | zero => intro p q ps r h; simp [paramLoop] at h
  | succ n ih =>
    intro p q ps r h
    simp only [paramLoop] at h
    split at h
    · cases h; exact reaches_errorAtCurrent _ (Reaches.refl _)
    · split at h
      · exact reaches_trans (reaches_pmatch _ (reaches_consume _ _
          (reaches_matchAny _ (Reaches.refl _)))) (ih h)
      · cases h
        exact reaches_consume _ _ (reaches_matchAny _ (Reaches.refl _))

theorem bodyLoop_reach (fuel : Nat) : ∀ {p q : Parser} {ss r : List (Option ASTNode)},
    bodyLoop fuel p ss = some (r, q) → Reaches p q := by
  induction fuel with
  | zero => intro p q ss r h; simp [bodyLoop] at h
  | succ n ih =>
    intro p q ss r h
    simp only [bodyLoop] at h
    split at h
    · split at h
      · cases h
      · rename_i stmt p1 hs
        split at h
        · exact reaches_trans (statement_reach hs) (ih h)
        · exact reaches_trans (statement_reach hs) (ih h)
    · cases h; exact Reaches.refl _

theorem functionDeclaration_reach {fuel : Nat} {p q : Parser} {r : Option ASTNode}
    (h : functionDeclaration fuel p = some (r, q)) : Reaches p q := by
  unfold functionDeclaration at h
  lift_lets at h
  extract_lets hasType p1 returnType p2 name p3 at h
  simp only [] at h
  have h1 : Reaches p p1 := by
    show Reaches p (if hasType = true then p.advance else p)
    split
    · exact Reaches.advance (Reaches.refl _)
    · exact Reaches.refl _
  have h3 : Reaches p p3 := reaches_consume _ _ (reaches_consume _ _ h1)
  split at h
  · cases h
  · rename_i params p4 hparams
    have h4 : Reaches p p4 := by
      split at hparams
      · exact reaches_trans h3 (paramLoop_reach _ hparams)
      · cases hparams; exact h3
    split at h
    · cases h
    · rename_i body p7 hbody
      cases h
      exact reaches_consume _ _ (reaches_trans
        (reaches_consume _ _ (reaches_consume _ _ h4)) (bodyLoop_reach _ hbody))

theorem includeDeclaration_reach (fuel : Nat) : ∀ {p q : Parser} {r : Option ASTNode},
    includeDeclaration fuel p = some (r, q) → Reaches p q := by
  induction fuel with
  | zero => intro p q r h; simp [includeDeclaration] at h
  | succ n ih =>
    intro p q r h
    simp only [includeDeclaration] at h
    split at h
    · exact reaches_trans (Reaches.advance (Reaches.refl _)) (ih h)
    · cases h; exact Reaches.refl _

theorem declaration_reach {fuel : Nat} {p q : Parser} {r : Option ASTNode}
    (h : declaration fuel p = some (r, q)) : Reaches p q := by
  simp only [declaration] at h
  split at h
  · exact reaches_trans (Reaches.advance (Reaches.refl _)) (includeDeclaration_reach _ h)
  · split at h
    · exact reaches_trans (reaches_pmatch _ (Reaches.refl _)) (functionDeclaration_reach h)
    · split at h
      · exact reaches_trans (reaches_matchAny _ (Reaches.refl _)) (varDeclaration_reach h)
      · exact statement_reach h

theorem parseLoop_reach (fuel : Nat) : ∀ {p q : Parser} {ss r : List (Option ASTNode)},
    parseLoop fuel p ss = some (r, q) → Reaches p q := by
  induction fuel with
  | zero => intro p q ss r h; simp [parseLoop] at h
  | succ n ih =>
    intro p q ss r h
    simp only [parseLoop] at h
    split at h
    · split at h
      · cases h
      · rename_i stmt p1 hs
        split at h
        · exact reaches_trans (declaration_reach hs) (ih h)
        · exact reaches_trans (declaration_reach hs) (ih h)
    · cases h; exact Reaches.refl _

theorem errorFlagSound_of_reaches {p q : Parser} (h : Reaches p q) (hp : errorFlagSound p) :
    errorFlagSound q := by
  induction h with
  | refl => exact hp
  | advance _ ih => exact ih
  | error tok msg _ ih =>
    unfold errorAt
    split
    · exact ih
    · simp [errorFlagSound]

theorem errorFlagSound_init (lx : Lexer) : errorFlagSound (initParser lx) := by
  simp [errorFlagSound, initParser, Parser.advance]

/-- C2: whenever `parse` returns, it returns NULL exactly when `hadError` is
set, `hadError` is set exactly when at least one diagnostic was written, and
without an error the result is a Program node; the declaration with a missing
closing parenthesis and the call `f(1, 2;` each return NULL after one
diagnostic. -/
theorem parse_null_iff_diagnostic :
    (∀ (fuel : Nat) (source : List Char) (ast : Option ASTNode) (p : Parser),
      parse fuel source = some (ast, p) →
        (ast = none ↔ p.hadError = true) ∧ (p.hadError = true ↔ p.diagnostics ≠ []) ∧
        (p.hadError = false → ∃ stmts, ast = some (ASTNode.program 0 stmts))) ∧
    (parse 16 srcMissingParen).map
      (fun r => (r.1.isNone, r.2.hadError, r.2.diagnostics.length)) = some (true, true, 1) ∧
    (parse 16 srcCallMissingParen).map
      (fun r => (r.1.isNone, r.2.hadError, r.2.diagnostics.length)) = some (true, true, 1) := by
  refine ⟨?_, by decide!, by decide!⟩
  intro fuel source ast p h
  simp only [parse] at h
  split at h
  · cases h
  · rename_i stmts p1 hloop
    have hs : errorFlagSound p1 :=
      errorFlagSound_of_reaches (parseLoop_reach _ hloop) (errorFlagSound_init _)
    split at h
    · rename_i herr
      cases h
      exact ⟨by simp [herr], hs, by simp [herr]⟩
    · rename_i herr
      cases h
      refine ⟨by simp [herr], hs, fun _ => ⟨stmts, rfl⟩⟩

/-- Witness for C2: the general statement applied to the run of `parse` on
the declaration with the missing parenthesis. -/
theorem parse_null_iff_diagnostic_witness :
    ∃ p, parse 16 srcMissingParen = some (none, p) ∧ p.diagnostics ≠ [] := by
  cases h : parse 16 srcMissingParen with
  | none =>
    have h2 := parse_null_iff_diagnostic.2.1
    rw [h] at h2
    cases h2
  | some r =>
    obtain ⟨ast, p⟩ := r
    have h2 := parse_null_iff_diagnostic.2.1
    rw [h] at h2
    simp only [Option.map_some', Option.some.injEq, Prod.mk.injEq] at h2
    have h3 := parse_null_iff_diagnostic.1 16 srcMissingParen ast p h
    have hnone : ast = none := by
      cases ast with
      | none => rfl
      | some a => simp at h2
    subst hnone
    exact ⟨p, rfl, h3.2.1.mp (h3.1.mp rfl)⟩

/-! ## Symbol table -/

theorem unlinkDepth_fst (d : Int) (b : List Symbol) :
    (unlinkDepth d b).1 = b.filter (fun s => decide (s.scopeDepth ≠ d)) := by
  induction b with
  | nil => rfl
  | cons s rest ih =>
    simp only [unlinkDepth]
    by_cases h : s.scopeDepth = d
    · simp [h, ih]
    · simp [h, ih]

theorem unlinkDepth_snd (d : Int) (b : List Symbol) :
    (unlinkDepth d b).2 + (unlinkDepth d b).1.length = b.length := by
  induction b with
  | nil => rfl
  | cons s rest ih =>
    simp only [unlinkDepth]
    by_cases h : s.scopeDepth = d
    · simp [h]; omega
    · simp [h]; omega

theorem unlinkAll_fst (d : Int) (bs : List (List Symbol)) :
    (unlinkAll d bs).1 = bs.map (fun b => b.filter (fun s => decide (s.scopeDepth ≠ d))) := by
  induction bs with
  | nil => rfl
  | cons b rest ih => simp [unlinkAll, ih, unlinkDepth_fst]

theorem unlinkAll_snd (d : Int) (bs : List (List Symbol)) :
    (unlinkAll d bs).2 + (unlinkAll d bs).1.flatten.length = bs.flatten.length := by
  induction bs with
  | nil => rfl
  | cons b rest ih =>
    have := unlinkDepth_snd d b
    simp only [unlinkAll, List.flatten_cons, List.length_append]
    omega

theorem definedInChain_iff (name : List Char) (d : Int) (b : List Symbol) :
    definedInChain name d b = true ↔ ∃ s ∈ b, s.name = name ∧ s.scopeDepth = d := by
  induction b with
  | nil => simp [definedInChain]
  | cons s rest ih =>
    simp only [definedInChain]
    by_cases h : s.name = name ∧ s.scopeDepth = d
    · simp [h]
    · rw [if_neg h, ih]
      constructor
      · rintro ⟨x, hx, hk⟩
        exact ⟨x, List.mem_cons_of_mem _ hx, hk⟩
      · rintro ⟨x, hx, hk⟩
        rcases List.mem_cons.mp hx with rfl | hx
        · exact absurd hk h
        · exact ⟨x, hx, hk⟩

theorem mem_symbols_iff (t : SymbolTable) (s : Symbol) :
    s ∈ t.symbols ↔ ∃ i, s ∈ t.buckets.getD i [] := by
  simp only [SymbolTable.symbols, List.mem_flatten]
  constructor
  · rintro ⟨b, hb, hs⟩
    obtain ⟨i, hi, rfl⟩ := List.getElem_of_mem hb
    exact ⟨i, by simpa [List.getD_eq_getElem?_getD, List.getElem?_eq_getElem hi] using hs⟩
  · rintro ⟨i, hs⟩
    by_cases hi : i < t.buckets.length
    · refine ⟨t.buckets[i], List.getElem_mem hi, ?_⟩
      simpa [List.getD_eq_getElem?_getD, List.getElem?_eq_getElem hi] using hs
    · simp [List.getD_eq_getElem?_getD, List.getElem?_eq_none (not_lt.mp hi)] at hs

theorem getD_set_self (bs : List (List Symbol)) (i : Nat) (b : List Symbol) (h : i < bs.length) :
    (bs.set i b).getD i [] = b := by
  simp [List.getD_eq_getElem?_getD, List.getElem?_set, h]

theorem getD_set_ne (bs : List (List Symbol)) (i j : Nat) (b : List Symbol) (h : i ≠ j) :
    (bs.set i b).getD j [] = bs.getD j [] := by
  simp [List.getD_eq_getElem?_getD, List.getElem?_set, h]

theorem flatten_length_set (bs : List (List Symbol)) : ∀ (i : Nat) (s : Symbol), i < bs.length →
    (bs.set i (s :: bs.getD i [])).flatten.length = bs.flatten.length + 1 := by
  induction bs with
  | nil => intro i s h; simp at h
  | cons b rest ih =>
    intro i s h
    cases i with
    | zero => simp
    | succ i =>
      have := ih i s (by simpa using h)
      simp only [List.set_cons_succ, List.flatten_cons, List.length_append]
      simp only [List.getD_cons_succ]
      omega

theorem hash_mod_lt (name : List Char) : hash name % TABLE_SIZE < TABLE_SIZE :=
  Nat.mod_lt _ (by decide)

theorem createSymbolTable_wf : createSymbolTable.WF := by
  refine ⟨rfl, by simp [createSymbolTable], le_refl _, ?_, ?_, ?_⟩
  · intro i s hs
    simp [createSymbolTable, List.getD_eq_getElem?_getD, List.getElem?_replicate] at hs
    split at hs <;> simp at hs
  · intro i
    have : createSymbolTable.buckets.getD i [] = [] := by
      simp [createSymbolTable, List.getD_eq_getElem?_getD, List.getElem?_replicate]
      split <;> simp
    rw [this]
    exact List.Pairwise.nil
  · simp [createSymbolTable, SymbolTable.symbols]

theorem enterScope_wf {t : SymbolTable} (h : t.WF) : (enterScope t).2.WF := by
  refine ⟨h.capacity_eq, h.length_eq, ?_, ?_, h.distinct, h.count_eq⟩
  · have := h.depth_nonneg
    simp only [enterScope]
    omega
  · intro i s hs
    have := h.placed i s hs
    simp only [enterScope]
    omega

theorem getD_map_filter (bs : List (List Symbol)) (p : Symbol → Bool) (i : Nat) :
    (bs.map (fun b => b.filter p)).getD i [] = (bs.getD i []).filter p := by
  simp only [List.getD_eq_getElem?_getD, List.getElem?_map]
  cases bs[i]? <;> simp

theorem exitScope_wf {t : SymbolTable} (h : t.WF) : (exitScope t).2.WF := by
  unfold exitScope
  split
  · exact h
  · rename_i hd
    have hfst := unlinkAll_fst t.scopeDepth t.buckets
    have hsnd := unlinkAll_snd t.scopeDepth t.buckets
    refine ⟨h.capacity_eq, ?_, ?_, ?_, ?_, ?_⟩
    · simp only [hfst, List.length_map]
      exact h.length_eq
    · simp only
      omega
    · intro i s hs
      simp only [hfst, getD_map_filter, List.mem_filter, decide_eq_true_eq] at hs
      have := h.placed i s hs.1
      have hne := hs.2
      simp only
      omega
    · intro i
      simp only [hfst, getD_map_filter]
      exact (h.distinct i).filter _
    · have hc := h.count_eq
      simp only [SymbolTable.symbols] at hc ⊢
      omega

theorem defineSymbol_wf {t : SymbolTable} (h : t.WF) (name : List Char) (type : SymbolType)
    (typeNode : Option ASTNode) (line : Nat) : (defineSymbol t name type typeNode line).2.WF := by
  unfold defineSymbol
  simp only []
  split
  · exact h
  · rename_i hdef
    have hidx : hash name % t.capacity < t.buckets.length := by
      rw [h.capacity_eq, h.length_eq]
      exact hash_mod_lt name
    have hnot : ¬ ∃ s ∈ t.buckets.getD (hash name % t.capacity) [],
        s.name = name ∧ s.scopeDepth = t.scopeDepth := by
      rw [← definedInChain_iff]
      exact hdef
    refine ⟨h.capacity_eq, ?_, h.depth_nonneg, ?_, ?_, ?_⟩
    · simp only [List.length_set]
      exact h.length_eq
    · intro i s hs
      by_cases hi : hash name % t.capacity = i
      · subst hi
        simp only [getD_set_self _ _ _ hidx, List.mem_cons] at hs
        rcases hs with rfl | hs
        · refine ⟨?_, h.depth_nonneg, le_refl _⟩
          simp only [h.capacity_eq]
        · exact h.placed _ s hs
      · simp only [getD_set_ne _ _ _ _ hi] at hs
        exact h.placed i s hs
    · intro i
      by_cases hi : hash name % t.capacity = i
      · subst hi
        simp only [getD_set_self _ _ _ hidx]
        refine List.Pairwise.cons ?_ (h.distinct _)
        intro c hc hk
        exact hnot ⟨c, hc, hk.1.symm, hk.2.symm⟩
      · simp only [getD_set_ne _ _ _ _ hi]
        exact h.distinct i
    · have hc := h.count_eq
      have hl := flatten_length_set t.buckets (hash name % t.capacity)
        { name := name, type := type, typeNode := typeNode,
          scopeDepth := t.scopeDepth, definedLine := line } hidx
      simp only [SymbolTable.symbols] at hc ⊢
      rw [hl, hc]
      push_cast
      ring

theorem TableReachable.wf {t : SymbolTable} (h : TableReachable t) : t.WF := by
  induction h with
  | create => exact createSymbolTable_wf
  | enter _ ih => exact enterScope_wf ih
  | exit _ ih => exact exitScope_wf ih
  | define name type typeNode line _ ih => exact defineSymbol_wf ih name type typeNode line

theorem resolveLoop_spec (name : List Char) : ∀ (b : List Symbol) (found : Option Symbol)
    (fd : Int), (∀ s ∈ b, 0 ≤ s.scopeDepth) → (found = none → fd = -1) →
    (∀ f, found = some f → f.name = name ∧ f.scopeDepth = fd) →
    (resolveLoop name b found fd = none ↔ found = none ∧ ∀ s ∈ b, s.name ≠ name) ∧
    (∀ r, resolveLoop name b found fd = some r →
      (found = some r ∨ r ∈ b) ∧ r.name = name ∧ fd ≤ r.scopeDepth ∧
      ∀ s ∈ b, s.name = name → s.scopeDepth ≤ r.scopeDepth) := by
  intro b
  induction b with
  | nil =>
    intro found fd _ _ hf
    simp only [resolveLoop]
    refine ⟨by simp, ?_⟩
    intro r hr
    have := hf r hr
    exact ⟨Or.inl hr, this.1, by omega, by simp⟩
  | cons s rest ih =>
    intro found fd hb hn hf
    have hrest : ∀ x ∈ rest, 0 ≤ x.scopeDepth := fun x hx => hb x (List.mem_cons_of_mem _ hx)
    have hs0 : 0 ≤ s.scopeDepth := hb s (List.mem_cons_self _ _)
    simp only [resolveLoop]
    by_cases hc : s.name = name ∧ s.scopeDepth > fd
    · rw [if_pos hc]
      obtain ⟨i1, i2⟩ := ih (some s) s.scopeDepth hrest (by simp)
        (by intro f hfe; cases hfe; exact ⟨hc.1, rfl⟩)
      constructor
      · constructor
        · intro h0
          have := i1.mp h0
          simp at this
        · rintro ⟨_, hall⟩
          exact absurd hc.1 (hall s (List.mem_cons_self _ _))
      · intro r hr
        obtain ⟨h1, h2, h3, h4⟩ := i2 r hr
        refine ⟨?_, h2, by omega, ?_⟩
        · rcases h1 with h1 | h1
          · cases h1; exact Or.inr (List.mem_cons_self _ _)
          · exact Or.inr (List.mem_cons_of_mem _ h1)
        · intro x hx hxn
          rcases List.mem_cons.mp hx with rfl | hx
          · exact h3
          · exact h4 x hx hxn
    · rw [if_neg hc]
      obtain ⟨i1, i2⟩ := ih found fd hrest hn hf
      constructor
      · rw [i1]
        constructor
        · rintro ⟨h0, hall⟩
          refine ⟨h0, ?_⟩
          intro x hx
          rcases List.mem_cons.mp hx with rfl | hx
          · intro hxn
            have := hn h0
            exact hc ⟨hxn, by omega⟩
          · exact hall x hx
        · rintro ⟨h0, hall⟩
          exact ⟨h0, fun x hx => hall x (List.mem_cons_of_mem _ hx)⟩
      · intro r hr
        obtain ⟨h1, h2, h3, h4⟩ := i2 r hr
        refine ⟨?_, h2, h3, ?_⟩
        · rcases h1 with h1 | h1
          · exact Or.inl h1
          · exact Or.inr (List.mem_cons_of_mem _ h1)
        · intro x hx hxn
          rcases List.mem_cons.mp hx with rfl | hx
          · have : ¬ x.scopeDepth > fd := fun hgt => hc ⟨hxn, hgt⟩
            omega
          · exact h4 x hx hxn

theorem eq_of_sameKey (b : List Symbol) (hp : b.Pairwise (fun a c => ¬ sameKey a c)) :
    ∀ a ∈ b, ∀ c ∈ b, sameKey a c → a = c := by
  induction b with
  | nil => intro a ha; simp at ha
  | cons x rest ih =>
    obtain ⟨hx, hrest⟩ := List.pairwise_cons.mp hp
    intro a ha c hc hk
    rcases List.mem_cons.mp ha with ha1 | ha1
    · rcases List.mem_cons.mp hc with hc1 | hc1
      · rw [ha1, hc1]
      · rw [ha1] at hk
        exact absurd hk (hx c hc1)
    · rcases List.mem_cons.mp hc with hc1 | hc1
      · rw [hc1] at hk
        exact absurd ⟨hk.1.symm, hk.2.symm⟩ (hx a ha1)
      · exact ih hrest a ha1 c hc1 hk

theorem mem_bucket_of_mem_symbols {t : SymbolTable} (h : t.WF) {s : Symbol}
    (hs : s ∈ t.symbols) : s ∈ t.buckets.getD (hash s.name % t.capacity) [] := by
  obtain ⟨i, hi⟩ := (mem_symbols_iff t s).mp hs
  have := (h.placed i s hi).1
  rw [h.capacity_eq, this]
  exact hi

theorem tableShadowX_reachable : TableReachable tableShadowX :=
  TableReachable.define _ _ _ _ (TableReachable.enter (TableReachable.define _ _ _ _
    TableReachable.create))

/-- C5: on a table built by the symbol-table operations, `resolveSymbol`
returns nothing exactly when no stored symbol has the name; otherwise it
returns a stored symbol of that name whose depth is at most the current depth
and at least the depth of every stored symbol of that name, and it is the
only stored symbol of that name and depth. -/
theorem resolveSymbol_innermost (t : SymbolTable) (h : TableReachable t) (name : List Char) :
    (resolveSymbol t name = none ↔ ∀ s ∈ t.symbols, s.name ≠ name) ∧
    (∀ r, resolveSymbol t name = some r →
      r ∈ t.symbols ∧ r.name = name ∧ r.scopeDepth ≤ t.scopeDepth ∧
      (∀ s ∈ t.symbols, s.name = name → s.scopeDepth ≤ r.scopeDepth) ∧
      (∀ s ∈ t.symbols, s.name = name → s.scopeDepth = r.scopeDepth → s = r)) := by
  have wf := h.wf
  have hb : ∀ s ∈ t.buckets.getD (hash name % t.capacity) [], 0 ≤ s.scopeDepth :=
    fun s hs => (wf.placed _ s hs).2.1
  obtain ⟨i1, i2⟩ := resolveLoop_spec name (t.buckets.getD (hash name % t.capacity) []) none (-1)
    hb (fun _ => rfl) (by intro f hf; cases hf)
  have hin : ∀ s ∈ t.symbols, s.name = name →
      s ∈ t.buckets.getD (hash name % t.capacity) [] := by
    intro s hs hn
    have := mem_bucket_of_mem_symbols wf hs
    rwa [hn] at this
  constructor
  · unfold resolveSymbol
    rw [i1]
    constructor
    · rintro ⟨_, hall⟩ s hs hn
      exact hall s (hin s hs hn) hn
    · intro hall
      exact ⟨rfl, fun s hs => hall s ((mem_symbols_iff t s).mpr ⟨_, hs⟩)⟩
  · intro r hr
    obtain ⟨h1, h2, _, h4⟩ := i2 r hr
    have hrb : r ∈ t.buckets.getD (hash name % t.capacity) [] := by
      rcases h1 with h1 | h1
      · cases h1
      · exact h1
    refine ⟨(mem_symbols_iff t r).mpr ⟨_, hrb⟩, h2, (wf.placed _ r hrb).2.2, ?_, ?_⟩
    · intro s hs hn
      exact h4 s (hin s hs hn) hn
    · intro s hs hn hd
      exact eq_of_sameKey _ (wf.distinct _) s (hin s hs hn) r hrb ⟨hn.trans h2.symm, hd⟩

/-- Witness for C5: in the table where `x` is defined at depth 0 and shadowed
at depth 1, the lookup of `x` returns the symbol of depth 1 (line 2). -/
theorem resolveSymbol_innermost_witness :
    TableReachable tableShadowX ∧
    (resolveSymbol tableShadowX "x".toList).map (fun s => (s.scopeDepth, s.definedLine))
      = some (1, 2) ∧
    (∀ r, resolveSymbol tableShadowX "x".toList = some r →
      ∀ s ∈ tableShadowX.symbols, s.name = "x".toList → s.scopeDepth ≤ r.scopeDepth) :=
  ⟨tableShadowX_reachable, by decide!,
    fun r hr => ((resolveSymbol_innermost tableShadowX tableShadowX_reachable
      "x".toList).2 r hr).2.2.2.1⟩

theorem mem_symbols_define (t : SymbolTable) (i : Nat) (hi : i < t.buckets.length)
    (sym s : Symbol) :
    s ∈ ({ t with buckets := t.buckets.set i (sym :: t.buckets.getD i []) } : SymbolTable).symbols
      ↔ s = sym ∨ s ∈ t.symbols := by
  rw [mem_symbols_iff, mem_symbols_iff]
  constructor
  · rintro ⟨j, hj⟩
    by_cases hij : i = j
    · subst hij
      simp only [getD_set_self _ _ _ hi, List.mem_cons] at hj
      rcases hj with hj | hj
      · exact Or.inl hj
      · exact Or.inr ⟨_, hj⟩
    · simp only [getD_set_ne _ _ _ _ hij] at hj
      exact Or.inr ⟨_, hj⟩
  · rintro (h | ⟨j, hj⟩)
    · refine ⟨i, ?_⟩
      simp only [getD_set_self _ _ _ hi, List.mem_cons]
      exact Or.inl h
    · refine ⟨j, ?_⟩
      by_cases hij : i = j
      · subst hij
        simp only [getD_set_self _ _ _ hi, List.mem_cons]
        exact Or.inr hj
      · simpa only [getD_set_ne _ _ _ _ hij] using hj

/-- C6: on a table built by the symbol-table operations, `defineSymbol` fails
exactly when a symbol of that name is stored at the current depth, and then
leaves the table unchanged; otherwise it stores exactly one more symbol, of
the given name and recorded at the current depth.  Defining `x` twice at one
depth fails the second time; defining `x` at depth 0 and again after
`enterScope` succeeds both times. -/
theorem defineSymbol_fails_iff_defined :
    (∀ (t : SymbolTable), TableReachable t →
      ∀ (name : List Char) (type : SymbolType) (typeNode : Option ASTNode) (line : Nat),
        ((defineSymbol t name type typeNode line).1 = false ↔
          ∃ s ∈ t.symbols, s.name = name ∧ s.scopeDepth = t.scopeDepth) ∧
        ((defineSymbol t name type typeNode line).1 = false →
          (defineSymbol t name type typeNode line).2 = t) ∧
        ((defineSymbol t name type typeNode line).1 = true →
          (∀ s, s ∈ (defineSymbol t name type typeNode line).2.symbols ↔
            s = { name := name, type := type, typeNode := typeNode,
                  scopeDepth := t.scopeDepth, definedLine := line } ∨ s ∈ t.symbols) ∧
          (defineSymbol t name type typeNode line).2.symbols.length = t.symbols.length + 1 ∧
          (defineSymbol t name type typeNode line).2.count = t.count + 1 ∧
          (defineSymbol t name type typeNode line).2.scopeDepth = t.scopeDepth)) ∧
    (defineSymbol createSymbolTable "x".toList SymbolType.SYM_VARIABLE none 1).1 = true ∧
    (defineSymbol tableOuterX "x".toList SymbolType.SYM_VARIABLE none 2).1 = false ∧
    (defineSymbol (enterScope tableOuterX).2 "x".toList SymbolType.SYM_VARIABLE none 2).1
      = true := by
  refine ⟨?_, by decide!, by decide!, by decide!⟩
  intro t h name type typeNode line
  have wf := h.wf
  have hidx : hash name % t.capacity < t.buckets.length := by
    rw [wf.capacity_eq, wf.length_eq]
    exact hash_mod_lt name
  have hiff : definedInChain name t.scopeDepth (t.buckets.getD (hash name % t.capacity) []) = true
      ↔ ∃ s ∈ t.symbols, s.name = name ∧ s.scopeDepth = t.scopeDepth := by
    rw [definedInChain_iff]
    constructor
    · rintro ⟨s, hs, hk⟩
      exact ⟨s, (mem_symbols_iff t s).mpr ⟨_, hs⟩, hk⟩
    · rintro ⟨s, hs, hk⟩
      have := mem_bucket_of_mem_symbols wf hs
      rw [hk.1] at this
      exact ⟨s, this, hk⟩
  unfold defineSymbol
  simp only []
  by_cases hdef : definedInChain name t.scopeDepth
      (t.buckets.getD (hash name % t.capacity) []) = true
  · rw [if_pos hdef]
    exact ⟨⟨fun _ => hiff.mp hdef, fun _ => rfl⟩, fun _ => rfl, fun hc => by simp at hc⟩
  · rw [if_neg hdef]
    refine ⟨⟨fun hc => by simp at hc, fun hex => absurd (hiff.mpr hex) hdef⟩,
      fun hc => by simp at hc, fun _ => ⟨?_, ?_, rfl, rfl⟩⟩
    · intro s
      exact mem_symbols_define t _ hidx _ s
    · exact flatten_length_set t.buckets _ _ hidx

/-- Witness for C6: the general statement at the table holding `x` at depth
0, for a second definition of `x`. -/
theorem defineSymbol_fails_iff_defined_witness :
    TableReachable tableOuterX ∧
    ∃ s ∈ tableOuterX.symbols, s.name = "x".toList ∧ s.scopeDepth = tableOuterX.scopeDepth :=
  ⟨TableReachable.define _ _ _ _ TableReachable.create,
    ((defineSymbol_fails_iff_defined.1 tableOuterX
      (TableReachable.define _ _ _ _ TableReachable.create)
      "x".toList SymbolType.SYM_VARIABLE none 2).1).mp defineSymbol_fails_iff_defined.2.2.1⟩

theorem flatten_map_filter (p : Symbol → Bool) (bs : List (List Symbol)) :
    (bs.map (fun b => b.filter p)).flatten = bs.flatten.filter p := by
  induction bs with
  | nil => rfl
  | cons b rest ih =>
    simp only [List.map_cons, List.flatten_cons, List.filter_append, ih]

theorem unlinkDepth_of_lt (d : Int) (b : List Symbol) (h : ∀ s ∈ b, s.scopeDepth < d) :
    unlinkDepth d b = (b, 0) := by
  induction b with
  | nil => rfl
  | cons s rest ih =>
    have hs := h s (List.mem_cons_self _ _)
    have hr := ih (fun x hx => h x (List.mem_cons_of_mem _ hx))
    simp only [unlinkDepth, hr]
    rw [if_neg (by omega)]

theorem unlinkAll_of_lt (d : Int) (bs : List (List Symbol))
    (h : ∀ b ∈ bs, ∀ s ∈ b, s.scopeDepth < d) : unlinkAll d bs = (bs, 0) := by
  induction bs with
  | nil => rfl
  | cons b rest ih =>
    have hb := unlinkDepth_of_lt d b (h b (List.mem_cons_self _ _))
    have hr := ih (fun x hx => h x (List.mem_cons_of_mem _ hx))
    simp only [unlinkAll, hb, hr]

theorem unlinkAll_set (d : Int) (bs : List (List Symbol)) : ∀ (i : Nat) (s : Symbol),
    i < bs.length → s.scopeDepth = d →
    unlinkAll d (bs.set i (s :: bs.getD i [])) = ((unlinkAll d bs).1, (unlinkAll d bs).2 + 1) := by
  induction bs with
  | nil => intro i s h; simp at h
  | cons b rest ih =>
    intro i s h hd
    cases i with
    | zero =>
      simp only [List.set_cons_zero, List.getD_cons_zero, unlinkAll, unlinkDepth, hd, if_true]
      congr 1
      omega
    | succ i =>
      have := ih i s (by simpa using h) hd
      simp only [List.set_cons_succ, List.getD_cons_succ, unlinkAll, this]
      congr 1

theorem innerOf_enterScope {t : SymbolTable} (h : t.WF) : InnerOf t (enterScope t).2 := by
  have hall : ∀ b ∈ t.buckets, ∀ s ∈ b, s.scopeDepth < t.scopeDepth + 1 := by
    intro b hb s hs
    obtain ⟨i, hi, rfl⟩ := List.getElem_of_mem hb
    have := (h.placed i s
      (by simpa [List.getD_eq_getElem?_getD, List.getElem?_eq_getElem hi] using hs)).2.2
    omega
  have hu := unlinkAll_of_lt _ _ hall
  refine ⟨rfl, rfl, rfl, ?_, ?_⟩
  · simp only [enterScope, hu]
  · simp only [enterScope, hu]
    simp

theorem innerOf_defineSymbol {t u : SymbolTable} (h : t.WF) (hi : InnerOf t u)
    (name : List Char) (type : SymbolType) (typeNode : Option ASTNode) (line : Nat) :
    InnerOf t (defineSymbol u name type typeNode line).2 := by
  obtain ⟨hc, hl, hd, hb, hn⟩ := hi
  unfold defineSymbol
  simp only []
  split
  · exact ⟨hc, hl, hd, hb, hn⟩
  · have hidx : hash name % u.capacity < u.buckets.length := by
      rw [hc, hl, h.capacity_eq, h.length_eq]
      exact hash_mod_lt name
    have hs := unlinkAll_set (t.scopeDepth + 1) u.buckets (hash name % u.capacity)
      { name := name, type := type, typeNode := typeNode,
        scopeDepth := u.scopeDepth, definedLine := line } hidx hd
    refine ⟨hc, ?_, hd, ?_, ?_⟩
    · simp only [List.length_set]
      exact hl
    · simp only [hs]
      exact hb
    · simp only [hs]
      push_cast
      omega

theorem innerOf_defineAll {t : SymbolTable} (h : t.WF) :
    ∀ (defs : List (List Char × SymbolType × Option ASTNode × Nat)) (u v : SymbolTable),
    InnerOf t u → defineAll u defs = some v → InnerOf t v := by
  intro defs
  induction defs with
  | nil =>
    intro u v hi hv
    simp only [defineAll, Option.some.injEq] at hv
    exact hv ▸ hi
  | cons d rest ih =>
    intro u v hi hv
    obtain ⟨name, type, typeNode, line⟩ := d
    simp only [defineAll] at hv
    split at hv
    · exact ih _ v (innerOf_defineSymbol h hi name type typeNode line) hv
    · cases hv

theorem exitScope_of_innerOf {t u : SymbolTable} (h : t.WF) (hi : InnerOf t u) :
    exitScope u = (true, t) := by
  obtain ⟨hc, _, hd, hb, hn⟩ := hi
  have h0 := h.depth_nonneg
  unfold exitScope
  rw [if_neg (by omega)]
  rw [hd, hb, hn]
  cases t
  simp_all

/-- C7: `exitScope` at a depth `d > 0` succeeds, lowers the depth to `d - 1`
and keeps, in order, exactly the symbols whose depth is not `d`; and on a
table built by the symbol-table operations, `enterScope`, any run of
successful `defineSymbol` calls and `exitScope` give back the table as it was,
so that `resolveSymbol` answers as before for every name.  An outer `x`
(line 1) shadowed by an inner `x` (line 2) resolves to the inner one inside
the scope and to the outer one after `exitScope`. -/
theorem exitScope_restores_outer_scope :
    (∀ (t : SymbolTable), 0 < t.scopeDepth →
      (exitScope t).1 = true ∧ (exitScope t).2.scopeDepth = t.scopeDepth - 1 ∧
      (exitScope t).2.symbols =
        t.symbols.filter (fun s => decide (s.scopeDepth ≠ t.scopeDepth))) ∧
    (∀ (t : SymbolTable), TableReachable t →
      ∀ (defs : List (List Char × SymbolType × Option ASTNode × Nat)) (u : SymbolTable),
        defineAll (enterScope t).2 defs = some u →
        (exitScope u).2 = t ∧
        ∀ name, resolveSymbol (exitScope u).2 name = resolveSymbol t name) ∧
    (resolveSymbol tableShadowX "x".toList).map (fun s => s.definedLine) = some 2 ∧
    (resolveSymbol (exitScope tableShadowX).2 "x".toList).map (fun s => s.definedLine)
      = some 1 := by
  refine ⟨?_, ?_, by decide!, by decide!⟩
  · intro t hd
    unfold exitScope
    rw [if_neg (by omega)]
    refine ⟨rfl, rfl, ?_⟩
    simp only [SymbolTable.symbols, unlinkAll_fst, flatten_map_filter]
  · intro t h defs u hu
    have wf := h.wf
    have he := exitScope_of_innerOf wf (innerOf_defineAll wf defs _ u (innerOf_enterScope wf) hu)
    rw [he]
    exact ⟨rfl, fun _ => rfl⟩

/-- Witness for C7: the general statements at the table with the shadowed
`x`, which is the table with the outer `x` after `enterScope` and one
definition. -/
theorem exitScope_restores_outer_scope_witness :
    (exitScope tableShadowX).2.scopeDepth = tableShadowX.scopeDepth - 1 ∧
    (exitScope tableShadowX).2 = tableOuterX :=
  ⟨(exitScope_restores_outer_scope.1 tableShadowX (by decide)).2.1,
    (exitScope_restores_outer_scope.2.1 tableOuterX
      (TableReachable.define _ _ _ _ TableReachable.create) [defX 2] tableShadowX rfl).1⟩

/-! ## Type checker -/

/-- C8 (refuted on the code): `typeCheck` accepts programs with wrong calls
to a declared function.  With `g` declared with one `int` parameter, the
calls `g(1, 2);` and `return g();` (wrong counts) and `g(1.5);` and
`return g(2.5);` (wrong argument type) are accepted, because `typeCheck` has
no case for a call node and its default case returns 1; the same wrong call
as a variable initializer is rejected, and the well-typed calls are
accepted. -/
theorem typeCheck_accepts_wrong_call_statement :
    (checkSource 40 srcBadCallCount).map (fun r => r.ok) = some true ∧
    (checkSource 40 srcBadCallType).map (fun r => r.ok) = some true ∧
    (checkSource 40 srcBadCallInit).map (fun r => r.ok) = some false ∧
    (checkSource 40 srcGoodCall).map (fun r => r.ok) = some true := by
  refine ⟨by decide!, by decide!, by decide!, by decide!⟩

/-- C9 (refuted on the code): `typeCheck` accepts a reference to an undefined
variable when it is the value of a return statement or a bare expression
statement; it rejects it only in a variable initializer. -/
theorem typeCheck_accepts_undefined_variable :
    (checkSource 40 srcReturnUndefined).map (fun r => r.ok) = some true ∧
    (checkSource 40 srcStatementUndefined).map (fun r => r.ok) = some true ∧
    (checkSource 40 srcInitUndefined).map (fun r => r.ok) = some false := by
  refine ⟨by decide!, by decide!, by decide!⟩

theorem defineSymbol_unchanged (t : SymbolTable) (name : List Char) (type : SymbolType)
    (typeNode : Option ASTNode) (line : Nat)
    (h : (defineSymbol t name type typeNode line).1 = false) :
    (defineSymbol t name type typeNode line).2 = t := by
  unfold defineSymbol at h ⊢
  simp only [] at h ⊢
  split
  · rfl
  · rename_i hc
    rw [if_neg hc] at h
    simp at h

/-- C10: when `typeCheck` accepts a variable declaration that has an
initializer and an annotation denoting a type, the initializer has a type and
its name is the name of the declared type; when `typeCheck` rejects a
variable declaration the table is returned unchanged; and
`let x: int = "hi";` is rejected with no symbol added. -/
theorem typeCheck_varDecl_annotation_matches :
    (∀ (fuel line : Nat) (name : List Char) (ty init : ASTNode) (symbols : SymbolTable)
        (r : CheckResult) (dt : TypeInfo),
      typeCheck (fuel + 1) (some (ASTNode.varDecl line name (some ty) (some init))) symbols
        = some r →
      getTypeInfo fuel (some ty) symbols = some (some dt) →
      r.ok = true →
      ∃ it, getTypeInfo fuel (some init) symbols = some (some it) ∧ it.name = dt.name) ∧
    (∀ (fuel line : Nat) (name : List Char) (ty init : Option ASTNode) (symbols : SymbolTable)
        (r : CheckResult),
      typeCheck fuel (some (ASTNode.varDecl line name ty init)) symbols = some r →
      r.ok = false → r.symbols = symbols) ∧
    (typeCheck 2 (some declIntFromString) createSymbolTable).map
      (fun r => (r.ok, r.symbols.symbols.length)) = some (false, 0) := by
  refine ⟨?_, ?_, by decide!⟩
  · intro fuel line name ty init symbols r dt h hdt hok
    simp only [typeCheck, hdt] at h
    cases hi : getTypeInfo fuel (some init) symbols with
    | none => simp [hi] at h
    | some initType =>
      cases initType with
      | none =>
        simp [hi] at h
        subst h
        simp at hok
      | some it =>
        refine ⟨it, rfl, ?_⟩
        simp [hi, areTypesCompatible] at h
        by_cases hn : it.name = dt.name
        · exact hn
        · simp [hn] at h
          subst h
          simp at hok
  · intro fuel line name ty init symbols r h hok
    cases fuel with
    | zero => simp [typeCheck] at h
    | succ n =>
      simp only [typeCheck] at h
      repeat' split at h
      all_goals
        cases h <;> first
          | rfl
          | exact defineSymbol_unchanged _ _ _ _ _ hok

/-- Witness for C10: `let x: int = 3;` is accepted on the empty table, the
annotation denotes `int`, and the initializer has type `int`. -/
theorem typeCheck_varDecl_annotation_matches_witness :
    (typeCheck 2 (some declIntFromInt) createSymbolTable).map (fun r => r.ok) = some true ∧
    ∃ it, getTypeInfo 1 (some (createLiteralNode
        { type := TokenType.TOKEN_NUMBER, lexeme := "3".toList, line := 1 }))
      createSymbolTable = some (some it) ∧ it.name = "int".toList := by
  have hok : (typeCheck 2 (some declIntFromInt) createSymbolTable).map (fun r => r.ok)
      = some true := by decide!
  refine ⟨hok, ?_⟩
  cases h : typeCheck 2 (some declIntFromInt) createSymbolTable with
  | none => rw [h] at hok; cases hok
  | some r =>
    rw [h] at hok
    exact typeCheck_varDecl_annotation_matches.1 1 0 "x".toList intAnnotation _
      createSymbolTable r (createTypeInfo "int".toList 4 true) h (by decide!)
      (by simpa using hok)

/-! ## Symbol table: lookups after a definition -/

theorem defineSymbol_ok_of_fresh (t : SymbolTable) (name : List Char)
    (type : SymbolType) (typeNode : Option ASTNode) (line : Nat)
    (hfresh : ¬ ∃ s ∈ t.symbols, s.name = name ∧ s.scopeDepth = t.scopeDepth) :
    defineSymbol t name type typeNode line =
      (true, { t with
        buckets := t.buckets.set (hash name % t.capacity)
          ({ name := name, type := type, typeNode := typeNode,
             scopeDepth := t.scopeDepth, definedLine := line } ::
            t.buckets.getD (hash name % t.capacity) [])
        count := t.count + 1 }) := by
  unfold defineSymbol
  simp only []
  rw [if_neg]
  intro hdef
  obtain ⟨s, hs, hk⟩ := (definedInChain_iff _ _ _).mp hdef
  exact hfresh ⟨s, (mem_symbols_iff t s).mpr ⟨_, hs⟩, hk⟩

theorem defineSymbol_fails_of_defined {t : SymbolTable} (h : t.WF) (name : List Char)
    (type : SymbolType) (typeNode : Option ASTNode) (line : Nat)
    (hdef : ∃ s ∈ t.symbols, s.name = name ∧ s.scopeDepth = t.scopeDepth) :
    (defineSymbol t name type typeNode line).1 = false := by
  obtain ⟨s, hs, hk⟩ := hdef
  have hb := mem_bucket_of_mem_symbols h hs
  rw [hk.1] at hb
  unfold defineSymbol
  simp only []
  rw [if_pos ((definedInChain_iff _ _ _).mpr ⟨s, hb, hk⟩)]

theorem defineSymbol_scopeDepth (t : SymbolTable) (name : List Char) (type : SymbolType)
    (typeNode : Option ASTNode) (line : Nat) :
    (defineSymbol t name type typeNode line).2.scopeDepth = t.scopeDepth := by
  unfold defineSymbol
  simp only []
  split <;> rfl

theorem resolveLoop_keep (name : List Char) : ∀ (b : List Symbol) (f : Symbol) (fd : Int),
    (∀ s ∈ b, s.scopeDepth ≤ fd) → resolveLoop name b (some f) fd = some f := by
  intro b
  induction b with
  | nil => intro f fd _; rfl
  | cons s rest ih =>
    intro f fd h
    have hs := h s (List.mem_cons_self _ _)
    simp only [resolveLoop]
    rw [if_neg (by intro hc; have := hc.2; omega)]
    exact ih f fd (fun x hx => h x (List.mem_cons_of_mem _ hx))

theorem resolveSymbol_define_self {t : SymbolTable} (h : t.WF) (name : List Char)
    (type : SymbolType) (typeNode : Option ASTNode) (line : Nat)
    (hok : (defineSymbol t name type typeNode line).1 = true) :
    resolveSymbol (defineSymbol t name type typeNode line).2 name =
      some { name := name, type := type, typeNode := typeNode,
             scopeDepth := t.scopeDepth, definedLine := line } := by
  have hidx : hash name % t.capacity < t.buckets.length := by
    rw [h.capacity_eq, h.length_eq]
    exact hash_mod_lt name
  unfold defineSymbol at hok ⊢
  simp only [] at hok ⊢
  split
  · rename_i hc
    rw [if_pos hc] at hok
    simp at hok
  · simp only [resolveSymbol, getD_set_self _ _ _ hidx, resolveLoop]
    have h0 := h.depth_nonneg
    rw [if_pos ⟨trivial, by omega⟩]
    exact resolveLoop_keep name _ _ _ (fun s hs => (h.placed _ s hs).2.2)

theorem resolveSymbol_define_other (t : SymbolTable) (name other : List Char)
    (type : SymbolType) (typeNode : Option ASTNode) (line : Nat) (hne : name ≠ other) :
    resolveSymbol (defineSymbol t name type typeNode line).2 other = resolveSymbol t other := by
  unfold defineSymbol
  simp only []
  split
  · rfl
  · simp only [resolveSymbol]
    by_cases hi : hash name % t.capacity = hash other % t.capacity
    · by_cases hlt : hash name % t.capacity < t.buckets.length
      · rw [← hi, getD_set_self _ _ _ hlt]
        simp only [resolveLoop]
        rw [if_neg (fun hc => hne hc.1)]
      · rw [List.set_eq_of_length_le (not_lt.mp hlt)]
    · rw [getD_set_ne _ _ _ _ hi]

theorem mem_symbols_of_resolve {t : SymbolTable} (h : t.WF) {name : List Char} {s : Symbol}
    (hr : resolveSymbol t name = some s) : s ∈ t.symbols ∧ s.name = name := by
  have hb : ∀ x ∈ t.buckets.getD (hash name % t.capacity) [], 0 ≤ x.scopeDepth :=
    fun x hx => (h.placed _ x hx).2.1
  obtain ⟨_, i2⟩ := resolveLoop_spec name (t.buckets.getD (hash name % t.capacity) []) none (-1)
    hb (fun _ => rfl) (by intro f hf; cases hf)
  obtain ⟨h1, h2, _, _⟩ := i2 s hr
  rcases h1 with h1 | h1
  · cases h1
  · exact ⟨(mem_symbols_iff t s).mpr ⟨_, h1⟩, h2⟩

theorem mem_symbols_defineSymbol (t : SymbolTable) (name : List Char) (type : SymbolType)
    (typeNode : Option ASTNode) (line : Nat) (s : Symbol) (hs : s ∈ t.symbols) :
    s ∈ (defineSymbol t name type typeNode line).2.symbols := by
  unfold defineSymbol
  simp only []
  split
  · exact hs
  · by_cases hlt : hash name % t.capacity < t.buckets.length
    · exact (mem_symbols_define t _ hlt _ s).mpr (Or.inr hs)
    · simp only [SymbolTable.symbols, List.set_eq_of_length_le (not_lt.mp hlt)]
      exact hs

/-! ## Type checker: variable declarations, expressions, programs -/

theorem typeInfo_of_inferable (n : List Char) (hn : n ∈ inferableNames) (lexeme : List Char)
    (line : Nat) :
    ∃ t, literalTypeInfo { type := tokenTypeOfName n, lexeme := lexeme, line := line } = some t ∧
      annotationTypeInfo { type := tokenTypeOfName n, lexeme := lexeme, line := line } = some t ∧
      t.name = n := by
  simp only [inferableNames, List.mem_cons, List.mem_singleton, List.not_mem_nil, or_false] at hn
  rcases hn with rfl | rfl | rfl | rfl
  · exact ⟨_, rfl, rfl, rfl⟩
  · exact ⟨_, rfl, rfl, rfl⟩
  · exact ⟨_, rfl, rfl, rfl⟩
  · exact ⟨_, rfl, rfl, rfl⟩

theorem getTypeInfo_literal (fuel line : Nat) (token : Token) (symbols : SymbolTable) :
    getTypeInfo (fuel + 1) (some (ASTNode.literal line token)) symbols
      = some (literalTypeInfo token) := by
  simp only [getTypeInfo]

theorem getTypeInfo_null (fuel : Nat) (symbols : SymbolTable) :
    getTypeInfo (fuel + 1) none symbols = some none := by
  simp only [getTypeInfo]

theorem fuel_pos_of_getTypeInfo {fuel : Nat} {node : Option ASTNode} {symbols : SymbolTable}
    {t : Option TypeInfo} (h : getTypeInfo fuel node symbols = some t) :
    ∃ k, fuel = k + 1 := by
  cases fuel with
  | zero => simp [getTypeInfo] at h
  | succ k => exact ⟨k, rfl⟩

/-- The retrofit path of `NODE_VAR_DECL`: no annotation, an initializer of an
inferable type. -/
theorem typeCheck_varDecl_retrofit (fuel line : Nat) (name : List Char) (init : ASTNode)
    (symbols : SymbolTable) (it : TypeInfo)
    (hinit : getTypeInfo fuel (some init) symbols = some (some it))
    (hn : it.name ∈ inferableNames) :
    typeCheck (fuel + 1) (some (ASTNode.varDecl line name none (some init))) symbols =
      some
        { ok := (defineSymbol symbols name SymbolType.SYM_VARIABLE
            (some (createLiteralNode
              { type := tokenTypeOfName it.name, lexeme := it.name, line := line })) line).1
          node := some (ASTNode.varDecl line name
            (some (createLiteralNode
              { type := tokenTypeOfName it.name, lexeme := it.name, line := line }))
            (some init))
          symbols := (defineSymbol symbols name SymbolType.SYM_VARIABLE
            (some (createLiteralNode
              { type := tokenTypeOfName it.name, lexeme := it.name, line := line })) line).2 } := by
  obtain ⟨k, rfl⟩ := fuel_pos_of_getTypeInfo hinit
  obtain ⟨t, ht, _, htn⟩ := typeInfo_of_inferable it.name hn it.name line
  simp only [typeCheck, hinit, getTypeInfo_null, createLiteralNode, getTypeInfo_literal, ht]
  simp [areTypesCompatible, htn]

theorem getTypeInfo_variable_annotated (k l line : Nat) (name : List Char)
    (symbols : SymbolTable) (sym : Symbol) (tok : Token)
    (hr : resolveSymbol symbols name = some sym) (hty : sym.type ≠ SymbolType.SYM_FUNCTION)
    (hnode : sym.typeNode = some (ASTNode.literal line tok)) :
    getTypeInfo (k + 1) (some (ASTNode.variable l name)) symbols
      = some (annotationTypeInfo tok) := by
  simp only [getTypeInfo, hr, functionOfSymbol, if_neg hty, hnode]

/-- C11: on a table built by the symbol-table operations, a variable
declaration without annotation whose initializer has a type named `int`,
`float`, `bool` or `string`, and whose name is not yet defined at the current
depth, is accepted; the returned declaration carries an annotation node that
`getTypeInfo` resolves to that type name; the new table resolves the
variable to a symbol holding this annotation; and a reference to the variable
then has that type name.  `let y = 3.5;` is accepted and annotated with the
`float` keyword. -/
theorem typeCheck_varDecl_infers_annotation :
    (∀ (fuel line : Nat) (name : List Char) (init : ASTNode) (symbols : SymbolTable)
        (it : TypeInfo),
      TableReachable symbols →
      getTypeInfo fuel (some init) symbols = some (some it) →
      it.name ∈ inferableNames →
      (¬ ∃ s ∈ symbols.symbols, s.name = name ∧ s.scopeDepth = symbols.scopeDepth) →
      ∃ (r : CheckResult) (ann : ASTNode),
        typeCheck (fuel + 1) (some (ASTNode.varDecl line name none (some init))) symbols
          = some r ∧
        r.ok = true ∧
        r.node = some (ASTNode.varDecl line name (some ann) (some init)) ∧
        (∀ k, ∃ t, getTypeInfo (k + 1) (some ann) r.symbols = some (some t) ∧
          t.name = it.name) ∧
        resolveSymbol r.symbols name =
          some { name := name, type := SymbolType.SYM_VARIABLE, typeNode := some ann,
                 scopeDepth := symbols.scopeDepth, definedLine := line } ∧
        (∀ k l, ∃ t, getTypeInfo (k + 1) (some (ASTNode.variable l name)) r.symbols
          = some (some t) ∧ t.name = it.name)) ∧
    (typeCheck 2 (some declYFloat) createSymbolTable).map
      (fun r => (r.ok, annotationTokenType r.node,
        (getTypeInfo 1 (some (ASTNode.variable 0 "y".toList)) r.symbols).map
          (fun t => t.map (fun i => i.name))))
      = some (true, some TokenType.TOKEN_FLOAT, some (some "float".toList)) := by
  refine ⟨?_, by decide!⟩
  intro fuel line name init symbols it hreach hinit hn hfresh
  have wf := hreach.wf
  obtain ⟨t, ht, hta, htn⟩ := typeInfo_of_inferable it.name hn it.name line
  have hdef := defineSymbol_ok_of_fresh symbols name SymbolType.SYM_VARIABLE
    (some (createLiteralNode
      { type := tokenTypeOfName it.name, lexeme := it.name, line := line })) line hfresh
  have hok : (defineSymbol symbols name SymbolType.SYM_VARIABLE
      (some (createLiteralNode
        { type := tokenTypeOfName it.name, lexeme := it.name, line := line })) line).1 = true := by
    rw [hdef]
  have hres := resolveSymbol_define_self wf name SymbolType.SYM_VARIABLE
    (some (createLiteralNode
      { type := tokenTypeOfName it.name, lexeme := it.name, line := line })) line hok
  refine ⟨_, _, typeCheck_varDecl_retrofit fuel line name init symbols it hinit hn,
    hok, rfl, ?_, hres, ?_⟩
  · intro k
    exact ⟨t, by simp only [createLiteralNode, getTypeInfo_literal, ht], htn⟩
  · intro k l
    refine ⟨t, ?_, htn⟩
    rw [getTypeInfo_variable_annotated k l line name _ _ _ hres (by simp) rfl, hta]

/-- Witness for C11: the general statement for `let y = 3.5;` on the empty
table. -/
theorem typeCheck_varDecl_infers_annotation_witness :
    ∃ (r : CheckResult) (ann : ASTNode),
      typeCheck 2 (some declYFloat) createSymbolTable = some r ∧ r.ok = true ∧
      r.node = some (ASTNode.varDecl 0 "y".toList (some ann)
        (some (numberLiteral "3.5".toList))) ∧
      (∀ k l, ∃ t, getTypeInfo (k + 1) (some (ASTNode.variable l "y".toList)) r.symbols
        = some (some t) ∧ t.name = "float".toList) := by
  obtain ⟨r, ann, h1, h2, h3, _, _, h6⟩ :=
    typeCheck_varDecl_infers_annotation.1 1 0 "y".toList (numberLiteral "3.5".toList)
      createSymbolTable (createTypeInfo "float".toList 4 true) TableReachable.create
      (by decide!) (by decide) (by simp [createSymbolTable, SymbolTable.symbols])
  exact ⟨r, ann, h1, h2, h3, h6⟩

/-- C12 (refuted as stated): a declaration with neither annotation nor
initializer is accepted.  `let x;` type-checks successfully, both as a tree
and through the parser. -/
theorem typeCheck_accepts_untyped_declaration :
    (typeCheck 1 (some declBare) createSymbolTable).map (fun r => r.ok) = some true ∧
    (checkSource 16 "let x;".toList).map (fun r => r.ok) = some true := by
  refine ⟨by decide!, by decide!⟩

/-- C12 (amended): a variable declaration that has an initializer is rejected,
with the table unchanged, when neither the initializer nor the annotation
resolves to a type; a declaration without initializer is not examined: its
outcome is the outcome of `defineSymbol` for its name.  `let x = nope;` is
rejected. -/
theorem typeCheck_varDecl_undetermined :
    (∀ (fuel line : Nat) (name : List Char) (ty : Option ASTNode) (init : ASTNode)
        (symbols : SymbolTable),
      getTypeInfo fuel (some init) symbols = some none →
      getTypeInfo fuel ty symbols = some none →
      ∃ r, typeCheck (fuel + 1) (some (ASTNode.varDecl line name ty (some init))) symbols
          = some r ∧ r.ok = false ∧ r.symbols = symbols) ∧
    (∀ (fuel line : Nat) (name : List Char) (ty : Option ASTNode) (symbols : SymbolTable),
      ∃ r, typeCheck (fuel + 1) (some (ASTNode.varDecl line name ty none)) symbols = some r ∧
        r.ok = (defineSymbol symbols name SymbolType.SYM_VARIABLE ty line).1 ∧
        r.symbols = (defineSymbol symbols name SymbolType.SYM_VARIABLE ty line).2) ∧
    (typeCheck 2 (some declFromUndefined) createSymbolTable).map (fun r => r.ok)
      = some false := by
  refine ⟨?_, ?_, by decide!⟩
  · intro fuel line name ty init symbols hinit hty
    refine ⟨{ ok := false, node := some (ASTNode.varDecl line name ty (some init)),
              symbols := symbols }, ?_, rfl, rfl⟩
    simp [typeCheck, hinit, hty]
  · intro fuel line name ty symbols
    exact ⟨{ ok := (defineSymbol symbols name SymbolType.SYM_VARIABLE ty line).1,
             node := some (ASTNode.varDecl line name ty none),
             symbols := (defineSymbol symbols name SymbolType.SYM_VARIABLE ty line).2 },
      by simp only [typeCheck], rfl, rfl⟩

/-- Witness for C12 (amended): the general statement for `let x = nope;` on
the empty table. -/
theorem typeCheck_varDecl_undetermined_witness :
    ∃ r, typeCheck 2 (some declFromUndefined) createSymbolTable = some r ∧ r.ok = false ∧
      r.symbols = createSymbolTable :=
  typeCheck_varDecl_undetermined.1 1 0 "x".toList none (ASTNode.variable 0 "nope".toList)
    createSymbolTable (by decide!) (by decide!)

/-- C13: when both operand queries return, `getTypeInfo` on a binary
expression returns the type of the left operand if both operands have a type
and the two type names are equal, and no type in every other case, whatever
the operator token is.  `1 op 2.5` has no type for each of the four
operators; `1 + 2` has type `int`. -/
theorem getTypeInfo_binary_same_name :
    (∀ (fuel line : Nat) (op : Token) (left right : Option ASTNode) (symbols : SymbolTable)
        (lt rt : Option TypeInfo),
      getTypeInfo fuel left symbols = some lt →
      getTypeInfo fuel right symbols = some rt →
      ∃ res, getTypeInfo (fuel + 1) (some (ASTNode.binary line op left right)) symbols
          = some res ∧
        (∀ t, res = some t ↔ lt = some t ∧ ∃ b, rt = some b ∧ b.name = t.name)) ∧
    (∀ op ∈ [opToken TokenType.TOKEN_PLUS "+".toList, opToken TokenType.TOKEN_MINUS "-".toList,
        opToken TokenType.TOKEN_STAR "*".toList, opToken TokenType.TOKEN_SLASH "/".toList],
      getTypeInfo 2 (some (exprIntOpFloat op)) createSymbolTable = some none) ∧
    (getTypeInfo 2 (some exprIntPlusInt) createSymbolTable).map typeName
      = some (some "int".toList) := by
  refine ⟨?_, by decide!, by decide!⟩
  intro fuel line op left right symbols lt rt hl hr
  simp only [getTypeInfo, hl, hr]
  cases lt with
  | none => exact ⟨none, rfl, by simp⟩
  | some a =>
    cases rt with
    | none => exact ⟨none, rfl, by simp⟩
    | some b =>
      by_cases hn : a.name = b.name
      · refine ⟨some a, by simp [hn], ?_⟩
        intro t
        constructor
        · intro h
          cases h
          exact ⟨rfl, b, rfl, hn.symm⟩
        · rintro ⟨h, _⟩
          exact h
      · refine ⟨none, by simp [hn], ?_⟩
        intro t
        constructor
        · intro h
          cases h
        · rintro ⟨h, b2, hb, hbn⟩
          cases h
          cases hb
          exact absurd hbn.symm hn

/-- Witness for C13: the general statement for `1 + 2` on the empty table. -/
theorem getTypeInfo_binary_same_name_witness :
    ∃ res, getTypeInfo 2 (some exprIntPlusInt) createSymbolTable = some res ∧
      res = some (createTypeInfo "int".toList 4 true) := by
  obtain ⟨res, h1, h2⟩ := getTypeInfo_binary_same_name.1 1 1
    (opToken TokenType.TOKEN_PLUS "+".toList)
    (some (numberLiteral "1".toList)) (some (numberLiteral "2".toList)) createSymbolTable
    (some (createTypeInfo "int".toList 4 true)) (some (createTypeInfo "int".toList 4 true))
    (by decide!) (by decide!)
  exact ⟨res, h1, (h2 _).mpr ⟨rfl, _, rfl, rfl⟩⟩

/-- C14 (refuted as stated): a literal node whose token is none of number,
string, `true`, `false` can have a type.  The annotation node of the keyword
`int` is a literal node and `getTypeInfo` gives it the type `int`. -/
theorem getTypeInfo_type_keyword_literal_typed :
    intAnnotation = ASTNode.literal 1
      { type := TokenType.TOKEN_INT, lexeme := "int".toList, line := 1 } ∧
    getTypeInfo 1 (some intAnnotation) createSymbolTable
      = some (some (createTypeInfo "int".toList 4 true)) := by
  refine ⟨rfl, by decide!⟩

/-- C14 (amended): `getTypeInfo` on a literal node always returns; the type is
`int` for a number token without a dot, `float` for a number token with a
dot, `string` for a string token, `bool` for `true` and `false`, the named
type for the type keywords `int`, `float`, `bool`, `string`, `void`, and no
type for every other token kind (such as `null`). -/
theorem getTypeInfo_literal_cases (fuel line : Nat) (token : Token) (symbols : SymbolTable) :
    ∃ res, getTypeInfo (fuel + 1) (some (ASTNode.literal line token)) symbols = some res ∧
      (token.type = TokenType.TOKEN_NUMBER → ('.' ∉ token.lexeme) →
        typeName res = some "int".toList) ∧
      (token.type = TokenType.TOKEN_NUMBER → ('.' ∈ token.lexeme) →
        typeName res = some "float".toList) ∧
      (token.type = TokenType.TOKEN_STRING → typeName res = some "string".toList) ∧
      (token.type = TokenType.TOKEN_TRUE ∨ token.type = TokenType.TOKEN_FALSE →
        typeName res = some "bool".toList) ∧
      (token.type = TokenType.TOKEN_INT → typeName res = some "int".toList) ∧
      (token.type = TokenType.TOKEN_FLOAT → typeName res = some "float".toList) ∧
      (token.type = TokenType.TOKEN_BOOL → typeName res = some "bool".toList) ∧
      (token.type = TokenType.TOKEN_STRING_TYPE → typeName res = some "string".toList) ∧
      (token.type = TokenType.TOKEN_VOID → typeName res = some "void".toList) ∧
      (token.type ∉ typedLiteralKinds → res = none) := by
  refine ⟨literalTypeInfo token, getTypeInfo_literal fuel line token symbols, ?_⟩
  refine ⟨?_, ?_, ?_, ?_, ?_, ?_, ?_, ?_, ?_, ?_⟩
  · intro h hd
    have : token.lexeme.any (fun c => c == '.') = false := by
      rw [Bool.eq_false_iff]
      intro hc
      rw [List.any_eq_true] at hc
      obtain ⟨c, hc1, hc2⟩ := hc
      rw [beq_iff_eq] at hc2
      exact hd (hc2 ▸ hc1)
    simp [literalTypeInfo, h, this, typeName, createTypeInfo]
  · intro h hd
    have : token.lexeme.any (fun c => c == '.') = true := by
      rw [List.any_eq_true]
      exact ⟨'.', hd, by simp⟩
    simp [literalTypeInfo, h, this, typeName, createTypeInfo]
  · intro h
    simp [literalTypeInfo, h, typeName, createTypeInfo]
  · rintro (h | h) <;> simp [literalTypeInfo, h, typeName, createTypeInfo]
  · intro h
    simp [literalTypeInfo, h, typeName, createTypeInfo]
  · intro h
    simp [literalTypeInfo, h, typeName, createTypeInfo]
  · intro h
    simp [literalTypeInfo, h, typeName, createTypeInfo]
  · intro h
    simp [literalTypeInfo, h, typeName, createTypeInfo]
  · intro h
    simp [literalTypeInfo, h, typeName, createTypeInfo]
  · intro h
    simp only [typedLiteralKinds, List.mem_cons, List.mem_singleton, List.not_mem_nil,
      or_false, not_or] at h
    obtain ⟨h1, h2, h3, h4, h5, h6, h7, h8, h9⟩ := h
    unfold literalTypeInfo
    split <;> first | rfl | contradiction

theorem externalArgsOk_spec (typeOf : Option ASTNode → Option (Option TypeInfo)) :
    ∀ (args : List (Option ASTNode)), (∀ a ∈ args, ∃ t, typeOf a = some t) →
    ∃ b, externalArgsOk typeOf args = some b ∧
      (b = true ↔ ∀ a ∈ args, ∃ t, typeOf a = some (some t) ∧ isNumeric t) := by
  intro args
  induction args with
  | nil => intro _; exact ⟨true, rfl, by simp⟩
  | cons a rest ih =>
    intro h
    obtain ⟨t, ht⟩ := h a (List.mem_cons_self _ _)
    obtain ⟨b, hb, hiff⟩ := ih (fun x hx => h x (List.mem_cons_of_mem _ hx))
    cases t with
    | none =>
      refine ⟨false, by simp [externalArgsOk, ht], ?_⟩
      constructor
      · intro hc; cases hc
      · intro hall
        obtain ⟨t, ht2, _⟩ := hall a (List.mem_cons_self _ _)
        rw [ht] at ht2
        cases ht2
    | some ty =>
      by_cases hnum : isNumeric ty
      · refine ⟨b, ?_, ?_⟩
        · simp only [externalArgsOk, ht]
          rw [if_neg, hb]
          rcases hnum with hn | hn <;> simp [hn]
        · rw [hiff]
          constructor
          · intro hall x hx
            rcases List.mem_cons.mp hx with hxa | hxr
            · rw [hxa]
              exact ⟨ty, ht, hnum⟩
            · exact hall x hxr
          · intro hall x hx
            exact hall x (List.mem_cons_of_mem _ hx)
      · refine ⟨false, ?_, ?_⟩
        · simp only [externalArgsOk, ht]
          rw [if_pos]
          simp only [isNumeric, not_or] at hnum
          simp only [bne_iff_ne, ne_eq, Bool.and_eq_true]
          exact hnum
        · constructor
          · intro hc; cases hc
          · intro hall
            obtain ⟨t, ht2, hn2⟩ := hall a (List.mem_cons_self _ _)
            rw [ht] at ht2
            cases ht2
            exact absurd hn2 hnum

/-- C16 (refuted as stated): unresolved callees that merely begin with the
letters `sys` are accepted.  `system(1)` and `sysx.f(1)` get the type `int`
on the empty table, and `let y = system(1);` type-checks; `other.f(1)` gets
no type. -/
theorem getTypeInfo_accepts_sys_prefix :
    (getTypeInfo 2 (some callSystem) createSymbolTable).map typeName
      = some (some "int".toList) ∧
    (getTypeInfo 2 (some callSysxF) createSymbolTable).map typeName
      = some (some "int".toList) ∧
    (getTypeInfo 2 (some callOtherF) createSymbolTable).map typeName = some none ∧
    (checkSource 20 "let y = system(1);".toList).map (fun r => r.ok) = some true := by
  refine ⟨by decide!, by decide!, by decide!, by decide!⟩

/-- C16 (amended): for a call whose callee name resolves to no symbol and
whose argument queries return, `getTypeInfo` returns a type exactly when the
dotted callee name begins with the three characters `sys` and every argument
has a type named `int` or `float`; the returned type is then `int`. -/
theorem getTypeInfo_external_call (fuel line : Nat) (callee : Option ASTNode)
    (args : List (Option ASTNode)) (symbols : SymbolTable) (name : List Char)
    (hname : getNameRecursive callee = some name)
    (hres : resolveSymbol symbols name = none)
    (hargs : ∀ a ∈ args, ∃ t, getTypeInfo fuel a symbols = some t) :
    ∃ res, getTypeInfo (fuel + 1) (some (ASTNode.call line callee args)) symbols = some res ∧
      (res = none ∨ res = some (createTypeInfo "int".toList 4 true)) ∧
      (res ≠ none ↔ name.take 3 = "sys".toList ∧
        ∀ a ∈ args, ∃ t, getTypeInfo fuel a symbols = some (some t) ∧ isNumeric t) := by
  obtain ⟨b, hb, hiff⟩ := externalArgsOk_spec (fun a => getTypeInfo fuel a symbols) args hargs
  simp only [getTypeInfo, hname, hres]
  by_cases hsys : name.take 3 = "sys".toList
  · rw [if_pos hsys, hb]
    cases b with
    | false =>
      refine ⟨none, rfl, Or.inl rfl, ?_⟩
      constructor
      · intro hc; exact absurd rfl hc
      · rintro ⟨_, hall⟩
        have := hiff.mpr hall
        cases this
    | true =>
      refine ⟨_, rfl, Or.inr rfl, ?_⟩
      constructor
      · intro _; exact ⟨hsys, hiff.mp rfl⟩
      · intro _ hc; cases hc
  · rw [if_neg hsys]
    refine ⟨none, rfl, Or.inl rfl, ?_⟩
    constructor
    · intro hc; exact absurd rfl hc
    · rintro ⟨h, _⟩
      exact absurd h hsys

/-- Witness for C16 (amended): the call `sys.IO.print(1)` on the empty table
has type `int`. -/
theorem getTypeInfo_external_call_witness :
    ∃ res, getTypeInfo 2 (some callSysPrint) createSymbolTable = some res ∧
      (res = none ∨ res = some (createTypeInfo "int".toList 4 true)) ∧
      (res ≠ none ↔ "sys.IO.print".toList.take 3 = "sys".toList ∧
        ∀ a ∈ [some (numberLiteral "1".toList)],
          ∃ t, getTypeInfo 1 a createSymbolTable = some (some t) ∧ isNumeric t) :=
  getTypeInfo_external_call 1 0 _ [some (numberLiteral "1".toList)] createSymbolTable
    "sys.IO.print".toList (by decide) (Option.isNone_iff_eq_none.mp (by decide!))
    (by
      intro a ha
      rw [List.mem_singleton] at ha
      subst ha
      exact ⟨_, rfl⟩)

/-- C17: when the type queries of the target symbol and of the value return,
`typeCheck` of an assignment returns with the table unchanged, and it
succeeds exactly when the target is a variable reference whose name resolves
to a symbol, the annotation of that symbol has a type, the value has a type,
and the two type names are equal.  With `x` annotated `int`: `x = 1` is
accepted, `x = 1.5` is rejected, `a.b = 1` and `y = 1` (undefined) are
rejected. -/
theorem typeCheck_assign_iff :
    (∀ (fuel line : Nat) (target : ASTNode) (value : Option ASTNode) (symbols : SymbolTable),
      (∀ l v sym, target = ASTNode.variable l v → resolveSymbol symbols v = some sym →
        (∃ t, getTypeInfo fuel sym.typeNode symbols = some t) ∧
        (∃ t, getTypeInfo fuel value symbols = some t)) →
      ∃ r, typeCheck (fuel + 1) (some (ASTNode.assign line target value)) symbols = some r ∧
        r.symbols = symbols ∧
        (r.ok = true ↔ ∃ l v sym tt vt, target = ASTNode.variable l v ∧
          resolveSymbol symbols v = some sym ∧
          getTypeInfo fuel sym.typeNode symbols = some (some tt) ∧
          getTypeInfo fuel value symbols = some (some vt) ∧ tt.name = vt.name)) ∧
    (typeCheck 2 (some (assignX (numberLiteral "1".toList))) tableIntX).map (fun r => r.ok)
      = some true ∧
    (typeCheck 2 (some (assignX (numberLiteral "1.5".toList))) tableIntX).map (fun r => r.ok)
      = some false ∧
    (typeCheck 2 (some assignMember) tableIntX).map (fun r => r.ok) = some false ∧
    (typeCheck 2 (some assignUndefined) tableIntX).map (fun r => r.ok) = some false := by
  refine ⟨?_, by decide!, by decide!, by decide!, by decide!⟩
  intro fuel line target value symbols hret
  have hother : (∀ l v, target ≠ ASTNode.variable l v) →
      ∃ r, typeCheck (fuel + 1) (some (ASTNode.assign line target value)) symbols = some r ∧
        r.symbols = symbols ∧
        (r.ok = true ↔ ∃ l v sym tt vt, target = ASTNode.variable l v ∧
          resolveSymbol symbols v = some sym ∧
          getTypeInfo fuel sym.typeNode symbols = some (some tt) ∧
          getTypeInfo fuel value symbols = some (some vt) ∧ tt.name = vt.name) := by
    intro hne
    refine ⟨{ ok := false, node := some (ASTNode.assign line target value),
              symbols := symbols }, ?_, rfl, ?_⟩
    · cases target <;> first
        | (exact absurd rfl (hne _ _))
        | simp only [typeCheck]
    · constructor
      · intro hc; cases hc
      · rintro ⟨l, v, _, _, _, ht, _⟩
        exact absurd ht (hne l v)
  by_cases hv : ∃ l v, target = ASTNode.variable l v
  · obtain ⟨l, v, rfl⟩ := hv
    cases hsym : resolveSymbol symbols v with
    | none =>
      refine ⟨{ ok := false, node := some (ASTNode.assign line (ASTNode.variable l v) value),
                symbols := symbols }, by simp only [typeCheck, hsym], rfl, ?_⟩
      constructor
      · intro hc; cases hc
      · rintro ⟨l2, v2, sym, _, _, ht, hr, _⟩
        cases ht
        rw [hsym] at hr
        cases hr
    | some sym =>
      obtain ⟨⟨tt, htt⟩, ⟨vt, hvt⟩⟩ := hret l v sym rfl hsym
      have key : ∀ (ok : Bool),
          (ok = true ↔ ∃ a b, tt = some a ∧ vt = some b ∧ a.name = b.name) →
          (ok = true ↔ ∃ l2 v2 sym2 tt2 vt2,
            ASTNode.variable l v = ASTNode.variable l2 v2 ∧
            resolveSymbol symbols v2 = some sym2 ∧
            getTypeInfo fuel sym2.typeNode symbols = some (some tt2) ∧
            getTypeInfo fuel value symbols = some (some vt2) ∧ tt2.name = vt2.name) := by
        intro ok hok
        rw [hok]
        constructor
        · rintro ⟨a, b, ha, hb, hab⟩
          exact ⟨l, v, sym, a, b, rfl, hsym, by rw [htt, ha], by rw [hvt, hb], hab⟩
        · rintro ⟨l2, v2, sym2, a, b, ht, hr, h1, h2, hab⟩
          cases ht
          rw [hsym] at hr
          cases hr
          rw [htt] at h1
          rw [hvt] at h2
          cases h1
          cases h2
          exact ⟨a, b, rfl, rfl, hab⟩
      cases tt with
      | none =>
        refine ⟨{ ok := false, node := some (ASTNode.assign line (ASTNode.variable l v) value),
                  symbols := symbols }, by simp [typeCheck, hsym, htt, hvt], rfl, ?_⟩
        exact key false (by simp)
      | some a =>
        cases vt with
        | none =>
          refine ⟨{ ok := false,
                    node := some (ASTNode.assign line (ASTNode.variable l v) value),
                    symbols := symbols }, by simp [typeCheck, hsym, htt, hvt], rfl, ?_⟩
          exact key false (by simp)
        | some b =>
          refine ⟨{ ok := areTypesCompatible (some a) (some b),
                    node := some (ASTNode.assign line (ASTNode.variable l v) value),
                    symbols := symbols }, by simp [typeCheck, hsym, htt, hvt], rfl, ?_⟩
          exact key _ (by simp [areTypesCompatible])
  · exact hother (fun l v h => hv ⟨l, v, h⟩)

/-- Witness for C17: the general statement for `x = 1` on the table where
`x` is annotated `int`. -/
theorem typeCheck_assign_iff_witness :
    ∃ r, typeCheck 2 (some (assignX (numberLiteral "1".toList))) tableIntX = some r ∧
      r.symbols = tableIntX ∧ r.ok = true := by
  obtain ⟨r, h1, h2, h3⟩ := typeCheck_assign_iff.1 1 0 (createVarRefNode "x".toList)
    (some (numberLiteral "1".toList)) tableIntX
    (by
      intro l v sym ht hr
      have hv : v = "x".toList := by
        simp only [createVarRefNode, ASTNode.variable.injEq] at ht
        exact ht.2.symm
      subst hv
      have hs : resolveSymbol tableIntX "x".toList =
          some { name := "x".toList, type := SymbolType.SYM_VARIABLE,
                 typeNode := some intAnnotation, scopeDepth := 0, definedLine := 1 } :=
        resolveSymbol_define_self createSymbolTable_wf _ _ _ _ (by decide!)
      rw [hs] at hr
      cases hr
      exact ⟨⟨_, rfl⟩, ⟨_, rfl⟩⟩)
  refine ⟨r, h1, h2, ?_⟩
  have hok : (typeCheck 2 (some (assignX (numberLiteral "1".toList))) tableIntX).map
      (fun r => r.ok) = some true := typeCheck_assign_iff.2.1
  rw [show assignX (numberLiteral "1".toList) = ASTNode.assign 0 (createVarRefNode "x".toList)
    (some (numberLiteral "1".toList)) from rfl, h1] at hok
  simpa using hok

theorem declareFunctions_fn (l : Nat) (n : List Char) (ps : List ASTNode)
    (rt b : Option ASTNode) (rest : List (Option ASTNode)) (t : SymbolTable) :
    declareFunctions (some (ASTNode.functionDecl l n ps rt b) :: rest) t =
      if (defineSymbol t n SymbolType.SYM_FUNCTION
          (some (ASTNode.functionDecl l n ps rt b)) l).1 = true then
        declareFunctions rest (defineSymbol t n SymbolType.SYM_FUNCTION
          (some (ASTNode.functionDecl l n ps rt b)) l).2
      else (false, (defineSymbol t n SymbolType.SYM_FUNCTION
          (some (ASTNode.functionDecl l n ps rt b)) l).2) := by
  simp only [declareFunctions]
  cases (defineSymbol t n SymbolType.SYM_FUNCTION
    (some (ASTNode.functionDecl l n ps rt b)) l).1 <;> simp

theorem declareFunctions_other (x : Option ASTNode) (rest : List (Option ASTNode))
    (t : SymbolTable) (hx : ∀ l n ps rt b, x ≠ some (ASTNode.functionDecl l n ps rt b)) :
    declareFunctions (x :: rest) t = declareFunctions rest t := by
  rcases x with _ | node
  · rfl
  · cases node <;> first
      | rfl
      | exact absurd rfl (hx _ _ _ _ _)

theorem declareFunctions_spec : ∀ (stmts : List (Option ASTNode)) (t : SymbolTable), t.WF →
    (declareFunctions stmts t).1 = true →
    (declareFunctions stmts t).2.WF ∧
    (declareFunctions stmts t).2.scopeDepth = t.scopeDepth ∧
    (∀ n s, resolveSymbol t n = some s → s.scopeDepth = t.scopeDepth →
      resolveSymbol (declareFunctions stmts t).2 n = some s) ∧
    (∀ l n ps rt b, some (ASTNode.functionDecl l n ps rt b) ∈ stmts →
      resolveSymbol (declareFunctions stmts t).2 n =
        some { name := n, type := SymbolType.SYM_FUNCTION,
               typeNode := some (ASTNode.functionDecl l n ps rt b),
               scopeDepth := t.scopeDepth, definedLine := l }) := by
  intro stmts
  induction stmts with
  | nil =>
    intro t wf _
    refine ⟨wf, rfl, fun _ _ h _ => h, ?_⟩
    intro l n ps rt b hm
    simp at hm
  | cons x rest ih =>
    intro t wf hok
    by_cases hx : ∃ l n ps rt b, x = some (ASTNode.functionDecl l n ps rt b)
    · obtain ⟨l, n, ps, rt, b, rfl⟩ := hx
      rw [declareFunctions_fn] at hok ⊢
      by_cases hd : (defineSymbol t n SymbolType.SYM_FUNCTION
          (some (ASTNode.functionDecl l n ps rt b)) l).1 = true
      · rw [if_pos hd] at hok ⊢
        have wf1 := defineSymbol_wf wf n SymbolType.SYM_FUNCTION
          (some (ASTNode.functionDecl l n ps rt b)) l
        have hdepth := defineSymbol_scopeDepth t n SymbolType.SYM_FUNCTION
          (some (ASTNode.functionDecl l n ps rt b)) l
        obtain ⟨i1, i2, i3, i4⟩ := ih _ wf1 hok
        have hself := resolveSymbol_define_self wf n SymbolType.SYM_FUNCTION
          (some (ASTNode.functionDecl l n ps rt b)) l hd
        refine ⟨i1, i2.trans hdepth, ?_, ?_⟩
        · intro n2 s hr hs
          have hmem := mem_symbols_of_resolve wf hr
          have hne : n ≠ n2 := by
            intro he
            have := defineSymbol_fails_of_defined wf n SymbolType.SYM_FUNCTION
              (some (ASTNode.functionDecl l n ps rt b)) l ⟨s, hmem.1, hmem.2.trans he.symm, hs⟩
            rw [this] at hd
            cases hd
          apply i3 n2 s
          · rw [resolveSymbol_define_other _ _ _ _ _ _ hne]
            exact hr
          · rw [hdepth]
            exact hs
        · intro l2 n2 ps2 rt2 b2 hm
          rcases List.mem_cons.mp hm with he | hm2
          · cases he
            exact i3 _ _ hself hdepth.symm
          · rw [← hdepth]
            exact i4 l2 n2 ps2 rt2 b2 hm2
      · rw [if_neg hd] at hok
        cases hok
    · have hx2 : ∀ l n ps rt b, x ≠ some (ASTNode.functionDecl l n ps rt b) :=
        fun l n ps rt b h => hx ⟨l, n, ps, rt, b, h⟩
      rw [declareFunctions_other x rest t hx2] at hok ⊢
      obtain ⟨i1, i2, i3, i4⟩ := ih t wf hok
      refine ⟨i1, i2, i3, ?_⟩
      intro l n ps rt b hm
      rcases List.mem_cons.mp hm with he | hm2
      · exact absurd he.symm (hx2 l n ps rt b)
      · exact i4 l n ps rt b hm2

theorem declareFunctions_fails_of_defined : ∀ (stmts : List (Option ASTNode))
    (t : SymbolTable), t.WF → ∀ l n ps rt b,
    some (ASTNode.functionDecl l n ps rt b) ∈ stmts →
    (∃ s ∈ t.symbols, s.name = n ∧ s.scopeDepth = t.scopeDepth) →
    (declareFunctions stmts t).1 = false := by
  intro stmts
  induction stmts with
  | nil => intro t _ l n ps rt b hm; simp at hm
  | cons x rest ih =>
    intro t wf l n ps rt b hm hex
    by_cases hx : ∃ l n ps rt b, x = some (ASTNode.functionDecl l n ps rt b)
    · obtain ⟨l1, n1, ps1, rt1, b1, rfl⟩ := hx
      rw [declareFunctions_fn]
      by_cases hd : (defineSymbol t n1 SymbolType.SYM_FUNCTION
          (some (ASTNode.functionDecl l1 n1 ps1 rt1 b1)) l1).1 = true
      · rw [if_pos hd]
        rcases List.mem_cons.mp hm with he | hm2
        · cases he
          have := defineSymbol_fails_of_defined wf n SymbolType.SYM_FUNCTION
            (some (ASTNode.functionDecl l n ps rt b)) l hex
          rw [this] at hd
          cases hd
        · obtain ⟨s, hs, hk⟩ := hex
          apply ih _ (defineSymbol_wf wf _ _ _ _) l n ps rt b hm2
          refine ⟨s, mem_symbols_defineSymbol _ _ _ _ _ s hs, hk.1, ?_⟩
          rw [defineSymbol_scopeDepth]
          exact hk.2
      · rw [if_neg hd]
    · have hx2 : ∀ l n ps rt b, x ≠ some (ASTNode.functionDecl l n ps rt b) :=
        fun l n ps rt b h => hx ⟨l, n, ps, rt, b, h⟩
      rw [declareFunctions_other x rest t hx2]
      rcases List.mem_cons.mp hm with he | hm2
      · exact absurd he.symm (hx2 l n ps rt b)
      · exact ih t wf l n ps rt b hm2 hex

theorem declareFunctions_fails_of_duplicate : ∀ (pre : List (Option ASTNode))
    (t : SymbolTable), t.WF → ∀ (rest : List (Option ASTNode)) l1 n ps1 rt1 b1 l2 ps2 rt2 b2,
    some (ASTNode.functionDecl l2 n ps2 rt2 b2) ∈ rest →
    (declareFunctions (pre ++ some (ASTNode.functionDecl l1 n ps1 rt1 b1) :: rest) t).1
      = false := by
  intro pre
  induction pre with
  | nil =>
    intro t wf rest l1 n ps1 rt1 b1 l2 ps2 rt2 b2 hm
    rw [List.nil_append, declareFunctions_fn]
    by_cases hd : (defineSymbol t n SymbolType.SYM_FUNCTION
        (some (ASTNode.functionDecl l1 n ps1 rt1 b1)) l1).1 = true
    · rw [if_pos hd]
      have wf1 := defineSymbol_wf wf n SymbolType.SYM_FUNCTION
        (some (ASTNode.functionDecl l1 n ps1 rt1 b1)) l1
      have hself := resolveSymbol_define_self wf n SymbolType.SYM_FUNCTION
        (some (ASTNode.functionDecl l1 n ps1 rt1 b1)) l1 hd
      have hmem := mem_symbols_of_resolve wf1 hself
      exact declareFunctions_fails_of_defined rest _ wf1 l2 n ps2 rt2 b2 hm
        ⟨_, hmem.1, rfl, (defineSymbol_scopeDepth _ _ _ _ _).symm⟩
    · rw [if_neg hd]
  | cons x pre ih =>
    intro t wf rest l1 n ps1 rt1 b1 l2 ps2 rt2 b2 hm
    rw [List.cons_append]
    by_cases hx : ∃ l n ps rt b, x = some (ASTNode.functionDecl l n ps rt b)
    · obtain ⟨l0, n0, ps0, rt0, b0, rfl⟩ := hx
      rw [declareFunctions_fn]
      by_cases hd : (defineSymbol t n0 SymbolType.SYM_FUNCTION
          (some (ASTNode.functionDecl l0 n0 ps0 rt0 b0)) l0).1 = true
      · rw [if_pos hd]
        exact ih _ (defineSymbol_wf wf _ _ _ _) rest l1 n ps1 rt1 b1 l2 ps2 rt2 b2 hm
      · rw [if_neg hd]
    · have hx2 : ∀ l n ps rt b, x ≠ some (ASTNode.functionDecl l n ps rt b) :=
        fun l n ps rt b h => hx ⟨l, n, ps, rt, b, h⟩
      rw [declareFunctions_other x _ t hx2]
      exact ih t wf rest l1 n ps1 rt1 b1 l2 ps2 rt2 b2 hm

/-- C15: `typeCheck` of a Program first runs the declaration pass over all
its statements and checks the statements only on the table this pass
returns; on a table built by the symbol-table operations a successful pass
makes every function of the statement list resolve to its own declaration,
wherever it stands in the list; and two functions of the same name make
`typeCheck` fail.  A call in an initializer to a function declared later is
accepted or rejected exactly as when the callee is declared first; two
mutually recursive functions are accepted; a duplicated function is
rejected. -/
theorem typeCheck_program_predeclares :
    (∀ (fuel line : Nat) (stmts : List (Option ASTNode)) (symbols : SymbolTable),
      typeCheck (fuel + 1) (some (ASTNode.program line stmts)) symbols =
        if (declareFunctions stmts symbols).1 = true then
          (checkStatements (typeCheck fuel) stmts (declareFunctions stmts symbols).2).map
            (fun r => { ok := r.1, node := some (ASTNode.program line r.2.1),
                        symbols := r.2.2 })
        else some { ok := false, node := some (ASTNode.program line stmts),
                    symbols := (declareFunctions stmts symbols).2 }) ∧
    (∀ (stmts : List (Option ASTNode)) (symbols : SymbolTable), TableReachable symbols →
      (declareFunctions stmts symbols).1 = true →
      ∀ l n ps rt b, some (ASTNode.functionDecl l n ps rt b) ∈ stmts →
        resolveSymbol (declareFunctions stmts symbols).2 n =
          some { name := n, type := SymbolType.SYM_FUNCTION,
                 typeNode := some (ASTNode.functionDecl l n ps rt b),
                 scopeDepth := symbols.scopeDepth, definedLine := l }) ∧
    (∀ (fuel line : Nat) (pre rest : List (Option ASTNode)) (symbols : SymbolTable)
        l1 n ps1 rt1 b1 l2 ps2 rt2 b2,
      TableReachable symbols →
      some (ASTNode.functionDecl l2 n ps2 rt2 b2) ∈ rest →
      ∃ r, typeCheck (fuel + 1) (some (ASTNode.program line
          (pre ++ some (ASTNode.functionDecl l1 n ps1 rt1 b1) :: rest))) symbols = some r ∧
        r.ok = false) ∧
    (checkSource 40 srcForwardCall).map (fun r => r.ok) = some true ∧
    (checkSource 40 srcBackwardCall).map (fun r => r.ok) = some true ∧
    (checkSource 40 srcForwardCallBad).map (fun r => r.ok) = some false ∧
    (checkSource 40 srcBackwardCallBad).map (fun r => r.ok) = some false ∧
    (checkSource 40 srcMutualRecursion).map (fun r => r.ok) = some true ∧
    (checkSource 40 srcDuplicateFunction).map (fun r => r.ok) = some false := by
  refine ⟨?_, ?_, ?_, by decide!, by decide!, by decide!, by decide!, by decide!, by decide!⟩
  · intro fuel line stmts symbols
    simp only [typeCheck]
    cases hd : (declareFunctions stmts symbols).1
    · simp
    · simp only [Bool.not_true, Bool.false_eq_true, if_false, if_true]
      cases checkStatements (typeCheck fuel) stmts (declareFunctions stmts symbols).2 with
      | none => rfl
      | some r =>
        obtain ⟨ok, stmts1, symbols1⟩ := r
        rfl
  · intro stmts symbols hreach hok l n ps rt b hm
    exact (declareFunctions_spec stmts symbols hreach.wf hok).2.2.2 l n ps rt b hm
  · intro fuel line pre rest symbols l1 n ps1 rt1 b1 l2 ps2 rt2 b2 hreach hm
    have hf := declareFunctions_fails_of_duplicate pre symbols hreach.wf rest
      l1 n ps1 rt1 b1 l2 ps2 rt2 b2 hm
    simp [typeCheck, hf]

/-- Witness for C15: in the program `f` then `g` (two empty functions), the
declaration pass on the empty table succeeds and `g` resolves to its
declaration; a program with two functions `f` is rejected. -/
theorem typeCheck_program_predeclares_witness :
    resolveSymbol
        (declareFunctions [some (emptyFunction "f".toList), some (emptyFunction "g".toList)]
          createSymbolTable).2 "g".toList =
      some { name := "g".toList, type := SymbolType.SYM_FUNCTION,
             typeNode := some (emptyFunction "g".toList), scopeDepth := 0, definedLine := 0 } ∧
    ∃ r, typeCheck 3 (some (ASTNode.program 0
        ([] ++ some (emptyFunction "f".toList) :: [some (emptyFunction "f".toList)])))
        createSymbolTable = some r ∧ r.ok = false :=
  ⟨typeCheck_program_predeclares.2.1
      [some (emptyFunction "f".toList), some (emptyFunction "g".toList)] createSymbolTable
      TableReachable.create (by decide!) 0 "g".toList [] none (some (createProgramNode []))
      (by simp [emptyFunction, createFunctionNode]),
    typeCheck_program_predeclares.2.2.1 2 0 [] [some (emptyFunction "f".toList)]
      createSymbolTable 0 "f".toList [] none (some (createProgramNode []))
      0 [] none (some (createProgramNode [])) TableReachable.create
      (by simp [emptyFunction, createFunctionNode])⟩

/-! ## The structural equality test is sound -/

mutual

theorem ASTNode.beq_sound : ∀ (a b : ASTNode), ASTNode.beq a b = true → a = b
  | .program l s, c, h => by
    cases c <;> (try (exact absurd (show false = true from h) Bool.false_ne_true))
    rename_i l2 s2
    replace h : (l == l2 && beqOptList s s2) = true := h
    simp only [Bool.and_eq_true, beq_iff_eq] at h
    rw [h.1, beqOptList_sound s s2 h.2]
  | .functionDecl l n ps rt b, c, h => by
    cases c <;> (try (exact absurd (show false = true from h) Bool.false_ne_true))
    rename_i l2 n2 ps2 rt2 b2
    replace h : (l == l2 && n == n2 && beqNodeList ps ps2 && beqOpt rt rt2 && beqOpt b b2) = true := h
    simp only [Bool.and_eq_true, beq_iff_eq] at h
    obtain ⟨⟨⟨⟨h1, h2⟩, h3⟩, h4⟩, h5⟩ := h
    rw [h1, h2, beqNodeList_sound ps ps2 h3, beqOpt_sound rt rt2 h4, beqOpt_sound b b2 h5]
  | .varDecl l n t i, c, h => by
    cases c <;> (try (exact absurd (show false = true from h) Bool.false_ne_true))
    rename_i l2 n2 t2 i2
    replace h : (l == l2 && n == n2 && beqOpt t t2 && beqOpt i i2) = true := h
    simp only [Bool.and_eq_true, beq_iff_eq] at h
    obtain ⟨⟨⟨h1, h2⟩, h3⟩, h4⟩ := h
    rw [h1, h2, beqOpt_sound t t2 h3, beqOpt_sound i i2 h4]
  | .literal l t, c, h => by
    cases c <;> (try (exact absurd (show false = true from h) Bool.false_ne_true))
    rename_i l2 t2
    replace h : (l == l2 && t == t2) = true := h
    simp only [Bool.and_eq_true, beq_iff_eq] at h
    rw [h.1, h.2]
  | .variable l n, c, h => by
    cases c <;> (try (exact absurd (show false = true from h) Bool.false_ne_true))
    rename_i l2 n2
    replace h : (l == l2 && n == n2) = true := h
    simp only [Bool.and_eq_true, beq_iff_eq] at h
    rw [h.1, h.2]
  | .call l cl a, c, h => by
    cases c <;> (try (exact absurd (show false = true from h) Bool.false_ne_true))
    rename_i l2 cl2 a2
    replace h : (l == l2 && beqOpt cl cl2 && beqOptList a a2) = true := h
    simp only [Bool.and_eq_true, beq_iff_eq] at h
    rw [h.1.1, beqOpt_sound cl cl2 h.1.2, beqOptList_sound a a2 h.2]
  | .get l o n, c, h => by
    cases c <;> (try (exact absurd (show false = true from h) Bool.false_ne_true))
    rename_i l2 o2 n2
    replace h : (l == l2 && beqOpt o o2 && n == n2) = true := h
    simp only [Bool.and_eq_true, beq_iff_eq] at h
    rw [h.1.1, beqOpt_sound o o2 h.1.2, h.2]
  | .binary l op a b, c, h => by
    cases c <;> (try (exact absurd (show false = true from h) Bool.false_ne_true))
    rename_i l2 op2 a2 b2
    replace h : (l == l2 && op == op2 && beqOpt a a2 && beqOpt b b2) = true := h
    simp only [Bool.and_eq_true, beq_iff_eq] at h
    obtain ⟨⟨⟨h1, h2⟩, h3⟩, h4⟩ := h
    rw [h1, h2, beqOpt_sound a a2 h3, beqOpt_sound b b2 h4]
  | .assign l t v, c, h => by
    cases c <;> (try (exact absurd (show false = true from h) Bool.false_ne_true))
    rename_i l2 t2 v2
    replace h : (l == l2 && ASTNode.beq t t2 && beqOpt v v2) = true := h
    simp only [Bool.and_eq_true, beq_iff_eq] at h
    rw [h.1.1, ASTNode.beq_sound t t2 h.1.2, beqOpt_sound v v2 h.2]
  | .returnStmt l v, c, h => by
    cases c <;> (try (exact absurd (show false = true from h) Bool.false_ne_true))
    rename_i l2 v2
    replace h : (l == l2 && beqOpt v v2) = true := h
    simp only [Bool.and_eq_true, beq_iff_eq] at h
    rw [h.1, beqOpt_sound v v2 h.2]
  | .includeNode l f, c, h => by
    cases c <;> (try (exact absurd (show false = true from h) Bool.false_ne_true))
    rename_i l2 f2
    replace h : (l == l2 && f == f2) = true := h
    simp only [Bool.and_eq_true, beq_iff_eq] at h
    rw [h.1, h.2]
termination_by structural x => x

theorem beqOpt_sound : ∀ (a b : Option ASTNode), beqOpt a b = true → a = b
  | none, none, _ => rfl
  | some a, some b, h => by
    simp only [beqOpt] at h
    rw [ASTNode.beq_sound a b h]
  | none, some _, h => by simp [beqOpt] at h
  | some _, none, h => by simp [beqOpt] at h
termination_by structural x => x

theorem beqNodeList_sound : ∀ (a b : List ASTNode), beqNodeList a b = true → a = b
  | [], [], _ => rfl
  | a :: as, b :: bs, h => by
    simp only [beqNodeList, Bool.and_eq_true] at h
    rw [ASTNode.beq_sound a b h.1, beqNodeList_sound as bs h.2]
  | [], _ :: _, h => by simp [beqNodeList] at h
  | _ :: _, [], h => by simp [beqNodeList] at h
termination_by structural x => x

theorem beqOptList_sound : ∀ (a b : List (Option ASTNode)), beqOptList a b = true → a = b
  | [], [], _ => rfl
  | a :: as, b :: bs, h => by
    simp only [beqOptList, Bool.and_eq_true] at h
    rw [beqOpt_sound a b h.1, beqOptList_sound as bs h.2]
  | [], _ :: _, h => by simp [beqOptList] at h
  | _ :: _, [], h => by simp [beqOptList] at h
termination_by structural x => x

end

/-- A run of `parse` whose tree passes the equality test returns that tree. -/
theorem parse_eq_of_beq {fuel : Nat} {source : List Char} {tree : Option ASTNode}
    (h : (parse fuel source).map (fun r => beqOpt r.1 tree) = some true) :
    ∃ p, parse fuel source = some (tree, p) := by
  cases hp : parse fuel source with
  | none => rw [hp] at h; cases h
  | some r =>
    obtain ⟨ast, p⟩ := r
    rw [hp] at h
    simp only [Option.map_some', Option.some.injEq] at h
    exact ⟨p, by rw [beqOpt_sound ast tree h]⟩

/-- A run of `expression` whose tree passes the equality test returns that
tree. -/
theorem expression_eq_of_beq {fuel : Nat} {p : Parser} {tree : Option ASTNode}
    (h : (expression fuel p).map (fun r => beqOpt r.1 tree) = some true) :
    ∃ q, expression fuel p = some (tree, q) := by
  cases hp : expression fuel p with
  | none => rw [hp] at h; cases h
  | some r =>
    obtain ⟨ast, q⟩ := r
    rw [hp] at h
    simp only [Option.map_some', Option.some.injEq] at h
    exact ⟨q, by rw [beqOpt_sound ast tree h]⟩

/-- A parser result whose tree passes the equality test and whose state is
the given one is that tree with that state. -/
theorem presult_eq_of_beq {r : PResult} {tree : Option ASTNode} {q : Parser}
    (h : r.map (fun x => beqOpt x.1 tree && decide (x.2 = q)) = some true) :
    r = some (tree, q) := by
  cases r with
  | none => cases h
  | some x =>
    obtain ⟨ast, p⟩ := x
    simp only [Option.map_some', Option.some.injEq, Bool.and_eq_true, decide_eq_true_eq] at h
    rw [beqOpt_sound ast tree h.1, h.2]

/-! ## More fuel does not change a result of the expression parser -/

theorem expression_fuel_succ (fuel : Nat) :
    (∀ p c r, finishCall fuel p c = some r → finishCall (fuel + 1) p c = some r) ∧
    (∀ p a r, finishCallArgs fuel p a = some r → finishCallArgs (fuel + 1) p a = some r) ∧
    (∀ p c r, primaryChain fuel p c = some r → primaryChain (fuel + 1) p c = some r) ∧
    (∀ p r, primary fuel p = some r → primary (fuel + 1) p = some r) ∧
    (∀ p l r, binaryLoop fuel p l = some r → binaryLoop (fuel + 1) p l = some r) ∧
    (∀ p r, binary fuel p = some r → binary (fuel + 1) p = some r) ∧
    (∀ p r, expression fuel p = some r → expression (fuel + 1) p = some r) := by
  induction fuel with
  | zero =>
    refine ⟨?_, ?_, ?_, ?_, ?_, ?_, ?_⟩ <;> intros <;> rename_i h <;>
      simp [finishCall, finishCallArgs, primaryChain, primary, binaryLoop, binary, expression] at h
  | succ n ih =>
    obtain ⟨ihFC, ihArgs, ihChain, ihPrim, ihBL, ihBin, ihExpr⟩ := ih
    refine ⟨?_, ?_, ?_, ?_, ?_, ?_, ?_⟩
    · intro p c r h
      rw [finishCall] at h ⊢
      split at h
      · rename_i hc; rw [if_pos hc]; exact h
      · rename_i hc
        rw [if_neg hc]
        simp only [] at h ⊢
        split at h
        · rename_i hc2
          rw [if_pos hc2]
          split at h
          · cases h
          · rename_i args p2 hargs
            rw [ihArgs _ _ _ hargs]
            exact h
        · rename_i hc2; rw [if_neg hc2]; exact h
    · intro p a r h
      rw [finishCallArgs] at h ⊢
      split at h
      · cases h
      · rename_i arg p1 hexpr
        rw [ihExpr _ _ hexpr]
        simp only [] at h ⊢
        split at h
        · rename_i hc; rw [if_pos hc]; exact ihArgs _ _ _ h
        · rename_i hc; rw [if_neg hc]; exact h
    · intro p c r h
      rw [primaryChain] at h ⊢
      split at h
      · rename_i hc; rw [if_pos hc]; exact ihChain _ _ _ h
      · rename_i hc
        rw [if_neg hc]
        split at h
        · rename_i hc2; rw [if_pos hc2]; exact ihFC _ _ _ h
        · rename_i hc2; rw [if_neg hc2]; exact h
    · intro p r h
      rw [primary] at h ⊢
      simp only [] at h ⊢
      split at h
      · rename_i hc; rw [if_pos hc]; exact h
      · rename_i hc
        rw [if_neg hc]
        split at h
        · rename_i hc2; rw [if_pos hc2]; exact ihChain _ _ _ h
        · rename_i hc2
          rw [if_neg hc2]
          split at h
          · rename_i hc3
            rw [if_pos hc3]
            split at h
            · cases h
            · rename_i e p1 hexpr
              rw [ihExpr _ _ hexpr]
              exact h
          · rename_i hc3; rw [if_neg hc3]; exact h
    · intro p l r h
      rw [binaryLoop] at h ⊢
      simp only [] at h ⊢
      split at h
      · rename_i hc
        rw [if_pos hc]
        split at h
        · cases h
        · rename_i right p1 hprim
          rw [ihPrim _ _ hprim]
          exact ihBL _ _ _ h
      · rename_i hc; rw [if_neg hc]; exact h
    · intro p r h
      rw [binary] at h ⊢
      split at h
      · cases h
      · rename_i left p1 hprim
        rw [ihPrim _ _ hprim]
        exact ihBL _ _ _ h
    · intro p r h
      rw [expression] at h ⊢
      exact ihBin _ _ h

theorem primary_fuel_mono {fuel fuel2 : Nat} {p : Parser} {r : Option ASTNode × Parser}
    (h : primary fuel p = some r) (hle : fuel ≤ fuel2) : primary fuel2 p = some r := by
  induction hle with
  | refl => exact h
  | step _ ih => exact (expression_fuel_succ _).2.2.2.1 _ _ ih

theorem expression_fuel_mono {fuel fuel2 : Nat} {p : Parser} {r : Option ASTNode × Parser}
    (h : expression fuel p = some r) (hle : fuel ≤ fuel2) : expression fuel2 p = some r := by
  induction hle with
  | refl => exact h
  | step _ ih => exact (expression_fuel_succ _).2.2.2.2.2.2 _ _ ih

theorem pmatch_of_type {p : Parser} {t : TokenType} (h : p.current.type = t) :
    pmatch p t = (true, p.advance) := by
  simp [pmatch, check, h]

theorem pmatch_of_ne {p : Parser} {t : TokenType} (h : p.current.type ≠ t) :
    pmatch p t = (false, p) := by
  simp [pmatch, check, h]

theorem matchAny_of_mem {p : Parser} : ∀ {ts : List TokenType}, p.current.type ∈ ts →
    matchAny p ts = (true, p.advance)
  | [], h => by simp at h
  | t :: ts, h => by
    by_cases ht : p.current.type = t
    · simp [matchAny, pmatch_of_type ht]
    · have hm : p.current.type ∈ ts := by
        rcases List.mem_cons.mp h with h1 | h1
        · exact absurd h1 ht
        · exact h1
      simp [matchAny, pmatch_of_ne ht, matchAny_of_mem hm]

theorem matchAny_of_not_mem {p : Parser} : ∀ {ts : List TokenType}, p.current.type ∉ ts →
    matchAny p ts = (false, p)
  | [], _ => rfl
  | t :: ts, h => by
    have ht : p.current.type ≠ t := fun e => h (by simp [e])
    have hm : p.current.type ∉ ts := fun e => h (List.mem_cons_of_mem _ e)
    simp [matchAny, pmatch_of_ne ht, matchAny_of_not_mem hm]

theorem consume_of_type {p : Parser} {t : TokenType} (msg : List Char)
    (h : p.current.type = t) : consume p t msg = p.advance := by
  simp [consume, h]

theorem advance_previous (p : Parser) : p.advance.previous = p.current := rfl

theorem advanceN_step (p : Parser) (k : Nat) :
    p.advanceN (k + 1) = Parser.advanceN p.advance k := by
  rw [Parser.advanceN]

theorem advanceN_add (p : Parser) (j k : Nat) :
    p.advanceN (j + k) = (p.advanceN j).advanceN k := by
  induction j generalizing p with
  | zero => rw [Nat.zero_add, Parser.advanceN]
  | succ j ih => rw [Nat.add_right_comm, advanceN_step, advanceN_step, ih]

/-! ## The loop of `binary` -/

theorem binaryLoop_of_tail {fuel : Nat} {p q : Parser} {steps : List (Token × Option ASTNode)}
    (h : BinaryTail fuel p steps q) :
    ∀ left, binaryLoop (fuel + steps.length + 1) p left = some (leftNested left steps, q) := by
  induction h with
  | stop p hno =>
    intro left
    rw [binaryLoop]
    simp only [matchAny_of_not_mem (show p.current.type ∉ [TokenType.TOKEN_PLUS,
      TokenType.TOKEN_MINUS, TokenType.TOKEN_STAR, TokenType.TOKEN_SLASH] from hno)]
    simp [leftNested]
  | step p p1 q right rest hop hprim _ ih =>
    intro left
    rw [show fuel + ((p.current, right) :: rest).length + 1 = (fuel + rest.length + 1) + 1 by
      simp; omega]
    rw [binaryLoop]
    simp only [matchAny_of_mem (show p.current.type ∈ [TokenType.TOKEN_PLUS,
      TokenType.TOKEN_MINUS, TokenType.TOKEN_STAR, TokenType.TOKEN_SLASH] from hop)]
    simp only [if_true, advance_previous]
    rw [primary_fuel_mono hprim (by omega)]
    simp only []
    rw [ih]
    rfl

theorem binaryLoop_fuel_mono {fuel fuel2 : Nat} {p : Parser} {l : Option ASTNode}
    {r : Option ASTNode × Parser}
    (h : binaryLoop fuel p l = some r) (hle : fuel ≤ fuel2) : binaryLoop fuel2 p l = some r := by
  induction hle with
  | refl => exact h
  | step _ ih => exact (expression_fuel_succ _).2.2.2.2.1 _ _ _ ih

theorem expression_of_tail {fuel fuel2 : Nat} {p p1 q : Parser} {left : Option ASTNode}
    {steps : List (Token × Option ASTNode)}
    (hprim : primary fuel p = some (left, p1)) (htail : BinaryTail fuel p1 steps q)
    (hfuel : fuel + steps.length + 3 ≤ fuel2) :
    expression fuel2 p = some (leftNested left steps, q) := by
  obtain ⟨k, rfl⟩ : ∃ k, fuel2 = k + 2 := ⟨fuel2 - 2, by omega⟩
  rw [expression, binary, primary_fuel_mono hprim (by omega)]
  simp only []
  exact binaryLoop_fuel_mono (binaryLoop_of_tail htail left) (by omega)

/-! ## The parameter loop of `functionDeclaration` -/

theorem paramAt_spec {p : Parser} {x : Token × Token} (h : paramAt p x = true) :
    p.current = x.1 ∧ p.current.type ∈ typeKeywords ∧ p.advance.current = x.2 ∧
      p.advance.current.type = TokenType.TOKEN_IDENTIFIER := by
  simp only [paramAt, Bool.and_eq_true, beq_iff_eq, decide_eq_true_eq] at h
  obtain ⟨⟨⟨h1, h2⟩, h3⟩, h4⟩ := h
  exact ⟨h1, h1 ▸ h2, h3, h3 ▸ h4⟩

theorem paramLoop_step (fuel : Nat) (p : Parser) (acc : List ASTNode) (x : Token × Token)
    (h : paramAt p x = true) :
    paramLoop (fuel + 1) p acc =
      if p.advance.advance.current.type = TokenType.TOKEN_COMMA then
        paramLoop fuel p.advance.advance.advance (acc ++ [paramNode x])
      else some (acc ++ [paramNode x], p.advance.advance) := by
  obtain ⟨h1, h2, h3, h4⟩ := paramAt_spec h
  rw [paramLoop]
  simp only [matchAny_of_mem h2, consume_of_type _ h4, advance_previous, h1, h3,
    Bool.not_true, Bool.false_eq_true, if_false, paramNode]
  by_cases hc : p.advance.advance.current.type = TokenType.TOKEN_COMMA
  · simp only [pmatch_of_type hc, if_true, hc]
  · simp only [pmatch_of_ne hc, Bool.false_eq_true, if_false, hc]

theorem paramLoop_of_params : ∀ (pairs : List (Token × Token)) (p : Parser)
    (acc : List ASTNode) (fuel : Nat), pairs ≠ [] → paramsAhead p pairs = true →
    paramLoop (fuel + pairs.length) p acc =
      some (acc ++ pairs.map paramNode, p.advanceN (3 * pairs.length - 1))
  | [], _, _, _, hne, _ => absurd rfl hne
  | [x], p, acc, fuel, _, h => by
    simp only [paramsAhead, Bool.and_eq_true, bne_iff_ne, ne_eq] at h
    rw [List.length_singleton, paramLoop_step fuel p acc x h.1, if_neg h.2]
    simp [advanceN_step, Parser.advanceN]
  | x :: y :: rest, p, acc, fuel, _, h => by
    simp only [paramsAhead, Bool.and_eq_true, beq_iff_eq] at h
    rw [show fuel + (x :: y :: rest).length = (fuel + (y :: rest).length) + 1 by simp; omega]
    rw [paramLoop_step _ p acc x h.1.1, if_pos h.1.2,
      paramLoop_of_params (y :: rest) _ _ fuel (by simp) h.2]
    rw [show 3 * (x :: y :: rest).length - 1 = (3 * (y :: rest).length - 1) + 1 + 1 + 1 by
      simp; omega]
    simp [advanceN_step]

theorem paramsResult_of_params (fuel : Nat) (p : Parser) (pairs : List (Token × Token))
    (h : paramsAhead p pairs = true) (hfuel : pairs.length ≤ fuel) :
    (if (!check p TokenType.TOKEN_RIGHT_PAREN) = true then paramLoop fuel p []
      else some ([], p)) =
      some (pairs.map paramNode, p.advanceN (3 * pairs.length - 1)) := by
  cases pairs with
  | nil =>
    simp only [paramsAhead, beq_iff_eq] at h
    simp [check, h, Parser.advanceN]
  | cons x rest =>
    have hx : paramAt p x = true := by
      cases rest with
      | nil => simp only [paramsAhead, Bool.and_eq_true] at h; exact h.1
      | cons y rest => simp only [paramsAhead, Bool.and_eq_true] at h; exact h.1.1
    obtain ⟨_, h2, _, _⟩ := paramAt_spec hx
    have hne : p.current.type ≠ TokenType.TOKEN_RIGHT_PAREN := by
      intro e
      rw [e] at h2
      revert h2
      decide
    obtain ⟨k, rfl⟩ : ∃ k, fuel = k + (x :: rest).length := ⟨fuel - (x :: rest).length, by omega⟩
    have := paramLoop_of_params (x :: rest) p [] k (by simp) h
    have hchk : (!check p TokenType.TOKEN_RIGHT_PAREN) = true := by simp [check, hne]
    rw [if_pos hchk]
    simpa using this

theorem functionDeclaration_typed (fuel : Nat) (p : Parser) (pairs : List (Token × Token))
    (htype : p.current.type ∈ typeKeywords ++ [TokenType.TOKEN_VOID])
    (hname : p.advance.current.type = TokenType.TOKEN_IDENTIFIER)
    (hparen : p.advance.advance.current.type = TokenType.TOKEN_LEFT_PAREN)
    (hparams : paramsAhead (p.advanceN 3) pairs = true) (hfuel : pairs.length ≤ fuel) :
    functionDeclaration fuel p =
      (bodyLoop fuel
        (consume (consume ((p.advanceN 3).advanceN (3 * pairs.length - 1))
          TokenType.TOKEN_RIGHT_PAREN "Expect ')' after parameters.".toList)
          TokenType.TOKEN_LEFT_BRACE "Expect '\x7b' before function body.".toList) []).map
        (fun r => (some (createFunctionNode p.advance.current.lexeme (pairs.map paramNode)
            (some (createLiteralNode p.current)) (some (createProgramNode r.1))),
          consume r.2 TokenType.TOKEN_RIGHT_BRACE "Expect '\x7d' after function body.".toList)) := by
  have h3 : p.advanceN 3 = p.advance.advance.advance := by
    simp only [Parser.advanceN]
  rw [h3] at hparams ⊢
  unfold functionDeclaration
  simp only [peekType, htype, decide_True, if_true, consume_of_type _ hname,
    consume_of_type _ hparen, advance_previous]
  rw [paramsResult_of_params fuel _ pairs hparams hfuel]
  simp only []
  cases bodyLoop fuel _ [] with
  | none => rfl
  | some r => rfl

theorem functionDeclaration_untyped (fuel : Nat) (p : Parser) (pairs : List (Token × Token))
    (hname : p.current.type = TokenType.TOKEN_IDENTIFIER)
    (hparen : p.advance.current.type = TokenType.TOKEN_LEFT_PAREN)
    (hparams : paramsAhead (p.advanceN 2) pairs = true) (hfuel : pairs.length ≤ fuel) :
    functionDeclaration fuel p =
      (bodyLoop fuel
        (consume (consume ((p.advanceN 2).advanceN (3 * pairs.length - 1))
          TokenType.TOKEN_RIGHT_PAREN "Expect ')' after parameters.".toList)
          TokenType.TOKEN_LEFT_BRACE "Expect '\x7b' before function body.".toList) []).map
        (fun r => (some (createFunctionNode p.current.lexeme (pairs.map paramNode)
            none (some (createProgramNode r.1))),
          consume r.2 TokenType.TOKEN_RIGHT_BRACE "Expect '\x7d' after function body.".toList)) := by
  have h2 : p.advanceN 2 = p.advance.advance := by
    simp only [Parser.advanceN]
  rw [h2] at hparams ⊢
  have htype : p.current.type ∉ typeKeywords ++ [TokenType.TOKEN_VOID] := by
    rw [hname]; decide
  unfold functionDeclaration
  simp only [peekType, htype, decide_False, Bool.false_eq_true, if_false,
    consume_of_type _ hname, consume_of_type _ hparen, advance_previous]
  rw [paramsResult_of_params fuel _ pairs hparams hfuel]
  simp only []
  cases bodyLoop fuel _ [] with
  | none => rfl
  | some r => rfl

/-! ## Member chains and calls in `primary` -/

theorem memberChain_cons (base : ASTNode) (name : Token) (rest : List Token) :
    memberChain base (name :: rest) =
      memberChain (createGetNode (some base) name.lexeme) rest := rfl

theorem primaryChain_of_chain : ∀ (names : List Token) (p : Parser) (node : ASTNode)
    (fuel : Nat), chainAhead p names = true →
    primaryChain (fuel + names.length + 1) p node =
      if (p.advanceN (2 * names.length)).current.type = TokenType.TOKEN_LEFT_PAREN then
        finishCall fuel (p.advanceN (2 * names.length)) (memberChain node names)
      else some (some (memberChain node names), p.advanceN (2 * names.length))
  | [], p, node, fuel, h => by
    simp only [chainAhead, bne_iff_ne, ne_eq] at h
    rw [List.length_nil, Nat.add_zero, primaryChain]
    simp only [pmatch_of_ne h, Bool.false_eq_true, if_false, check, beq_iff_eq,
      Nat.mul_zero, Parser.advanceN, memberChain, List.foldl_nil]
  | name :: rest, p, node, fuel, h => by
    simp only [chainAhead, Bool.and_eq_true, beq_iff_eq] at h
    obtain ⟨⟨⟨hdot, hname⟩, hident⟩, hrest⟩ := h
    have hcur : p.advance.current.type = TokenType.TOKEN_IDENTIFIER := by rw [hname]; exact hident
    rw [show fuel + (name :: rest).length + 1 = (fuel + rest.length + 1) + 1 by simp; omega]
    rw [primaryChain]
    simp only [pmatch_of_type hdot, if_true, consume_of_type _ hcur, advance_previous, hname]
    rw [primaryChain_of_chain rest _ _ fuel hrest]
    rw [show 2 * (name :: rest).length = 2 * rest.length + 1 + 1 by simp; omega]
    simp only [advanceN_step, memberChain_cons]

theorem primary_of_identifier (fuel : Nat) (p : Parser)
    (h : p.current.type = TokenType.TOKEN_IDENTIFIER) :
    primary (fuel + 1) p = primaryChain fuel p.advance (createVarRefNode p.current.lexeme) := by
  have hlit : p.current.type ∉ [TokenType.TOKEN_TRUE, TokenType.TOKEN_FALSE,
      TokenType.TOKEN_NULL, TokenType.TOKEN_NUMBER] := by rw [h]; decide
  rw [primary]
  simp only [matchAny_of_not_mem hlit, Bool.false_eq_true, if_false, pmatch_of_type h, if_true,
    advance_previous]

theorem finishCallArgs_of_list {fuel : Nat} {p q : Parser} {results : List (Option ASTNode)}
    (h : ArgList fuel p results q) :
    ∀ acc, finishCallArgs (fuel + results.length) p acc =
      some (acc ++ results.filter (fun r => r.isSome), q) := by
  induction h with
  | last p q arg hexpr hend =>
    intro acc
    rw [List.length_singleton, finishCallArgs, hexpr]
    simp only [pmatch_of_ne hend, Bool.false_eq_true, if_false]
    cases arg <;> simp
  | more p p1 q arg rest hexpr hcomma _ ih =>
    intro acc
    rw [show fuel + (arg :: rest).length = (fuel + rest.length) + 1 by simp; omega]
    rw [finishCallArgs, expression_fuel_mono hexpr (by omega)]
    simp only [pmatch_of_type hcomma, if_true]
    rw [ih]
    cases arg <;> simp

theorem finishCall_empty (fuel : Nat) (p : Parser) (callee : ASTNode)
    (hopen : p.current.type = TokenType.TOKEN_LEFT_PAREN)
    (hclose : p.advance.current.type = TokenType.TOKEN_RIGHT_PAREN) :
    finishCall (fuel + 1) p callee =
      some (some (createCallNode (some callee) []), p.advance.advance) := by
  rw [finishCall]
  simp [pmatch_of_type hopen, check, hclose, consume_of_type]

theorem finishCall_of_list {fuel : Nat} {p q : Parser} {results : List (Option ASTNode)}
    (callee : ASTNode)
    (hopen : p.current.type = TokenType.TOKEN_LEFT_PAREN)
    (hclose : p.advance.current.type ≠ TokenType.TOKEN_RIGHT_PAREN)
    (h : ArgList fuel p.advance results q) :
    finishCall (fuel + results.length + 1) p callee =
      some (some (createCallNode (some callee) (results.filter (fun r => r.isSome))),
        consume q TokenType.TOKEN_RIGHT_PAREN "Expect ')' after arguments.".toList) := by
  rw [finishCall]
  simp [pmatch_of_type hopen, check, hclose, finishCallArgs_of_list h]

theorem primary_chain_plain (fuel : Nat) (p : Parser) (names : List Token)
    (hid : p.current.type = TokenType.TOKEN_IDENTIFIER)
    (hchain : chainAhead p.advance names = true)
    (hend : (p.advanceN (2 * names.length + 1)).current.type ≠ TokenType.TOKEN_LEFT_PAREN)
    (hfuel : names.length + 2 ≤ fuel) :
    primary fuel p = some (some (memberChain (createVarRefNode p.current.lexeme) names),
      p.advanceN (2 * names.length + 1)) := by
  rw [advanceN_step] at hend ⊢
  have key : primary ((0 + names.length + 1) + 1) p =
      some (some (memberChain (createVarRefNode p.current.lexeme) names),
        p.advance.advanceN (2 * names.length)) := by
    rw [primary_of_identifier _ p hid, primaryChain_of_chain names _ _ 0 hchain, if_neg hend]
  exact primary_fuel_mono key (by omega)

theorem primary_chain_call_empty (fuel : Nat) (p : Parser) (names : List Token)
    (hid : p.current.type = TokenType.TOKEN_IDENTIFIER)
    (hchain : chainAhead p.advance names = true)
    (hopen : (p.advanceN (2 * names.length + 1)).current.type = TokenType.TOKEN_LEFT_PAREN)
    (hclose : (p.advanceN (2 * names.length + 2)).current.type = TokenType.TOKEN_RIGHT_PAREN)
    (hfuel : names.length + 3 ≤ fuel) :
    primary fuel p =
      some (some (createCallNode
          (some (memberChain (createVarRefNode p.current.lexeme) names)) []),
        p.advanceN (2 * names.length + 3)) := by
  have e2 : p.advanceN (2 * names.length + 2) = (p.advanceN (2 * names.length + 1)).advance := by
    rw [advanceN_add p (2 * names.length + 1) 1, advanceN_step, Parser.advanceN]
  have e3 : p.advanceN (2 * names.length + 3) =
      (p.advanceN (2 * names.length + 1)).advance.advance := by
    rw [advanceN_add p (2 * names.length + 1) 2, advanceN_step, advanceN_step, Parser.advanceN]
  rw [e2] at hclose
  rw [e3]
  rw [advanceN_step] at hopen hclose ⊢
  have key : primary ((1 + names.length + 1) + 1) p =
      some (some (createCallNode
          (some (memberChain (createVarRefNode p.current.lexeme) names)) []),
        (p.advance.advanceN (2 * names.length)).advance.advance) := by
    rw [primary_of_identifier _ p hid, primaryChain_of_chain names _ _ 1 hchain, if_pos hopen,
      finishCall_empty 0 _ _ hopen hclose]
  exact primary_fuel_mono key (by omega)

theorem primary_chain_call_args (fuel fuel2 : Nat) (p q : Parser) (names : List Token)
    (results : List (Option ASTNode))
    (hid : p.current.type = TokenType.TOKEN_IDENTIFIER)
    (hchain : chainAhead p.advance names = true)
    (hopen : (p.advanceN (2 * names.length + 1)).current.type = TokenType.TOKEN_LEFT_PAREN)
    (hclose : (p.advanceN (2 * names.length + 2)).current.type ≠ TokenType.TOKEN_RIGHT_PAREN)
    (hargs : ArgList fuel (p.advanceN (2 * names.length + 2)) results q)
    (hfuel : fuel + results.length + names.length + 3 ≤ fuel2) :
    primary fuel2 p =
      some (some (createCallNode
          (some (memberChain (createVarRefNode p.current.lexeme) names))
          (results.filter (fun r => r.isSome))),
        consume q TokenType.TOKEN_RIGHT_PAREN "Expect ')' after arguments.".toList) := by
  have e2 : p.advanceN (2 * names.length + 2) = (p.advanceN (2 * names.length + 1)).advance := by
    rw [advanceN_add p (2 * names.length + 1) 1, advanceN_step, Parser.advanceN]
  rw [e2] at hclose hargs
  rw [advanceN_step] at hopen hclose hargs
  have key : primary (((fuel + results.length + 1) + names.length + 1) + 1) p =
      some (some (createCallNode
          (some (memberChain (createVarRefNode p.current.lexeme) names))
          (results.filter (fun r => r.isSome))),
        consume q TokenType.TOKEN_RIGHT_PAREN "Expect ')' after arguments.".toList) := by
    rw [primary_of_identifier _ p hid, primaryChain_of_chain names _ _ _ hchain, if_pos hopen,
      finishCall_of_list _ hopen hclose hargs]
  exact primary_fuel_mono key (by omega)

/-- C18: parsing `func int add(int a, int b) \x7b return a + b; \x7d` returns
the tree `addTree` (a Program with the single FunctionDecl `add`, return type
`int`, parameters `a` and `b` of type `int` in that order, and a body of one
Return node over the binary node `a + b`) without any diagnostic.  In
general, when the tokens behind `func` are an optional return type, a name,
an opening parenthesis and a comma-separated parameter list `pairs`,
`functionDeclaration` (given at least as much fuel as there are parameters)
returns exactly when the loop over the body returns, and then the node it
returns holds one parameter node per pair, in source order. -/
theorem parse_function_declaration :
    (∃ p, parse 40 srcAdd = some (some addTree, p)) ∧
    (parse 40 srcAdd).map (fun r => (r.2.hadError, r.2.diagnostics)) = some (false, []) ∧
    (∀ (fuel : Nat) (p : Parser) (pairs : List (Token × Token)),
      p.current.type ∈ typeKeywords ++ [TokenType.TOKEN_VOID] →
      p.advance.current.type = TokenType.TOKEN_IDENTIFIER →
      p.advance.advance.current.type = TokenType.TOKEN_LEFT_PAREN →
      paramsAhead (p.advanceN 3) pairs = true → pairs.length ≤ fuel →
      functionDeclaration fuel p =
        (bodyLoop fuel
          (consume (consume ((p.advanceN 3).advanceN (3 * pairs.length - 1))
            TokenType.TOKEN_RIGHT_PAREN "Expect ')' after parameters.".toList)
            TokenType.TOKEN_LEFT_BRACE "Expect '\x7b' before function body.".toList) []).map
          (fun r => (some (createFunctionNode p.advance.current.lexeme (pairs.map paramNode)
              (some (createLiteralNode p.current)) (some (createProgramNode r.1))),
            consume r.2 TokenType.TOKEN_RIGHT_BRACE
              "Expect '\x7d' after function body.".toList))) ∧
    (∀ (fuel : Nat) (p : Parser) (pairs : List (Token × Token)),
      p.current.type = TokenType.TOKEN_IDENTIFIER →
      p.advance.current.type = TokenType.TOKEN_LEFT_PAREN →
      paramsAhead (p.advanceN 2) pairs = true → pairs.length ≤ fuel →
      functionDeclaration fuel p =
        (bodyLoop fuel
          (consume (consume ((p.advanceN 2).advanceN (3 * pairs.length - 1))
            TokenType.TOKEN_RIGHT_PAREN "Expect ')' after parameters.".toList)
            TokenType.TOKEN_LEFT_BRACE "Expect '\x7b' before function body.".toList) []).map
          (fun r => (some (createFunctionNode p.current.lexeme (pairs.map paramNode)
              none (some (createProgramNode r.1))),
            consume r.2 TokenType.TOKEN_RIGHT_BRACE
              "Expect '\x7d' after function body.".toList))) :=
  ⟨parse_eq_of_beq (by decide!), by decide!,
    fun fuel p pairs h1 h2 h3 h4 h5 => functionDeclaration_typed fuel p pairs h1 h2 h3 h4 h5,
    fun fuel p pairs h1 h2 h3 h4 => functionDeclaration_untyped fuel p pairs h1 h2 h3 h4⟩

/-- Witness for C18: behind `func` in `srcAdd` the tokens are `int`, `add`,
`(` and the parameter list `int a, int b`, so `functionDeclaration` returns
a node with these two parameters; and likewise for the header `f(bool p)`
without return type. -/
theorem parse_function_declaration_witness :
    (paramsAhead (afterFunc.advanceN 3) addParams = true ∧
      functionDeclaration 40 afterFunc =
        (bodyLoop 40
          (consume (consume ((afterFunc.advanceN 3).advanceN (3 * addParams.length - 1))
            TokenType.TOKEN_RIGHT_PAREN "Expect ')' after parameters.".toList)
            TokenType.TOKEN_LEFT_BRACE "Expect '\x7b' before function body.".toList) []).map
          (fun r => (some (createFunctionNode afterFunc.advance.current.lexeme
              (addParams.map paramNode)
              (some (createLiteralNode afterFunc.current)) (some (createProgramNode r.1))),
            consume r.2 TokenType.TOKEN_RIGHT_BRACE
              "Expect '\x7d' after function body.".toList))) ∧
    (paramsAhead ((parserAt srcUntypedHeader).advanceN 2) [(boolToken, identToken "p")] = true ∧
      functionDeclaration 40 (parserAt srcUntypedHeader) =
        (bodyLoop 40
          (consume (consume (((parserAt srcUntypedHeader).advanceN 2).advanceN
              (3 * [(boolToken, identToken "p")].length - 1))
            TokenType.TOKEN_RIGHT_PAREN "Expect ')' after parameters.".toList)
            TokenType.TOKEN_LEFT_BRACE "Expect '\x7b' before function body.".toList) []).map
          (fun r => (some (createFunctionNode (parserAt srcUntypedHeader).current.lexeme
              ([(boolToken, identToken "p")].map paramNode)
              none (some (createProgramNode r.1))),
            consume r.2 TokenType.TOKEN_RIGHT_BRACE
              "Expect '\x7d' after function body.".toList))) :=
  ⟨⟨by decide!, parse_function_declaration.2.2.1 40 afterFunc addParams
      (by decide!) (by decide!) (by decide!) (by decide!) (by decide)⟩,
    ⟨by decide!, parse_function_declaration.2.2.2 40 (parserAt srcUntypedHeader)
      [(boolToken, identToken "p")] (by decide!) (by decide!) (by decide!) (by decide)⟩⟩

/-- C19: when `primary` returns `left` for the first operand and the tokens
behind it are operator, primary, operator, primary, ... (operators drawn from
`+ - * /` in any mix, the list `steps` holding each operator token with the
node `primary` returns for the operand behind it) up to a token that is not
an operator, `expression` returns the left-nested tree
`Binary(on, Binary(... Binary(o1, left, r1) ...), rn)`, given enough fuel.
So `a + b * c` parses as `(a + b) * c` and `a - b - c` as `(a - b) - c`. -/
theorem expression_left_nested :
    (∀ (fuel fuel2 : Nat) (p p1 q : Parser) (left : Option ASTNode)
        (steps : List (Token × Option ASTNode)),
      primary fuel p = some (left, p1) → BinaryTail fuel p1 steps q →
      fuel + steps.length + 3 ≤ fuel2 →
      expression fuel2 p =
        some (steps.foldl (fun acc s => some (createBinaryNode s.1 acc s.2)) left, q)) ∧
    (∃ q, expression 8 (parserAt srcMixedOperators) = some (some treeMixedOperators, q)) ∧
    (∃ q, expression 8 (parserAt srcRepeatedMinus) = some (some treeRepeatedMinus, q)) :=
  ⟨fun _ _ _ _ _ _ _ hprim htail hfuel => expression_of_tail hprim htail hfuel,
    expression_eq_of_beq (by decide!), expression_eq_of_beq (by decide!)⟩

/-- Witness for C19: in `a + b * c` the first operand is `a`, the steps are
(`+`, `b`) and (`*`, `c`), the end of input follows, and `expression` returns
the left-nested tree over them. -/
theorem expression_left_nested_witness :
    primary 2 (parserAt srcMixedOperators) =
      some (some (ASTNode.variable 0 "a".toList), (parserAt srcMixedOperators).advanceN 1) ∧
    ((parserAt srcMixedOperators).advanceN 1).current =
      operatorToken TokenType.TOKEN_PLUS "+" ∧
    ((parserAt srcMixedOperators).advanceN 3).current =
      operatorToken TokenType.TOKEN_STAR "*" ∧
    BinaryTail 2 ((parserAt srcMixedOperators).advanceN 1)
      [(((parserAt srcMixedOperators).advanceN 1).current,
          some (ASTNode.variable 0 "b".toList)),
       (((parserAt srcMixedOperators).advanceN 3).current,
          some (ASTNode.variable 0 "c".toList))]
      ((parserAt srcMixedOperators).advanceN 5) ∧
    expression 7 (parserAt srcMixedOperators) =
      some ([(((parserAt srcMixedOperators).advanceN 1).current,
               some (ASTNode.variable 0 "b".toList)),
             (((parserAt srcMixedOperators).advanceN 3).current,
               some (ASTNode.variable 0 "c".toList))].foldl
          (fun acc s => some (createBinaryNode s.1 acc s.2))
          (some (ASTNode.variable 0 "a".toList)),
        (parserAt srcMixedOperators).advanceN 5) :=
  have h1 : primary 2 (parserAt srcMixedOperators) =
      some (some (ASTNode.variable 0 "a".toList), (parserAt srcMixedOperators).advanceN 1) :=
    presult_eq_of_beq (by decide!)
  have h2 : BinaryTail 2 ((parserAt srcMixedOperators).advanceN 1)
      [(((parserAt srcMixedOperators).advanceN 1).current,
          some (ASTNode.variable 0 "b".toList)),
       (((parserAt srcMixedOperators).advanceN 3).current,
          some (ASTNode.variable 0 "c".toList))]
      ((parserAt srcMixedOperators).advanceN 5) :=
    BinaryTail.step _ ((parserAt srcMixedOperators).advanceN 3) _ _ _ (by decide!)
      (presult_eq_of_beq (by decide!))
      (BinaryTail.step _ ((parserAt srcMixedOperators).advanceN 5) _ _ _ (by decide!)
        (presult_eq_of_beq (by decide!))
        (BinaryTail.stop _ (by decide!)))
  ⟨h1, by decide!, by decide!, h2,
    expression_left_nested.1 2 7 _ _ _ _ _ h1 h2 (by decide)⟩

/-- C20: let the current token be an identifier `x1` and the tokens behind
it be `. x2 ... . xn` (`names`, possibly empty).  When no `(` follows,
`primary` returns the left-nested chain `Get(...Get(Var x1, x2)..., xn)`
itself, the bare `Var x1` for an empty `names`.  When `()` follows it returns
one Call node with that chain as callee and no arguments.  When `(` and a
comma-separated run of argument expressions follow, it returns one Call node
with that chain as callee and, as arguments, the nodes `expression` returns
for the arguments, in source order (an argument for which `expression`
returns NULL is left out).  In each case enough fuel gives the result.
So `sys.IO.print(1, x)` is one call of the chain `sys.IO.print` with the
arguments `1` and `x`, `a.b.c` is the chain itself, `x` is a bare variable
reference and `f()` a call without arguments. -/
theorem primary_member_chain :
    (∀ (fuel : Nat) (p : Parser) (names : List Token),
      p.current.type = TokenType.TOKEN_IDENTIFIER → chainAhead p.advance names = true →
      (p.advanceN (2 * names.length + 1)).current.type ≠ TokenType.TOKEN_LEFT_PAREN →
      names.length + 2 ≤ fuel →
      primary fuel p = some (some (memberChain (createVarRefNode p.current.lexeme) names),
        p.advanceN (2 * names.length + 1))) ∧
    (∀ (fuel : Nat) (p : Parser) (names : List Token),
      p.current.type = TokenType.TOKEN_IDENTIFIER → chainAhead p.advance names = true →
      (p.advanceN (2 * names.length + 1)).current.type = TokenType.TOKEN_LEFT_PAREN →
      (p.advanceN (2 * names.length + 2)).current.type = TokenType.TOKEN_RIGHT_PAREN →
      names.length + 3 ≤ fuel →
      primary fuel p =
        some (some (createCallNode
            (some (memberChain (createVarRefNode p.current.lexeme) names)) []),
          p.advanceN (2 * names.length + 3))) ∧
    (∀ (fuel fuel2 : Nat) (p q : Parser) (names : List Token)
        (results : List (Option ASTNode)),
      p.current.type = TokenType.TOKEN_IDENTIFIER → chainAhead p.advance names = true →
      (p.advanceN (2 * names.length + 1)).current.type = TokenType.TOKEN_LEFT_PAREN →
      (p.advanceN (2 * names.length + 2)).current.type ≠ TokenType.TOKEN_RIGHT_PAREN →
      ArgList fuel (p.advanceN (2 * names.length + 2)) results q →
      fuel + results.length + names.length + 3 ≤ fuel2 →
      primary fuel2 p =
        some (some (createCallNode
            (some (memberChain (createVarRefNode p.current.lexeme) names))
            (results.filter (fun r => r.isSome))),
          consume q TokenType.TOKEN_RIGHT_PAREN "Expect ')' after arguments.".toList)) ∧
    (∃ q, expression 20 (parserAt srcChainCall) = some (some treeChainCall, q)) ∧
    (∃ q, expression 20 (parserAt srcChain) = some (some treeChain, q)) ∧
    (∃ q, expression 20 (parserAt srcBareName) =
      some (some (ASTNode.variable 0 "x".toList), q)) ∧
    (∃ q, expression 20 (parserAt srcEmptyCall) =
      some (some (ASTNode.call 0 (some (ASTNode.variable 0 "f".toList)) []), q)) :=
  ⟨fun fuel p names h1 h2 h3 h4 => primary_chain_plain fuel p names h1 h2 h3 h4,
    fun fuel p names h1 h2 h3 h4 h5 => primary_chain_call_empty fuel p names h1 h2 h3 h4 h5,
    fun fuel fuel2 p q names results h1 h2 h3 h4 h5 h6 =>
      primary_chain_call_args fuel fuel2 p q names results h1 h2 h3 h4 h5 h6,
    expression_eq_of_beq (by decide!), expression_eq_of_beq (by decide!),
    expression_eq_of_beq (by decide!), expression_eq_of_beq (by decide!)⟩

/-- Witness for C20: in `a.b.c` the names `b` and `c` follow `a` and no `(`
follows, and `primary` returns the chain; in `f()` the call has no
arguments; in `sys.IO.print(1, x)` the names `IO` and `print` follow `sys`,
the argument run is `1`, `x`, and `primary` returns one call of the chain
with these two arguments. -/
theorem primary_member_chain_witness :
    (chainAhead (parserAt srcChain).advance chainNames = true ∧
      primary 4 (parserAt srcChain) =
        some (some (memberChain (createVarRefNode (parserAt srcChain).current.lexeme)
          chainNames), (parserAt srcChain).advanceN (2 * chainNames.length + 1))) ∧
    (chainAhead (parserAt srcEmptyCall).advance [] = true ∧
      primary 3 (parserAt srcEmptyCall) =
        some (some (createCallNode
            (some (memberChain (createVarRefNode (parserAt srcEmptyCall).current.lexeme) []))
            []),
          (parserAt srcEmptyCall).advanceN (2 * ([] : List Token).length + 3))) ∧
    (chainAhead (parserAt srcChainCall).advance chainCallNames = true ∧
      ArgList 4 ((parserAt srcChainCall).advanceN (2 * chainCallNames.length + 2))
        [some (ASTNode.literal 1 oneToken), some (ASTNode.variable 0 "x".toList)]
        ((parserAt srcChainCall).advanceN 9) ∧
      primary 11 (parserAt srcChainCall) =
        some (some (createCallNode
            (some (memberChain (createVarRefNode (parserAt srcChainCall).current.lexeme)
              chainCallNames))
            ([some (ASTNode.literal 1 oneToken),
              some (ASTNode.variable 0 "x".toList)].filter (fun r => r.isSome))),
          consume ((parserAt srcChainCall).advanceN 9) TokenType.TOKEN_RIGHT_PAREN
            "Expect ')' after arguments.".toList)) :=
  have hargs : ArgList 4 ((parserAt srcChainCall).advanceN (2 * chainCallNames.length + 2))
      [some (ASTNode.literal 1 oneToken), some (ASTNode.variable 0 "x".toList)]
      ((parserAt srcChainCall).advanceN 9) :=
    ArgList.more _ ((parserAt srcChainCall).advanceN 7) _ _ _
      (presult_eq_of_beq (by decide!)) (by decide!)
      (ArgList.last _ _ _ (presult_eq_of_beq (by decide!)) (by decide!))
  ⟨⟨by decide!, primary_member_chain.1 4 (parserAt srcChain) chainNames
      (by decide!) (by decide!) (by decide!) (by decide)⟩,
    ⟨by decide!, primary_member_chain.2.1 3 (parserAt srcEmptyCall) []
      (by decide!) (by decide!) (by decide!) (by decide!) (by decide)⟩,
    ⟨by decide!, hargs, primary_member_chain.2.2.1 4 11 (parserAt srcChainCall)
      ((parserAt srcChainCall).advanceN 9) chainCallNames
      [some (ASTNode.literal 1 oneToken), some (ASTNode.variable 0 "x".toList)]
      (by decide!) (by decide!) (by decide!) (by decide!) hargs (by decide)⟩⟩

/-! ## The scanner loops on the unread input -/

theorem charAt_eq_headD (s : List Char) (i : Nat) : charAt s i = (s.drop i).headD NUL := by
  unfold charAt
  rw [List.getD_eq_getElem?_getD, List.headD_eq_head?_getD, List.head?_drop]

theorem peek_of_rest_nil {lx : Lexer} (h : lx.rest = []) : peek lx = NUL := by
  unfold peek
  rw [charAt_eq_headD]
  unfold Lexer.rest at h
  rw [h]
  rfl

theorem peek_of_rest_cons {lx : Lexer} {c : Char} {tl : List Char} (h : lx.rest = c :: tl) :
    peek lx = c := by
  unfold peek
  rw [charAt_eq_headD]
  unfold Lexer.rest at h
  rw [h]
  rfl

theorem peek_eq_headD_rest (lx : Lexer) : peek lx = lx.rest.headD NUL := by
  unfold peek
  rw [charAt_eq_headD]
  rfl

theorem rest_advance {lx : Lexer} {c : Char} {tl : List Char} (h : lx.rest = c :: tl) :
    (advance lx).2.rest = tl := by
  unfold Lexer.rest at h ⊢
  show lx.source.drop (lx.current + 1) = tl
  rw [← List.tail_drop, h]
  rfl

theorem rest_skip {lx : Lexer} {pre tl : List Char} (h : lx.rest = pre ++ tl) :
    (lx.skip pre.length).rest = tl := by
  unfold Lexer.rest at h ⊢
  show lx.source.drop (lx.current + pre.length) = tl
  rw [← List.drop_drop, h, List.drop_left]

theorem isAtEnd_of_rest_cons {lx : Lexer} {c : Char} {tl : List Char} (h : lx.rest = c :: tl)
    (hc : c ≠ NUL) : isAtEnd lx = false :=
  not_atEnd_of_peek_eq (peek_of_rest_cons h) hc

theorem isAtEnd_of_rest_nil {lx : Lexer} (h : lx.rest = []) : isAtEnd lx = true := by
  have := peek_of_rest_nil h
  simpa [isAtEnd, peek] using this

theorem peekNext_of_rest_cons {lx : Lexer} {c : Char} {tl : List Char} (h : lx.rest = c :: tl)
    (hc : c ≠ NUL) : peekNext lx = tl.headD NUL := by
  unfold peekNext
  rw [isAtEnd_of_rest_cons h hc]
  simp only [Bool.false_eq_true, if_false]
  have := rest_advance h
  rw [charAt_eq_headD]
  unfold Lexer.rest at this
  show (lx.source.drop (lx.current + 1)).headD NUL = _
  have e : (advance lx).2.current = lx.current + 1 := rfl
  rw [e] at this
  have e2 : (advance lx).2.source = lx.source := rfl
  rw [e2] at this
  rw [this]

theorem skip_zero (lx : Lexer) : lx.skip 0 = lx := rfl

theorem advance_skip (lx : Lexer) (k : Nat) : (advance lx).2.skip k = lx.skip (k + 1) := by
  simp only [Lexer.skip, Mino.advance]
  congr 1
  omega

theorem skip_skip (lx : Lexer) (j k : Nat) : (lx.skip j).skip k = lx.skip (j + k) := by
  simp only [Lexer.skip]
  congr 1
  omega

theorem digitLoop_run : ∀ (ds : List Char) (n : Nat) (lx : Lexer) (tl : List Char),
    lx.rest = ds ++ tl → (∀ c ∈ ds, isdigit c = true) → isdigit (tl.headD NUL) = false →
    ds.length ≤ n → digitLoop n lx = lx.skip ds.length
  | [], n, lx, tl, hrest, _, hstop, _ => by
    have hp : isdigit (peek lx) = false := by
      rw [peek_eq_headD_rest, hrest]; exact hstop
    cases n with
    | zero => rfl
    | succ n => simp [digitLoop, hp, Lexer.skip]
  | d :: ds, 0, _, _, _, _, _, hn => by simp at hn
  | d :: ds, n + 1, lx, tl, hrest, hall, hstop, hn => by
    have hp : isdigit (peek lx) = true := by
      rw [peek_of_rest_cons hrest]; exact hall d (List.mem_cons_self _ _)
    rw [digitLoop, if_pos hp,
      digitLoop_run ds n (advance lx).2 tl (rest_advance hrest)
        (fun c hc => hall c (List.mem_cons_of_mem _ hc)) hstop (by simpa using hn),
      advance_skip]
    rfl

theorem headD_dropWhile_isdigit (l : List Char) :
    isdigit ((l.dropWhile isdigit).headD NUL) = false := by
  induction l with
  | nil => exact isdigit_NUL
  | cons c tl ih =>
    by_cases hc : isdigit c = true
    · rw [List.dropWhile_cons_of_pos hc]; exact ih
    · rw [List.dropWhile_cons_of_neg hc]
      simpa using hc

theorem mem_takeWhile_isdigit {l : List Char} {c : Char} (h : c ∈ l.takeWhile isdigit) :
    isdigit c = true := List.mem_takeWhile_imp h

theorem rest_length_le (lx : Lexer) : lx.rest.length ≤ lx.source.length := by
  unfold Lexer.rest
  rw [List.length_drop]
  omega

theorem length_takeWhile_le (p : Char → Bool) (l : List Char) :
    (l.takeWhile p).length ≤ l.length := (List.takeWhile_sublist p).length_le

theorem digitLoop_takeWhile (lx : Lexer) (n : Nat) (hn : lx.source.length ≤ n) :
    digitLoop n lx = lx.skip (lx.rest.takeWhile isdigit).length ∧
      (lx.skip (lx.rest.takeWhile isdigit).length).rest = lx.rest.dropWhile isdigit := by
  have hsplit : lx.rest = lx.rest.takeWhile isdigit ++ lx.rest.dropWhile isdigit :=
    (List.takeWhile_append_dropWhile _ _).symm
  refine ⟨digitLoop_run _ n lx _ hsplit (fun c hc => mem_takeWhile_isdigit hc)
    (headD_dropWhile_isdigit _) ?_, rest_skip hsplit⟩
  have h1 := rest_length_le lx
  have h2 := length_takeWhile_le isdigit lx.rest
  omega

theorem numberPrefix_of_fraction {input : List Char} {d : Char} {tl : List Char}
    (h : input.dropWhile isdigit = '.' :: d :: tl) (hd : isdigit d = true) :
    numberPrefix input = input.takeWhile isdigit ++ '.' :: (d :: tl).takeWhile isdigit := by
  simp only [numberPrefix, h, hd, if_true]

theorem numberPrefix_of_plain {input : List Char}
    (h : ∀ d tl, input.dropWhile isdigit = '.' :: d :: tl → isdigit d = false) :
    numberPrefix input = input.takeWhile isdigit := by
  unfold numberPrefix
  simp only []
  split
  · rename_i d tl heq
    rw [h d tl heq]
    simp
  · rfl

/-- The cursor after `number`: the digits, and the dot with its digits when a
digit follows the dot, are consumed. -/
theorem number_skip (lx : Lexer) (d : Char) (hd : isdigit d = true) :
    (number lx).2 = lx.skip ((numberPrefix (d :: lx.rest)).length - 1) ∧
    (number lx).1 = makeToken (number lx).2 TokenType.TOKEN_NUMBER := by
  obtain ⟨h1, h1r⟩ := digitLoop_takeWhile lx lx.source.length (le_refl _)
  have hdrop : (d :: lx.rest).dropWhile isdigit = lx.rest.dropWhile isdigit :=
    List.dropWhile_cons_of_pos hd
  have htake : (d :: lx.rest).takeWhile isdigit = d :: lx.rest.takeWhile isdigit :=
    List.takeWhile_cons_of_pos hd
  refine ⟨?_, rfl⟩
  unfold number
  simp only []
  rw [h1]
  generalize hk : (lx.rest.takeWhile isdigit).length = k at h1r ⊢
  cases htl : lx.rest.dropWhile isdigit with
  | nil =>
    rw [htl] at h1r
    have hp := peek_of_rest_nil h1r
    have hnp : numberPrefix (d :: lx.rest) = d :: lx.rest.takeWhile isdigit := by
      rw [numberPrefix_of_plain, htake]
      intro d2 tl2 h2
      rw [hdrop, htl] at h2
      cases h2
    rw [hnp, hp]
    simp [hk, NUL]
  | cons c tl =>
    rw [htl] at h1r
    have hp := peek_of_rest_cons h1r
    by_cases hc : c = '.'
    · subst hc
      have hnext := peekNext_of_rest_cons h1r (by decide)
      cases tl with
      | nil =>
        have hnp : numberPrefix (d :: lx.rest) = d :: lx.rest.takeWhile isdigit := by
          rw [numberPrefix_of_plain, htake]
          intro d2 tl2 h2
          rw [hdrop, htl] at h2
          cases h2
        rw [hnp, hp, hnext]
        simp [hk, isdigit_NUL]
      | cons d2 tl2 =>
        by_cases hd2 : isdigit d2 = true
        · have hnp := numberPrefix_of_fraction (hdrop.trans htl) hd2
          rw [hnp, htake, hp, hnext]
          simp only [List.headD_cons, hd2, beq_self_eq_true, Bool.and_self, if_true]
          have hra := rest_advance h1r
          obtain ⟨h2, _⟩ := digitLoop_takeWhile (advance (lx.skip k)).2 lx.source.length
            (le_refl _)
          have hsrc : (lx.skip k).source = lx.source := rfl
          rw [hsrc, h2, hra, advance_skip, skip_skip]
          simp only [Lexer.skip, List.length_cons, List.length_append, hk]
          congr 1
          omega
        · have hnp : numberPrefix (d :: lx.rest) = d :: lx.rest.takeWhile isdigit := by
            rw [numberPrefix_of_plain, htake]
            intro d3 tl3 h3
            rw [hdrop, htl] at h3
            cases h3
            simpa using hd2
          rw [hnp, hp, hnext]
          simp [hk, hd2]
    · have hnp : numberPrefix (d :: lx.rest) = d :: lx.rest.takeWhile isdigit := by
        rw [numberPrefix_of_plain, htake]
        intro d2 tl2 h2
        rw [hdrop, htl] at h2
        cases h2
        exact absurd rfl hc
      rw [hnp, hp]
      simp [hk, hc]

theorem isdigit_not_special {d : Char} (hd : isdigit d = true) :
    (d == '#') = false ∧ (isalpha d || d == '_') = false ∧ d ≠ NUL := by
  have h : 48 ≤ d.toNat ∧ d.toNat ≤ 57 := by
    simpa [isdigit] using hd
  refine ⟨?_, ?_, ?_⟩
  · cases hb : d == '#'
    · rfl
    · rw [beq_iff_eq] at hb
      subst hb
      revert hd
      decide
  · have ha : isalpha d = false := by
      simp only [isalpha, Bool.or_eq_false_iff, Bool.and_eq_false_iff, decide_eq_false_iff_not]
      constructor <;> omega
    have hu : (d == '_') = false := by
      cases hb : d == '_'
      · rfl
      · rw [beq_iff_eq] at hb
        subst hb
        revert hd
        decide
    rw [ha, hu]
    rfl
  · intro e
    subst e
    revert hd
    decide

theorem scanBody_of_digit (lx : Lexer) (hd : isdigit (peek lx) = true) :
    scanBody lx = number (advance lx).2 := by
  obtain ⟨h1, h2, _⟩ := isdigit_not_special hd
  have hc : (advance lx).1 = peek lx := rfl
  unfold scanBody
  simp only []
  rw [hc, if_neg (by rw [h1]; simp), if_neg (by rw [h2]; simp), if_pos hd]

theorem numberPrefix_isPrefix (input : List Char) : numberPrefix input <+: input := by
  unfold numberPrefix
  simp only []
  split
  · rename_i d tl heq
    split
    · have hsplit := List.takeWhile_append_dropWhile isdigit input
      rw [heq] at hsplit
      conv_rhs => rw [← hsplit]
      rw [List.prefix_append_right_inj, List.cons_prefix_cons]
      exact ⟨rfl, List.takeWhile_prefix _⟩
    · exact List.takeWhile_prefix _
  · exact List.takeWhile_prefix _

theorem numberPrefix_cons_length {d : Char} (hd : isdigit d = true) (tl : List Char) :
    1 ≤ (numberPrefix (d :: tl)).length := by
  unfold numberPrefix
  simp only [List.takeWhile_cons_of_pos hd]
  split
  · split <;> simp
  · simp

theorem slice_of_isPrefix {lx : Lexer} {input p : List Char}
    (hin : lx.source.drop lx.start = input) (hp : p <+: input)
    (hcur : lx.current = lx.start + p.length) : slice lx = p := by
  unfold slice
  rw [hin, hcur, Nat.add_sub_cancel_left]
  exact (List.prefix_iff_eq_take.mp hp).symm

/-- The token `scanToken` returns when the first unread character after the
skipped blanks and comments is a digit. -/
theorem scanToken_of_digit (lx : Lexer) (d : Char) (tl : List Char)
    (hin : (skipWhitespace lx).rest = d :: tl) (hd : isdigit d = true) :
    scanToken lx =
      ({ type := TokenType.TOKEN_NUMBER, lexeme := numberPrefix (d :: tl),
         line := (skipWhitespace lx).line },
       { skipWhitespace lx with
         start := (skipWhitespace lx).current
         current := (skipWhitespace lx).current + (numberPrefix (d :: tl)).length }) := by
  obtain ⟨_, _, hnul⟩ := isdigit_not_special hd
  unfold scanToken
  simp only []
  generalize skipWhitespace lx = lx0 at hin ⊢
  have hin1 : ({ lx0 with start := lx0.current } : Lexer).rest = d :: tl := hin
  have hpk := peek_of_rest_cons hin1
  rw [if_neg (by rw [isAtEnd_of_rest_cons hin1 hnul]; simp),
    scanBody_of_digit _ (by rw [hpk]; exact hd)]
  have hA := rest_advance hin1
  obtain ⟨h2, h1⟩ := number_skip (advance { lx0 with start := lx0.current }).2 d hd
  rw [hA] at h2
  have hlen := numberPrefix_cons_length hd tl
  have hstate : (number (advance { lx0 with start := lx0.current }).2).2 =
      { lx0 with start := lx0.current,
                 current := lx0.current + (numberPrefix (d :: tl)).length } := by
    rw [h2]
    simp only [Lexer.skip, Mino.advance]
    congr 1
    omega
  rw [Prod.ext_iff]
  refine ⟨?_, hstate⟩
  rw [h1, hstate]
  simp only [makeToken]
  congr 1
  exact slice_of_isPrefix hin (numberPrefix_isPrefix _) rfl

/-! ## `numberPrefix` is the longest prefix that matches `[0-9]+(\.[0-9]+)?` -/

theorem takeWhile_append_stop (p : Char → Bool) : ∀ (ds : List Char) (x : Char) (r : List Char),
    (∀ c ∈ ds, p c = true) → p x = false →
    (ds ++ x :: r).takeWhile p = ds ∧ (ds ++ x :: r).dropWhile p = x :: r
  | [], x, r, _, hx => by simp [List.takeWhile_cons, List.dropWhile_cons, hx]
  | d :: ds, x, r, hall, hx => by
    have hd : p d = true := hall d (List.mem_cons_self _ _)
    obtain ⟨h1, h2⟩ := takeWhile_append_stop p ds x r
      (fun c hc => hall c (List.mem_cons_of_mem _ hc)) hx
    simp [List.takeWhile_cons, List.dropWhile_cons, hd, h1, h2]

theorem takeWhile_of_all (p : Char → Bool) : ∀ (ds : List Char), (∀ c ∈ ds, p c = true) →
    ds.takeWhile p = ds ∧ ds.dropWhile p = []
  | [], _ => ⟨rfl, rfl⟩
  | d :: ds, hall => by
    have hd : p d = true := hall d (List.mem_cons_self _ _)
    obtain ⟨h1, h2⟩ := takeWhile_of_all p ds (fun c hc => hall c (List.mem_cons_of_mem _ hc))
    simp [List.takeWhile_cons, List.dropWhile_cons, hd, h1, h2]

theorem length_le_takeWhile_of_isPrefix (p : Char → Bool) : ∀ (ds input : List Char),
    (∀ c ∈ ds, p c = true) → ds <+: input → ds.length ≤ (input.takeWhile p).length
  | [], _, _, _ => Nat.zero_le _
  | d :: ds, [], _, hpre => by simp at hpre
  | d :: ds, c :: input, hall, hpre => by
    rw [List.cons_prefix_cons] at hpre
    obtain ⟨rfl, hpre⟩ := hpre
    have hd : p d = true := hall d (List.mem_cons_self _ _)
    rw [List.takeWhile_cons_of_pos hd]
    have := length_le_takeWhile_of_isPrefix p ds input
      (fun c hc => hall c (List.mem_cons_of_mem _ hc)) hpre
    simp only [List.length_cons]
    omega

theorem isdigit_dot : isdigit '.' = false := by decide

theorem matchesNumber_numberPrefix {d : Char} (hd : isdigit d = true) (tl : List Char) :
    matchesNumber (numberPrefix (d :: tl)) = true := by
  have hds : ∀ c ∈ (d :: tl).takeWhile isdigit, isdigit c = true :=
    fun c hc => mem_takeWhile_isdigit hc
  have hne : (d :: tl).takeWhile isdigit ≠ [] := by
    rw [List.takeWhile_cons_of_pos hd]; simp
  by_cases hfrac : ∃ d2 tl2, (d :: tl).dropWhile isdigit = '.' :: d2 :: tl2 ∧ isdigit d2 = true
  · obtain ⟨d2, tl2, heq, hd2⟩ := hfrac
    rw [numberPrefix_of_fraction heq hd2]
    obtain ⟨h1, h2⟩ := takeWhile_append_stop isdigit _ '.' ((d2 :: tl2).takeWhile isdigit)
      hds isdigit_dot
    unfold matchesNumber
    simp only [h1, h2]
    have hf : (d2 :: tl2).takeWhile isdigit = d2 :: tl2.takeWhile isdigit :=
      List.takeWhile_cons_of_pos hd2
    have hall : ((d2 :: tl2).takeWhile isdigit).all isdigit = true := by
      rw [List.all_eq_true]
      exact fun c hc => mem_takeWhile_isdigit hc
    simp [hne, hf, hall]
    rw [hf] at hall
    simpa using hall
  · rw [numberPrefix_of_plain]
    · obtain ⟨h1, h2⟩ := takeWhile_of_all isdigit _ hds
      unfold matchesNumber
      simp only [h1, h2]
      simp [hne]
    · intro d2 tl2 heq
      by_contra hc
      exact hfrac ⟨d2, tl2, heq, by simpa using hc⟩

theorem numberPrefix_longest (input p : List Char) (hpre : p <+: input)
    (hm : matchesNumber p = true) : p.length ≤ (numberPrefix input).length := by
  unfold matchesNumber at hm
  simp only [Bool.and_eq_true, Bool.or_eq_true, Bool.not_eq_true', List.isEmpty_eq_true,
    beq_iff_eq] at hm
  obtain ⟨_, hm⟩ := hm
  have hsplit := List.takeWhile_append_dropWhile isdigit p
  have hds : ∀ c ∈ p.takeWhile isdigit, isdigit c = true :=
    fun c hc => mem_takeWhile_isdigit hc
  have hnp := (numberPrefix_isPrefix input)
  rcases hm with hnil | ⟨⟨hdot, hne⟩, hall⟩
  · -- only digits
    rw [hnil, List.append_nil] at hsplit
    have h1 := length_le_takeWhile_of_isPrefix isdigit p input (by rw [← hsplit]; exact hds) hpre
    have h2 : (input.takeWhile isdigit).length ≤ (numberPrefix input).length := by
      unfold numberPrefix
      simp only []
      split
      · split
        · simp
        · exact le_refl _
      · exact le_refl _
    omega
  · -- digits, dot, digits
    cases htl : p.dropWhile isdigit with
    | nil => rw [htl] at hdot; simp at hdot
    | cons c fs =>
      rw [htl] at hdot hne hall hsplit
      simp only [List.head?_cons, Option.some.injEq] at hdot
      subst hdot
      simp only [List.tail_cons] at hne hall
      rw [List.all_eq_true] at hall
      cases fs with
      | nil => simp at hne
      | cons f fs =>
        obtain ⟨r, hr⟩ := hpre
        rw [← hsplit] at hr
        have hinput : input = p.takeWhile isdigit ++ '.' :: (f :: (fs ++ r)) := by
          rw [← hr]; simp
        obtain ⟨h1, h2⟩ := takeWhile_append_stop isdigit _ '.' (f :: (fs ++ r)) hds isdigit_dot
        rw [← hinput] at h1 h2
        have hf : isdigit f = true := hall f (List.mem_cons_self _ _)
        have hlen := congrArg List.length hsplit
        rw [numberPrefix_of_fraction h2 hf, h1]
        have h3 := length_le_takeWhile_of_isPrefix isdigit (f :: fs) (f :: (fs ++ r)) hall
          (by rw [List.cons_prefix_cons]; exact ⟨rfl, List.prefix_append _ _⟩)
        simp only [List.length_append, List.length_cons] at h3 hlen ⊢
        omega

theorem skipWhitespace_of_peek {lx : Lexer}
    (h1 : (peek lx == ' ' || peek lx == '\t' || peek lx == '\r') = false)
    (h2 : (peek lx == '\n') = false) (h3 : (peek lx == '/') = false) :
    skipWhitespace lx = lx := by
  unfold skipWhitespace
  rw [skipWhitespaceLoop]
  simp only [h1, h2, h3, Bool.false_eq_true, if_false]

theorem skipWhitespace_of_digit {lx : Lexer} (hd : isdigit (peek lx) = true) :
    skipWhitespace lx = lx := by
  have h : 48 ≤ (peek lx).toNat ∧ (peek lx).toNat ≤ 57 := by
    simpa [isdigit] using hd
  have hne : ∀ c : Char, c.toNat < 48 → (peek lx == c) = false := by
    intro c hc
    cases hb : peek lx == c
    · rfl
    · rw [beq_iff_eq] at hb
      rw [hb] at h
      omega
  apply skipWhitespace_of_peek
  · rw [hne ' ' (by decide), hne '\t' (by decide), hne '\r' (by decide)]
    rfl
  · exact hne '\n' (by decide)
  · exact hne '/' (by decide)

theorem scanBody_of_minus (lx : Lexer) (h : peek lx = '-') :
    scanBody lx =
      twoCharToken (advance lx).2 '>' TokenType.TOKEN_ARROW TokenType.TOKEN_MINUS := by
  have hc : (advance lx).1 = '-' := h
  unfold scanBody
  simp only []
  rw [hc]
  iterate 22 rw [if_neg (by decide)]
  rw [if_pos (by decide)]

/-- A minus sign in front of a digit is a token of its own, and the number
behind it is the next token. -/
theorem scanToken_of_minus_digit (lx : Lexer) (d : Char) (tl : List Char)
    (hin : (skipWhitespace lx).rest = '-' :: d :: tl) (hd : isdigit d = true) :
    (scanToken lx).1 =
      { type := TokenType.TOKEN_MINUS, lexeme := ['-'], line := (skipWhitespace lx).line } ∧
    (scanToken (scanToken lx).2).1 =
      { type := TokenType.TOKEN_NUMBER, lexeme := numberPrefix (d :: tl),
        line := (skipWhitespace lx).line } := by
  have hstate : scanToken lx =
      ({ type := TokenType.TOKEN_MINUS, lexeme := ['-'], line := (skipWhitespace lx).line },
       { skipWhitespace lx with start := (skipWhitespace lx).current,
                                current := (skipWhitespace lx).current + 1 }) := by
    unfold scanToken
    simp only []
    generalize skipWhitespace lx = lx0 at hin ⊢
    have hin1 : ({ lx0 with start := lx0.current } : Lexer).rest = '-' :: d :: tl := hin
    have hpk := peek_of_rest_cons hin1
    rw [if_neg (by rw [isAtEnd_of_rest_cons hin1 (by decide)]; simp),
      scanBody_of_minus _ hpk]
    have hA := rest_advance hin1
    obtain ⟨_, _, hnul⟩ := isdigit_not_special hd
    have hend := isAtEnd_of_rest_cons hA hnul
    have hpA := peek_of_rest_cons hA
    have hne : (charAt (advance { lx0 with start := lx0.current }).2.source
        (advance { lx0 with start := lx0.current }).2.current != '>') = true := by
      have : charAt (advance { lx0 with start := lx0.current }).2.source
          (advance { lx0 with start := lx0.current }).2.current = d := hpA
      rw [this]
      cases hb : d == '>'
      · simp [bne, hb]
      · rw [beq_iff_eq] at hb
        subst hb
        revert hd
        decide
    unfold twoCharToken lexMatch
    simp only [hend, Bool.false_eq_true, if_false, hne, if_true]
    rw [Prod.ext_iff]
    refine ⟨?_, rfl⟩
    simp only [makeToken]
    congr 1
    exact @slice_of_isPrefix (advance { lx0 with start := lx0.current }).2 ('-' :: d :: tl) ['-']
      hin (by simp) rfl
  refine ⟨by rw [hstate], ?_⟩
  rw [hstate]
  simp only []
  have hrest : (Lexer.skip { skipWhitespace lx with start := (skipWhitespace lx).current } 1).rest
      = d :: tl := @rest_skip (skipWhitespace lx) ['-'] (d :: tl) hin
  have hskip := skipWhitespace_of_digit
    (show isdigit (peek (Lexer.skip
      { skipWhitespace lx with start := (skipWhitespace lx).current } 1)) = true by
      rw [peek_of_rest_cons hrest]; exact hd)
  have := scanToken_of_digit _ d tl (by rw [hskip]; exact hrest) hd
  rw [hskip] at this
  exact congrArg Prod.fst this

/-! ## String literals -/

theorem stringLoop_run : ∀ (body : List Char) (n : Nat) (lx : Lexer) (tl : List Char),
    lx.rest = body ++ tl → (∀ c ∈ body, c ≠ DQUOTE ∧ c ≠ NUL) →
    (tl.headD NUL = DQUOTE ∨ tl.headD NUL = NUL) → body.length ≤ n →
    stringLoop n lx = { lx.skip body.length with line := lx.line + body.count '\n' }
  | [], n, lx, tl, hrest, _, hstop, _ => by
    have hp : peek lx = tl.headD NUL := by rw [peek_eq_headD_rest, hrest]; rfl
    have hcond : (peek lx != DQUOTE && !isAtEnd lx) = false := by
      rcases hstop with h | h
      · rw [hp, h]; rfl
      · have hnul : peek lx = NUL := hp.trans h
        have : isAtEnd lx = true := by
          simpa [isAtEnd, peek] using hnul
        rw [this]; simp
    cases n with
    | zero => rfl
    | succ n =>
      rw [stringLoop, if_neg (by rw [hcond]; simp)]
      rfl
  | c :: body, 0, _, _, _, _, _, hn => by simp at hn
  | c :: body, n + 1, lx, tl, hrest, hall, hstop, hn => by
    obtain ⟨hq, hnul⟩ := hall c (List.mem_cons_self _ _)
    have hp := peek_of_rest_cons hrest
    have hend := isAtEnd_of_rest_cons hrest hnul
    have hcond : (peek lx != DQUOTE && !isAtEnd lx) = true := by
      rw [hp, hend]; simp [hq]
    rw [stringLoop, if_pos hcond]
    simp only []
    by_cases hnl : c = '\n'
    · subst hnl
      rw [hp]
      simp only [beq_self_eq_true, if_true]
      have hr : (advance { lx with line := lx.line + 1 }).2.rest = body ++ tl :=
        @rest_advance { lx with line := lx.line + 1 } _ _ hrest
      rw [stringLoop_run body n _ tl hr (fun c hc => hall c (List.mem_cons_of_mem _ hc)) hstop
        (by simpa using hn)]
      simp only [Lexer.skip, Mino.advance, List.count_cons_self, List.length_cons]
      congr 1 <;> omega
    · rw [hp]
      have hb : (c == '\n') = false := by simpa using hnl
      simp only [hb, Bool.false_eq_true, if_false]
      rw [stringLoop_run body n _ tl (rest_advance hrest)
        (fun c hc => hall c (List.mem_cons_of_mem _ hc)) hstop (by simpa using hn)]
      have hcount : (c :: body).count '\n' = body.count '\n' :=
        List.count_cons_of_ne (fun e => hnl e.symm) _
      simp only [Lexer.skip, Mino.advance, hcount, List.length_cons]
      congr 1
      omega

theorem scanBody_of_quote (lx : Lexer) (h : peek lx = DQUOTE) :
    scanBody lx = string (advance lx).2 := by
  have hc : (advance lx).1 = DQUOTE := h
  unfold scanBody
  simp only []
  rw [hc]
  iterate 25 rw [if_neg (by decide)]
  rw [if_pos (by decide)]

theorem length_le_of_rest {lx : Lexer} {a b : List Char} (h : lx.rest = a ++ b) :
    a.length ≤ lx.source.length := by
  have := rest_length_le lx
  rw [h, List.length_append] at this
  omega

/-- The token for a string literal that is closed by a second quote. -/
theorem scanToken_of_string (lx : Lexer) (body tl : List Char)
    (hin : (skipWhitespace lx).rest = DQUOTE :: (body ++ DQUOTE :: tl))
    (hbody : ∀ c ∈ body, c ≠ DQUOTE ∧ c ≠ NUL) :
    scanToken lx =
      ({ type := TokenType.TOKEN_STRING, lexeme := DQUOTE :: (body ++ [DQUOTE]),
         line := (skipWhitespace lx).line + body.count '\n' },
       { skipWhitespace lx with
         start := (skipWhitespace lx).current
         current := (skipWhitespace lx).current + (body.length + 2)
         line := (skipWhitespace lx).line + body.count '\n' }) := by
  unfold scanToken
  simp only []
  generalize skipWhitespace lx = lx0 at hin ⊢
  have hin1 : ({ lx0 with start := lx0.current } : Lexer).rest
      = DQUOTE :: (body ++ DQUOTE :: tl) := hin
  have hpk := peek_of_rest_cons hin1
  rw [if_neg (by rw [isAtEnd_of_rest_cons hin1 (by decide)]; simp), scanBody_of_quote _ hpk]
  have hA := rest_advance hin1
  have hloop := stringLoop_run body lx0.source.length _ (DQUOTE :: tl) hA hbody (Or.inl rfl)
    (by
      have := length_le_of_rest hA
      exact this)
  have hrestB : (Lexer.skip (advance { lx0 with start := lx0.current }).2 body.length).rest
      = DQUOTE :: tl := rest_skip hA
  unfold string
  simp only []
  have hsrc : (advance { lx0 with start := lx0.current }).2.source = lx0.source := rfl
  rw [hsrc, hloop]
  have hnotend : isAtEnd { Lexer.skip (advance { lx0 with start := lx0.current }).2 body.length
      with line := (advance { lx0 with start := lx0.current }).2.line + body.count '\n' }
      = false :=
    @isAtEnd_of_rest_cons { Lexer.skip (advance { lx0 with start := lx0.current }).2 body.length
      with line := (advance { lx0 with start := lx0.current }).2.line + body.count '\n' }
      _ _ hrestB (by decide)
  rw [if_neg (by rw [hnotend]; simp)]
  rw [Prod.ext_iff]
  constructor
  · simp only [makeToken]
    congr 1
    refine @slice_of_isPrefix _ (DQUOTE :: (body ++ DQUOTE :: tl)) _ hin ?_ ?_
    · rw [List.cons_prefix_cons]
      exact ⟨rfl, by rw [List.prefix_append_right_inj, List.cons_prefix_cons]; exact ⟨rfl, List.nil_prefix⟩⟩
    · simp only [Lexer.skip, Mino.advance, List.length_cons, List.length_append,
        List.length_nil]
      omega
  · simp only [Lexer.skip, Mino.advance]
    congr 1
    omega

/-- The token for a string literal that is not closed, and the token after
it. -/
theorem scanToken_of_open_string (lx : Lexer) (body : List Char)
    (hin : (skipWhitespace lx).rest = DQUOTE :: body)
    (hbody : ∀ c ∈ body, c ≠ DQUOTE ∧ c ≠ NUL) :
    (scanToken lx).1 =
      { type := TokenType.TOKEN_ERROR, lexeme := "Unterminated string.".toList,
        line := (skipWhitespace lx).line + body.count '\n' } ∧
    (scanToken (scanToken lx).2).1.type = TokenType.TOKEN_EOF := by
  have hstate : ∃ st : Lexer, scanToken lx =
      ({ type := TokenType.TOKEN_ERROR, lexeme := "Unterminated string.".toList,
         line := (skipWhitespace lx).line + body.count '\n' }, st) ∧ isAtEnd st = true := by
    unfold scanToken
    simp only []
    generalize skipWhitespace lx = lx0 at hin ⊢
    have hin1 : ({ lx0 with start := lx0.current } : Lexer).rest = DQUOTE :: body := hin
    have hpk := peek_of_rest_cons hin1
    rw [if_neg (by rw [isAtEnd_of_rest_cons hin1 (by decide)]; simp), scanBody_of_quote _ hpk]
    have hA : (advance { lx0 with start := lx0.current }).2.rest = body ++ [] := by
      rw [List.append_nil]; exact rest_advance hin1
    have hlen := length_le_of_rest hA
    have hloop := stringLoop_run body lx0.source.length _ [] hA hbody (Or.inr rfl) hlen
    have hrestB : (Lexer.skip (advance { lx0 with start := lx0.current }).2 body.length).rest
        = [] := rest_skip hA
    have hend : isAtEnd { Lexer.skip (advance { lx0 with start := lx0.current }).2 body.length
        with line := (advance { lx0 with start := lx0.current }).2.line + body.count '\n' }
        = true :=
      @isAtEnd_of_rest_nil { Lexer.skip (advance { lx0 with start := lx0.current }).2
        body.length with
        line := (advance { lx0 with start := lx0.current }).2.line + body.count '\n' } hrestB
    unfold string
    simp only []
    have hsrc : (advance { lx0 with start := lx0.current }).2.source = lx0.source := rfl
    rw [hsrc, hloop, if_pos hend]
    exact ⟨_, rfl, hend⟩
  obtain ⟨st, hst, hend⟩ := hstate
  refine ⟨by rw [hst], ?_⟩
  rw [hst]
  simp only []
  unfold scanToken
  simp only []
  rw [skipWhitespace_atEnd st hend]
  have : isAtEnd { st with start := st.current } = true := hend
  rw [if_pos this]
  rfl

/-! ## Scanning behind a prefix of the source -/

theorem charAt_shift (pre s : List Char) (i : Nat) :
    charAt (pre ++ s) (i + pre.length) = charAt s i := by
  unfold charAt
  rw [List.getD_eq_getElem?_getD, List.getD_eq_getElem?_getD,
    List.getElem?_append_right (by omega)]
  simp

theorem rest_shift (pre : List Char) (d : Nat) (lx : Lexer) :
    (lx.shift pre d).rest = lx.rest := by
  unfold Lexer.rest Lexer.shift
  simp only []
  rw [Nat.add_comm, ← List.drop_drop, List.drop_left]

theorem peek_shift (pre : List Char) (d : Nat) (lx : Lexer) :
    peek (lx.shift pre d) = peek lx := charAt_shift pre lx.source lx.current

theorem isAtEnd_shift (pre : List Char) (d : Nat) (lx : Lexer) :
    isAtEnd (lx.shift pre d) = isAtEnd lx := by
  unfold isAtEnd
  have := charAt_shift pre lx.source lx.current
  simp only [Lexer.shift, this]

theorem peekNext_shift (pre : List Char) (d : Nat) (lx : Lexer) :
    peekNext (lx.shift pre d) = peekNext lx := by
  unfold peekNext
  rw [isAtEnd_shift]
  have := charAt_shift pre lx.source (lx.current + 1)
  simp only [Lexer.shift]
  rw [← this]
  congr 2
  omega

theorem advance_shift (pre : List Char) (d : Nat) (lx : Lexer) :
    (advance (lx.shift pre d)).2 = (advance lx).2.shift pre d := by
  simp only [Mino.advance, Lexer.shift]
  congr 1
  omega

theorem advance_fst_shift (pre : List Char) (d : Nat) (lx : Lexer) :
    (advance (lx.shift pre d)).1 = (advance lx).1 := charAt_shift pre lx.source lx.current

theorem skip_shift (pre : List Char) (d : Nat) (lx : Lexer) (k : Nat) :
    (lx.shift pre d).skip k = (lx.skip k).shift pre d := by
  simp only [Lexer.skip, Lexer.shift]
  congr 1
  omega

theorem setLine_shift (pre : List Char) (d : Nat) (lx : Lexer) (k : Nat) :
    { lx.shift pre d with line := (lx.shift pre d).line + k } =
      Lexer.shift pre d { lx with line := lx.line + k } := by
  simp only [Lexer.shift]
  congr 1
  omega

theorem setStart_shift (pre : List Char) (d : Nat) (lx : Lexer) :
    { lx.shift pre d with start := (lx.shift pre d).current } =
      Lexer.shift pre d { lx with start := lx.current } := rfl

theorem slice_shift (pre : List Char) (d : Nat) (lx : Lexer) :
    slice (lx.shift pre d) = slice lx := by
  unfold slice Lexer.shift
  simp only []
  rw [Nat.add_comm lx.start, ← List.drop_drop, List.drop_left]
  congr 1
  omega

theorem makeToken_shift (pre : List Char) (d : Nat) (lx : Lexer) (t : TokenType) :
    makeToken (lx.shift pre d) t = (makeToken lx t).bump d := by
  simp only [makeToken, Token.bump, slice_shift]
  rfl

theorem errorToken_shift (pre : List Char) (d : Nat) (lx : Lexer) (m : List Char) :
    errorToken (lx.shift pre d) m = (errorToken lx m).bump d := rfl

theorem memcmpEq_shift (pre : List Char) (d : Nat) (lx : Lexer) (off : Nat)
    (rest : List Char) : memcmpEq (lx.shift pre d) off rest = memcmpEq lx off rest := by
  unfold memcmpEq Lexer.shift
  simp only []
  rw [show lx.start + pre.length + off = pre.length + (lx.start + off) by omega,
    ← List.drop_drop, List.drop_left]

theorem charAt_start_shift (pre : List Char) (d : Nat) (lx : Lexer) (k : Nat) :
    charAt (lx.shift pre d).source ((lx.shift pre d).start + k) =
      charAt lx.source (lx.start + k) := by
  have := charAt_shift pre lx.source (lx.start + k)
  simp only [Lexer.shift]
  rw [← this]
  congr 1
  omega

theorem length_shift (pre : List Char) (d : Nat) (lx : Lexer) :
    (lx.shift pre d).current - (lx.shift pre d).start = lx.current - lx.start := by
  simp only [Lexer.shift]
  omega

theorem identifierType_shift (pre : List Char) (d : Nat) (lx : Lexer) :
    identifierType (lx.shift pre d) = identifierType lx := by
  have h0 := charAt_start_shift pre d lx 0
  simp only [Nat.add_zero] at h0
  unfold identifierType
  simp only [length_shift, charAt_start_shift, memcmpEq_shift, h0]

theorem rest_skip_length (lx : Lexer) (k : Nat) :
    (lx.skip k).rest.length = lx.rest.length - k := by
  unfold Lexer.rest Lexer.skip
  simp only [List.length_drop]
  omega

theorem peek_ne_NUL_of_isalpha {c : Char} (h : isalpha c = true) : c ≠ NUL := by
  intro e; subst e; revert h; decide

theorem alphaLoop_run : ∀ (ds : List Char) (n : Nat) (lx : Lexer) (tl : List Char),
    lx.rest = ds ++ tl → (∀ c ∈ ds, isalpha c = true) → isalpha (tl.headD NUL) = false →
    ds.length ≤ n → alphaLoop n lx = lx.skip ds.length
  | [], n, lx, tl, hrest, _, hstop, _ => by
    have hp : isalpha (peek lx) = false := by
      rw [peek_eq_headD_rest, hrest]; exact hstop
    cases n with
    | zero => rfl
    | succ n => simp [alphaLoop, hp, Lexer.skip]
  | d :: ds, 0, _, _, _, _, _, hn => by simp at hn
  | d :: ds, n + 1, lx, tl, hrest, hall, hstop, hn => by
    have hp : isalpha (peek lx) = true := by
      rw [peek_of_rest_cons hrest]; exact hall d (List.mem_cons_self _ _)
    rw [alphaLoop, if_pos hp,
      alphaLoop_run ds n (advance lx).2 tl (rest_advance hrest)
        (fun c hc => hall c (List.mem_cons_of_mem _ hc)) hstop (by simpa using hn),
      advance_skip]
    rfl

theorem identifierLoop_run : ∀ (ds : List Char) (n : Nat) (lx : Lexer) (tl : List Char),
    lx.rest = ds ++ tl → (∀ c ∈ ds, isIdentChar c = true) →
    isIdentChar (tl.headD NUL) = false →
    ds.length ≤ n → identifierLoop n lx = lx.skip ds.length
  | [], n, lx, tl, hrest, _, hstop, _ => by
    have hp : (isalpha (peek lx) || isdigit (peek lx) || peek lx == '_') = false := by
      rw [peek_eq_headD_rest, hrest]; exact hstop
    cases n with
    | zero => rfl
    | succ n =>
      rw [identifierLoop, if_neg (by rw [hp]; simp)]
      rfl
  | d :: ds, 0, _, _, _, _, _, hn => by simp at hn
  | d :: ds, n + 1, lx, tl, hrest, hall, hstop, hn => by
    have hp : (isalpha (peek lx) || isdigit (peek lx) || peek lx == '_') = true := by
      rw [peek_of_rest_cons hrest]; exact hall d (List.mem_cons_self _ _)
    rw [identifierLoop, if_pos hp,
      identifierLoop_run ds n (advance lx).2 tl (rest_advance hrest)
        (fun c hc => hall c (List.mem_cons_of_mem _ hc)) hstop (by simpa using hn),
      advance_skip]
    rfl

theorem lineCommentLoop_run : ∀ (ds : List Char) (n : Nat) (lx : Lexer) (tl : List Char),
    lx.rest = ds ++ tl → (∀ c ∈ ds, inLineComment c = true) →
    inLineComment (tl.headD NUL) = false →
    ds.length ≤ n → lineCommentLoop n lx = lx.skip ds.length
  | [], n, lx, tl, hrest, _, hstop, _ => by
    have hp : peek lx = tl.headD NUL := by rw [peek_eq_headD_rest, hrest]; rfl
    have hcond : (peek lx != '\n' && !isAtEnd lx) = false := by
      have : isAtEnd lx = (peek lx == NUL) := rfl
      rw [this, hp]
      simpa [inLineComment, bne] using hstop
    cases n with
    | zero => rfl
    | succ n =>
      rw [lineCommentLoop, if_neg (by rw [hcond]; simp)]
      rfl
  | d :: ds, 0, _, _, _, _, _, hn => by simp at hn
  | d :: ds, n + 1, lx, tl, hrest, hall, hstop, hn => by
    have hd := hall d (List.mem_cons_self _ _)
    have hcond : (peek lx != '\n' && !isAtEnd lx) = true := by
      have : isAtEnd lx = (peek lx == NUL) := rfl
      rw [this, peek_of_rest_cons hrest]
      simpa [inLineComment, bne] using hd
    rw [lineCommentLoop, if_pos hcond,
      lineCommentLoop_run ds n (advance lx).2 tl (rest_advance hrest)
        (fun c hc => hall c (List.mem_cons_of_mem _ hc)) hstop (by simpa using hn),
      advance_skip]
    rfl

theorem headD_dropWhile_not (p : Char → Bool) (hp : p NUL = false) (l : List Char) :
    p ((l.dropWhile p).headD NUL) = false := by
  induction l with
  | nil => exact hp
  | cons c tl ih =>
    by_cases hc : p c = true
    · rw [List.dropWhile_cons_of_pos hc]; exact ih
    · rw [List.dropWhile_cons_of_neg hc]
      simpa using hc

theorem alphaLoop_takeWhile (lx : Lexer) (n : Nat) (hn : lx.source.length ≤ n) :
    alphaLoop n lx = lx.skip (lx.rest.takeWhile isalpha).length := by
  have hsplit : lx.rest = lx.rest.takeWhile isalpha ++ lx.rest.dropWhile isalpha :=
    (List.takeWhile_append_dropWhile _ _).symm
  refine alphaLoop_run _ n lx _ hsplit (fun c hc => List.mem_takeWhile_imp hc)
    (headD_dropWhile_not _ (by decide) _) ?_
  have h1 := rest_length_le lx
  have h2 := length_takeWhile_le isalpha lx.rest
  omega

theorem identifierLoop_takeWhile (lx : Lexer) (n : Nat) (hn : lx.source.length ≤ n) :
    identifierLoop n lx = lx.skip (lx.rest.takeWhile isIdentChar).length := by
  have hsplit : lx.rest = lx.rest.takeWhile isIdentChar ++ lx.rest.dropWhile isIdentChar :=
    (List.takeWhile_append_dropWhile _ _).symm
  refine identifierLoop_run _ n lx _ hsplit (fun c hc => List.mem_takeWhile_imp hc)
    (headD_dropWhile_not _ (by decide) _) ?_
  have h1 := rest_length_le lx
  have h2 := length_takeWhile_le isIdentChar lx.rest
  omega

theorem lineCommentLoop_takeWhile (lx : Lexer) (n : Nat) (hn : lx.source.length ≤ n) :
    lineCommentLoop n lx = lx.skip (lx.rest.takeWhile inLineComment).length := by
  have hsplit : lx.rest = lx.rest.takeWhile inLineComment ++ lx.rest.dropWhile inLineComment :=
    (List.takeWhile_append_dropWhile _ _).symm
  refine lineCommentLoop_run _ n lx _ hsplit (fun c hc => List.mem_takeWhile_imp hc)
    (headD_dropWhile_not _ (by decide) _) ?_
  have h1 := rest_length_le lx
  have h2 := length_takeWhile_le inLineComment lx.rest
  omega

theorem stringLoop_takeWhile (lx : Lexer) (n : Nat) (hn : lx.source.length ≤ n) :
    stringLoop n lx =
      { lx.skip (lx.rest.takeWhile inString).length with
        line := lx.line + (lx.rest.takeWhile inString).count '\n' } := by
  have hsplit : lx.rest = lx.rest.takeWhile inString ++ lx.rest.dropWhile inString :=
    (List.takeWhile_append_dropWhile _ _).symm
  refine stringLoop_run _ n lx _ hsplit ?_ ?_ ?_
  · intro c hc
    have := List.mem_takeWhile_imp hc
    simpa [inString, bne] using this
  · have := headD_dropWhile_not inString (by decide) lx.rest
    generalize (lx.rest.dropWhile inString).headD NUL = c at this
    simp only [inString, bne, Bool.and_eq_false_iff, Bool.not_eq_false', beq_iff_eq] at this
    exact this
  · have h1 := rest_length_le lx
    have h2 := length_takeWhile_le inString lx.rest
    omega

theorem blockBody_cons (c : Char) (tl : List Char) :
    blockBody (c :: tl) =
      if c == NUL then []
      else if c == '*' && tl.headD NUL == '/' then []
      else c :: blockBody tl := by
  rw [blockBody]

theorem blockCommentLoop_run : ∀ (input : List Char) (n : Nat) (lx : Lexer),
    lx.rest = input → input.length ≤ n →
    blockCommentLoop n lx =
      { lx.skip (blockBody input).length with
        line := lx.line + (blockBody input).count '\n' }
  | [], n, lx, hrest, _ => by
    have hend := isAtEnd_of_rest_nil hrest
    cases n with
    | zero => rfl
    | succ n =>
      rw [blockCommentLoop, if_neg (by rw [hend]; simp)]
      rfl
  | c :: tl, 0, _, _, hn => by simp at hn
  | c :: tl, n + 1, lx, hrest, hn => by
    have hp := peek_of_rest_cons hrest
    by_cases hnul : c = NUL
    · have hend : isAtEnd lx = true := by
        have : isAtEnd lx = (peek lx == NUL) := rfl
        rw [this, hp, hnul]; rfl
      have hb : (c == NUL) = true := by rw [hnul]; rfl
      rw [blockCommentLoop, if_neg (by rw [hend]; simp), blockBody_cons, if_pos hb]
      rfl
    · have hend := isAtEnd_of_rest_cons hrest hnul
      have hnext := peekNext_of_rest_cons hrest hnul
      have hnb : (c == NUL) = false := by simpa using hnul
      by_cases hclose : (c == '*' && tl.headD NUL == '/') = true
      · rw [blockCommentLoop, if_neg (by rw [hp, hnext, hclose]; simp), blockBody_cons,
          if_neg (by rw [hnb]; simp), if_pos hclose]
        rfl
      · have hcl : (c == '*' && tl.headD NUL == '/') = false := by simpa using hclose
        rw [blockCommentLoop, if_pos (by rw [hp, hnext, hcl, hend]; rfl)]
        simp only []
        have hbody : blockBody (c :: tl) = c :: blockBody tl := by
          rw [blockBody_cons, if_neg (by rw [hnb]; simp), if_neg hclose]
        rw [hbody, hp]
        by_cases hnl : c = '\n'
        · subst hnl
          simp only [beq_self_eq_true, if_true]
          have hr : (advance { lx with line := lx.line + 1 }).2.rest = tl :=
            @rest_advance { lx with line := lx.line + 1 } _ _ hrest
          rw [blockCommentLoop_run tl n _ hr (by simpa using hn)]
          simp only [Lexer.skip, Mino.advance, List.count_cons_self, List.length_cons]
          congr 1 <;> omega
        · have hb : (c == '\n') = false := by simpa using hnl
          simp only [hb, Bool.false_eq_true, if_false]
          rw [blockCommentLoop_run tl n _ (rest_advance hrest) (by simpa using hn)]
          have hcount : (c :: blockBody tl).count '\n' = (blockBody tl).count '\n' :=
            List.count_cons_of_ne (fun e => hnl e.symm) _
          simp only [Lexer.skip, Mino.advance, hcount, List.length_cons]
          congr 1
          omega

theorem blockCommentLoop_body (lx : Lexer) (n : Nat) (hn : lx.source.length ≤ n) :
    blockCommentLoop n lx =
      { lx.skip (blockBody lx.rest).length with
        line := lx.line + (blockBody lx.rest).count '\n' } :=
  blockCommentLoop_run lx.rest n lx rfl (le_trans (rest_length_le lx) hn)

theorem blockBody_length_le : ∀ (l : List Char), (blockBody l).length ≤ l.length
  | [] => Nat.le_refl _
  | c :: tl => by
    rw [blockBody_cons]
    split
    · simp
    · split
      · simp
      · simp only [List.length_cons]
        have := blockBody_length_le tl
        omega

/-! ### The loops behind a prefix -/

theorem length_source_shift (pre : List Char) (d : Nat) (lx : Lexer) :
    lx.source.length ≤ (lx.shift pre d).source.length := by
  simp [Lexer.shift]

theorem lineCommentLoop_shift (pre : List Char) (d : Nat) (lx : Lexer) :
    lineCommentLoop (lx.shift pre d).source.length (lx.shift pre d) =
      (lineCommentLoop lx.source.length lx).shift pre d := by
  rw [lineCommentLoop_takeWhile _ _ (le_refl _), lineCommentLoop_takeWhile _ _ (le_refl _),
    rest_shift, skip_shift]

theorem alphaLoop_shift (pre : List Char) (d : Nat) (lx : Lexer) :
    alphaLoop (lx.shift pre d).source.length (lx.shift pre d) =
      (alphaLoop lx.source.length lx).shift pre d := by
  rw [alphaLoop_takeWhile _ _ (le_refl _), alphaLoop_takeWhile _ _ (le_refl _),
    rest_shift, skip_shift]

theorem identifierLoop_shift (pre : List Char) (d : Nat) (lx : Lexer) :
    identifierLoop (lx.shift pre d).source.length (lx.shift pre d) =
      (identifierLoop lx.source.length lx).shift pre d := by
  rw [identifierLoop_takeWhile _ _ (le_refl _), identifierLoop_takeWhile _ _ (le_refl _),
    rest_shift, skip_shift]

theorem digitLoop_shift (pre : List Char) (d : Nat) (lx : Lexer) :
    digitLoop (lx.shift pre d).source.length (lx.shift pre d) =
      (digitLoop lx.source.length lx).shift pre d := by
  rw [(digitLoop_takeWhile _ _ (le_refl _)).1, (digitLoop_takeWhile _ _ (le_refl _)).1,
    rest_shift, skip_shift]

theorem stringLoop_shift (pre : List Char) (d : Nat) (lx : Lexer) :
    stringLoop (lx.shift pre d).source.length (lx.shift pre d) =
      (stringLoop lx.source.length lx).shift pre d := by
  rw [stringLoop_takeWhile _ _ (le_refl _), stringLoop_takeWhile _ _ (le_refl _),
    rest_shift, skip_shift]
  simp only [Lexer.shift, Lexer.skip]
  congr 1
  omega

theorem blockCommentLoop_shift (pre : List Char) (d : Nat) (lx : Lexer) :
    blockCommentLoop (lx.shift pre d).source.length (lx.shift pre d) =
      (blockCommentLoop lx.source.length lx).shift pre d := by
  rw [blockCommentLoop_body _ _ (le_refl _), blockCommentLoop_body _ _ (le_refl _),
    rest_shift, skip_shift]
  simp only [Lexer.shift, Lexer.skip]
  congr 1
  omega

theorem rest_skip_drop (lx : Lexer) (k : Nat) : (lx.skip k).rest = lx.rest.drop k := by
  unfold Lexer.rest Lexer.skip
  simp only []
  rw [List.drop_drop]

theorem rest_setLine (lx : Lexer) (l : Nat) : ({ lx with line := l } : Lexer).rest = lx.rest :=
  rfl

/-- The state after stepping over `k` characters and counting `j` newlines. -/
theorem moved_moved (lx : Lexer) (k j a b : Nat) :
    ({ Lexer.skip { lx.skip k with line := lx.line + j } a with
        line := lx.line + j + b } : Lexer) =
      { lx.skip (a + k) with line := lx.line + (b + j) } := by
  simp only [Lexer.skip]
  congr 1 <;> omega

theorem blockClose (lx : Lexer) :
    (if (!isAtEnd lx) = true then (advance (advance lx).2).2 else lx) =
      lx.skip (if lx.rest.headD NUL != NUL then 2 else 0) := by
  have h : isAtEnd lx = (lx.rest.headD NUL == NUL) := by
    have : isAtEnd lx = (peek lx == NUL) := rfl
    rw [this, peek_eq_headD_rest]
  rw [h]
  cases hb : lx.rest.headD NUL == NUL
  · have : (lx.rest.headD NUL != NUL) = true := by simp only [bne, hb]; rfl
    rw [this]
    rfl
  · have : (lx.rest.headD NUL != NUL) = false := by simp only [bne, hb]; rfl
    rw [this]
    rfl

theorem skipWhitespaceLoop_span (n : Nat) : ∀ (lx : Lexer),
    skipWhitespaceLoop n lx =
      { lx.skip (wsSpan n lx.rest).1 with line := lx.line + (wsSpan n lx.rest).2 } := by
  induction n with
  | zero => intro lx; rfl
  | succ n ih =>
    intro lx
    cases hrest : lx.rest with
    | nil =>
      have hp := peek_of_rest_nil hrest
      rw [skipWhitespaceLoop]
      simp only [hp]
      rw [if_neg (by decide), if_neg (by decide), if_neg (by decide)]
      rfl
    | cons c tl =>
      have hp := peek_of_rest_cons hrest
      rw [skipWhitespaceLoop, wsSpan]
      simp only [hp]
      by_cases h1 : (c == ' ' || c == '\t' || c == '\r') = true
      · rw [if_pos h1, if_pos h1, ih, rest_advance hrest]
        simp only [Lexer.skip, Mino.advance]
        congr 1
        omega
      · rw [if_neg h1, if_neg h1]
        by_cases h2 : (c == '\n') = true
        · rw [if_pos h2, if_pos h2, ih]
          have hr : (advance { lx with line := lx.line + 1 }).2.rest = tl :=
            @rest_advance { lx with line := lx.line + 1 } _ _ hrest
          rw [hr]
          simp only [Lexer.skip, Mino.advance]
          congr 1 <;> omega
        · rw [if_neg h2, if_neg h2]
          by_cases h3 : (c == '/') = true
          · rw [if_pos h3, if_pos h3]
            have hc : c = '/' := by simpa using h3
            have hnul : c ≠ NUL := by rw [hc]; decide
            have hnext := peekNext_of_rest_cons hrest hnul
            rw [hnext]
            by_cases h4 : (tl.headD NUL == '/') = true
            · rw [if_pos h4, if_pos h4, lineCommentLoop_takeWhile _ _ (le_refl _), ih,
                rest_skip_drop, hrest]
              simp only [Lexer.skip]
              congr 1
              omega
            · rw [if_neg h4, if_neg h4]
              by_cases h5 : (tl.headD NUL == '*') = true
              · rw [if_pos h5, if_pos h5]
                simp only []
                obtain ⟨c2, tl2, rfl⟩ : ∃ c2 tl2, tl = c2 :: tl2 := by
                  cases tl with
                  | nil => simp [NUL] at h5
                  | cons c2 tl2 => exact ⟨c2, tl2, rfl⟩
                have hr1 := rest_advance hrest
                have hr2 := rest_advance hr1
                have hsrc : (advance (advance lx).2).2.source = lx.source := rfl
                rw [hsrc]
                have hb := blockCommentLoop_body (advance (advance lx).2).2 lx.source.length
                  (le_refl _)
                rw [hr2] at hb
                rw [hb]
                simp only [List.tail_cons]
                rw [blockClose, ih, rest_skip_drop, rest_setLine, rest_skip_drop, hr2]
                simp only [Lexer.skip, Mino.advance]
                congr 1 <;> omega
              · rw [if_neg h5, if_neg h5]
                rfl
          · rw [if_neg h3, if_neg h3]
            rfl

theorem wsSpan_fuel (n : Nat) : ∀ (l : List Char) (m : Nat), l.length < n → n ≤ m →
    wsSpan m l = wsSpan n l := by
  induction n with
  | zero => intro l m h; omega
  | succ n ih =>
    intro l m hl hm
    obtain ⟨m, rfl⟩ : ∃ k, m = k + 1 := ⟨m - 1, by omega⟩
    cases l with
    | nil => rw [wsSpan, wsSpan]
    | cons c tl =>
      have hm1 : n ≤ m := by omega
      have htl : tl.length < n := by simpa using hl
      rw [wsSpan, wsSpan]
      by_cases h1 : (c == ' ' || c == '\t' || c == '\r') = true
      · rw [if_pos h1, if_pos h1, ih tl m htl hm1]
      · rw [if_neg h1, if_neg h1]
        by_cases h2 : (c == '\n') = true
        · rw [if_pos h2, if_pos h2, ih tl m htl hm1]
        · rw [if_neg h2, if_neg h2]
          by_cases h3 : (c == '/') = true
          · rw [if_pos h3, if_pos h3]
            have hc : c = '/' := by simpa using h3
            by_cases h4 : (tl.headD NUL == '/') = true
            · rw [if_pos h4, if_pos h4]
              simp only []
              have hk : 1 ≤ ((c :: tl).takeWhile inLineComment).length := by
                rw [List.takeWhile_cons_of_pos (by rw [hc]; decide)]
                simp
              rw [ih _ m (by
                rw [List.length_drop]
                simp only [List.length_cons]
                omega) hm1]
            · rw [if_neg h4, if_neg h4]
              by_cases h5 : (tl.headD NUL == '*') = true
              · rw [if_pos h5, if_pos h5]
                simp only []
                rw [ih _ m (by
                  rw [List.length_drop, List.length_drop, List.length_tail]
                  omega) hm1]
              · rw [if_neg h5, if_neg h5]
          · rw [if_neg h3, if_neg h3]

theorem skipWhitespace_span (lx : Lexer) :
    skipWhitespace lx =
      { lx.skip (wsSkip lx.rest).1 with line := lx.line + (wsSkip lx.rest).2 } := by
  unfold skipWhitespace wsSkip
  rw [skipWhitespaceLoop_span, wsSpan_fuel (lx.rest.length + 1) lx.rest (lx.source.length + 1)
    (by omega) (by have := rest_length_le lx; omega)]

theorem skipWhitespace_shift (pre : List Char) (d : Nat) (lx : Lexer) :
    skipWhitespace (lx.shift pre d) = (skipWhitespace lx).shift pre d := by
  rw [skipWhitespace_span, skipWhitespace_span, rest_shift, skip_shift]
  simp only [Lexer.shift, Lexer.skip]
  congr 1
  omega

/-! ### One token behind a prefix -/

theorem ite_shiftResult (pre : List Char) (d : Nat) (c : Prop) [Decidable c]
    (a b a2 b2 : Token × Lexer)
    (ha : a2 = shiftResult pre d a) (hb : b2 = shiftResult pre d b) :
    (if c then a2 else b2) = shiftResult pre d (if c then a else b) := by
  split
  · exact ha
  · exact hb

theorem identifier_shift (pre : List Char) (d : Nat) (lx : Lexer) :
    identifier (lx.shift pre d) = shiftResult pre d (identifier lx) := by
  unfold identifier shiftResult
  simp only []
  rw [identifierLoop_shift, makeToken_shift, identifierType_shift]

theorem number_shift (pre : List Char) (d : Nat) (lx : Lexer) :
    number (lx.shift pre d) = shiftResult pre d (number lx) := by
  unfold number shiftResult
  simp only []
  rw [digitLoop_shift, peek_shift, peekNext_shift]
  by_cases h : (peek (digitLoop lx.source.length lx) == '.' &&
      isdigit (peekNext (digitLoop lx.source.length lx))) = true
  · simp only [h, if_true]
    rw [advance_shift]
    have := digitLoop_shift pre d (advance (digitLoop lx.source.length lx)).2
    have e : (Lexer.shift pre d (advance (digitLoop lx.source.length lx)).2).source.length
        = ((digitLoop lx.source.length lx).shift pre d).source.length := rfl
    rw [e] at this
    have e2 : (advance (digitLoop lx.source.length lx)).2.source.length
        = (digitLoop lx.source.length lx).source.length := rfl
    rw [e2] at this
    rw [this, makeToken_shift]
  · simp only [h, Bool.false_eq_true, if_false]
    rw [makeToken_shift]

theorem string_shift (pre : List Char) (d : Nat) (lx : Lexer) :
    string (lx.shift pre d) = shiftResult pre d (string lx) := by
  unfold string
  simp only []
  rw [stringLoop_shift, isAtEnd_shift]
  refine ite_shiftResult pre d _ _ _ _ _ rfl ?_
  rw [advance_shift, makeToken_shift]
  rfl

theorem twoCharToken_shift (pre : List Char) (d : Nat) (lx : Lexer) (e : Char)
    (yes no : TokenType) :
    twoCharToken (lx.shift pre d) e yes no = shiftResult pre d (twoCharToken lx e yes no) := by
  have hm : lexMatch (lx.shift pre d) e = ((lexMatch lx e).1, (lexMatch lx e).2.shift pre d) := by
    unfold lexMatch
    rw [isAtEnd_shift]
    have hc : charAt (lx.shift pre d).source (lx.shift pre d).current
        = charAt lx.source lx.current := charAt_shift pre lx.source lx.current
    rw [hc]
    split
    · rfl
    · split
      · rfl
      · have := advance_shift pre d lx
        simp only [Mino.advance] at this
        rw [this]
  unfold twoCharToken shiftResult
  simp only []
  rw [hm]
  simp only []
  rw [makeToken_shift]

theorem makeToken_pair_shift (pre : List Char) (d : Nat) (lx : Lexer) (t : TokenType) :
    (makeToken (lx.shift pre d) t, lx.shift pre d) = shiftResult pre d (makeToken lx t, lx) := by
  unfold shiftResult
  rw [makeToken_shift]

theorem errorToken_pair_shift (pre : List Char) (d : Nat) (lx : Lexer) (m : List Char) :
    (errorToken (lx.shift pre d) m, lx.shift pre d) = shiftResult pre d (errorToken lx m, lx) :=
  rfl

theorem scanBody_shift (pre : List Char) (d : Nat) (lx : Lexer) :
    scanBody (lx.shift pre d) = shiftResult pre d (scanBody lx) := by
  unfold scanBody
  simp only []
  rw [advance_fst_shift, advance_shift]
  refine ite_shiftResult pre d _ _ _ _ _ ?_ ?_
  · have h := alphaLoop_shift pre d (advance lx).2
    rw [h, length_shift, memcmpEq_shift]
    refine ite_shiftResult pre d _ _ _ _ _ ?_ ?_
    · exact makeToken_pair_shift _ _ _ _
    · exact errorToken_pair_shift _ _ _ _
  · refine ite_shiftResult pre d _ _ _ _ _ (identifier_shift _ _ _) ?_
    refine ite_shiftResult pre d _ _ _ _ _ (number_shift _ _ _) ?_
    iterate 15 refine ite_shiftResult pre d _ _ _ _ _ (makeToken_pair_shift _ _ _ _) ?_
    iterate 7 refine ite_shiftResult pre d _ _ _ _ _ (twoCharToken_shift _ _ _ _ _ _) ?_
    exact ite_shiftResult pre d _ _ _ _ _ (string_shift _ _ _) (errorToken_pair_shift _ _ _ _)

/-- Scanning one token behind a prefix of the source gives the same token,
`d` lines further down, and the same lexer moved behind the prefix. -/
theorem scanToken_shift (pre : List Char) (d : Nat) (lx : Lexer) :
    scanToken (lx.shift pre d) = shiftResult pre d (scanToken lx) := by
  unfold scanToken
  simp only []
  rw [skipWhitespace_shift, setStart_shift, isAtEnd_shift]
  refine ite_shiftResult pre d _ _ _ _ _ ?_ ?_
  · exact makeToken_pair_shift _ _ _ _
  · exact scanBody_shift _ _ _

theorem scanState_shift (pre : List Char) (d : Nat) (n : Nat) : ∀ (lx : Lexer),
    scanState n (lx.shift pre d) = (scanState n lx).shift pre d := by
  induction n with
  | zero => intro lx; rfl
  | succ n ih =>
    intro lx
    rw [scanState, scanState, scanToken_shift]
    exact ih _

theorem scanNth_shift (pre : List Char) (d : Nat) (n : Nat) (lx : Lexer) :
    scanNth n (lx.shift pre d) = (scanNth n lx).bump d := by
  unfold scanNth
  rw [scanState_shift, scanToken_shift]
  rfl

/-- Two lexers that agree after `skipWhitespace`, the token start apart,
return the same token and state. -/
theorem scanToken_congr {a b : Lexer}
    (h : ({ skipWhitespace a with start := (skipWhitespace a).current } : Lexer) =
      { skipWhitespace b with start := (skipWhitespace b).current }) :
    scanToken a = scanToken b := by
  unfold scanToken
  simp only []
  rw [h]

theorem scanNth_congr {a b : Lexer} (h : scanToken a = scanToken b) (n : Nat) :
    scanNth n a = scanNth n b := by
  cases n with
  | zero => unfold scanNth scanState; rw [h]
  | succ n =>
    unfold scanNth
    rw [scanState, scanState, h]

/-! ### Comments in front of a source -/

theorem takeWhile_lineComment (c s : List Char) (hc : ∀ x ∈ c, x ≠ '\n' ∧ x ≠ NUL) :
    ('/' :: '/' :: (c ++ '\n' :: s)).takeWhile inLineComment = '/' :: '/' :: c := by
  have hall : ∀ x ∈ '/' :: '/' :: c, inLineComment x = true := by
    intro x hx
    simp only [List.mem_cons] at hx
    rcases hx with rfl | rfl | hx
    · decide
    · decide
    · have := hc x hx
      simp [inLineComment, bne, this.1, this.2]
  have := (takeWhile_append_stop inLineComment ('/' :: '/' :: c) '\n' s hall (by decide)).1
  simpa using this

theorem wsSkip_lineComment (c s : List Char) (hc : ∀ x ∈ c, x ≠ '\n' ∧ x ≠ NUL) :
    wsSkip ('/' :: '/' :: (c ++ '\n' :: s)) =
      ((wsSkip s).1 + (c.length + 3), (wsSkip s).2 + 1) := by
  unfold wsSkip
  rw [wsSpan]
  rw [if_neg (by decide), if_neg (by decide), if_pos (by decide), if_pos (by rfl)]
  simp only []
  rw [takeWhile_lineComment c s hc]
  have hdrop : ('/' :: '/' :: (c ++ '\n' :: s)).drop ('/' :: '/' :: c).length = '\n' :: s := by
    have : '/' :: '/' :: (c ++ '\n' :: s) = ('/' :: '/' :: c) ++ '\n' :: s := by simp
    rw [this, List.drop_left]
  rw [hdrop]
  have hlen : ('/' :: '/' :: (c ++ '\n' :: s)).length = (s.length + c.length + 2) + 1 := by
    simp only [List.length_cons, List.length_append]
    omega
  rw [hlen, wsSpan, if_neg (by decide), if_pos (by rfl),
    wsSpan_fuel (s.length + 1) s (s.length + c.length + 2) (by omega) (by omega)]
  simp only [List.length_cons]
  rw [Prod.mk.injEq]
  constructor <;> omega

theorem scanToken_behind (pre s : List Char) (d : Nat)
    (h : wsSkip (pre ++ s) = ((wsSkip s).1 + pre.length, (wsSkip s).2 + d)) :
    scanToken (initLexer (pre ++ s)) = scanToken ((initLexer s).shift pre d) := by
  apply scanToken_congr
  rw [skipWhitespace_span, skipWhitespace_span, rest_shift]
  have e1 : (initLexer (pre ++ s)).rest = pre ++ s := rfl
  have e2 : (initLexer s).rest = s := rfl
  rw [e1, e2, h]
  simp only [Lexer.skip, Lexer.shift, initLexer]
  congr 1 <;> omega

theorem scanNth_behind (pre s : List Char) (d : Nat)
    (h : wsSkip (pre ++ s) = ((wsSkip s).1 + pre.length, (wsSkip s).2 + d)) (n : Nat) :
    scanNth n (initLexer (pre ++ s)) = (scanNth n (initLexer s)).bump d := by
  rw [scanNth_congr (scanToken_behind pre s d h) n, scanNth_shift]

theorem lineComment_stops_at_newline (c s : List Char) (hc : ∀ x ∈ c, x ≠ '\n' ∧ x ≠ NUL) :
    (lineCommentLoop ('/' :: '/' :: (c ++ '\n' :: s)).length
      (initLexer ('/' :: '/' :: (c ++ '\n' :: s)))).rest = '\n' :: s := by
  have e1 : (initLexer ('/' :: '/' :: (c ++ '\n' :: s))).rest = '/' :: '/' :: (c ++ '\n' :: s) :=
    rfl
  have h := lineCommentLoop_takeWhile (initLexer ('/' :: '/' :: (c ++ '\n' :: s)))
    ('/' :: '/' :: (c ++ '\n' :: s)).length (le_refl _)
  rw [h, e1, takeWhile_lineComment c s hc, rest_skip_drop, e1]
  have : '/' :: '/' :: (c ++ '\n' :: s) = ('/' :: '/' :: c) ++ '\n' :: s := by simp
  rw [this, List.drop_left]

theorem blockBody_closed (s : List Char) : ∀ (b : List Char), (∀ x ∈ b, x ≠ NUL) →
    ¬ (['*', '/'] <:+: b) → blockBody (b ++ '*' :: '/' :: s) = b
  | [], _, _ => by
    rw [List.nil_append, blockBody_cons, if_neg (by decide), if_pos (by rfl)]
  | c :: b, hnul, hno => by
    have hc : c ≠ NUL := hnul c (List.mem_cons_self _ _)
    have hcb : (c == NUL) = false := by simpa using hc
    have hcond : ¬ (c == '*' && (b ++ '*' :: '/' :: s).headD NUL == '/') = true := by
      intro h
      simp only [Bool.and_eq_true, beq_iff_eq] at h
      obtain ⟨h1, h2⟩ := h
      cases b with
      | nil => simp at h2
      | cons x b =>
        simp only [List.cons_append, List.headD_cons] at h2
        apply hno
        rw [h1, h2]
        exact ⟨[], b, rfl⟩
    rw [List.cons_append, blockBody_cons, if_neg (by rw [hcb]; simp), if_neg hcond,
      blockBody_closed s b (fun x hx => hnul x (List.mem_cons_of_mem _ hx))
        (fun h => hno (h.trans (List.infix_cons (List.infix_refl _))))]

theorem blockBody_open : ∀ (b : List Char), (∀ x ∈ b, x ≠ NUL) →
    ¬ (['*', '/'] <:+: b) → blockBody b = b
  | [], _, _ => rfl
  | c :: b, hnul, hno => by
    have hc : c ≠ NUL := hnul c (List.mem_cons_self _ _)
    have hcb : (c == NUL) = false := by simpa using hc
    have hcond : ¬ (c == '*' && b.headD NUL == '/') = true := by
      intro h
      simp only [Bool.and_eq_true, beq_iff_eq] at h
      obtain ⟨h1, h2⟩ := h
      cases b with
      | nil => simp [NUL] at h2
      | cons x b =>
        simp only [List.headD_cons] at h2
        apply hno
        rw [h1, h2]
        exact ⟨[], b, rfl⟩
    rw [blockBody_cons, if_neg (by rw [hcb]; simp), if_neg hcond,
      blockBody_open b (fun x hx => hnul x (List.mem_cons_of_mem _ hx))
        (fun h => hno (h.trans (List.infix_cons (List.infix_refl _))))]

theorem wsSkip_blockComment (b s : List Char) (hnul : ∀ x ∈ b, x ≠ NUL)
    (hno : ¬ (['*', '/'] <:+: b)) :
    wsSkip ('/' :: '*' :: (b ++ '*' :: '/' :: s)) =
      ((wsSkip s).1 + (b.length + 4), (wsSkip s).2 + b.count '\n') := by
  unfold wsSkip
  rw [wsSpan]
  rw [if_neg (by decide), if_neg (by decide), if_pos (by decide),
    if_neg (by rw [List.headD_cons]; decide), if_pos (by rfl)]
  simp only [List.tail_cons, blockBody_closed s b hnul hno, List.drop_left, List.headD_cons]
  rw [if_pos (by decide)]
  simp only [List.drop_succ_cons, List.drop_zero]
  have hlen : ('/' :: '*' :: (b ++ '*' :: '/' :: s)).length = s.length + b.length + 4 := by
    simp only [List.length_cons, List.length_append]
    omega
  rw [hlen, wsSpan_fuel (s.length + 1) s (s.length + b.length + 4) (by omega) (by omega)]
  rw [Prod.mk.injEq]
  constructor <;> omega

theorem wsSpan_nil (n : Nat) : wsSpan n [] = (0, 0) := by
  cases n <;> rfl

theorem wsSkip_openComment (b : List Char) (hnul : ∀ x ∈ b, x ≠ NUL)
    (hno : ¬ (['*', '/'] <:+: b)) :
    wsSkip ('/' :: '*' :: b) = (b.length + 2, b.count '\n') := by
  unfold wsSkip
  rw [wsSpan]
  rw [if_neg (by decide), if_neg (by decide), if_pos (by decide),
    if_neg (by rw [List.headD_cons]; decide), if_pos (by rfl)]
  simp only [List.tail_cons, blockBody_open b hnul hno, List.drop_length, List.headD_nil]
  rw [if_neg (by decide)]
  simp only [List.drop_zero, wsSpan_nil]
  rw [Prod.mk.injEq]
  constructor <;> omega

theorem scanNth_of_eof (lx : Lexer) (h : (scanToken lx).1.type = TokenType.TOKEN_EOF) :
    ∀ n, scanNth n lx = (scanToken lx).1 := by
  have hstate : ∀ n, scanToken (scanState n lx) = scanToken lx := by
    intro n
    induction n with
    | zero => rfl
    | succ n ih =>
      rw [scanState_succ_right, ih]
      exact scanToken_eof_stable lx h
  intro n
  unfold scanNth
  rw [hstate]

theorem scanToken_openComment (b : List Char) (hnul : ∀ x ∈ b, x ≠ NUL)
    (hno : ¬ (['*', '/'] <:+: b)) :
    (scanToken (initLexer ('/' :: '*' :: b))).1 =
      { type := TokenType.TOKEN_EOF, lexeme := [], line := 1 + b.count '\n' } := by
  have e1 : (initLexer ('/' :: '*' :: b)).rest = '/' :: '*' :: b := rfl
  obtain ⟨st, hst, hrest, hline⟩ : ∃ st : Lexer, skipWhitespace (initLexer ('/' :: '*' :: b)) = st ∧
      st.rest = [] ∧ st.line = 1 + b.count '\n' := by
    refine ⟨_, skipWhitespace_span _, ?_, ?_⟩
    · rw [rest_setLine, rest_skip_drop, e1, wsSkip_openComment b hnul hno]
      have : ('/' :: '*' :: b).length = b.length + 2 := by simp
      rw [← this, List.drop_length]
    · rw [e1, wsSkip_openComment b hnul hno]
      rfl
  unfold scanToken
  simp only []
  rw [hst]
  have hend : isAtEnd { st with start := st.current } = true := isAtEnd_of_rest_nil hrest
  rw [if_pos hend]
  simp only [makeToken, slice, Nat.sub_self, List.take_zero, hline]

/-- C25: when the first unread character after the skipped blanks and
comments is a digit, `scanToken` returns a NUMBER token whose lexeme is the
longest prefix of the unread input that matches `[0-9]+(\.[0-9]+)?` (a dot is
taken only when a digit follows it), and leaves the cursor behind that
lexeme.  A `-` in front of a digit is a MINUS token of its own and the
number is the next token.  So `1.` gives NUMBER `1`, DOT; `1.5.2` gives
NUMBER `1.5`, DOT, NUMBER `2`; `-5` gives MINUS, NUMBER `5`. -/
theorem scanToken_number_longest_match :
    (∀ (lx : Lexer) (d : Char) (tl : List Char),
      (skipWhitespace lx).rest = d :: tl → isdigit d = true →
      scanToken lx =
        ({ type := TokenType.TOKEN_NUMBER, lexeme := numberPrefix (d :: tl),
           line := (skipWhitespace lx).line },
         { skipWhitespace lx with
           start := (skipWhitespace lx).current
           current := (skipWhitespace lx).current + (numberPrefix (d :: tl)).length }) ∧
      numberPrefix (d :: tl) <+: d :: tl ∧
      matchesNumber (numberPrefix (d :: tl)) = true ∧
      ∀ p : List Char, p <+: d :: tl → matchesNumber p = true →
        p.length ≤ (numberPrefix (d :: tl)).length) ∧
    (∀ (lx : Lexer) (d : Char) (tl : List Char),
      (skipWhitespace lx).rest = '-' :: d :: tl → isdigit d = true →
      (scanToken lx).1 =
        { type := TokenType.TOKEN_MINUS, lexeme := ['-'], line := (skipWhitespace lx).line } ∧
      (scanToken (scanToken lx).2).1 =
        { type := TokenType.TOKEN_NUMBER, lexeme := numberPrefix (d :: tl),
          line := (skipWhitespace lx).line }) ∧
    scanFirst 3 "1.".toList =
      [tokenOnLine1 TokenType.TOKEN_NUMBER "1", tokenOnLine1 TokenType.TOKEN_DOT ".",
       tokenOnLine1 TokenType.TOKEN_EOF ""] ∧
    scanFirst 4 "1.5.2".toList =
      [tokenOnLine1 TokenType.TOKEN_NUMBER "1.5", tokenOnLine1 TokenType.TOKEN_DOT ".",
       tokenOnLine1 TokenType.TOKEN_NUMBER "2", tokenOnLine1 TokenType.TOKEN_EOF ""] ∧
    scanFirst 3 "-5".toList =
      [tokenOnLine1 TokenType.TOKEN_MINUS "-", tokenOnLine1 TokenType.TOKEN_NUMBER "5",
       tokenOnLine1 TokenType.TOKEN_EOF ""] :=
  ⟨fun lx d tl hin hd =>
      ⟨scanToken_of_digit lx d tl hin hd, numberPrefix_isPrefix _,
        matchesNumber_numberPrefix hd tl, fun p hp hm => numberPrefix_longest _ p hp hm⟩,
    fun lx d tl hin hd => scanToken_of_minus_digit lx d tl hin hd,
    by decide!, by decide!, by decide!⟩

/-- Witness for C25: on `  12.5.x` the unread input after the blanks starts
with the digit `1`, and the token is NUMBER `12.5`; on `-5` the minus sign is
followed by the digit `5`. -/
theorem scanToken_number_longest_match_witness :
    ((skipWhitespace (initLexer "  12.5.x".toList)).rest = '1' :: "2.5.x".toList ∧
      numberPrefix ('1' :: "2.5.x".toList) = "12.5".toList ∧
      (scanToken (initLexer "  12.5.x".toList)).1 =
        { type := TokenType.TOKEN_NUMBER, lexeme := numberPrefix ('1' :: "2.5.x".toList),
          line := (skipWhitespace (initLexer "  12.5.x".toList)).line }) ∧
    ((skipWhitespace (initLexer "-5".toList)).rest = '-' :: '5' :: [] ∧
      (scanToken (scanToken (initLexer "-5".toList)).2).1 =
        { type := TokenType.TOKEN_NUMBER, lexeme := numberPrefix ('5' :: []),
          line := (skipWhitespace (initLexer "-5".toList)).line }) :=
  ⟨⟨by decide!, by decide!,
      congrArg Prod.fst ((scanToken_number_longest_match.1 (initLexer "  12.5.x".toList) '1'
        "2.5.x".toList (by decide!) (by decide!)).1)⟩,
    ⟨by decide!,
      ((scanToken_number_longest_match.2.1 (initLexer "-5".toList) '5' []
        (by decide!) (by decide!))).2⟩⟩

/-- C26: when the first unread character after the skipped blanks and
comments is a double quote and a second quote follows (the characters
`body` between them holding no quote), `scanToken` returns a STRING token
whose lexeme runs from the opening quote through that second quote.  When no
quote follows before the end of the text, it returns an ERROR token whose
lexeme is the message `Unterminated string.`, and the next call returns the
end-of-input token.  In both cases the line of the token is the line of the
opening quote plus the number of newlines in `body`. -/
theorem scanToken_string_or_unterminated :
    (∀ (lx : Lexer) (body tl : List Char),
      (skipWhitespace lx).rest = DQUOTE :: (body ++ DQUOTE :: tl) →
      (∀ c ∈ body, c ≠ DQUOTE ∧ c ≠ NUL) →
      scanToken lx =
        ({ type := TokenType.TOKEN_STRING, lexeme := DQUOTE :: (body ++ [DQUOTE]),
           line := (skipWhitespace lx).line + body.count '\n' },
         { skipWhitespace lx with
           start := (skipWhitespace lx).current
           current := (skipWhitespace lx).current + (body.length + 2)
           line := (skipWhitespace lx).line + body.count '\n' })) ∧
    (∀ (lx : Lexer) (body : List Char),
      (skipWhitespace lx).rest = DQUOTE :: body →
      (∀ c ∈ body, c ≠ DQUOTE ∧ c ≠ NUL) →
      (scanToken lx).1 =
        { type := TokenType.TOKEN_ERROR, lexeme := "Unterminated string.".toList,
          line := (skipWhitespace lx).line + body.count '\n' } ∧
      (scanToken (scanToken lx).2).1.type = TokenType.TOKEN_EOF) ∧
    scanFirst 6 srcStrings =
      [tokenOnLine1 TokenType.TOKEN_IDENTIFIER "x", tokenOnLine1 TokenType.TOKEN_EQUAL "=",
       { type := TokenType.TOKEN_STRING, lexeme := DQUOTE :: "hi".toList ++ [DQUOTE], line := 1 },
       tokenOnLine1 TokenType.TOKEN_PLUS "+",
       tokenOnLine1 TokenType.TOKEN_ERROR "Unterminated string.",
       tokenOnLine1 TokenType.TOKEN_EOF ""] :=
  ⟨fun lx body tl hin hbody => scanToken_of_string lx body tl hin hbody,
    fun lx body hin hbody => scanToken_of_open_string lx body hin hbody,
    by decide!⟩

/-- Witness for C26: the closed literal `"a b"` followed by `;`, and the open
literal `"a` followed by a newline and `b`. -/
theorem scanToken_string_or_unterminated_witness :
    (scanToken (initLexer (DQUOTE :: ("a b".toList ++ DQUOTE :: ";".toList)))).1 =
      { type := TokenType.TOKEN_STRING, lexeme := DQUOTE :: ("a b".toList ++ [DQUOTE]),
        line := (skipWhitespace (initLexer (DQUOTE :: ("a b".toList ++ DQUOTE :: ";".toList)))).line
          + "a b".toList.count '\n' } ∧
    ((scanToken (initLexer (DQUOTE :: "a\nb".toList))).1 =
      { type := TokenType.TOKEN_ERROR, lexeme := "Unterminated string.".toList,
        line := (skipWhitespace (initLexer (DQUOTE :: "a\nb".toList))).line
          + "a\nb".toList.count '\n' } ∧
      (scanToken (scanToken (initLexer (DQUOTE :: "a\nb".toList))).2).1.type
        = TokenType.TOKEN_EOF) :=
  ⟨congrArg Prod.fst (scanToken_string_or_unterminated.1
      (initLexer (DQUOTE :: ("a b".toList ++ DQUOTE :: ";".toList))) "a b".toList ";".toList
      (by decide!) (by decide)),
    scanToken_string_or_unterminated.2.1 (initLexer (DQUOTE :: "a\nb".toList)) "a\nb".toList
      (by decide!) (by decide)⟩

/-- C23: for every comment text `c` without newline (and without NUL, as in
every C string) and every source `s`, scanning `//` ++ `c` ++ newline ++ `s`
returns, call by call, the tokens of `s` with the same kind and lexeme and
with the line number increased by exactly one; the loop over the comment
stops on the newline, which is then skipped as a blank.  So
`// comment` newline `42` gives the NUMBER token `42` on line 2 and then the
end of input. -/
theorem line_comment_skipped :
    (∀ (c s : List Char), (∀ x ∈ c, x ≠ '\n' ∧ x ≠ NUL) → ∀ n : Nat,
      (scanNth n (initLexer ('/' :: '/' :: (c ++ '\n' :: s)))).type
        = (scanNth n (initLexer s)).type ∧
      (scanNth n (initLexer ('/' :: '/' :: (c ++ '\n' :: s)))).lexeme
        = (scanNth n (initLexer s)).lexeme ∧
      (scanNth n (initLexer ('/' :: '/' :: (c ++ '\n' :: s)))).line
        = (scanNth n (initLexer s)).line + 1) ∧
    (∀ (c s : List Char), (∀ x ∈ c, x ≠ '\n' ∧ x ≠ NUL) →
      (lineCommentLoop ('/' :: '/' :: (c ++ '\n' :: s)).length
        (initLexer ('/' :: '/' :: (c ++ '\n' :: s)))).rest = '\n' :: s) ∧
    scanFirst 3 "// comment\n42".toList =
      [{ type := TokenType.TOKEN_NUMBER, lexeme := "42".toList, line := 2 },
       { type := TokenType.TOKEN_EOF, lexeme := [], line := 2 },
       { type := TokenType.TOKEN_EOF, lexeme := [], line := 2 }] := by
  refine ⟨?_, fun c s hc => lineComment_stops_at_newline c s hc, by decide!⟩
  intro c s hc n
  have key := scanNth_behind ('/' :: '/' :: (c ++ ['\n'])) s 1 (by
    have := wsSkip_lineComment c s hc
    have e : ('/' :: '/' :: (c ++ ['\n'])) ++ s = '/' :: '/' :: (c ++ '\n' :: s) := by simp
    rw [e, this]
    simp only [List.length_cons, List.length_append, List.length_nil]) n
  have e : ('/' :: '/' :: (c ++ ['\n'])) ++ s = '/' :: '/' :: (c ++ '\n' :: s) := by simp
  rw [e] at key
  rw [key]
  exact ⟨rfl, rfl, rfl⟩

/-- Witness for C23: the comment ` note` in front of the source `x + 1`. -/
theorem line_comment_skipped_witness :
    (scanNth 2 (initLexer ('/' :: '/' :: (" note".toList ++ '\n' :: "x + 1".toList)))).type
      = (scanNth 2 (initLexer "x + 1".toList)).type ∧
    (scanNth 2 (initLexer ('/' :: '/' :: (" note".toList ++ '\n' :: "x + 1".toList)))).lexeme
      = (scanNth 2 (initLexer "x + 1".toList)).lexeme ∧
    (scanNth 2 (initLexer ('/' :: '/' :: (" note".toList ++ '\n' :: "x + 1".toList)))).line
      = (scanNth 2 (initLexer "x + 1".toList)).line + 1 :=
  line_comment_skipped.1 " note".toList "x + 1".toList (by decide) 2

/-- C24: for every block comment body `b` that does not contain `*/` (and no
NUL, as in every C string) and every source `s`, scanning `/*` ++ `b` ++
`*/` ++ `s` returns, call by call, the tokens of `s` with the same kind and
lexeme and with the line number increased by the number of newlines in `b`;
scanning `/*` ++ `b` without the closing `*/` returns the end-of-input token
at every call, so no error token.  So `/* a` newline `b */7` gives the NUMBER
token `7` on line 2 and then the end of input. -/
theorem block_comment_skipped :
    (∀ (b s : List Char), (∀ x ∈ b, x ≠ NUL) → ¬ (['*', '/'] <:+: b) → ∀ n : Nat,
      (scanNth n (initLexer ('/' :: '*' :: (b ++ '*' :: '/' :: s)))).type
        = (scanNth n (initLexer s)).type ∧
      (scanNth n (initLexer ('/' :: '*' :: (b ++ '*' :: '/' :: s)))).lexeme
        = (scanNth n (initLexer s)).lexeme ∧
      (scanNth n (initLexer ('/' :: '*' :: (b ++ '*' :: '/' :: s)))).line
        = (scanNth n (initLexer s)).line + b.count '\n') ∧
    (∀ (b : List Char), (∀ x ∈ b, x ≠ NUL) → ¬ (['*', '/'] <:+: b) → ∀ n : Nat,
      scanNth n (initLexer ('/' :: '*' :: b)) =
        { type := TokenType.TOKEN_EOF, lexeme := [], line := 1 + b.count '\n' }) ∧
    scanFirst 3 "/* a\nb */7".toList =
      [{ type := TokenType.TOKEN_NUMBER, lexeme := "7".toList, line := 2 },
       { type := TokenType.TOKEN_EOF, lexeme := [], line := 2 },
       { type := TokenType.TOKEN_EOF, lexeme := [], line := 2 }] := by
  refine ⟨?_, ?_, by decide!⟩
  · intro b s hnul hno n
    have e : ('/' :: '*' :: (b ++ ['*', '/'])) ++ s = '/' :: '*' :: (b ++ '*' :: '/' :: s) := by
      simp
    have key := scanNth_behind ('/' :: '*' :: (b ++ ['*', '/'])) s (b.count '\n') (by
      rw [e, wsSkip_blockComment b s hnul hno]
      simp only [List.length_cons, List.length_append, List.length_nil]) n
    rw [e] at key
    rw [key]
    exact ⟨rfl, rfl, rfl⟩
  · intro b hnul hno n
    have h := scanToken_openComment b hnul hno
    rw [scanNth_of_eof _ (by rw [h]), h]

/-- Witness for C24: the comment body ` a*b/ `, with a star and a slash that
do not close it, in front of `x`; and the same comment left open. -/
theorem block_comment_skipped_witness :
    ((scanNth 0 (initLexer ('/' :: '*' :: (" a*\nb/ ".toList ++ '*' :: '/' :: "x".toList)))).type
        = (scanNth 0 (initLexer "x".toList)).type ∧
      (scanNth 0 (initLexer ('/' :: '*' :: (" a*\nb/ ".toList ++ '*' :: '/' :: "x".toList)))).lexeme
        = (scanNth 0 (initLexer "x".toList)).lexeme ∧
      (scanNth 0 (initLexer ('/' :: '*' :: (" a*\nb/ ".toList ++ '*' :: '/' :: "x".toList)))).line
        = (scanNth 0 (initLexer "x".toList)).line + " a*\nb/ ".toList.count '\n') ∧
    scanNth 1 (initLexer ('/' :: '*' :: " a*\nb/ ".toList)) =
      { type := TokenType.TOKEN_EOF, lexeme := [], line := 1 + " a*\nb/ ".toList.count '\n' } :=
  ⟨block_comment_skipped.1 " a*\nb/ ".toList "x".toList (by decide) (by decide) 0,
    block_comment_skipped.2.1 " a*\nb/ ".toList (by decide) (by decide) 1⟩

/-! ## Well-formedness of reachable tables, symbol by symbol -/

theorem symbols_pairwise_of_wf {t : SymbolTable} (h : t.WF) :
    t.symbols.Pairwise (fun a c => ¬ sameKey a c) := by
  unfold SymbolTable.symbols
  rw [List.pairwise_flatten]
  refine ⟨?_, ?_⟩
  · intro l hl
    obtain ⟨i, hi, rfl⟩ := List.getElem_of_mem hl
    have := h.distinct i
    rwa [List.getD_eq_getElem _ _ hi] at this
  · rw [List.pairwise_iff_getElem]
    intro i j hi hj hij a ha c hc hk
    have h1 := (h.placed i a (by rwa [List.getD_eq_getElem _ _ hi])).1
    have h2 := (h.placed j c (by rwa [List.getD_eq_getElem _ _ hj])).1
    rw [hk.1] at h1
    omega

/-- C28: every table reachable from `createSymbolTable` by `enterScope`,
`exitScope` and `defineSymbol` calls is well formed: no two stored symbols
share both name and scope depth, every symbol has a depth between 0 and the
current depth of the table, every symbol is stored in the bucket indexed by
the hash of its name modulo the capacity (which stays `TABLE_SIZE`, with as
many buckets), the current depth is not negative, and `count` is the number
of stored symbols. -/
theorem reachable_table_well_formed (t : SymbolTable) (h : TableReachable t) :
    t.symbols.Pairwise (fun a c => ¬ (a.name = c.name ∧ a.scopeDepth = c.scopeDepth)) ∧
    (∀ s ∈ t.symbols, 0 ≤ s.scopeDepth ∧ s.scopeDepth ≤ t.scopeDepth) ∧
    (∀ i, ∀ s ∈ t.buckets.getD i [], hash s.name % t.capacity = i) ∧
    (∀ s ∈ t.symbols, s ∈ t.buckets.getD (hash s.name % t.capacity) []) ∧
    t.capacity = TABLE_SIZE ∧ t.buckets.length = TABLE_SIZE ∧
    0 ≤ t.scopeDepth ∧
    t.count = (t.symbols.length : Int) := by
  have wf := h.wf
  refine ⟨symbols_pairwise_of_wf wf, ?_, ?_, ?_, wf.capacity_eq, wf.length_eq,
    wf.depth_nonneg, wf.count_eq⟩
  · intro s hs
    obtain ⟨l, hl, hsl⟩ := List.mem_flatten.mp hs
    obtain ⟨i, hi, rfl⟩ := List.getElem_of_mem hl
    exact (wf.placed i s (by rwa [List.getD_eq_getElem _ _ hi])).2
  · intro i s hs
    rw [wf.capacity_eq]
    exact (wf.placed i s hs).1
  · intro s hs
    obtain ⟨l, hl, hsl⟩ := List.mem_flatten.mp hs
    obtain ⟨i, hi, rfl⟩ := List.getElem_of_mem hl
    have hp := (wf.placed i s (by rwa [List.getD_eq_getElem _ _ hi])).1
    rw [wf.capacity_eq, hp, List.getD_eq_getElem _ _ hi]
    exact hsl

/-- Witness for C28: the table in which `x` is defined at depth 0 and again,
after `enterScope`, at depth 1 is reachable, so it is well formed; it holds
two symbols. -/
theorem reachable_table_well_formed_witness :
    TableReachable tableShadowX ∧ tableShadowX.symbols.length = 2 ∧
    (tableShadowX.symbols.Pairwise
        (fun a c => ¬ (a.name = c.name ∧ a.scopeDepth = c.scopeDepth)) ∧
      (∀ s ∈ tableShadowX.symbols, 0 ≤ s.scopeDepth ∧ s.scopeDepth ≤ tableShadowX.scopeDepth) ∧
      (∀ i, ∀ s ∈ tableShadowX.buckets.getD i [], hash s.name % tableShadowX.capacity = i) ∧
      (∀ s ∈ tableShadowX.symbols,
        s ∈ tableShadowX.buckets.getD (hash s.name % tableShadowX.capacity) []) ∧
      tableShadowX.capacity = TABLE_SIZE ∧ tableShadowX.buckets.length = TABLE_SIZE ∧
      0 ≤ tableShadowX.scopeDepth ∧
      tableShadowX.count = (tableShadowX.symbols.length : Int)) :=
  ⟨tableShadowX_reachable, by decide!,
    reachable_table_well_formed tableShadowX tableShadowX_reachable⟩

/-! ## Trees returned by the parser are well formed -/

theorem panicSound_of_reaches {p q : Parser} (h : Reaches p q) (hp : panicSound p) :
    panicSound q := by
  induction h with
  | refl => exact hp
  | advance _ ih => exact ih
  | error tok msg _ ih =>
    intro _
    unfold errorAt
    split
    · rename_i hpm; exact ih hpm
    · rfl

theorem hadError_of_reaches {p q : Parser} (h : Reaches p q) (hq : q.hadError = false) :
    p.hadError = false := by
  induction h with
  | refl => exact hq
  | advance _ ih => exact ih hq
  | error tok msg _ ih =>
    apply ih
    unfold errorAt at hq
    split at hq
    · exact hq
    · cases hq

theorem errorAtCurrent_hadError {p : Parser} (hp : panicSound p) (msg : List Char) :
    (errorAtCurrent p msg).hadError = true := by
  unfold errorAtCurrent errorAt
  split
  · rename_i hpm; exact hp hpm
  · rfl

theorem entriesWellFormed_append (l : List (Option ASTNode)) (a : ASTNode) :
    entriesWellFormed (l ++ [some a]) = (entriesWellFormed l && a.wellFormed) := by
  induction l with
  | nil => simp [entriesWellFormed, requiredWellFormed]
  | cons e rest ih =>
    show (requiredWellFormed e && entriesWellFormed (rest ++ [some a])) = _
    rw [ih]
    simp only [entriesWellFormed, Bool.and_assoc]

theorem paramsWellFormed_append (l : List ASTNode) (name : List Char) (tok : Token) :
    paramsWellFormed (l ++ [createVarNode name (some (createLiteralNode tok)) none]) =
      paramsWellFormed l := by
  induction l with
  | nil =>
    simp [paramsWellFormed, createVarNode, createLiteralNode, optionalWellFormed,
      ASTNode.wellFormed]
  | cons e rest ih =>
    cases e <;> simp [paramsWellFormed, ih]

theorem reaches_consume_self (p : Parser) (t : TokenType) (msg : List Char) :
    Reaches p (consume p t msg) := reaches_consume t msg (Reaches.refl p)

theorem reaches_pmatch_self (p : Parser) (t : TokenType) : Reaches p (pmatch p t).2 :=
  reaches_pmatch t (Reaches.refl p)

theorem reaches_matchAny_self (p : Parser) (ts : List TokenType) :
    Reaches p (matchAny p ts).2 := reaches_matchAny ts (Reaches.refl p)

theorem goodExpression_iff {r : Option ASTNode} :
    goodExpression r = true ↔ ∃ n, r = some n ∧ n.wellFormed = true ∧ isExpressionNode n = true := by
  cases r with
  | none => simp [goodExpression]
  | some n => simp [goodExpression]

theorem expression_good (fuel : Nat) :
    (∀ p c r q, finishCall fuel p c = some (r, q) → panicSound p → q.hadError = false →
      c.wellFormed = true → goodExpression r = true) ∧
    (∀ p a r q, finishCallArgs fuel p a = some (r, q) → panicSound p → q.hadError = false →
      entriesWellFormed a = true → entriesWellFormed r = true) ∧
    (∀ p c r q, primaryChain fuel p c = some (r, q) → panicSound p → q.hadError = false →
      c.wellFormed = true → isExpressionNode c = true → goodExpression r = true) ∧
    (∀ p r q, primary fuel p = some (r, q) → panicSound p → q.hadError = false →
      goodExpression r = true) ∧
    (∀ p l r q, binaryLoop fuel p l = some (r, q) → panicSound p → q.hadError = false →
      goodExpression l = true → goodExpression r = true) ∧
    (∀ p r q, binary fuel p = some (r, q) → panicSound p → q.hadError = false →
      goodExpression r = true) ∧
    (∀ p r q, expression fuel p = some (r, q) → panicSound p → q.hadError = false →
      goodExpression r = true) := by
  induction fuel with
  | zero =>
    refine ⟨?_, ?_, ?_, ?_, ?_, ?_, ?_⟩
    · intro p c r q h; simp [finishCall] at h
    · intro p a r q h; simp [finishCallArgs] at h
    · intro p c r q h; simp [primaryChain] at h
    · intro p r q h; simp [primary] at h
    · intro p l r q h; simp [binaryLoop] at h
    · intro p r q h; simp [binary] at h
    · intro p r q h; simp [expression] at h
  | succ n ih =>
    obtain ⟨ihFC, ihArgs, ihChain, ihPrim, ihBL, ihBin, ihExpr⟩ := ih
    obtain ⟨rFC, rArgs, rChain, rPrim, rBL, rBin, rExpr⟩ := expression_reaches n
    refine ⟨?_, ?_, ?_, ?_, ?_, ?_, ?_⟩
    · intro p c r q h hp hq hc
      simp only [finishCall] at h
      split at h
      · cases h
        rw [errorAtCurrent_hadError hp] at hq
        cases hq
      · split at h
        · split at h
          · cases h
          · rename_i args p2 hargs
            cases h
            have h2 := hadError_of_reaches (reaches_consume_self p2 _ _) hq
            have ha := ihArgs _ _ _ _ hargs
              (panicSound_of_reaches (reaches_pmatch_self p _) hp) h2 rfl
            simp [goodExpression, createCallNode, ASTNode.wellFormed, requiredWellFormed,
              isExpressionNode, hc, ha]
        · cases h
          simp [goodExpression, createCallNode, ASTNode.wellFormed, requiredWellFormed,
            entriesWellFormed, isExpressionNode, hc]
    · intro p a r q h hp hq ha
      simp only [finishCallArgs] at h
      split at h
      · cases h
      · rename_i arg p1 hexpr
        have hp1 := panicSound_of_reaches (rExpr _ _ _ hexpr) hp
        split at h
        · have hq1 := hadError_of_reaches
            (reaches_trans (reaches_pmatch_self p1 _) (rArgs _ _ _ _ h)) hq
          have hg := ihExpr _ _ _ hexpr hp hq1
          obtain ⟨a1, rfl, hw, _⟩ := goodExpression_iff.mp hg
          refine ihArgs _ _ _ _ h (panicSound_of_reaches (reaches_pmatch_self p1 _) hp1) hq ?_
          simp only [entriesWellFormed_append, ha, hw, Bool.and_self]
        · cases h
          have hg := ihExpr _ _ _ hexpr hp hq
          obtain ⟨a1, rfl, hw, _⟩ := goodExpression_iff.mp hg
          simp only [entriesWellFormed_append, ha, hw, Bool.and_self]
    · intro p c r q h hp hq hc he
      simp only [primaryChain] at h
      split at h
      · refine ihChain _ _ _ _ h
          (panicSound_of_reaches (reaches_consume _ _ (reaches_pmatch_self p _)) hp) hq ?_ rfl
        simp [createGetNode, ASTNode.wellFormed, requiredWellFormed, hc]
      · split at h
        · exact ihFC _ _ _ _ h hp hq hc
        · cases h
          simp [goodExpression, hc, he]
    · intro p r q h hp hq
      simp only [primary] at h
      split at h
      · cases h
        simp [goodExpression, createLiteralNode, ASTNode.wellFormed, isExpressionNode]
      · split at h
        · refine ihChain _ _ _ _ h (panicSound_of_reaches (reaches_pmatch_self p _) hp) hq ?_ rfl
          simp [createVarRefNode, ASTNode.wellFormed]
        · split at h
          · split at h
            · cases h
            · rename_i e p1 hexpr
              cases h
              exact ihExpr _ _ _ hexpr (panicSound_of_reaches (reaches_pmatch_self p _) hp)
                (hadError_of_reaches (reaches_consume_self p1 _ _) hq)
          · cases h
            rw [errorAtCurrent_hadError hp] at hq
            cases hq
    · intro p l r q h hp hq hl
      simp only [binaryLoop] at h
      split at h
      · split at h
        · cases h
        · rename_i right p1 hprim
          have hpm : panicSound (matchAny p [TokenType.TOKEN_PLUS, TokenType.TOKEN_MINUS,
              TokenType.TOKEN_STAR, TokenType.TOKEN_SLASH]).2 :=
            panicSound_of_reaches (reaches_matchAny_self p _) hp
          have hp1 := panicSound_of_reaches (rPrim _ _ _ hprim) hpm
          have hq1 := hadError_of_reaches (rBL _ _ _ _ h) hq
          have hg := ihPrim _ _ _ hprim hpm hq1
          obtain ⟨l1, rfl, hlw, _⟩ := goodExpression_iff.mp hl
          obtain ⟨r1, rfl, hrw, _⟩ := goodExpression_iff.mp hg
          refine ihBL _ _ _ _ h hp1 hq ?_
          simp [goodExpression, createBinaryNode, ASTNode.wellFormed, requiredWellFormed,
            isExpressionNode, hlw, hrw]
      · cases h
        exact hl
    · intro p r q h hp hq
      simp only [binary] at h
      split at h
      · cases h
      · rename_i left p1 hprim
        have hq1 := hadError_of_reaches (rBL _ _ _ _ h) hq
        exact ihBL _ _ _ _ h (panicSound_of_reaches (rPrim _ _ _ hprim) hp) hq
          (ihPrim _ _ _ hprim hp hq1)
    · intro p r q h hp hq
      simp only [expression] at h
      exact ihBin _ _ _ h hp hq

theorem statementShape_of_expression {n : ASTNode} (h : isExpressionNode n = true) :
    statementShape n = true := by
  cases n <;> simp_all [statementShape, isExpressionNode]

theorem good_statement_of_expression {r : Option ASTNode} (h : goodExpression r = true) :
    ∃ n, r = some n ∧ n.wellFormed = true ∧ statementShape n = true := by
  obtain ⟨n, rfl, hw, he⟩ := goodExpression_iff.mp h
  exact ⟨n, rfl, hw, statementShape_of_expression he⟩

theorem expressionStatement_good {fuel : Nat} {p q : Parser} {r : Option ASTNode}
    (h : expressionStatement fuel p = some (r, q)) (hp : panicSound p)
    (hq : q.hadError = false) :
    ∃ n, r = some n ∧ n.wellFormed = true ∧ statementShape n = true := by
  simp only [expressionStatement] at h
  split at h
  · cases h
  · rename_i e p1 he
    cases h
    exact good_statement_of_expression ((expression_good fuel).2.2.2.2.2.2 _ _ _ he hp
      (hadError_of_reaches (reaches_consume_self p1 _ _) hq))

theorem returnStatement_good {fuel : Nat} {p q : Parser} {r : Option ASTNode}
    (h : returnStatement fuel p = some (r, q)) (hp : panicSound p)
    (hq : q.hadError = false) :
    ∃ n, r = some n ∧ n.wellFormed = true ∧ statementShape n = true := by
  simp only [returnStatement] at h
  split at h
  · split at h
    · cases h
    · rename_i e p1 he
      cases h
      have hg := (expression_good fuel).2.2.2.2.2.2 _ _ _ he hp
        (hadError_of_reaches (reaches_consume_self p1 _ _) hq)
      obtain ⟨v, rfl, hw, hv⟩ := goodExpression_iff.mp hg
      refine ⟨_, rfl, ?_, ?_⟩
      · simp [createReturnNode, ASTNode.wellFormed, optionalWellFormed, hw]
      · simp [createReturnNode, statementShape, isExpressionOrNull, hv]
  · cases h
    refine ⟨_, rfl, ?_, ?_⟩
    · simp [createReturnNode, ASTNode.wellFormed, optionalWellFormed]
    · simp [createReturnNode, statementShape, isExpressionOrNull]

theorem varDeclaration_good {fuel : Nat} {p q : Parser} {r : Option ASTNode}
    (h : varDeclaration fuel p = some (r, q)) (hp : panicSound p)
    (hq : q.hadError = false) :
    ∃ n, r = some n ∧ n.wellFormed = true ∧ statementShape n = true := by
  have after : ∀ (p2 : Parser) (name : List Char) (ty : Option ASTNode),
      Reaches p p2 → optionalWellFormed ty = true → isLiteralOrNull ty = true →
      (if (pmatch p2 TokenType.TOKEN_EQUAL).1 = true then
        match expression fuel (pmatch p2 TokenType.TOKEN_EQUAL).2 with
        | none => none
        | some (initializer, p3) =>
          some (some (createVarNode name ty initializer),
            consume p3 TokenType.TOKEN_SEMICOLON "Expect ';' after variable declaration.".toList)
      else
        some (some (createVarNode name ty none),
          consume p2 TokenType.TOKEN_SEMICOLON "Expect ';' after variable declaration.".toList))
        = some (r, q) →
      ∃ n, r = some n ∧ n.wellFormed = true ∧ statementShape n = true := by
    intro p2 name ty hp2 hty hlit h2
    split at h2
    · split at h2
      · cases h2
      · rename_i e p3 he
        cases h2
        have hg := (expression_good fuel).2.2.2.2.2.2 _ _ _ he
          (panicSound_of_reaches (reaches_pmatch _ hp2) hp)
          (hadError_of_reaches (reaches_consume_self p3 _ _) hq)
        obtain ⟨v, rfl, hw, hv⟩ := goodExpression_iff.mp hg
        refine ⟨_, rfl, ?_, ?_⟩
        · simp [createVarNode, ASTNode.wellFormed, optionalWellFormed, hw, hty]
        · simp [createVarNode, statementShape, isExpressionOrNull, hv, hlit]
    · cases h2
      refine ⟨_, rfl, ?_, ?_⟩
      · simp [createVarNode, ASTNode.wellFormed, optionalWellFormed, hty]
      · simp [createVarNode, statementShape, isExpressionOrNull, hlit]
  have hlitWF : ∀ t : Token, optionalWellFormed (some (createLiteralNode t)) = true := by
    intro t; simp [optionalWellFormed, createLiteralNode, ASTNode.wellFormed]
  have hlitShape : ∀ t : Token, isLiteralOrNull (some (createLiteralNode t)) = true := by
    intro t; simp [isLiteralOrNull, createLiteralNode]
  simp only [varDeclaration] at h
  split at h
  · split at h
    · exact after _ _ _ (reaches_matchAny _ (reaches_pmatch _
        (reaches_consume _ _ (Reaches.refl _)))) (hlitWF _) (hlitShape _) h
    · cases h
      have hps : panicSound (pmatch (consume p TokenType.TOKEN_IDENTIFIER
          "Expect variable name.".toList) TokenType.TOKEN_COLON).2 :=
        panicSound_of_reaches (reaches_pmatch _ (reaches_consume _ _ (Reaches.refl _))) hp
      rw [errorAtCurrent_hadError hps] at hq
      cases hq
  · split at h
    · exact after _ _ _ (Reaches.advance (reaches_consume _ _ (Reaches.refl _)))
        (hlitWF _) (hlitShape _) h
    · exact after _ _ none (reaches_consume _ _ (Reaches.refl _))
        (by simp [optionalWellFormed]) (by simp [isLiteralOrNull]) h

theorem statement_good {fuel : Nat} {p q : Parser} {r : Option ASTNode}
    (h : statement fuel p = some (r, q)) (hp : panicSound p) (hq : q.hadError = false) :
    ∃ n, r = some n ∧ n.wellFormed = true ∧ statementShape n = true := by
  simp only [statement] at h
  split at h
  · exact returnStatement_good h (panicSound_of_reaches (reaches_pmatch_self p _) hp) hq
  · split at h
    · exact varDeclaration_good h (panicSound_of_reaches (reaches_matchAny_self p _) hp) hq
    · exact expressionStatement_good h hp hq

theorem all_append_single {α : Type} (f : α → Bool) (l : List α) (a : α) :
    (l ++ [a]).all f = (l.all f && f a) := by
  simp [List.all_append]

theorem paramLoop_good (fuel : Nat) : ∀ {p q : Parser} {ps r : List ASTNode},
    paramLoop fuel p ps = some (r, q) → paramsWellFormed ps = true →
    ps.all paramShape = true → paramsWellFormed r = true ∧ r.all paramShape = true := by
  induction fuel with
  | zero => intro p q ps r h; simp [paramLoop] at h
  | succ n ih =>
    intro p q ps r h hw hs
    simp only [paramLoop] at h
    have hshape : ∀ (name : List Char) (tok : Token),
        (ps ++ [createVarNode name (some (createLiteralNode tok)) none]).all paramShape
          = true := by
      intro name tok
      rw [all_append_single, hs]
      simp [paramShape, createVarNode, createLiteralNode]
    split at h
    · cases h; exact ⟨hw, hs⟩
    · split at h
      · exact ih h (by rw [paramsWellFormed_append]; exact hw) (hshape _ _)
      · cases h
        exact ⟨by rw [paramsWellFormed_append]; exact hw, hshape _ _⟩

theorem bodyLoop_good (fuel : Nat) : ∀ {p q : Parser} {ss r : List (Option ASTNode)},
    bodyLoop fuel p ss = some (r, q) → panicSound p → q.hadError = false →
    entriesWellFormed ss = true → statementsShape ss = true →
    entriesWellFormed r = true ∧ statementsShape r = true := by
  induction fuel with
  | zero => intro p q ss r h; simp [bodyLoop] at h
  | succ n ih =>
    intro p q ss r h hp hq hw hs
    simp only [bodyLoop] at h
    split at h
    · split at h
      · cases h
      · rename_i stmt p1 hst
        have hp1 := panicSound_of_reaches (statement_reach hst) hp
        split at h
        · rename_i s
          have hq1 := hadError_of_reaches (bodyLoop_reach _ h) hq
          obtain ⟨n1, hn, hw1, hs1⟩ := statement_good hst hp hq1
          cases hn
          refine ih h hp1 hq ?_ ?_
          · rw [entriesWellFormed_append, hw, hw1]; rfl
          · unfold statementsShape at hs ⊢
            rw [all_append_single, hs]
            simpa using hs1
        · have hq1 := hadError_of_reaches (bodyLoop_reach _ h) hq
          obtain ⟨n1, hn, _, _⟩ := statement_good hst hp hq1
          cases hn
    · cases h; exact ⟨hw, hs⟩

theorem functionDeclaration_good {fuel : Nat} {p q : Parser} {r : Option ASTNode}
    (h : functionDeclaration fuel p = some (r, q)) (hp : panicSound p)
    (hq : q.hadError = false) :
    ∃ n, r = some n ∧ n.wellFormed = true ∧ functionShape n = true := by
  unfold functionDeclaration at h
  lift_lets at h
  extract_lets hasType p1 returnType p2 name p3 at h
  simp only [] at h
  have h1 : Reaches p p1 := by
    show Reaches p (if hasType = true then p.advance else p)
    split
    · exact Reaches.advance (Reaches.refl _)
    · exact Reaches.refl _
  have h3 : Reaches p p3 := reaches_consume _ _ (reaches_consume _ _ h1)
  have hrt : optionalWellFormed returnType = true ∧ isLiteralOrNull returnType = true := by
    show optionalWellFormed (if hasType = true then some (createLiteralNode p1.previous)
        else none) = true ∧
      isLiteralOrNull (if hasType = true then some (createLiteralNode p1.previous)
        else none) = true
    split <;> simp [optionalWellFormed, isLiteralOrNull, createLiteralNode, ASTNode.wellFormed]
  split at h
  · cases h
  · rename_i params p4 hparams
    have h4 : Reaches p p4 := by
      split at hparams
      · exact reaches_trans h3 (paramLoop_reach _ hparams)
      · cases hparams; exact h3
    have hps : paramsWellFormed params = true ∧ params.all paramShape = true := by
      split at hparams
      · exact paramLoop_good _ hparams rfl rfl
      · cases hparams; exact ⟨rfl, rfl⟩
    split at h
    · cases h
    · rename_i body p7 hbody
      cases h
      have h6 := reaches_consume TokenType.TOKEN_LEFT_BRACE
        "Expect '\x7b' before function body.".toList
        (reaches_consume TokenType.TOKEN_RIGHT_PAREN "Expect ')' after parameters.".toList h4)
      have hb := bodyLoop_good _ hbody (panicSound_of_reaches h6 hp)
        (hadError_of_reaches (reaches_consume_self p7 _ _) hq) rfl rfl
      refine ⟨_, rfl, ?_, ?_⟩
      · simp [createFunctionNode, createProgramNode, ASTNode.wellFormed, requiredWellFormed,
          hps.1, hrt.1, hb.1]
      · simp only [createFunctionNode, createProgramNode, functionShape, hrt.2, hps.2, hb.2,
          Bool.and_self]

theorem includeDeclaration_null (fuel : Nat) : ∀ {p q : Parser} {r : Option ASTNode},
    includeDeclaration fuel p = some (r, q) → r = none := by
  induction fuel with
  | zero => intro p q r h; simp [includeDeclaration] at h
  | succ n ih =>
    intro p q r h
    simp only [includeDeclaration] at h
    split at h
    · exact ih h
    · cases h; rfl

theorem declaration_good {fuel : Nat} {p q : Parser} {r : Option ASTNode}
    (h : declaration fuel p = some (r, q)) (hp : panicSound p) (hq : q.hadError = false) :
    ∀ n, r = some n → n.wellFormed = true ∧ (functionShape n || statementShape n) = true := by
  intro n hn
  simp only [declaration] at h
  split at h
  · have := includeDeclaration_null _ h
    rw [this] at hn
    cases hn
  · split at h
    · obtain ⟨m, hm, hw, hs⟩ := functionDeclaration_good h
        (panicSound_of_reaches (reaches_pmatch_self p _) hp) hq
      rw [hm] at hn
      cases hn
      exact ⟨hw, by rw [hs]; rfl⟩
    · split at h
      · obtain ⟨m, hm, hw, hs⟩ := varDeclaration_good h
          (panicSound_of_reaches (reaches_matchAny_self p _) hp) hq
        rw [hm] at hn
        cases hn
        exact ⟨hw, by rw [hs]; simp⟩
      · obtain ⟨m, hm, hw, hs⟩ := statement_good h hp hq
        rw [hm] at hn
        cases hn
        exact ⟨hw, by rw [hs]; simp⟩

theorem parseLoop_good (fuel : Nat) : ∀ {p q : Parser} {ss r : List (Option ASTNode)},
    parseLoop fuel p ss = some (r, q) → panicSound p → q.hadError = false →
    entriesWellFormed ss = true → topLevelShape ss = true →
    entriesWellFormed r = true ∧ topLevelShape r = true := by
  induction fuel with
  | zero => intro p q ss r h; simp [parseLoop] at h
  | succ n ih =>
    intro p q ss r h hp hq hw hs
    simp only [parseLoop] at h
    split at h
    · split at h
      · cases h
      · rename_i stmt p1 hst
        have hp1 := panicSound_of_reaches (declaration_reach hst) hp
        split at h
        · rename_i s
          have hq1 := hadError_of_reaches (parseLoop_reach _ h) hq
          obtain ⟨hw1, hs1⟩ := declaration_good hst hp hq1 s rfl
          refine ih h hp1 hq ?_ ?_
          · rw [entriesWellFormed_append, hw, hw1]; rfl
          · unfold topLevelShape at hs ⊢
            rw [all_append_single, hs]
            simpa using hs1
        · exact ih h hp1 hq hw hs
    · cases h; exact ⟨hw, hs⟩

theorem panicSound_initParser (lx : Lexer) : panicSound (initParser lx) := by
  intro h
  simp [initParser, Parser.advance] at h

/-- The tree of a successful parse is well formed and has the shape of a
program: functions and statements at the top, statements in the function
bodies. -/
theorem parse_good {fuel : Nat} {source : List Char} {tree : ASTNode} {p : Parser}
    (h : parse fuel source = some (some tree, p)) :
    tree.wellFormed = true ∧ programShape tree = true := by
  unfold parse at h
  split at h
  · cases h
  · rename_i statements q hloop
    split at h
    · cases h
    · rename_i herr
      cases h
      have hq : p.hadError = false := by simpa using herr
      obtain ⟨hw, hs⟩ := parseLoop_good _ hloop (panicSound_initParser _) hq rfl rfl
      exact ⟨by simp [createProgramNode, ASTNode.wellFormed, hw],
        by simpa [createProgramNode, programShape, topLevelShape] using hs⟩

/-- C22: every tree returned by a successful parse is well formed: every
binary node has both operands, every call a callee and no NULL argument,
every member access an object, every function a body and only variable
declarations as parameters, and no statement list holds a NULL entry; only
the type and initializer of a variable declaration, the return type of a
function and the value of a return statement may be absent. -/
theorem parse_tree_well_formed (fuel : Nat) (source : List Char) (tree : ASTNode) (p : Parser)
    (h : parse fuel source = some (some tree, p)) : tree.wellFormed = true :=
  (parse_good h).1

/-- Witness for C22: the tree of `func int add(int a, int b) \x7b return a + b; \x7d`. -/
theorem parse_tree_well_formed_witness :
    (∃ p, parse 40 srcAdd = some (some addTree, p)) ∧ addTree.wellFormed = true :=
  ⟨parse_eq_of_beq (by decide!),
    (parse_eq_of_beq (by decide! :
      (parse 40 srcAdd).map (fun r => beqOpt r.1 (some addTree)) = some true)).elim
      (fun p hp => parse_tree_well_formed 40 srcAdd addTree p hp)⟩

theorem includeDeclaration_skip : ∀ (k fuel : Nat) (p : Parser),
    (∀ i, i < k → includeStop (p.advanceN i).current.type = false) →
    includeStop (p.advanceN k).current.type = true → k < fuel →
    includeDeclaration fuel p = some (none, p.advanceN k)
  | 0, fuel + 1, p, _, hstop, _ => by
    have h : (!check p TokenType.TOKEN_EOF && p.current.type != TokenType.TOKEN_FUNC) = false := by
      have hs : includeStop p.current.type = true := hstop
      simp only [includeStop, Bool.or_eq_true, beq_iff_eq] at hs
      rcases hs with h | h <;> simp [check, h]
    rw [includeDeclaration, if_neg (by rw [h]; simp)]
    rfl
  | k + 1, fuel + 1, p, hskip, hstop, hk => by
    have h : (!check p TokenType.TOKEN_EOF && p.current.type != TokenType.TOKEN_FUNC) = true := by
      have hs : includeStop p.current.type = false := hskip 0 (by omega)
      simp only [includeStop, Bool.or_eq_false_iff, beq_eq_false_iff_ne, ne_eq] at hs
      simp [check, hs.1, hs.2]
    rw [includeDeclaration, if_pos h,
      includeDeclaration_skip k fuel p.advance
        (fun i hi => by
          have := hskip (i + 1) (by omega)
          rwa [advanceN_step] at this)
        (by rwa [advanceN_step] at hstop) (by omega),
      ← advanceN_step]
  | 0, 0, _, _, _, hk => by omega
  | k + 1, 0, _, _, _, hk => by omega

theorem advanceN_flags (p : Parser) : ∀ (k : Nat),
    (p.advanceN k).hadError = p.hadError ∧ (p.advanceN k).panicMode = p.panicMode ∧
      (p.advanceN k).diagnostics = p.diagnostics
  | 0 => ⟨rfl, rfl, rfl⟩
  | k + 1 => by
    rw [advanceN_step]
    exact advanceN_flags p.advance k

/-- C21 (refuted as stated): the directive is not transparent when a
variable declaration or a statement follows it.  With the directive line in
front, `let x = 1;` (or `g(1);`) before the function is dropped: the Program
holds one statement, while the same declarations parsed alone give two. -/
theorem include_drops_declarations :
    (parse 60 srcIncludeThenLet).map (fun r => r.1.map statementCount) = some (some 1) ∧
    (parse 60 srcLetThenFunc).map (fun r => r.1.map statementCount) = some (some 2) ∧
    (parse 60 srcIncludeThenCall).map (fun r => r.1.map statementCount) = some (some 1) ∧
    (parse 60 srcCallThenFunc).map (fun r => r.1.map statementCount) = some (some 2) := by
  refine ⟨by decide!, by decide!, by decide!, by decide!⟩


/-! ## Scope discipline of `typeCheck` -/

theorem map_set_same {α β : Type} (f : List α → β) : ∀ (l : List (List α)) (i : Nat) (x : List α),
    f x = f (l.getD i []) → (l.set i x).map f = l.map f
  | [], _, _, _ => rfl
  | b :: rest, 0, x, h => by
    simp only [List.set_cons_zero, List.map_cons]
    rw [h]; rfl
  | b :: rest, i + 1, x, h => by
    simp only [List.set_cons_succ, List.map_cons]
    rw [map_set_same f rest i x (by simpa using h)]

theorem atMost_defineSymbol (t : SymbolTable) (name : List Char) (type : SymbolType)
    (typeNode : Option ASTNode) (line : Nat) (d : Int) (h : d < t.scopeDepth) :
    (defineSymbol t name type typeNode line).2.atMost d = t.atMost d := by
  unfold defineSymbol
  simp only []
  split
  · rfl
  · simp only [SymbolTable.atMost]
    apply map_set_same
    rw [List.filter_cons_of_neg]
    simp only [decide_eq_true_eq, not_le]
    exact h

theorem atMost_exitScope (u : SymbolTable) (d : Int) (h : d < u.scopeDepth) :
    (exitScope u).2.atMost d = u.atMost d := by
  unfold exitScope
  split
  · rfl
  · simp only [SymbolTable.atMost, unlinkAll_fst, List.map_map]
    apply List.map_congr_left
    intro b _
    simp only [Function.comp, List.filter_filter]
    apply List.filter_congr
    intro s _
    by_cases hs : s.scopeDepth ≤ d
    · have : s.scopeDepth ≠ u.scopeDepth := by omega
      simp [hs, this]
    · simp [hs]

theorem atMost_mono {t u : SymbolTable} {d e : Int} (hde : d ≤ e)
    (h : u.atMost e = t.atMost e) : u.atMost d = t.atMost d := by
  have key : ∀ v : SymbolTable, v.atMost d =
      (v.atMost e).map (fun b => b.filter (fun s => decide (s.scopeDepth ≤ d))) := by
    intro v
    simp only [SymbolTable.atMost, List.map_map]
    apply List.map_congr_left
    intro b _
    simp only [Function.comp, List.filter_filter]
    apply List.filter_congr
    intro s _
    by_cases hs : s.scopeDepth ≤ d
    · have : s.scopeDepth ≤ e := by omega
      simp [hs, this]
    · simp [hs]
  rw [key u, key t, h]

theorem keeps_refl (t : SymbolTable) : Keeps t t := ⟨rfl, rfl, rfl, id⟩

theorem keeps_trans {t u v : SymbolTable} (h1 : Keeps t u) (h2 : Keeps u v) : Keeps t v :=
  ⟨h2.depth.trans h1.depth, h2.capacity.trans h1.capacity,
    (by have := h2.outer; rw [h1.depth] at this; exact this.trans h1.outer),
    fun h => h2.wf (h1.wf h)⟩

theorem keeps_defineSymbol (t : SymbolTable) (name : List Char) (type : SymbolType)
    (typeNode : Option ASTNode) (line : Nat) :
    Keeps t (defineSymbol t name type typeNode line).2 :=
  ⟨defineSymbol_scopeDepth t name type typeNode line,
    (by unfold defineSymbol; simp only []; split <;> rfl),
    atMost_defineSymbol t name type typeNode line _ (by omega),
    fun h => defineSymbol_wf h name type typeNode line⟩

theorem keeps_declareFunctions : ∀ (stmts : List (Option ASTNode)) (t : SymbolTable),
    Keeps t (declareFunctions stmts t).2
  | [], t => keeps_refl t
  | x :: rest, t => by
    by_cases hx : ∃ l n ps rt b, x = some (ASTNode.functionDecl l n ps rt b)
    · obtain ⟨l, n, ps, rt, b, rfl⟩ := hx
      rw [declareFunctions_fn]
      split
      · exact keeps_trans (keeps_defineSymbol _ _ _ _ _) (keeps_declareFunctions rest _)
      · exact keeps_defineSymbol _ _ _ _ _
    · rw [declareFunctions_other x rest t (fun l n ps rt b h => hx ⟨l, n, ps, rt, b, h⟩)]
      exact keeps_declareFunctions rest t

theorem keeps_defineParams : ∀ (params : List ASTNode) (t : SymbolTable),
    Keeps t (defineParams params t).2
  | [], t => keeps_refl t
  | p :: rest, t => by
    cases p
    case varDecl line name type init =>
      simp only [defineParams]
      split
      · exact keeps_defineSymbol _ _ _ _ _
      · exact keeps_trans (keeps_defineSymbol _ _ _ _ _) (keeps_defineParams rest _)
    all_goals
      simp only [defineParams]
      exact keeps_defineParams rest t

theorem keeps_checkStatements
    (checkOne : Option ASTNode → SymbolTable → Option CheckResult)
    (hone : ∀ s t r, 0 ≤ t.scopeDepth → checkOne s t = some r → Keeps t r.symbols) :
    ∀ (stmts : List (Option ASTNode)) (t : SymbolTable)
      (res : Bool × List (Option ASTNode) × SymbolTable),
      0 ≤ t.scopeDepth → checkStatements checkOne stmts t = some res → Keeps t res.2.2
  | [], t, res, _, h => by
    simp only [checkStatements, Option.some.injEq] at h
    subst h
    exact keeps_refl t
  | s :: rest, t, res, ht, h => by
    rw [checkStatements] at h
    cases h1 : checkOne s t with
    | none => rw [h1] at h; cases h
    | some r =>
      rw [h1] at h
      have k1 := hone s t r ht h1
      simp only [] at h
      split at h
      · cases h
        exact k1
      · cases h2 : checkStatements checkOne rest r.symbols with
        | none => rw [h2] at h; cases h
        | some res2 =>
          rw [h2] at h
          obtain ⟨ok, rest1, symbols1⟩ := res2
          cases h
          exact keeps_trans k1
            (keeps_checkStatements checkOne hone rest r.symbols (ok, rest1, symbols1)
              (by rw [k1.depth]; exact ht) h2)

theorem typeCheck_functionDecl (fuel line : Nat) (name : List Char) (params : List ASTNode)
    (returnType body : Option ASTNode) (t : SymbolTable) :
    typeCheck (fuel + 1) (some (ASTNode.functionDecl line name params returnType body)) t =
      if (defineParams params (enterScope t).2).1 = true then
        (typeCheck fuel body (defineParams params (enterScope t).2).2).map (fun r =>
          { ok := r.ok,
            node := some (ASTNode.functionDecl line name params returnType r.node),
            symbols := (exitScope r.symbols).2 })
      else
        some { ok := false,
               node := some (ASTNode.functionDecl line name params returnType body),
               symbols := (exitScope (defineParams params (enterScope t).2).2).2 } := by
  simp only [typeCheck]
  by_cases hd : (defineParams params (enterScope t).2).1 = true
  · rw [if_neg (by simp [hd]), if_pos hd]
    cases typeCheck fuel body (defineParams params (enterScope t).2).2 <;> rfl
  · rw [if_pos (by simpa using hd), if_neg hd]

/-- Leaving the scope that a function entered: when `u` has the depth of
`t` plus one and agrees with the entered table in the sense of `Keeps`, the
table after `exitScope` has the depth of `t`, the symbols of `t` of depth at
most that of `t`, and none of the depth above. -/
theorem exitScope_after_enter {t u : SymbolTable} (ht : 0 ≤ t.scopeDepth)
    (hk : Keeps (enterScope t).2 u) :
    (exitScope u).2.scopeDepth = t.scopeDepth ∧
    (exitScope u).2.capacity = t.capacity ∧
    (exitScope u).2.atMost t.scopeDepth = t.atMost t.scopeDepth ∧
    (∀ s ∈ (exitScope u).2.symbols, s.scopeDepth ≠ t.scopeDepth + 1) ∧
    (t.WF → (exitScope u).2.WF) := by
  have hd : u.scopeDepth = t.scopeDepth + 1 := hk.depth
  have hout : u.atMost t.scopeDepth = t.atMost t.scopeDepth := by
    have := hk.outer
    simp only [enterScope, add_sub_cancel_right] at this
    exact this
  refine ⟨?_, ?_, ?_, ?_, fun h => exitScope_wf (hk.wf (enterScope_wf h))⟩
  · unfold exitScope
    rw [if_neg (by omega)]
    simp only [hd, add_sub_cancel_right]
  · unfold exitScope
    rw [if_neg (by omega)]
    exact hk.capacity
  · rw [atMost_exitScope u _ (by omega)]
    exact hout
  · intro s hs
    unfold exitScope at hs
    rw [if_neg (by omega)] at hs
    simp only [SymbolTable.symbols, unlinkAll_fst, flatten_map_filter, List.mem_filter,
      decide_eq_true_eq, hd] at hs
    exact hs.2

theorem keeps_of_exit {t v : SymbolTable}
    (h : v.scopeDepth = t.scopeDepth ∧ v.capacity = t.capacity ∧
      v.atMost t.scopeDepth = t.atMost t.scopeDepth ∧
      (∀ s ∈ v.symbols, s.scopeDepth ≠ t.scopeDepth + 1) ∧ (t.WF → v.WF)) : Keeps t v :=
  ⟨h.1, h.2.1, atMost_mono (by omega) h.2.2.1, h.2.2.2.2⟩

/-- The table effect of `typeCheck` on a function declaration, whatever the
flag it returns. -/
theorem typeCheck_functionDecl_effect {fuel : Nat} (hbody : ∀ (body : Option ASTNode) (u : SymbolTable)
      (r : CheckResult), 0 ≤ u.scopeDepth → typeCheck fuel body u = some r → Keeps u r.symbols)
    (line : Nat) (name : List Char) (params : List ASTNode)
    (returnType body : Option ASTNode) (t : SymbolTable) (r : CheckResult)
    (ht : 0 ≤ t.scopeDepth)
    (h : typeCheck (fuel + 1) (some (ASTNode.functionDecl line name params returnType body)) t
      = some r) :
    r.symbols.scopeDepth = t.scopeDepth ∧
    r.symbols.capacity = t.capacity ∧
    r.symbols.atMost t.scopeDepth = t.atMost t.scopeDepth ∧
    (∀ s ∈ r.symbols.symbols, s.scopeDepth ≠ t.scopeDepth + 1) ∧
    (t.WF → r.symbols.WF) := by
  rw [typeCheck_functionDecl] at h
  have hp := keeps_defineParams params (enterScope t).2
  split at h
  · cases hb : typeCheck fuel body (defineParams params (enterScope t).2).2 with
    | none => rw [hb] at h; cases h
    | some rb =>
      rw [hb] at h
      cases h
      have hkb := hbody body _ rb (by rw [hp.depth]; simp only [enterScope]; omega) hb
      exact exitScope_after_enter ht (keeps_trans hp hkb)
  · cases h
    exact exitScope_after_enter ht hp

theorem typeCheck_keeps : ∀ (fuel : Nat) (node : Option ASTNode) (t : SymbolTable)
    (r : CheckResult), 0 ≤ t.scopeDepth → typeCheck fuel node t = some r → Keeps t r.symbols
  | 0, _, _, _, _, h => by simp [typeCheck] at h
  | fuel + 1, none, t, r, _, h => by
    simp only [typeCheck, Option.some.injEq] at h
    subst h
    exact keeps_refl t
  | fuel + 1, some node, t, r, ht, h => by
    cases node
    case program line statements =>
      simp only [typeCheck] at h
      have hd := keeps_declareFunctions statements t
      split at h
      · cases h
        exact hd
      · cases hc : checkStatements (typeCheck fuel) statements (declareFunctions statements t).2 with
        | none => rw [hc] at h; cases h
        | some res =>
          rw [hc] at h
          obtain ⟨ok, statements1, symbols1⟩ := res
          cases h
          exact keeps_trans hd
            (keeps_checkStatements (typeCheck fuel) (typeCheck_keeps fuel) statements _
              (ok, statements1, symbols1) (by rw [hd.depth]; exact ht) hc)
    case functionDecl line name params returnType body =>
      exact keeps_of_exit
        (typeCheck_functionDecl_effect (typeCheck_keeps fuel) line name params returnType body
          t r ht h)
    case varDecl line name type initializer =>
      simp only [typeCheck] at h
      repeat' split at h
      all_goals
        cases h <;> first
          | exact keeps_refl _
          | exact keeps_defineSymbol _ _ _ _ _
    case assign line target value =>
      simp only [typeCheck] at h
      repeat' split at h
      all_goals
        cases h <;> exact keeps_refl _
    case returnStmt line value =>
      cases value with
      | none =>
        simp only [typeCheck, Option.some.injEq] at h
        subst h
        exact keeps_refl _
      | some v =>
        simp only [typeCheck] at h
        cases hv : typeCheck fuel (some v) t with
        | none => rw [hv] at h; cases h
        | some rv =>
          rw [hv] at h
          cases h
          exact typeCheck_keeps fuel _ t rv ht hv
    case binary line op left right =>
      simp only [typeCheck] at h
      split at h
      · cases h
      · cases h
        exact keeps_refl _
    all_goals
      simp only [typeCheck, Option.some.injEq] at h
      subst h
      exact keeps_refl _

theorem atMost_self_of_wf {w : SymbolTable} (h : w.WF) : w.atMost w.scopeDepth = w.buckets := by
  unfold SymbolTable.atMost
  have key : ∀ b ∈ w.buckets, b.filter (fun s => decide (s.scopeDepth ≤ w.scopeDepth)) = b := by
    intro b hb
    obtain ⟨i, hi, rfl⟩ := List.getElem_of_mem hb
    rw [List.filter_eq_self]
    intro s hs
    have := (h.placed i s (by
      simpa [List.getD_eq_getElem?_getD, List.getElem?_eq_getElem hi] using hs)).2.2
    simpa using this
  calc w.buckets.map (fun b => b.filter (fun s => decide (s.scopeDepth ≤ w.scopeDepth)))
      = w.buckets.map id := List.map_congr_left key
    _ = w.buckets := List.map_id _

theorem eq_of_wf_atMost {t v : SymbolTable} (ht : t.WF) (hv : v.WF)
    (hd : v.scopeDepth = t.scopeDepth) (hc : v.capacity = t.capacity)
    (ha : v.atMost t.scopeDepth = t.atMost t.scopeDepth) : v = t := by
  have hb : v.buckets = t.buckets := by
    rw [← atMost_self_of_wf hv, ← atMost_self_of_wf ht, hd, ha]
  have hn : v.count = t.count := by
    rw [hv.count_eq, ht.count_eq, SymbolTable.symbols, SymbolTable.symbols, hb]
  cases t
  cases v
  simp only [SymbolTable.mk.injEq] at *
  exact ⟨hb, hc, hn, hd⟩

theorem exitScope_depth_le (w : SymbolTable) : (exitScope w).2.scopeDepth ≤ w.scopeDepth := by
  unfold exitScope
  split
  · exact le_refl _
  · show w.scopeDepth - 1 ≤ w.scopeDepth
    omega

theorem typeCheckPeak_of_expression (fuel : Nat) (n : ASTNode) (u : SymbolTable)
    (h : isExpressionNode n = true) : typeCheckPeak fuel (some n) u = u.scopeDepth := by
  cases fuel with
  | zero => rfl
  | succ fuel => cases n <;> first | rfl | cases h

theorem typeCheckPeak_of_statement (fuel : Nat) (n : ASTNode) (u : SymbolTable)
    (h : statementShape n = true) : typeCheckPeak fuel (some n) u = u.scopeDepth := by
  cases fuel with
  | zero => rfl
  | succ fuel =>
    cases n
    case returnStmt line value =>
      cases value with
      | none => rfl
      | some v => exact typeCheckPeak_of_expression fuel v u h
    all_goals first | rfl | cases h

theorem statementsPeak_le (checkOne : Option ASTNode → SymbolTable → Option CheckResult)
    (peakOne : Option ASTNode → SymbolTable → Int) (P : Option ASTNode → Prop) (d B : Int)
    (hkeep : ∀ s u r, u.scopeDepth = d → checkOne s u = some r → r.symbols.scopeDepth = d)
    (hpeak : ∀ s u, P s → u.scopeDepth = d → peakOne s u ≤ B) (hB : d ≤ B) :
    ∀ (stmts : List (Option ASTNode)) (u : SymbolTable), (∀ s ∈ stmts, P s) →
      u.scopeDepth = d → statementsPeak checkOne peakOne stmts u ≤ B
  | [], u, _, hu => by
    rw [statementsPeak, hu]
    exact hB
  | s :: rest, u, hall, hu => by
    rw [statementsPeak]
    have hs := hpeak s u (hall s (List.mem_cons_self _ _)) hu
    cases h1 : checkOne s u with
    | none => exact hs
    | some r =>
      have hr := hkeep s u r hu h1
      simp only []
      split
      · rw [hr]
        exact max_le hs hB
      · exact max_le hs
          (statementsPeak_le checkOne peakOne P d B hkeep hpeak hB rest r.symbols
            (fun x hx => hall x (List.mem_cons_of_mem _ hx)) hr)

theorem typeCheckPeak_of_body (fuel line : Nat) (statements : List (Option ASTNode))
    (u : SymbolTable) (hu : 0 ≤ u.scopeDepth) (h : statementsShape statements = true) :
    typeCheckPeak fuel (some (ASTNode.program line statements)) u ≤ u.scopeDepth := by
  cases fuel with
  | zero => exact le_refl _
  | succ fuel =>
    simp only [typeCheckPeak]
    have hd := (keeps_declareFunctions statements u).depth
    split
    · rw [hd]
      exact max_le (le_refl _) (le_refl _)
    · refine max_le (le_refl _) ?_
      refine statementsPeak_le (typeCheck fuel) (typeCheckPeak fuel)
        (fun s => ∃ n, s = some n ∧ statementShape n = true) u.scopeDepth u.scopeDepth
        (fun s w r hw hr => by
          rw [(typeCheck_keeps fuel s w r (by omega) hr).depth, hw])
        (fun s w hs hw => by
          obtain ⟨n, rfl, hn⟩ := hs
          rw [typeCheckPeak_of_statement fuel n w hn, hw])
        (le_refl _) statements _ ?_ hd
      intro s hs
      simp only [statementsShape, List.all_eq_true] at h
      have := h s hs
      cases s with
      | none => cases this
      | some n => exact ⟨n, rfl, this⟩

theorem typeCheckPeak_of_function (fuel : Nat) (n : ASTNode) (u : SymbolTable)
    (hu : 0 ≤ u.scopeDepth) (h : functionShape n = true) :
    typeCheckPeak fuel (some n) u ≤ u.scopeDepth + 1 := by
  cases fuel with
  | zero => show u.scopeDepth ≤ _; omega
  | succ fuel =>
    cases n
    case functionDecl line name params returnType body =>
      cases body with
      | none => cases h
      | some b =>
        cases b
        case program bline statements =>
          have hs : statementsShape statements = true := by
            simp only [functionShape, Bool.and_eq_true] at h
            exact h.2
          simp only [typeCheckPeak]
          have hp := (keeps_defineParams params (enterScope u).2).depth
          have he : (enterScope u).2.scopeDepth = u.scopeDepth + 1 := rfl
          have hbody := typeCheckPeak_of_body fuel bline statements
            (defineParams params (enterScope u).2).2 (by omega) hs
          split
          · refine max_le (by omega) (max_le (by omega) (max_le (by omega) ?_))
            have := exitScope_depth_le (defineParams params (enterScope u).2).2
            omega
          · split
            · exact max_le (by omega) (max_le (by omega) (by omega))
            · rename_i r hr
              refine max_le (by omega) (max_le (by omega) (max_le (by omega) ?_))
              have hk := (typeCheck_keeps fuel _ _ r (by omega) hr).depth
              have := exitScope_depth_le r.symbols
              omega
        all_goals cases h
    all_goals cases h

theorem typeCheckPeak_of_program (fuel : Nat) (tree : ASTNode) (u : SymbolTable)
    (hu : 0 ≤ u.scopeDepth) (h : programShape tree = true) :
    typeCheckPeak fuel (some tree) u ≤ u.scopeDepth + 1 := by
  cases fuel with
  | zero => show u.scopeDepth ≤ _; omega
  | succ fuel =>
    cases tree
    case program line statements =>
      simp only [typeCheckPeak]
      have hd := (keeps_declareFunctions statements u).depth
      split
      · exact max_le (by omega) (by omega)
      · refine max_le (by omega) ?_
        refine statementsPeak_le (typeCheck fuel) (typeCheckPeak fuel)
          (fun s => ∃ n, s = some n ∧ (functionShape n || statementShape n) = true)
          u.scopeDepth (u.scopeDepth + 1)
          (fun s w r hw hr => by
            rw [(typeCheck_keeps fuel s w r (by omega) hr).depth, hw])
          (fun s w hs hw => by
            obtain ⟨n, rfl, hn⟩ := hs
            rw [Bool.or_eq_true] at hn
            rcases hn with hn | hn
            · have := typeCheckPeak_of_function fuel n w (by omega) hn
              omega
            · rw [typeCheckPeak_of_statement fuel n w hn, hw]
              omega)
          (by omega) statements _ ?_ hd
        intro s hs
        simp only [programShape, List.all_eq_true] at h
        have := h s hs
        cases s with
        | none => cases this
        | some n => exact ⟨n, rfl, this⟩
    all_goals cases h

/-! ## `typeCheck` returns -/

theorem getTypeInfo_of_literalOrNull (fuel : Nat) (x : Option ASTNode) (t : SymbolTable)
    (h : isLiteralOrNull x = true) : ∃ ty, getTypeInfo (fuel + 1) x t = some ty := by
  cases x with
  | none => exact ⟨none, rfl⟩
  | some n => cases n <;> first | exact ⟨_, rfl⟩ | cases h

theorem getTypeInfo_of_flat (fuel : Nat) (x : Option ASTNode) (t : SymbolTable)
    (h : flatTypeNode x = true) : ∃ ty, getTypeInfo (fuel + 1) x t = some ty := by
  cases x with
  | none => exact ⟨none, rfl⟩
  | some n => cases n <;> first | exact ⟨_, rfl⟩ | cases h

theorem resolveLoop_mem (name : List Char) : ∀ (b : List Symbol) (found : Option Symbol)
    (fd : Int) (r : Symbol), resolveLoop name b found fd = some r → found = some r ∨ r ∈ b
  | [], found, fd, r, h => Or.inl h
  | s :: rest, found, fd, r, h => by
    rw [resolveLoop] at h
    split at h
    · rcases resolveLoop_mem name rest _ _ r h with h1 | h1
      · cases h1
        exact Or.inr (List.mem_cons_self _ _)
      · exact Or.inr (List.mem_cons_of_mem _ h1)
    · rcases resolveLoop_mem name rest _ _ r h with h1 | h1
      · exact Or.inl h1
      · exact Or.inr (List.mem_cons_of_mem _ h1)

theorem resolveSymbol_mem {t : SymbolTable} {name : List Char} {s : Symbol}
    (h : resolveSymbol t name = some s) : s ∈ t.symbols := by
  rcases resolveLoop_mem name _ none (-1) s h with h1 | h1
  · cases h1
  · exact (mem_symbols_iff t s).mpr ⟨_, h1⟩

theorem functionOfSymbol_flat {s : Symbol} (h : flatTypeNode s.typeNode = true)
    {params : List ASTNode} {returnType : Option ASTNode}
    (hf : functionOfSymbol s = some (params, returnType)) :
    isLiteralOrNull returnType = true ∧
      ∀ p ∈ params, isLiteralOrNull (paramTypeNode p) = true := by
  unfold functionOfSymbol at hf
  split at hf
  · cases hn : s.typeNode with
    | none => rw [hn] at hf; cases hf
    | some n =>
      rw [hn] at hf h
      cases n
      case functionDecl line name ps rt body =>
        simp only [Option.some.injEq, Prod.mk.injEq] at hf
        obtain ⟨rfl, rfl⟩ := hf
        simp only [flatTypeNode, Bool.and_eq_true, List.all_eq_true] at h
        exact h
      all_goals cases hf
  · cases hf

theorem externalArgsOk_total (typeOf : Option ASTNode → Option (Option TypeInfo)) :
    ∀ (args : List (Option ASTNode)), (∀ a ∈ args, ∃ ty, typeOf a = some ty) →
      ∃ b, externalArgsOk typeOf args = some b
  | [], _ => ⟨true, rfl⟩
  | a :: rest, h => by
    obtain ⟨ty, hty⟩ := h a (List.mem_cons_self _ _)
    rw [externalArgsOk, hty]
    cases ty with
    | none => exact ⟨false, rfl⟩
    | some argType =>
      simp only []
      split
      · exact ⟨false, rfl⟩
      · exact externalArgsOk_total typeOf rest (fun x hx => h x (List.mem_cons_of_mem _ hx))

theorem callArgsOk_total (typeOf : Option ASTNode → Option (Option TypeInfo)) :
    ∀ (args : List (Option ASTNode)) (params : List ASTNode),
      (∀ a ∈ args, ∃ ty, typeOf a = some ty) →
      (∀ p ∈ params, ∃ ty, typeOf (paramTypeNode p) = some ty) →
      ∃ b, callArgsOk typeOf args params = some b
  | [], _, _, _ => ⟨true, by simp [callArgsOk]⟩
  | _ :: _, [], _, _ => ⟨true, by simp [callArgsOk]⟩
  | a :: args, p :: params, ha, hp => by
    obtain ⟨ty, hty⟩ := ha a (List.mem_cons_self _ _)
    obtain ⟨py, hpy⟩ := hp p (List.mem_cons_self _ _)
    rw [callArgsOk, hty, hpy]
    simp only []
    split
    · exact ⟨false, rfl⟩
    · split
      · exact ⟨false, rfl⟩
      · exact callArgsOk_total typeOf args params
          (fun x hx => ha x (List.mem_cons_of_mem _ hx))
          (fun x hx => hp x (List.mem_cons_of_mem _ hx))

theorem sizeOptional_le_of_mem : ∀ (args : List (Option ASTNode)) (a : Option ASTNode),
    a ∈ args → sizeOptional a ≤ sizeEntries args
  | x :: rest, a, h => by
    rw [sizeEntries]
    rcases List.mem_cons.mp h with rfl | h
    · omega
    · have := sizeOptional_le_of_mem rest a h
      omega

/-- On a table whose symbols point to type literals and flat function
declarations, `getTypeInfo` returns on every node once the fuel exceeds the
size of the node by two. -/
theorem getTypeInfo_total : ∀ (fuel : Nat) (node : Option ASTNode) (t : SymbolTable),
    TableFlat t → sizeOptional node + 2 ≤ fuel → ∃ ty, getTypeInfo fuel node t = some ty
  | 0, _, _, _, h => by omega
  | fuel + 1, none, t, _, _ => ⟨none, rfl⟩
  | fuel + 1, some node, t, ht, h => by
    have viaSymbol : ∀ (s : Symbol) (params : List ASTNode) (returnType : Option ASTNode),
        s ∈ t.symbols → functionOfSymbol s = some (params, returnType) →
        ∃ ty, getTypeInfo fuel returnType t = some ty := by
      intro s params returnType hs hf
      obtain ⟨f, rfl⟩ : ∃ f, fuel = f + 1 := ⟨fuel - 1, by omega⟩
      exact getTypeInfo_of_literalOrNull f returnType t (functionOfSymbol_flat (ht s hs) hf).1
    cases node
    case literal line token => exact ⟨_, rfl⟩
    case binary line op left right =>
      simp only [getTypeInfo]
      simp only [sizeOptional, ASTNode.size] at h
      obtain ⟨lt, hl⟩ := getTypeInfo_total fuel left t ht (by omega)
      obtain ⟨rt, hr⟩ := getTypeInfo_total fuel right t ht (by omega)
      rw [hl, hr]
      simp only []
      split
      · split <;> exact ⟨_, rfl⟩
      · exact ⟨_, rfl⟩
    case get line object name =>
      simp only [getTypeInfo]
      cases getNameRecursive object with
      | none => exact ⟨_, rfl⟩
      | some fullname =>
        simp only []
        cases hr : resolveSymbol t (fullname ++ ['.'] ++ name) with
        | none => exact ⟨_, rfl⟩
        | some s =>
          simp only []
          cases hf : functionOfSymbol s with
          | some pr => exact viaSymbol s pr.1 pr.2 (resolveSymbol_mem hr) hf
          | none =>
            simp only []
            split
            · obtain ⟨f, rfl⟩ : ∃ f, fuel = f + 1 := ⟨fuel - 1, by omega⟩
              exact ⟨_, rfl⟩
            · exact ⟨_, rfl⟩
    case call line callee args =>
      simp only [getTypeInfo]
      simp only [sizeOptional, ASTNode.size] at h
      have hargs : ∀ a ∈ args, ∃ ty, (fun a => getTypeInfo fuel a t) a = some ty := by
        intro a ha
        have := sizeOptional_le_of_mem args a ha
        exact getTypeInfo_total fuel a t ht (by omega)
      cases getNameRecursive callee with
      | none => exact ⟨_, rfl⟩
      | some calleeName =>
        simp only []
        cases hr : resolveSymbol t calleeName with
        | none =>
          simp only []
          split
          · obtain ⟨b, hb⟩ := externalArgsOk_total (fun a => getTypeInfo fuel a t) args hargs
            rw [hb]
            cases b <;> exact ⟨_, rfl⟩
          · exact ⟨_, rfl⟩
        | some s =>
          simp only []
          cases hf : functionOfSymbol s with
          | none => exact ⟨_, rfl⟩
          | some pr =>
            obtain ⟨params, returnType⟩ := pr
            simp only []
            split
            · exact ⟨_, rfl⟩
            · have hflatSig := functionOfSymbol_flat (ht s (resolveSymbol_mem hr)) hf
              obtain ⟨f, rfl⟩ : ∃ f, fuel = f + 1 := ⟨fuel - 1, by omega⟩
              obtain ⟨b, hb⟩ := callArgsOk_total (fun a => getTypeInfo (f + 1) a t) args params
                hargs (fun p hp => getTypeInfo_of_literalOrNull f _ t (hflatSig.2 p hp))
              rw [hb]
              cases b
              · exact ⟨_, rfl⟩
              · exact getTypeInfo_of_literalOrNull f returnType t hflatSig.1
    iterate 3 exact ⟨_, rfl⟩
    · rename_i line name
      simp only [getTypeInfo]
      cases hr : resolveSymbol t name with
      | none => exact ⟨_, rfl⟩
      | some s =>
        simp only []
        cases hf : functionOfSymbol s with
        | some pr => exact viaSymbol s pr.1 pr.2 (resolveSymbol_mem hr) hf
        | none =>
          simp only []
          split <;> exact ⟨_, rfl⟩
    all_goals exact ⟨_, rfl⟩

theorem flatTypeNode_of_literalOrNull {x : Option ASTNode} (h : isLiteralOrNull x = true) :
    flatTypeNode x = true := by
  cases x with
  | none => rfl
  | some n => cases n <;> first | rfl | cases h

theorem mem_symbols_of_define (t : SymbolTable) (name : List Char) (type : SymbolType)
    (typeNode : Option ASTNode) (line : Nat) (s : Symbol)
    (h : s ∈ (defineSymbol t name type typeNode line).2.symbols) :
    s ∈ t.symbols ∨ s.typeNode = typeNode := by
  unfold defineSymbol at h
  simp only [] at h
  split at h
  · exact Or.inl h
  · simp only [SymbolTable.symbols, List.mem_flatten] at h
    obtain ⟨b, hb, hs⟩ := h
    rcases List.mem_or_eq_of_mem_set hb with hb | rfl
    · exact Or.inl (List.mem_flatten.mpr ⟨b, hb, hs⟩)
    · rcases List.mem_cons.mp hs with rfl | hs
      · exact Or.inr rfl
      · exact Or.inl ((mem_symbols_iff t s).mpr ⟨_, hs⟩)

theorem tableFlat_define {t : SymbolTable} (h : TableFlat t) (name : List Char)
    (type : SymbolType) {typeNode : Option ASTNode} (hn : flatTypeNode typeNode = true)
    (line : Nat) : TableFlat (defineSymbol t name type typeNode line).2 := by
  intro s hs
  rcases mem_symbols_of_define t name type typeNode line s hs with h1 | h1
  · exact h s h1
  · rw [h1]
    exact hn

theorem tableFlat_enter {t : SymbolTable} (h : TableFlat t) : TableFlat (enterScope t).2 := h

theorem tableFlat_exit {t : SymbolTable} (h : TableFlat t) : TableFlat (exitScope t).2 := by
  unfold exitScope
  split
  · exact h
  · intro s hs
    simp only [SymbolTable.symbols, unlinkAll_fst, flatten_map_filter, List.mem_filter] at hs
    exact h s hs.1

theorem tableFlat_declareFunctions : ∀ (stmts : List (Option ASTNode)) (t : SymbolTable),
    TableFlat t → entriesPlain stmts = true → TableFlat (declareFunctions stmts t).2
  | [], t, h, _ => h
  | x :: rest, t, h, hp => by
    simp only [entriesPlain, Bool.and_eq_true] at hp
    by_cases hx : ∃ l n ps rt b, x = some (ASTNode.functionDecl l n ps rt b)
    · obtain ⟨l, n, ps, rt, b, rfl⟩ := hx
      have hflat : flatTypeNode (some (ASTNode.functionDecl l n ps rt b)) = true := by
        have := hp.1
        simp only [optionalPlain, ASTNode.plainTypes, Bool.and_eq_true] at this
        simp only [flatTypeNode, Bool.and_eq_true]
        exact this.1
      rw [declareFunctions_fn]
      split
      · exact tableFlat_declareFunctions rest _ (tableFlat_define h _ _ hflat _) hp.2
      · exact tableFlat_define h _ _ hflat _
    · rw [declareFunctions_other x rest t (fun l n ps rt b h => hx ⟨l, n, ps, rt, b, h⟩)]
      exact tableFlat_declareFunctions rest t h hp.2

theorem tableFlat_defineParams : ∀ (params : List ASTNode) (t : SymbolTable),
    TableFlat t → params.all (fun p => isLiteralOrNull (paramTypeNode p)) = true →
    TableFlat (defineParams params t).2
  | [], t, h, _ => h
  | p :: rest, t, h, hp => by
    simp only [List.all_cons, Bool.and_eq_true] at hp
    cases p
    case varDecl line name type init =>
      simp only [defineParams]
      have hflat : flatTypeNode type = true := flatTypeNode_of_literalOrNull hp.1
      split
      · exact tableFlat_define h _ _ hflat _
      · exact tableFlat_defineParams rest _ (tableFlat_define h _ _ hflat _) hp.2
    all_goals
      simp only [defineParams]
      exact tableFlat_defineParams rest t h hp.2

theorem checkStatements_total
    (checkOne : Option ASTNode → SymbolTable → Option CheckResult) :
    ∀ (stmts : List (Option ASTNode)) (t : SymbolTable),
      (∀ s ∈ stmts, ∀ u, TableFlat u → ∃ r, checkOne s u = some r ∧ TableFlat r.symbols) →
      TableFlat t →
      ∃ res, checkStatements checkOne stmts t = some res ∧ TableFlat res.2.2
  | [], t, _, ht => ⟨_, rfl, ht⟩
  | s :: rest, t, h, ht => by
    obtain ⟨r, hr, hflat⟩ := h s (List.mem_cons_self _ _) t ht
    rw [checkStatements, hr]
    simp only []
    split
    · exact ⟨_, rfl, hflat⟩
    · obtain ⟨res, hres, hf2⟩ := checkStatements_total checkOne rest r.symbols
        (fun x hx => h x (List.mem_cons_of_mem _ hx)) hflat
      rw [hres]
      exact ⟨_, rfl, hf2⟩

theorem optionalPlain_of_mem : ∀ (stmts : List (Option ASTNode)) (s : Option ASTNode),
    entriesPlain stmts = true → s ∈ stmts → optionalPlain s = true
  | x :: rest, s, h, hs => by
    simp only [entriesPlain, Bool.and_eq_true] at h
    rcases List.mem_cons.mp hs with rfl | hs
    · exact h.1
    · exact optionalPlain_of_mem rest s h.2 hs

/-- On a flat table and a tree with plain annotations `typeCheck` returns
once the fuel exceeds the size of the tree by three, and the table it leaves
is flat again. -/
theorem typeCheck_total : ∀ (fuel : Nat) (node : Option ASTNode) (t : SymbolTable),
    TableFlat t → optionalPlain node = true → sizeOptional node + 3 ≤ fuel →
    ∃ r, typeCheck fuel node t = some r ∧ TableFlat r.symbols
  | 0, _, _, _, _, h => by omega
  | fuel + 1, none, t, ht, _, _ => ⟨_, rfl, ht⟩
  | fuel + 1, some node, t, ht, hp, h => by
    cases node
    case program line statements =>
      simp only [typeCheck]
      simp only [sizeOptional, ASTNode.size] at h
      simp only [optionalPlain, ASTNode.plainTypes] at hp
      have hd := tableFlat_declareFunctions statements t ht hp
      split
      · exact ⟨_, rfl, hd⟩
      · obtain ⟨res, hres, hf⟩ := checkStatements_total (typeCheck fuel) statements _
          (fun s hs u hu => typeCheck_total fuel s u hu (optionalPlain_of_mem _ _ hp hs)
            (by have := sizeOptional_le_of_mem statements s hs; omega)) hd
        rw [hres]
        exact ⟨_, rfl, hf⟩
    case functionDecl line name params returnType body =>
      rw [typeCheck_functionDecl]
      simp only [optionalPlain, ASTNode.plainTypes, Bool.and_eq_true] at hp
      simp only [sizeOptional, ASTNode.size] at h
      have hd := tableFlat_defineParams params _ (tableFlat_enter ht) hp.1.2
      split
      · obtain ⟨rb, hrb, hf⟩ := typeCheck_total fuel body _ hd hp.2 (by omega)
        rw [hrb]
        exact ⟨_, rfl, tableFlat_exit hf⟩
      · exact ⟨_, rfl, tableFlat_exit hd⟩
    case varDecl line name type initializer =>
      simp only [optionalPlain, ASTNode.plainTypes] at hp
      simp only [sizeOptional, ASTNode.size] at h
      have hreg : ∀ type1, isLiteralOrNull type1 = true →
          TableFlat (defineSymbol t name SymbolType.SYM_VARIABLE type1 line).2 :=
        fun type1 h1 => tableFlat_define ht _ _ (flatTypeNode_of_literalOrNull h1) _
      obtain ⟨f, rfl⟩ : ∃ f, fuel = f + 1 := ⟨fuel - 1, by omega⟩
      cases initializer with
      | none =>
        simp only [typeCheck]
        exact ⟨_, rfl, hreg type hp⟩
      | some init =>
        obtain ⟨it, hit⟩ := getTypeInfo_total (f + 1) (some init) t ht
          (by simp only [sizeOptional] at h ⊢; omega)
        obtain ⟨dt, hdt⟩ := getTypeInfo_of_literalOrNull f type t hp
        simp only [typeCheck, hit, hdt]
        cases dt <;> cases it
        all_goals simp only [Option.isNone_none, Option.isNone_some, Bool.and_true,
          Bool.and_false, Bool.true_and, Bool.false_and, if_true, if_false,
          Bool.false_eq_true]
        · exact ⟨_, rfl, ht⟩
        · rename_i iv
          rw [show getTypeInfo (f + 1) (some (createLiteralNode
              { type := tokenTypeOfName iv.name, lexeme := iv.name, line := line })) t
            = some (literalTypeInfo
              { type := tokenTypeOfName iv.name, lexeme := iv.name, line := line }) from rfl]
          simp only []
          repeat' split
          all_goals first
            | exact ⟨_, rfl, ht⟩
            | exact ⟨_, rfl, hreg _ rfl⟩
        · cases type with
          | none => exact ⟨_, rfl, hreg none rfl⟩
          | some ty =>
            simp only [hdt]
            repeat' split
            all_goals first
              | exact ⟨_, rfl, ht⟩
              | exact ⟨_, rfl, hreg _ hp⟩
        · cases type with
          | none => exact ⟨_, rfl, hreg none rfl⟩
          | some ty =>
            simp only [hdt]
            repeat' split
            all_goals first
              | exact ⟨_, rfl, ht⟩
              | exact ⟨_, rfl, hreg _ hp⟩
    case assign line target value =>
      simp only [sizeOptional, ASTNode.size] at h
      obtain ⟨f, rfl⟩ : ∃ f, fuel = f + 1 := ⟨fuel - 1, by omega⟩
      obtain ⟨vt, hvt⟩ := getTypeInfo_total (f + 1) value t ht (by omega)
      simp only [typeCheck]
      split
      · split
        · exact ⟨_, rfl, ht⟩
        · rename_i symbol hr
          obtain ⟨tt, htt⟩ := getTypeInfo_of_flat f symbol.typeNode t
            (ht symbol (resolveSymbol_mem hr))
          rw [htt, hvt]
          simp only []
          split <;> exact ⟨_, rfl, ht⟩
      · exact ⟨_, rfl, ht⟩
    case returnStmt line value =>
      cases value with
      | none => exact ⟨_, rfl, ht⟩
      | some v =>
        simp only [typeCheck]
        simp only [optionalPlain, ASTNode.plainTypes] at hp
        simp only [sizeOptional, ASTNode.size] at h
        obtain ⟨rv, hrv, hf⟩ := typeCheck_total fuel (some v) t ht hp
          (by simp only [sizeOptional]; omega)
        rw [hrv]
        exact ⟨_, rfl, hf⟩
    case binary line op left right =>
      simp only [typeCheck]
      obtain ⟨ty, hty⟩ := getTypeInfo_total fuel (some (ASTNode.binary line op left right)) t ht
        (by omega)
      rw [hty]
      exact ⟨_, rfl, ht⟩
    all_goals exact ⟨_, rfl, ht⟩

theorem plainTypes_of_expression {n : ASTNode} (h : isExpressionNode n = true) :
    n.plainTypes = true := by
  cases n <;> first | rfl | cases h

theorem plainTypes_of_statement {n : ASTNode} (h : statementShape n = true) :
    n.plainTypes = true := by
  cases n
  case returnStmt line value =>
    cases value with
    | none => rfl
    | some v =>
      simp only [ASTNode.plainTypes, optionalPlain]
      exact plainTypes_of_expression (show isExpressionNode v = true from h)
  case varDecl line name type initializer =>
    simp only [statementShape, Bool.and_eq_true] at h
    exact h.1
  all_goals first | rfl | cases h

theorem entriesPlain_of_all : ∀ (stmts : List (Option ASTNode)),
    (∀ s ∈ stmts, ∃ n, s = some n ∧ n.plainTypes = true) → entriesPlain stmts = true
  | [], _ => rfl
  | x :: rest, h => by
    obtain ⟨n, rfl, hn⟩ := h x (List.mem_cons_self _ _)
    simp only [entriesPlain, optionalPlain, hn, Bool.true_and]
    exact entriesPlain_of_all rest (fun s hs => h s (List.mem_cons_of_mem _ hs))

theorem isLiteralOrNull_of_paramShape {p : ASTNode} (h : paramShape p = true) :
    isLiteralOrNull (paramTypeNode p) = true := by
  unfold paramShape at h
  split at h
  · rfl
  · cases h

theorem plainTypes_of_function {n : ASTNode} (h : functionShape n = true) :
    n.plainTypes = true := by
  unfold functionShape at h
  split at h
  · rename_i line name params returnType bline statements
    simp only [Bool.and_eq_true, List.all_eq_true] at h
    simp only [ASTNode.plainTypes, optionalPlain, Bool.and_eq_true, List.all_eq_true]
    refine ⟨⟨h.1.1, fun p hp => isLiteralOrNull_of_paramShape (h.1.2 p hp)⟩, ?_⟩
    apply entriesPlain_of_all
    intro s hs
    have := h.2
    simp only [statementsShape, List.all_eq_true] at this
    have hsh := this s hs
    cases s with
    | none => cases hsh
    | some m => exact ⟨m, rfl, plainTypes_of_statement hsh⟩
  · cases h

theorem plainTypes_of_program {tree : ASTNode} (h : programShape tree = true) :
    tree.plainTypes = true := by
  unfold programShape at h
  split at h
  · rename_i line statements
    simp only [List.all_eq_true] at h
    simp only [ASTNode.plainTypes]
    apply entriesPlain_of_all
    intro s hs
    have hsh := h s hs
    cases s with
    | none => cases hsh
    | some m =>
      refine ⟨m, rfl, ?_⟩
      simp only [Bool.or_eq_true] at hsh
      rcases hsh with h1 | h1
      · exact plainTypes_of_function h1
      · exact plainTypes_of_statement h1
  · cases h

theorem tableFlat_createSymbolTable : TableFlat createSymbolTable := by
  intro s hs
  rw [mem_symbols_iff] at hs
  obtain ⟨i, hi⟩ := hs
  simp [createSymbolTable, List.getD_eq_getElem?_getD, List.getElem?_replicate] at hi
  split at hi <;> simp at hi

/-- C27: `typeCheck` on a FunctionDecl node leaves the scope as it found it.
For every FunctionDecl node and every table of depth `d ≥ 0`, when the call
returns (with either flag) the depth is `d` again, every chain holds
exactly the symbols of depth at most `d` it held before, in the same order,
and no symbol of depth `d + 1` (parameter or local) is left; on a
well-formed table the table is the one before the call.  The call does
return: on a table whose symbols point to type literals or flat function
declarations, and a node whose annotations are literals or absent, fuel
above the size of the node plus two suffices.  Hence for a Program returned
by `parse`, checked from a table of depth 0, the depth never exceeds 1
during the check and is 0 after it, and from a flat table (such as the
empty table) the check does return. -/
theorem typeCheck_function_restores_scope :
    (∀ (fuel line : Nat) (name : List Char) (params : List ASTNode)
        (returnType body : Option ASTNode) (t : SymbolTable) (r : CheckResult),
      0 ≤ t.scopeDepth →
      typeCheck fuel (some (ASTNode.functionDecl line name params returnType body)) t
        = some r →
      r.symbols.scopeDepth = t.scopeDepth ∧
      r.symbols.atMost t.scopeDepth = t.atMost t.scopeDepth ∧
      (∀ s ∈ r.symbols.symbols, s.scopeDepth ≠ t.scopeDepth + 1) ∧
      (t.WF → r.symbols = t)) ∧
    (∀ (fuel line : Nat) (name : List Char) (params : List ASTNode)
        (returnType body : Option ASTNode) (t : SymbolTable),
      TableFlat t →
      (ASTNode.functionDecl line name params returnType body).plainTypes = true →
      (ASTNode.functionDecl line name params returnType body).size + 3 ≤ fuel →
      ∃ r, typeCheck fuel (some (ASTNode.functionDecl line name params returnType body)) t
        = some r) ∧
    (∀ (fuel : Nat) (source : List Char) (tree : ASTNode) (p : Parser) (t : SymbolTable),
      parse fuel source = some (some tree, p) → t.scopeDepth = 0 →
      (∀ fuel2, typeCheckPeak fuel2 (some tree) t ≤ 1) ∧
      (∀ fuel2 r, typeCheck fuel2 (some tree) t = some r → r.symbols.scopeDepth = 0) ∧
      (TableFlat t → ∀ fuel2, tree.size + 3 ≤ fuel2 →
        ∃ r, typeCheck fuel2 (some tree) t = some r ∧ r.symbols.scopeDepth = 0)) := by
  refine ⟨?_, ?_, ?_⟩
  · intro fuel line name params returnType body t r ht h
    cases fuel with
    | zero => simp [typeCheck] at h
    | succ fuel =>
      obtain ⟨h1, h2, h3, h4, h5⟩ := typeCheck_functionDecl_effect (typeCheck_keeps fuel)
        line name params returnType body t r ht h
      exact ⟨h1, h3, h4, fun hw => eq_of_wf_atMost hw (h5 hw) h1 h2 h3⟩
  · intro fuel line name params returnType body t ht hp hf
    obtain ⟨r, hr, _⟩ := typeCheck_total fuel
      (some (ASTNode.functionDecl line name params returnType body)) t ht hp hf
    exact ⟨r, hr⟩
  · intro fuel source tree p t hparse hd
    have hshape := (parse_good hparse).2
    have hdepth : ∀ fuel2 r, typeCheck fuel2 (some tree) t = some r →
        r.symbols.scopeDepth = 0 := by
      intro fuel2 r hr
      rw [(typeCheck_keeps fuel2 _ t r (by omega) hr).depth, hd]
    refine ⟨?_, hdepth, ?_⟩
    · intro fuel2
      have := typeCheckPeak_of_program fuel2 tree t (by omega) hshape
      omega
    · intro ht fuel2 hf
      obtain ⟨r, hr, _⟩ := typeCheck_total fuel2 (some tree) t ht
        (plainTypes_of_program hshape) hf
      exact ⟨r, hr, hdepth fuel2 r hr⟩

/-- Witness for C27: on the table that holds a global `x`, the check of
`func int f(int x) \x7b let y = 1; return x; \x7d` returns and the table is
the one before the call; the check of a function whose local collides with
its parameter fails and leaves depth 0 and the one global symbol; and the
check of the Program parsed from `srcAdd` returns at depth 0 after reaching
depth 1. -/
theorem typeCheck_function_restores_scope_witness :
    (0 : Int) ≤ tableOuterX.scopeDepth ∧
    (∃ r, typeCheck 12 (some fnShadowsX) tableOuterX = some r ∧
      r.symbols.scopeDepth = tableOuterX.scopeDepth ∧
      r.symbols.atMost tableOuterX.scopeDepth = tableOuterX.atMost tableOuterX.scopeDepth ∧
      (∀ s ∈ r.symbols.symbols, s.scopeDepth ≠ tableOuterX.scopeDepth + 1) ∧
      (tableOuterX.WF → r.symbols = tableOuterX)) ∧
    (typeCheck 12 (some fnRedefinesX) tableOuterX).map
      (fun r => (r.ok, r.symbols.scopeDepth, r.symbols.symbols.length)) = some (false, 0, 1) ∧
    (∃ p, parse 60 srcAdd = some (some addTree, p)) ∧
    ((∀ fuel2, typeCheckPeak fuel2 (some addTree) createSymbolTable ≤ 1) ∧
      (∀ fuel2 r, typeCheck fuel2 (some addTree) createSymbolTable = some r →
        r.symbols.scopeDepth = 0) ∧
      (TableFlat createSymbolTable → ∀ fuel2, addTree.size + 3 ≤ fuel2 →
        ∃ r, typeCheck fuel2 (some addTree) createSymbolTable = some r ∧
          r.symbols.scopeDepth = 0)) ∧
    (typeCheck 20 (some addTree) createSymbolTable).map
      (fun r => (r.ok, r.symbols.scopeDepth)) = some (true, 0) ∧
    typeCheckPeak 20 (some addTree) createSymbolTable = 1 := by
  have hflat : TableFlat tableOuterX :=
    tableFlat_define tableFlat_createSymbolTable "x".toList SymbolType.SYM_VARIABLE
      (show flatTypeNode none = true from rfl) 1
  have hparse : ∃ p, parse 60 srcAdd = some (some addTree, p) :=
    parse_eq_of_beq (by decide!)
  refine ⟨by decide!, ?_, by decide!, hparse, ?_, by decide!, by decide!⟩
  · obtain ⟨r, hr⟩ := typeCheck_function_restores_scope.2.1 12 1 "f".toList
      [ASTNode.varDecl 1 "x".toList (some (ASTNode.literal 1 intToken)) none]
      (some (ASTNode.literal 1 intToken))
      (some (ASTNode.program 0
        [some (ASTNode.varDecl 1 "y".toList none (some (ASTNode.literal 1 oneToken))),
         some (ASTNode.returnStmt 1 (some (ASTNode.variable 1 "x".toList)))]))
      tableOuterX hflat (by decide!) (by decide!)
    exact ⟨r, hr, typeCheck_function_restores_scope.1 12 1 "f".toList _ _ _ tableOuterX r
      (by decide!) hr⟩
  · obtain ⟨p, hp⟩ := hparse
    exact typeCheck_function_restores_scope.2.2 60 srcAdd addTree p createSymbolTable hp rfl

/-! ## Running the emitted code -/

theorem exec_append (env : Env) : ∀ (a b : List Instr) (m : Machine),
    exec env (a ++ b) m = (exec env a m).bind (exec env b)
  | [], b, m => rfl
  | i :: rest, b, m => by
    simp only [List.cons_append, exec]
    cases step env i m with
    | none => rfl
    | some m1 => exact exec_append env rest b m1

theorem runToRet_append (env : Env) : ∀ (a b : List Instr) (m m1 : Machine),
    exec env a m = some m1 → runToRet env (a ++ b) m = runToRet env b m1
  | [], b, m, m1, h => by
    simp only [exec, Option.some.injEq] at h
    subst h
    rfl
  | i :: rest, b, m, m1, h => by
    rw [exec] at h
    cases hs : step env i m with
    | none => rw [hs] at h; cases h
    | some m2 =>
      rw [hs] at h
      have hrest := runToRet_append env rest b m2 m1 h
      cases i
      case ret => simp [step] at hs
      all_goals
        simp only [List.cons_append, runToRet, hs]
        exact hrest

@[simp] theorem set_reg (m : Machine) (r x : Reg) (v : Nat) :
    (m.set r v).reg x = if x = r then v % WORD else m.reg x := rfl

@[simp] theorem set_mem (m : Machine) (r : Reg) (v : Nat) : (m.set r v).mem = m.mem := rfl

@[simp] theorem store_reg (m : Machine) (a v : Nat) : (m.store a v).reg = m.reg := rfl

@[simp] theorem store_mem (m : Machine) (a v b : Nat) :
    (m.store a v).mem b = if b = a then v else m.mem b := rfl

theorem addrBelow_lt (base offset : Nat) : addrBelow base offset < WORD :=
  Nat.mod_lt _ (by decide)

theorem addrBelow_addrBelow (base k : Nat) :
    addrBelow (addrBelow base 8) (8 * k) = addrBelow base (8 * (k + 1)) := by
  unfold addrBelow WORD
  omega

theorem addrBelow_ne_self (base k : Nat) (h1 : 1 ≤ k) (h2 : k < 2305843009213693952) :
    addrBelow base 8 ≠ addrBelow (addrBelow base 8) (8 * k) := by
  unfold addrBelow WORD
  omega

theorem genLiteral_number (ctx : CGContext) (t : Token)
    (h : t.type = TokenType.TOKEN_NUMBER) :
    genLiteral ctx t = [Instr.movImm (t.lexeme.take 63) Reg.rax] := by
  simp [genLiteral, h]

theorem addrBelow_congr {a b : Nat} (h : a % WORD = b % WORD) (offset : Nat) :
    addrBelow a offset = addrBelow b offset := by
  unfold addrBelow
  rw [h]

theorem immValue_of_plain {text : List Char} (h : plainNumeral text = true) :
    immValue text = some (decimalValue text) := by
  simp only [plainNumeral, Bool.and_eq_true, Bool.or_eq_true, beq_iff_eq, bne_iff_ne, ne_eq,
    decide_eq_true_eq] at h
  obtain ⟨⟨hd, hz⟩, hv⟩ := h
  rcases hz with hz | hz
  · subst hz
    decide
  · simp only [immValue, hd, Bool.not_true, Bool.false_eq_true, if_false, hz, hv, if_true]

theorem plainLiterals_binary {l : Nat} {op : Token} {a b : ASTNode}
    (h : plainLiterals (ASTNode.binary l op (some a) (some b)) = true) :
    plainLiterals a = true ∧ plainLiterals b = true := by
  simpa [plainLiterals] using h

theorem isArith_literal {l : Nat} {t : Token} (h : isArith (ASTNode.literal l t) = true) :
    t.type = TokenType.TOKEN_NUMBER ∧ isDecimal t.lexeme = true := by
  simpa [isArith] using h

theorem binaryOpCode_run (env : Env) (op : TokenType) (m : Machine)
    (h : op = TokenType.TOKEN_PLUS ∨ op = TokenType.TOKEN_MINUS ∨ op = TokenType.TOKEN_STAR) :
    ∃ m', exec env (binaryOpCode op) m = some m' ∧
      m'.reg Reg.rax =
        (if op = TokenType.TOKEN_PLUS then (m.reg Reg.rax + m.reg Reg.rbx) % WORD
         else if op = TokenType.TOKEN_MINUS then
           (m.reg Reg.rbx % WORD + (WORD - m.reg Reg.rax % WORD)) % WORD
         else (m.reg Reg.rax * m.reg Reg.rbx) % WORD) ∧
      (∀ r, r ≠ Reg.rax → r ≠ Reg.rbx → m'.reg r = m.reg r) ∧
      m'.mem = m.mem := by
  rcases h with rfl | rfl | rfl
  · refine ⟨m.set Reg.rax (m.reg Reg.rax + m.reg Reg.rbx), rfl, by simp, ?_, rfl⟩
    intro r h1 _
    simp [h1]
  · refine ⟨(m.set Reg.rbx (m.reg Reg.rbx % WORD + (WORD - m.reg Reg.rax % WORD))).set Reg.rax
        ((m.set Reg.rbx (m.reg Reg.rbx % WORD + (WORD - m.reg Reg.rax % WORD))).reg Reg.rbx),
      rfl, by simp, ?_, rfl⟩
    intro r h1 h2
    simp [h1, h2]
  · refine ⟨m.set Reg.rax (m.reg Reg.rax * m.reg Reg.rbx), rfl, by simp, ?_, rfl⟩
    intro r h1 _
    simp [h1]

theorem isArith_binary {l : Nat} {op : Token} {left right : Option ASTNode}
    (h : isArith (ASTNode.binary l op left right) = true) :
    ∃ a b, left = some a ∧ right = some b ∧
      (op.type = TokenType.TOKEN_PLUS ∨ op.type = TokenType.TOKEN_MINUS ∨
        op.type = TokenType.TOKEN_STAR) ∧ isArith a = true ∧ isArith b = true := by
  cases left with
  | none => simp [isArith] at h
  | some a =>
    cases right with
    | none => simp [isArith] at h
    | some b =>
      simp only [isArith, Bool.and_eq_true, Bool.or_eq_true, beq_iff_eq] at h
      exact ⟨a, b, rfl, rfl, by tauto, h.1.2, h.2⟩

theorem evalArith_binary (l : Nat) (op : Token) (a b : ASTNode) :
    evalArith (ASTNode.binary l op (some a) (some b)) =
      if op.type = TokenType.TOKEN_PLUS then evalArith a + evalArith b
      else if op.type = TokenType.TOKEN_MINUS then evalArith a - evalArith b
      else evalArith a * evalArith b := by
  simp [evalArith]

/-- Running the code of an arithmetic expression whose literals are plain
numerals of at most 63 characters: `%rax` holds the value on 64 bits, the
stack pointer is
the one before, the other registers except `%rbx` keep their values, and
memory is only written in the cells below the stack pointer that the
evaluation uses. -/
theorem genExpression_arith_run : ∀ (n : Nat) (e : ASTNode), e.size ≤ n →
    isArith e = true → shortLiterals e = true → plainLiterals e = true →
    e.size < 2305843009213693952 →
    ∀ (env : Env) (ctx : CGContext) (m : Machine),
      ∃ m', exec env (genExpressionNode ctx e) m = some m' ∧
        ((m'.reg Reg.rax : Nat) : Int) = evalArith e % ((WORD : Nat) : Int) ∧
        m'.reg Reg.rsp % WORD = m.reg Reg.rsp % WORD ∧
        (∀ r, r ≠ Reg.rax → r ≠ Reg.rbx → r ≠ Reg.rsp → m'.reg r = m.reg r) ∧
        (∀ a, (∀ k, 1 ≤ k → k ≤ e.size → a ≠ addrBelow (m.reg Reg.rsp) (8 * k)) →
          m'.mem a = m.mem a)
  | 0, e, hn, _, _, _, _ => by
    cases e <;> simp [ASTNode.size] at hn
  | n + 1, e, hn, ha, hs, hp, hsize => by
    intro env ctx m
    cases e
    case literal line t =>
      obtain ⟨ht, _⟩ := isArith_literal ha
      have hplain : plainNumeral t.lexeme = true := by simpa [plainLiterals] using hp
      have hlen : t.lexeme.length ≤ 63 := by simpa [shortLiterals] using hs
      have htake : t.lexeme.take 63 = t.lexeme := List.take_of_length_le hlen
      refine ⟨m.set Reg.rax (decimalValue t.lexeme), ?_, ?_, rfl, ?_, fun _ _ => rfl⟩
      · simp only [genExpressionNode, genLiteral_number ctx t ht, htake, exec, step,
          immValue_of_plain hplain]
      · simp only [set_reg, if_true, evalArith]
        exact Int.natCast_mod _ _
      · intro r h1 _ _
        simp [h1]
    case binary line op left right =>
      obtain ⟨a, b, rfl, rfl, hop, haa, hab⟩ := isArith_binary ha
      have hsa : shortLiterals a = true ∧ shortLiterals b = true := by
        simpa [shortLiterals] using hs
      have hpa := plainLiterals_binary hp
      have hsz : (ASTNode.binary line op (some a) (some b)).size = 1 + a.size + b.size := by
        simp [ASTNode.size, sizeOptional]
      rw [hsz] at hn hsize
      obtain ⟨m1, h1, r1, s1, g1, q1⟩ := genExpression_arith_run n a (by omega) haa hsa.1
        hpa.1 (by omega) env ctx m
      obtain ⟨m3, h3, r3, s3, g3, q3⟩ := genExpression_arith_run n b (by omega) hab hsa.2
        hpa.2 (by omega) env ctx
        ((m1.store (addrBelow (m1.reg Reg.rsp) 8) (m1.reg Reg.rax)).set Reg.rsp
          (addrBelow (m1.reg Reg.rsp) 8))
      obtain ⟨m5, h5, r5, g5, q5⟩ := binaryOpCode_run env op.type
        ((m3.set Reg.rsp (m3.reg Reg.rsp + 8)).set Reg.rbx (m3.mem (m3.reg Reg.rsp % WORD))) hop
      have hsp : addrBelow (m1.reg Reg.rsp) 8 = addrBelow (m.reg Reg.rsp) 8 :=
        addrBelow_congr s1 8
      have hlt := addrBelow_lt (m.reg Reg.rsp) 8
      simp only [set_reg, store_reg, set_mem, store_mem, hsp,
        Nat.mod_eq_of_lt hlt, reduceCtorEq, ↓reduceIte] at s3 q3 r5 g5 q5
      have htop : m3.mem (m3.reg Reg.rsp % WORD) = m1.reg Reg.rax := by
        rw [s3, q3 _ (fun k hk1 hk2 => addrBelow_ne_self _ k hk1 (by omega))]
        simp
      refine ⟨m5, ?_, ?_, ?_, ?_, ?_⟩
      · simp only [genExpressionNode, genExpression, exec_append, h1, Option.bind, exec, step,
          h3, h5]
      · rw [evalArith_binary, r5, htop]
        rcases hop with h | h | h
        · simp only [h, ↓reduceIte]
          unfold WORD at r1 r3 ⊢
          omega
        · simp only [h, reduceCtorEq, ↓reduceIte]
          unfold WORD at r1 r3 ⊢
          omega
        · simp only [h, reduceCtorEq, ↓reduceIte]
          push_cast
          rw [r3, r1, Int.emod_emod_of_dvd _ (dvd_refl _), ← Int.mul_emod, mul_comm]
      · rw [g5 Reg.rsp (by decide) (by decide)]
        simp only [reduceCtorEq, ↓reduceIte]
        unfold addrBelow WORD at s3
        unfold WORD
        omega
      · intro r hr1 hr2 hr3
        rw [g5 r hr1 hr2, if_neg hr2, if_neg hr3, g3 r hr1 hr2 hr3]
        simp only [set_reg, store_reg, if_neg hr3]
        exact g1 r hr1 hr2 hr3
      · intro x hx
        rw [q5, q3 x (fun k hk1 hk2 => by
          rw [addrBelow_addrBelow]
          exact hx (k + 1) (by omega) (by omega)),
          if_neg (by
            have := hx 1 (by omega) (by omega)
            simpa using this)]
        exact q1 x (fun k hk1 hk2 => hx k hk1 (by omega))
    all_goals simp [isArith] at ha

theorem immValue_one : immValue "1".toList = some 1 := by decide

theorem immValue_two : immValue "2".toList = some 2 := by decide

theorem immValue_zeros : immValue (List.replicate 63 '0') = some 0 := by decide

theorem mainLines_run (env : Env) (m : Machine)
    (hcall : ∀ s, ∃ s', env.call "initSystem".toList s = some s') :
    ∃ m', runToRet env mainLines m = some m' ∧ m'.reg Reg.rax = 3 := by
  unfold mainLines
  simp only [runToRet, step]
  split
  · rename_i h
    obtain ⟨s', hs⟩ := hcall _
    rw [hs] at h
    cases h
  · rename_i m1 h
    simp only [immValue_one, immValue_two]
    refine ⟨_, rfl, ?_⟩
    simp only [set_reg, set_mem, store_reg, store_mem, reduceCtorEq, ↓reduceIte]
    have hlt := addrBelow_lt (m1.reg Reg.rsp) 8
    rw [Nat.mod_eq_of_lt hlt, Nat.mod_eq_of_lt hlt, if_pos rfl]
    decide

theorem mainLines_generated : codegen_generateExecutable mainTree = some mainLines := by
  decide

theorem immValue_longLiteral :
    immValue (List.replicate 63 (Char.ofNat 48) ++ [Char.ofNat 49]) = some 1 := by decide

/-- C29 (code defect): `genExpression` prints a number literal through a
buffer of 64 bytes, so only the first 63 characters of its lexeme reach the
`mov`.  For every expression tree built with `+`, `-` and `*` from integer
literals that are plain numerals (no leading zero, value below 2^64, so that
the assembler reads them with their decimal value) of at most 63 characters,
the emitted lines run without fault, leave the value of the expression
modulo 2^64 in `%rax` (left minus right for `-`), restore the stack pointer,
keep every register other than `%rax` and `%rbx`, and write memory only in
the cells below the stack pointer; the lines emitted for
`func int main() \x7b return 1 + 2; \x7d` reach their first `ret` with
`%rax = 3` whenever `initSystem` returns.  For the integer literal of 64
characters `000...01`, whose value is 1 (also as the assembler would read
the whole lexeme), the emitted line is `mov $000...0, %rax` with 63 zeros
and leaves 0 in `%rax`. -/
theorem genExpression_truncates_long_literal :
    (∀ (e : ASTNode), isArith e = true → shortLiterals e = true →
      plainLiterals e = true → e.size < 2305843009213693952 →
      ∀ (env : Env) (ctx : CGContext) (m : Machine),
        ∃ m1, exec env (genExpressionNode ctx e) m = some m1 ∧
          ((m1.reg Reg.rax : Nat) : Int) = evalArith e % ((WORD : Nat) : Int) ∧
          m1.reg Reg.rsp % WORD = m.reg Reg.rsp % WORD ∧
          (∀ r, r ≠ Reg.rax → r ≠ Reg.rbx → r ≠ Reg.rsp → m1.reg r = m.reg r) ∧
          (∀ a, (∀ k, 1 ≤ k → k ≤ e.size → a ≠ addrBelow (m.reg Reg.rsp) (8 * k)) →
            m1.mem a = m.mem a)) ∧
    ((∃ p, parse 60 srcMain = some (some mainTree, p)) ∧
      codegen_generateExecutable mainTree = some mainLines ∧
      ∀ (env : Env) (m : Machine),
        (∀ s, ∃ s1, env.call "initSystem".toList s = some s1) →
        ∃ m1, runToRet env mainLines m = some m1 ∧ m1.reg Reg.rax = 3) ∧
    (isArith longLiteral = true ∧ evalArith longLiteral = 1 ∧
      immValue (List.replicate 63 (Char.ofNat 48) ++ [Char.ofNat 49]) = some 1 ∧
      ∀ (env : Env) (ctx : CGContext) (m : Machine),
        genExpressionNode ctx longLiteral
          = [Instr.movImm (List.replicate 63 (Char.ofNat 48)) Reg.rax] ∧
        ∃ m1, exec env (genExpressionNode ctx longLiteral) m = some m1 ∧
          m1.reg Reg.rax = 0) := by
  refine ⟨fun e ha hs hp hsize env ctx m =>
      genExpression_arith_run e.size e (le_refl _) ha hs hp hsize env ctx m,
    ⟨parse_eq_of_beq (by decide!), mainLines_generated, mainLines_run⟩,
    by decide, by decide, immValue_longLiteral, ?_⟩
  intro env ctx m
  have hgen : genExpressionNode ctx longLiteral
      = [Instr.movImm (List.replicate 63 (Char.ofNat 48)) Reg.rax] := by
    simp only [longLiteral, genExpressionNode]
    rw [genLiteral_number ctx _ rfl]
    rfl
  refine ⟨hgen, m.set Reg.rax 0, ?_, rfl⟩
  rw [hgen]
  simp only [exec, step]
  rw [show immValue (List.replicate 63 (Char.ofNat 48)) = some 0 from immValue_zeros]

/-- Witness for the first part of C29: the code of `1 + 2` leaves 3 in
`%rax`. -/
theorem genExpression_truncates_long_literal_witness :
    isArith onePlusTwo = true ∧ shortLiterals onePlusTwo = true ∧
    plainLiterals onePlusTwo = true ∧
    ∃ m1, exec quietEnv (genExpressionNode emptyContext onePlusTwo) idleMachine = some m1 ∧
      ((m1.reg Reg.rax : Nat) : Int) = 3 := by
  refine ⟨by decide, by decide, by decide, ?_⟩
  obtain ⟨m1, h1, h2, _⟩ := genExpression_truncates_long_literal.1 onePlusTwo (by decide)
    (by decide) (by decide) (by decide) quietEnv emptyContext idleMachine
  refine ⟨m1, h1, ?_⟩
  rw [h2]
  decide

/-! ## The string pool -/

theorem firstIndex_none (s : List Char) : ∀ (l : List (List Char)) (i : Nat),
    firstIndex l s i = none ↔ s ∉ l
  | [], i => by simp [firstIndex]
  | n :: rest, i => by
    rw [firstIndex]
    by_cases h : n = s
    · simp [h]
    · rw [if_neg h, firstIndex_none s rest (i + 1)]
      simp [Ne.symm h]

theorem firstIndex_some (s : List Char) : ∀ (l : List (List Char)) (i j : Nat),
    firstIndex l s i = some j →
      i ≤ j ∧ l.get? (j - i) = some s ∧ ∀ k, k < j - i → l.get? k ≠ some s
  | [], i, j, h => by simp [firstIndex] at h
  | n :: rest, i, j, h => by
    rw [firstIndex] at h
    by_cases hn : n = s
    · rw [if_pos hn] at h
      cases h
      simp [hn]
    · rw [if_neg hn] at h
      obtain ⟨h1, h2, h3⟩ := firstIndex_some s rest (i + 1) j h
      have hji : j - i = (j - (i + 1)) + 1 := by omega
      refine ⟨by omega, ?_, ?_⟩
      · rw [hji]
        exact h2
      · intro k hk
        cases k with
        | zero => simpa using hn
        | succ k =>
          simp only [List.get?_cons_succ]
          exact h3 k (by omega)

theorem findStringLiteral_of_mem {pool : List (List Char)} {s : List Char} (h : s ∈ pool) :
    ∃ i, findStringLiteral pool s = some i ∧ pool.get? i = some s ∧
      ∀ k, k < i → pool.get? k ≠ some s := by
  cases hf : findStringLiteral pool s with
  | none => exact absurd h ((firstIndex_none s pool 0).mp hf)
  | some i =>
    obtain ⟨_, h2, h3⟩ := firstIndex_some s pool 0 i hf
    exact ⟨i, rfl, by simpa using h2, fun k hk => h3 k (by omega)⟩

theorem addStringLiteral_snd (pool : List (List Char)) (s : List Char) :
    (addStringLiteral pool s).2 = if s ∈ pool then pool else pool ++ [s] := by
  unfold addStringLiteral
  cases hf : findStringLiteral pool s with
  | none =>
    have : s ∉ pool := (firstIndex_none s pool 0).mp hf
    simp [this]
  | some i =>
    have : s ∈ pool := by
      by_contra hc
      have hnone : findStringLiteral pool s = none := (firstIndex_none s pool 0).mpr hc
      rw [hnone] at hf
      cases hf
    simp [this]

theorem addAll_nil (pool : List (List Char)) : addAll pool [] = pool := rfl

theorem addAll_cons (pool : List (List Char)) (s : List Char) (rest : List (List Char)) :
    addAll pool (s :: rest) = addAll (addStringLiteral pool s).2 rest := rfl

theorem addAll_append (pool a b : List (List Char)) :
    addAll pool (a ++ b) = addAll (addAll pool a) b := by
  simp [addAll, List.foldl_append]

mutual

theorem collectNode_eq : ∀ (n : ASTNode) (pool : List (List Char)),
    collectNode n pool = addAll pool (stringLiterals false n)
  | .literal _ t, pool => by
    simp only [collectNode, stringLiterals]
    split
    · rfl
    · rfl
  | .program _ statements, pool => by
    simp only [collectNode, stringLiterals]
    exact collectEntries_eq statements pool
  | .functionDecl _ _ params returnType body, pool => by
    simp only [collectNode, stringLiterals, addAll_append]
    rw [collectStringLiterals_eq returnType pool, collectParams_eq params,
      collectStringLiterals_eq body]
  | .varDecl _ _ type initializer, pool => by
    simp only [collectNode, stringLiterals, addAll_append]
    rw [collectStringLiterals_eq type pool, collectStringLiterals_eq initializer]
  | .call _ callee args, pool => by
    simp only [collectNode, stringLiterals, addAll_append]
    rw [collectStringLiterals_eq callee pool, collectEntries_eq args]
  | .get _ object _, pool => by
    simp only [collectNode, stringLiterals]
    exact collectStringLiterals_eq object pool
  | .binary _ _ left right, pool => by
    simp only [collectNode, stringLiterals, addAll_append]
    rw [collectStringLiterals_eq left pool, collectStringLiterals_eq right]
  | .returnStmt _ value, pool => by
    simp only [collectNode, stringLiterals]
    exact collectStringLiterals_eq value pool
  | .variable _ _, pool => by simp only [collectNode, stringLiterals, addAll_nil]
  | .assign _ _ _, pool => by
    simp only [collectNode, stringLiterals, Bool.false_eq_true, if_false, addAll_nil]
  | .includeNode _ _, pool => by simp only [collectNode, stringLiterals, addAll_nil]

theorem collectStringLiterals_eq : ∀ (n : Option ASTNode) (pool : List (List Char)),
    collectStringLiterals n pool = addAll pool (optionalLiterals false n)
  | none, pool => by simp only [collectStringLiterals, optionalLiterals, addAll_nil]
  | some n, pool => by
    simp only [collectStringLiterals, optionalLiterals]
    exact collectNode_eq n pool

theorem collectEntries_eq : ∀ (l : List (Option ASTNode)) (pool : List (List Char)),
    collectEntries l pool = addAll pool (entriesLiterals false l)
  | [], pool => by simp only [collectEntries, entriesLiterals, addAll_nil]
  | e :: rest, pool => by
    simp only [collectEntries, entriesLiterals, addAll_append]
    rw [collectStringLiterals_eq e pool, collectEntries_eq rest]

theorem collectParams_eq : ∀ (l : List ASTNode) (pool : List (List Char)),
    collectParams l pool = addAll pool (paramsLiterals false l)
  | [], pool => by simp only [collectParams, paramsLiterals, addAll_nil]
  | p :: rest, pool => by
    simp only [collectParams, paramsLiterals, addAll_append]
    rw [collectNode_eq p pool, collectParams_eq rest]

end

theorem indexOf_head (s : List Char) (rest : List (List Char)) :
    List.indexOf s (s :: rest) = 0 := by
  simp [List.indexOf_cons]

theorem indexOf_tail {a s : List Char} (h : a ≠ s) (rest : List (List Char)) :
    List.indexOf a (s :: rest) = List.indexOf a rest + 1 := by
  have : (s == a) = false := beq_eq_false_iff_ne.mpr (Ne.symm h)
  simp [List.indexOf_cons, this]

/-- What a run of `addStringLiteral` calls does to the pool: it appends, in
the order of their first occurrence, the texts that are not yet in it. -/
theorem addAll_spec : ∀ (texts pool : List (List Char)),
    ∃ extra, addAll pool texts = pool ++ extra ∧ extra.Nodup ∧
      (∀ a, a ∈ extra ↔ a ∈ texts ∧ a ∉ pool) ∧
      extra.Pairwise (fun a b => texts.indexOf a < texts.indexOf b)
  | [], pool => ⟨[], by simp [addAll_nil], List.nodup_nil, by simp, List.Pairwise.nil⟩
  | s :: rest, pool => by
    rw [addAll_cons, addStringLiteral_snd]
    by_cases hs : s ∈ pool
    · rw [if_pos hs]
      obtain ⟨extra, h1, h2, h3, h4⟩ := addAll_spec rest pool
      refine ⟨extra, h1, h2, ?_, ?_⟩
      · intro a
        rw [h3 a]
        constructor
        · rintro ⟨ha, hp⟩
          exact ⟨List.mem_cons_of_mem _ ha, hp⟩
        · rintro ⟨ha, hp⟩
          rcases List.mem_cons.mp ha with rfl | ha
          · exact absurd hs hp
          · exact ⟨ha, hp⟩
      · refine h4.imp_of_mem ?_
        intro a b ha hb hab
        have hane : a ≠ s := fun h => ((h3 a).mp ha).2 (h ▸ hs)
        have hbne : b ≠ s := fun h => ((h3 b).mp hb).2 (h ▸ hs)
        rw [indexOf_tail hane, indexOf_tail hbne]
        omega
    · rw [if_neg hs]
      obtain ⟨extra, h1, h2, h3, h4⟩ := addAll_spec rest (pool ++ [s])
      have hnot : ∀ a ∈ extra, a ≠ s := by
        intro a ha h
        have := ((h3 a).mp ha).2
        exact this (by simp [h])
      refine ⟨s :: extra, by rw [h1]; simp, ?_, ?_, ?_⟩
      · exact List.nodup_cons.mpr ⟨fun h => hnot s h rfl, h2⟩
      · intro a
        constructor
        · intro ha
          rcases List.mem_cons.mp ha with rfl | ha
          · exact ⟨List.mem_cons_self _ _, hs⟩
          · obtain ⟨h5, h6⟩ := (h3 a).mp ha
            exact ⟨List.mem_cons_of_mem _ h5, fun hp => h6 (List.mem_append_left _ hp)⟩
        · rintro ⟨ha, hp⟩
          by_cases has : a = s
          · rw [has]
            exact List.mem_cons_self _ _
          · rcases List.mem_cons.mp ha with h5 | h5
            · exact absurd h5 has
            · refine List.mem_cons_of_mem _ ((h3 a).mpr ⟨h5, ?_⟩)
              intro hmem
              rcases List.mem_append.mp hmem with h6 | h6
              · exact hp h6
              · exact has (List.mem_singleton.mp h6)
      · refine List.Pairwise.cons ?_ ?_
        · intro a ha
          rw [indexOf_head, indexOf_tail (hnot a ha)]
          omega
        · refine h4.imp_of_mem ?_
          intro a b ha hb hab
          rw [indexOf_tail (hnot a ha), indexOf_tail (hnot b hb)]
          omega

theorem mem_entriesLiterals {u : Bool} {s : List Char} {a : ASTNode} :
    ∀ {l : List (Option ASTNode)}, some a ∈ l → s ∈ stringLiterals u a →
      s ∈ entriesLiterals u l
  | [], h, _ => by cases h
  | e :: rest, h, hs => by
    simp only [entriesLiterals, List.mem_append]
    rcases List.mem_cons.mp h with rfl | h
    · exact Or.inl (by simpa [optionalLiterals] using hs)
    · exact Or.inr (mem_entriesLiterals h hs)

theorem exprCalls_literal {e n : ASTNode} (h : ExprCalls e n) :
    ∀ (l : Nat) (t : Token), n = ASTNode.literal l t → t.type = TokenType.TOKEN_STRING →
      t.lexeme ∈ stringLiterals false e := by
  induction h with
  | self e =>
    intro l t hn ht
    subst hn
    simp [stringLiterals, ht]
  | left _ ih =>
    intro l t hn ht
    simp only [stringLiterals, optionalLiterals, List.mem_append]
    exact Or.inl (ih l t hn ht)
  | right _ ih =>
    intro l t hn ht
    simp only [stringLiterals, optionalLiterals, List.mem_append]
    exact Or.inr (ih l t hn ht)
  | arg _ hget _ ih =>
    intro l t hn ht
    simp only [stringLiterals, List.mem_append]
    exact Or.inr (mem_entriesLiterals (List.get?_mem hget) (ih l t hn ht))

theorem statementCalls_literal {s n : ASTNode} (h : StatementCalls s n) (l : Nat) (t : Token)
    (hn : n = ASTNode.literal l t) (ht : t.type = TokenType.TOKEN_STRING) :
    t.lexeme ∈ stringLiterals false s := by
  cases h with
  | initializer he =>
    simp only [stringLiterals, optionalLiterals, List.mem_append]
    exact Or.inr (exprCalls_literal he l t hn ht)
  | value he =>
    simp only [stringLiterals, optionalLiterals]
    exact exprCalls_literal he l t hn ht
  | callStatement he => exact exprCalls_literal he l t hn ht
  | binaryStatement he => exact exprCalls_literal he l t hn ht
  | variableStatement he => exact exprCalls_literal he l t hn ht

theorem programCalls_literal {ast n : ASTNode} (h : ProgramCalls ast n) (l : Nat) (t : Token)
    (hn : n = ASTNode.literal l t) (ht : t.type = TokenType.TOKEN_STRING) :
    t.lexeme ∈ stringLiterals false ast := by
  cases h with
  | inFunction hf hs hc =>
    simp only [stringLiterals]
    refine mem_entriesLiterals hf ?_
    simp only [stringLiterals, optionalLiterals, List.mem_append]
    exact Or.inr (mem_entriesLiterals hs (statementCalls_literal hc l t hn ht))

theorem poolLines_get : ∀ (pool : List (List Char)) (k i : Nat) (s : List Char),
    pool.get? i = some s →
      (poolLines pool k).get? (2 * i) = some (Instr.stringLabel (k + i)) ∧
      (poolLines pool k).get? (2 * i + 1) = some (Instr.asciz s)
  | [], _, _, _, h => by simp at h
  | x :: rest, k, 0, s, h => by
    simp only [List.get?_cons_zero, Option.some.injEq] at h
    subst h
    simp [poolLines]
  | x :: rest, k, i + 1, s, h => by
    simp only [List.get?_cons_succ] at h
    obtain ⟨h1, h2⟩ := poolLines_get rest (k + 1) i s h
    have e1 : 2 * (i + 1) = (2 * i) + 1 + 1 := by ring
    rw [e1, poolLines]
    simp only [List.get?_cons_succ]
    refine ⟨?_, h2⟩
    rw [h1]
    congr 2
    omega

theorem genExpressionNode_string (ctx : CGContext) (l : Nat) (t : Token)
    (ht : t.type = TokenType.TOKEN_STRING) :
    genExpressionNode ctx (ASTNode.literal l t) =
      match findStringLiteral ctx.strLits t.lexeme with
      | some idx => [Instr.movLabel idx Reg.rax]
      | none => [Instr.movImm "0".toList Reg.rax] := by
  simp only [genExpressionNode, genLiteral, ht]
  rw [if_neg (by decide), if_pos trivial]

/-- C30 (refuted as stated): the pool does not list every string literal of
the tree.  `collectStringLiterals` has no case for assignment nodes: in the
Program that holds `x = "hi";` the text `"hi"` is a string literal of the
tree, and the pool after `collectStringLiterals` is empty. -/
theorem string_literal_under_assign_not_collected :
    hiText ∈ stringLiterals true assignTree ∧
    collectStringLiterals (some assignTree) [] = [] := by
  refine ⟨by decide, by decide⟩

/-- C30 (amended): after `collectStringLiterals` on a tree, from the empty
pool, the pool has no two equal entries and holds exactly the texts of the
string literals outside assignment nodes, listed in the order of their
first occurrence in the walk.  For every string-literal node on which the
generation of a Program runs `genExpression`, with the pool collected from
that Program, `findStringLiteral` returns the first and only index of the
text in the pool, the line written is `mov $ .LC<i>, %rax` for that index
and not the fallback `mov $0, %rax`, and the pool lines define the label
`.LC<i>` with that text; two string literals of the same text give the same
line. -/
theorem string_pool_lists_walked_literals :
    (∀ (ast : ASTNode),
      (collectStringLiterals (some ast) []).Nodup ∧
      (∀ s, s ∈ collectStringLiterals (some ast) [] ↔ s ∈ stringLiterals false ast) ∧
      (collectStringLiterals (some ast) []).Pairwise (fun a b =>
        (stringLiterals false ast).indexOf a < (stringLiterals false ast).indexOf b)) ∧
    (∀ (ast : ASTNode) (l : Nat) (t : Token) (ctx : CGContext),
      ProgramCalls ast (ASTNode.literal l t) → t.type = TokenType.TOKEN_STRING →
      ctx.strLits = collectStringLiterals (some ast) [] →
      ∃ i, findStringLiteral ctx.strLits t.lexeme = some i ∧
        ctx.strLits.get? i = some t.lexeme ∧
        (∀ k, k ≠ i → ctx.strLits.get? k ≠ some t.lexeme) ∧
        genExpressionNode ctx (ASTNode.literal l t) = [Instr.movLabel i Reg.rax] ∧
        (poolLines ctx.strLits 0).get? (2 * i) = some (Instr.stringLabel i) ∧
        (poolLines ctx.strLits 0).get? (2 * i + 1) = some (Instr.asciz t.lexeme)) ∧
    (∀ (ctx : CGContext) (l1 l2 : Nat) (t1 t2 : Token),
      t1.type = TokenType.TOKEN_STRING → t2.type = TokenType.TOKEN_STRING →
      t1.lexeme = t2.lexeme →
      genExpressionNode ctx (ASTNode.literal l1 t1) =
        genExpressionNode ctx (ASTNode.literal l2 t2)) := by
  have hpool : ∀ (ast : ASTNode),
      (collectStringLiterals (some ast) []).Nodup ∧
      (∀ s, s ∈ collectStringLiterals (some ast) [] ↔ s ∈ stringLiterals false ast) ∧
      (collectStringLiterals (some ast) []).Pairwise (fun a b =>
        (stringLiterals false ast).indexOf a < (stringLiterals false ast).indexOf b) := by
    intro ast
    obtain ⟨extra, h1, h2, h3, h4⟩ := addAll_spec (stringLiterals false ast) []
    have hc : collectStringLiterals (some ast) [] = extra := by
      rw [collectStringLiterals_eq, optionalLiterals, h1, List.nil_append]
    rw [hc]
    exact ⟨h2, fun s => by simpa using h3 s, h4⟩
  refine ⟨hpool, ?_, ?_⟩
  · intro ast l t ctx hcall ht hctx
    obtain ⟨hnodup, hmem, _⟩ := hpool ast
    have hin : t.lexeme ∈ ctx.strLits := by
      rw [hctx]
      exact (hmem _).mpr (programCalls_literal hcall l t rfl ht)
    obtain ⟨i, hi1, hi2, hi3⟩ := findStringLiteral_of_mem hin
    obtain ⟨hp1, hp2⟩ := poolLines_get ctx.strLits 0 i t.lexeme hi2
    refine ⟨i, hi1, hi2, ?_, ?_, by simpa using hp1, hp2⟩
    · intro k hk hget
      rw [hctx] at hi2 hget
      have hk1 := (List.get?_eq_some.mp hget).1
      have hi4 := (List.get?_eq_some.mp hi2).1
      have := (List.Nodup.get_inj_iff hnodup).mp
        (((List.get?_eq_some.mp hget).2).trans ((List.get?_eq_some.mp hi2).2).symm)
      exact hk (by simpa [Fin.ext_iff] using this)
    · rw [genExpressionNode_string ctx l t ht, hi1]
  · intro ctx l1 l2 t1 t2 h1 h2 h
    rw [genExpressionNode_string ctx l1 t1 h1, genExpressionNode_string ctx l2 t2 h2, h]

/-- Witness for C30 (amended): in `twiceTree` the text `"hi"` is the
initializer of `a` and an argument of the call in the return statement; the
pool is `"hi"`, `"yo"`, and both occurrences give `mov $ .LC0, %rax`. -/
theorem string_pool_lists_walked_literals_witness :
    collectStringLiterals (some twiceTree) [] = [hiText, [DQUOTE, 'y', 'o', DQUOTE]] ∧
    ProgramCalls twiceTree (stringNode hiText) ∧
    (∃ i, findStringLiteral (collectStringLiterals (some twiceTree) []) hiText = some i ∧
      (collectStringLiterals (some twiceTree) []).get? i = some hiText ∧
      (∀ k, k ≠ i → (collectStringLiterals (some twiceTree) []).get? k ≠ some hiText) ∧
      genExpressionNode
          { paramNames := none, paramCount := 0, localNames := none, localCount := 0,
            strLits := collectStringLiterals (some twiceTree) [] } (stringNode hiText)
        = [Instr.movLabel i Reg.rax] ∧
      (poolLines (collectStringLiterals (some twiceTree) []) 0).get? (2 * i)
        = some (Instr.stringLabel i) ∧
      (poolLines (collectStringLiterals (some twiceTree) []) 0).get? (2 * i + 1)
        = some (Instr.asciz hiText)) ∧
    (Instr.movLabel 0 Reg.rax).render = "\tmov $ .LC0, %rax\n".toList := by
  have hcalls : ProgramCalls twiceTree (stringNode hiText) :=
    ProgramCalls.inFunction (List.mem_cons_self _ _)
      (List.mem_cons_of_mem _ (List.mem_cons_of_mem _ (List.mem_cons_self _ _)))
      (StatementCalls.value
        (ExprCalls.arg (show 0 < 6 by decide) (show [some (stringNode hiText)].get? 0 = _ from rfl)
          (ExprCalls.self _)))
  refine ⟨by decide, hcalls, ?_, by decide⟩
  exact string_pool_lists_walked_literals.2.1 twiceTree 1
    { type := TokenType.TOKEN_STRING, lexeme := hiText, line := 1 }
    { paramNames := none, paramCount := 0, localNames := none, localCount := 0,
      strLits := collectStringLiterals (some twiceTree) [] } hcalls rfl rfl

/-! ## The parser behind a prefix of the source -/

theorem errorAt_shift (pre : List Char) (d : Nat) (p : Parser) (token : Token)
    (message : List Char) :
    errorAt (p.shift pre d) (token.bump d) message = (errorAt p token message).shift pre d := by
  unfold errorAt
  by_cases h : p.panicMode = true
  · simp [Parser.shift, h]
  · simp [Parser.shift, h, Token.bump, Diagnostic.bump]

theorem errorAtCurrent_shift (pre : List Char) (d : Nat) (p : Parser) (message : List Char) :
    errorAtCurrent (p.shift pre d) message = (errorAtCurrent p message).shift pre d :=
  errorAt_shift pre d p p.current message

theorem parserAdvance_shift (pre : List Char) (d : Nat) (p : Parser) :
    (p.shift pre d).advance = p.advance.shift pre d := by
  unfold Parser.advance
  simp only [Parser.shift, scanToken_shift, shiftResult]

theorem check_shift (pre : List Char) (d : Nat) (p : Parser) (t : TokenType) :
    check (p.shift pre d) t = check p t := rfl

theorem peekType_shift (pre : List Char) (d : Nat) (p : Parser) :
    peekType (p.shift pre d) = peekType p := rfl

theorem pmatch_shift (pre : List Char) (d : Nat) (p : Parser) (t : TokenType) :
    pmatch (p.shift pre d) t = ((pmatch p t).1, (pmatch p t).2.shift pre d) := by
  unfold pmatch
  rw [check_shift]
  split
  · rfl
  · rw [parserAdvance_shift]

theorem matchAny_shift (pre : List Char) (d : Nat) (p : Parser) : ∀ (ts : List TokenType),
    matchAny (p.shift pre d) ts = ((matchAny p ts).1, (matchAny p ts).2.shift pre d)
  | [] => rfl
  | t :: ts => by
    rw [matchAny, matchAny, pmatch_shift]
    simp only []
    split
    · rfl
    · exact matchAny_shift pre d p ts

theorem consume_shift (pre : List Char) (d : Nat) (p : Parser) (t : TokenType)
    (message : List Char) :
    consume (p.shift pre d) t message = (consume p t message).shift pre d := by
  unfold consume
  have : (p.shift pre d).current.type = p.current.type := rfl
  rw [this]
  split
  · exact parserAdvance_shift pre d p
  · exact errorAtCurrent_shift pre d p message

theorem createLiteralNode_bump (d : Nat) (t : Token) :
    createLiteralNode (t.bump d) = (createLiteralNode t).relocate d := by
  simp [createLiteralNode, ASTNode.relocate, Token.bump]

theorem createBinaryNode_bump (d : Nat) (op : Token) (left right : Option ASTNode) :
    createBinaryNode (op.bump d) (relocateOptional d left) (relocateOptional d right) =
      (createBinaryNode op left right).relocate d := by
  simp [createBinaryNode, ASTNode.relocate, Token.bump]

theorem createReturnNode_relocate (d : Nat) (value : Option ASTNode) :
    createReturnNode (relocateOptional d value) = (createReturnNode value).relocate d := by
  cases value with
  | none => simp [createReturnNode, ASTNode.relocate, relocateOptional]
  | some v => simp [createReturnNode, ASTNode.relocate]

theorem relocateEntries_append (d : Nat) : ∀ (a b : List (Option ASTNode)),
    relocateEntries d (a ++ b) = relocateEntries d a ++ relocateEntries d b
  | [], b => rfl
  | x :: a, b => by
    show relocateEntries d (x :: (a ++ b)) = _
    rw [relocateEntries, relocateEntries_append d a b]
    rfl

theorem relocateNodes_append (d : Nat) : ∀ (a b : List ASTNode),
    relocateNodes d (a ++ b) = relocateNodes d a ++ relocateNodes d b
  | [], b => rfl
  | x :: a, b => by
    show relocateNodes d (x :: (a ++ b)) = _
    rw [relocateNodes, relocateNodes_append d a b]
    rfl

theorem shift_previous (pre : List Char) (d : Nat) (p : Parser) :
    (p.shift pre d).previous = p.previous.bump d := rfl

theorem bump_lexeme (d : Nat) (t : Token) : (t.bump d).lexeme = t.lexeme := rfl

theorem relocateOptional_some (d : Nat) (n : ASTNode) :
    relocateOptional d (some n) = some (n.relocate d) := by
  simp [relocateOptional]

theorem relocateOptional_none (d : Nat) : relocateOptional d none = none := by
  simp [relocateOptional]

theorem relocateEntries_nil (d : Nat) : relocateEntries d [] = [] := by
  simp [relocateEntries]

theorem relocateEntries_single (d : Nat) (a : ASTNode) :
    relocateEntries d [some a] = [some (a.relocate d)] := by
  simp [relocateEntries, relocateOptional]

theorem relocate_call (d : Nat) (callee : ASTNode) (args : List (Option ASTNode)) :
    (createCallNode (some callee) args).relocate d =
      createCallNode (some (callee.relocate d)) (relocateEntries d args) := by
  simp [createCallNode, ASTNode.relocate, relocateOptional]

theorem relocate_get (d : Nat) (node : ASTNode) (name : List Char) :
    (createGetNode (some node) name).relocate d =
      createGetNode (some (node.relocate d)) name := by
  simp [createGetNode, ASTNode.relocate, relocateOptional]

theorem relocate_varRef (d : Nat) (name : List Char) :
    (createVarRefNode name).relocate d = createVarRefNode name := by
  simp [createVarRefNode, ASTNode.relocate]

theorem expression_shift (pre : List Char) (d : Nat) (fuel : Nat) :
    (∀ p callee, finishCall fuel (p.shift pre d) (callee.relocate d) =
      shiftPResult pre d (finishCall fuel p callee)) ∧
    (∀ p args, finishCallArgs fuel (p.shift pre d) (relocateEntries d args) =
      shiftEntries pre d (finishCallArgs fuel p args)) ∧
    (∀ p node, primaryChain fuel (p.shift pre d) (node.relocate d) =
      shiftPResult pre d (primaryChain fuel p node)) ∧
    (∀ p, primary fuel (p.shift pre d) = shiftPResult pre d (primary fuel p)) ∧
    (∀ p left, binaryLoop fuel (p.shift pre d) (relocateOptional d left) =
      shiftPResult pre d (binaryLoop fuel p left)) ∧
    (∀ p, binary fuel (p.shift pre d) = shiftPResult pre d (binary fuel p)) ∧
    (∀ p, expression fuel (p.shift pre d) = shiftPResult pre d (expression fuel p)) := by
  induction fuel with
  | zero =>
    refine ⟨?_, ?_, ?_, ?_, ?_, ?_, ?_⟩ <;> intros <;>
      simp [finishCall, finishCallArgs, primaryChain, primary, binaryLoop, binary, expression,
        shiftPResult, shiftEntries]
  | succ n ih =>
    obtain ⟨ihFC, ihArgs, ihChain, ihPrim, ihBL, ihBin, ihExpr⟩ := ih
    refine ⟨?_, ?_, ?_, ?_, ?_, ?_, ?_⟩
    · intro p callee
      rw [finishCall, finishCall, pmatch_shift]
      simp only []
      by_cases h1 : (pmatch p TokenType.TOKEN_LEFT_PAREN).1 = true
      · simp only [h1, Bool.not_true, Bool.false_eq_true, if_false, check_shift]
        by_cases h2 : check (pmatch p TokenType.TOKEN_LEFT_PAREN).2 TokenType.TOKEN_RIGHT_PAREN
            = true
        · simp only [h2, Bool.not_true, Bool.false_eq_true, if_false, consume_shift,
            shiftPResult, Option.map, relocateOptional_some, relocate_call, relocateEntries_nil]
        · simp only [h2, Bool.not_false, if_true]
          have h0 := ihArgs (pmatch p TokenType.TOKEN_LEFT_PAREN).2 []
          rw [relocateEntries_nil] at h0
          rw [h0]
          cases finishCallArgs n (pmatch p TokenType.TOKEN_LEFT_PAREN).2 [] with
          | none => rfl
          | some x =>
            simp only [shiftEntries, Option.map, consume_shift, shiftPResult,
              relocateOptional_some, relocate_call]
      · simp only [h1, Bool.not_false, if_true, errorAtCurrent_shift, shiftPResult, Option.map,
          relocateOptional_none]
    · intro p args
      rw [finishCallArgs, finishCallArgs, ihExpr]
      cases expression n p with
      | none => rfl
      | some x =>
        obtain ⟨arg, p1⟩ := x
        cases arg with
        | none =>
          simp only [shiftPResult, Option.map, pmatch_shift, relocateOptional_none]
          split
          · exact ihArgs _ _
          · rfl
        | some a =>
          simp only [shiftPResult, Option.map, pmatch_shift, relocateOptional_some]
          have happ : relocateEntries d args ++ [some (a.relocate d)] =
              relocateEntries d (args ++ [some a]) := by
            rw [relocateEntries_append, relocateEntries_single]
          rw [happ]
          split
          · exact ihArgs _ _
          · rfl
    · intro p node
      rw [primaryChain, primaryChain, pmatch_shift]
      simp only [check_shift]
      split
      · rw [consume_shift]
        simp only [shift_previous, bump_lexeme]
        rw [← relocate_get]
        exact ihChain _ _
      · split
        · exact ihFC _ _
        · simp only [shiftPResult, Option.map, relocateOptional_some]
    · intro p
      rw [primary, primary]
      simp only [matchAny_shift, pmatch_shift]
      split
      · simp only [shiftPResult, Option.map, relocateOptional_some, shift_previous,
          createLiteralNode_bump]
      · split
        · simp only [shift_previous, bump_lexeme]
          rw [← relocate_varRef d]
          exact ihChain _ _
        · split
          · rw [ihExpr]
            cases expression n (pmatch p TokenType.TOKEN_LEFT_PAREN).2 with
            | none => rfl
            | some x => simp only [shiftPResult, Option.map, consume_shift]
          · simp only [shiftPResult, Option.map, relocateOptional_none, errorAtCurrent_shift]
    · intro p left
      rw [binaryLoop, binaryLoop]
      simp only [matchAny_shift]
      split
      · rw [ihPrim]
        cases primary n (matchAny p [TokenType.TOKEN_PLUS, TokenType.TOKEN_MINUS,
            TokenType.TOKEN_STAR, TokenType.TOKEN_SLASH]).2 with
        | none => rfl
        | some x =>
          simp only [shiftPResult, Option.map, shift_previous]
          rw [createBinaryNode_bump, ← relocateOptional_some]
          exact ihBL _ _
      · simp only [shiftPResult, Option.map]
    · intro p
      rw [binary, binary, ihPrim]
      cases primary n p with
      | none => rfl
      | some x =>
        simp only [shiftPResult, Option.map]
        exact ihBL _ _
    · intro p
      rw [expression, expression]
      exact ihBin p

theorem relocate_varNode (d : Nat) (name : List Char) (type initializer : Option ASTNode) :
    (createVarNode name type initializer).relocate d =
      createVarNode name (relocateOptional d type) (relocateOptional d initializer) := by
  simp [createVarNode, ASTNode.relocate]

theorem relocate_functionNode (d : Nat) (name : List Char) (params : List ASTNode)
    (returnType body : Option ASTNode) :
    (createFunctionNode name params returnType body).relocate d =
      createFunctionNode name (relocateNodes d params) (relocateOptional d returnType)
        (relocateOptional d body) := by
  simp [createFunctionNode, ASTNode.relocate]

theorem relocate_programNode (d : Nat) (statements : List (Option ASTNode)) :
    (createProgramNode statements).relocate d =
      createProgramNode (relocateEntries d statements) := by
  simp [createProgramNode, ASTNode.relocate]

theorem expressionStatement_shift (pre : List Char) (d fuel : Nat) (p : Parser) :
    expressionStatement fuel (p.shift pre d) = shiftPResult pre d (expressionStatement fuel p) := by
  unfold expressionStatement
  rw [(expression_shift pre d fuel).2.2.2.2.2.2 p]
  cases expression fuel p with
  | none => rfl
  | some x => simp only [shiftPResult, Option.map, consume_shift]

theorem returnStatement_shift (pre : List Char) (d fuel : Nat) (p : Parser) :
    returnStatement fuel (p.shift pre d) = shiftPResult pre d (returnStatement fuel p) := by
  unfold returnStatement
  rw [check_shift]
  split
  · rw [(expression_shift pre d fuel).2.2.2.2.2.2 p]
    cases expression fuel p with
    | none => rfl
    | some x =>
      simp only [shiftPResult, Option.map, consume_shift, relocateOptional_some,
        createReturnNode_relocate]
  · simp only [shiftPResult, Option.map, consume_shift, relocateOptional_some,
      ← createReturnNode_relocate, relocateOptional_none]

theorem afterInit_shift (pre : List Char) (d fuel : Nat) (name : List Char) (p2 : Parser)
    (shifted plain : Option ASTNode) (h : shifted = relocateOptional d plain) :
    (if (pmatch p2 TokenType.TOKEN_EQUAL).1 = true then
      match expression fuel ((pmatch p2 TokenType.TOKEN_EQUAL).2.shift pre d) with
      | none => none
      | some (initializer, p3) =>
        some (some (createVarNode name shifted initializer),
          consume p3 TokenType.TOKEN_SEMICOLON
            "Expect ';' after variable declaration.".toList)
    else
      some (some (createVarNode name shifted none),
        (consume p2 TokenType.TOKEN_SEMICOLON
          "Expect ';' after variable declaration.".toList).shift pre d)) =
    shiftPResult pre d
      (if (pmatch p2 TokenType.TOKEN_EQUAL).1 = true then
        match expression fuel (pmatch p2 TokenType.TOKEN_EQUAL).2 with
        | none => none
        | some (initializer, p3) =>
          some (some (createVarNode name plain initializer),
            consume p3 TokenType.TOKEN_SEMICOLON
              "Expect ';' after variable declaration.".toList)
      else
        some (some (createVarNode name plain none),
          consume p2 TokenType.TOKEN_SEMICOLON
            "Expect ';' after variable declaration.".toList)) := by
  subst h
  by_cases hc : (pmatch p2 TokenType.TOKEN_EQUAL).1 = true
  · rw [if_pos hc, if_pos hc, (expression_shift pre d fuel).2.2.2.2.2.2]
    cases expression fuel (pmatch p2 TokenType.TOKEN_EQUAL).2 with
    | none => rfl
    | some x =>
      simp only [shiftPResult, Option.map, consume_shift, relocateOptional_some,
        relocate_varNode]
  · rw [if_neg hc, if_neg hc]
    simp only [shiftPResult, Option.map, relocateOptional_some, relocate_varNode,
      relocateOptional_none]

theorem varDeclaration_shift (pre : List Char) (d fuel : Nat) (p : Parser) :
    varDeclaration fuel (p.shift pre d) = shiftPResult pre d (varDeclaration fuel p) := by
  unfold varDeclaration
  simp only [consume_shift, pmatch_shift, matchAny_shift, peekType_shift, shift_previous,
    bump_lexeme, parserAdvance_shift]
  generalize consume p TokenType.TOKEN_IDENTIFIER "Expect variable name.".toList = p1
  split
  · split
    · generalize (matchAny (pmatch p1 TokenType.TOKEN_COLON).2 typeKeywords).2 = p2
      exact afterInit_shift pre d fuel p1.previous.lexeme p2
        (some (createLiteralNode (p2.previous.bump d))) (some (createLiteralNode p2.previous))
        (by rw [relocateOptional_some, createLiteralNode_bump])
    · simp only [shiftPResult, Option.map, relocateOptional_none, errorAtCurrent_shift]
  · split
    · generalize p1.advance = p2
      exact afterInit_shift pre d fuel p1.previous.lexeme p2
        (some (createLiteralNode (p2.previous.bump d))) (some (createLiteralNode p2.previous))
        (by rw [relocateOptional_some, createLiteralNode_bump])
    · exact afterInit_shift pre d fuel p1.previous.lexeme p1 none none
        (by rw [relocateOptional_none])

theorem statement_shift (pre : List Char) (d fuel : Nat) (p : Parser) :
    statement fuel (p.shift pre d) = shiftPResult pre d (statement fuel p) := by
  unfold statement
  simp only [pmatch_shift, matchAny_shift]
  split
  · exact returnStatement_shift pre d fuel _
  · split
    · exact varDeclaration_shift pre d fuel _
    · exact expressionStatement_shift pre d fuel p

theorem paramLoop_shift (pre : List Char) (d : Nat) : ∀ (fuel : Nat) (p : Parser)
    (params : List ASTNode),
    paramLoop fuel (p.shift pre d) (relocateNodes d params) =
      shiftNodes pre d (paramLoop fuel p params)
  | 0, _, _ => rfl
  | fuel + 1, p, params => by
    rw [paramLoop, paramLoop]
    simp only [matchAny_shift, consume_shift, pmatch_shift, shift_previous, bump_lexeme]
    have hnode : ∀ (name : List Char) (t : Token),
        relocateNodes d params ++
          [createVarNode name (some (createLiteralNode (t.bump d))) none] =
        relocateNodes d (params ++ [createVarNode name (some (createLiteralNode t)) none]) := by
      intro name t
      rw [relocateNodes_append]
      simp [relocateNodes, relocate_varNode, relocateOptional, createLiteralNode_bump]
    split
    · simp only [shiftNodes, Option.map, errorAtCurrent_shift]
    · rw [hnode]
      split
      · exact paramLoop_shift pre d fuel _ _
      · rfl

theorem bodyLoop_shift (pre : List Char) (d : Nat) : ∀ (fuel : Nat) (p : Parser)
    (stmts : List (Option ASTNode)),
    bodyLoop fuel (p.shift pre d) (relocateEntries d stmts) =
      shiftEntries pre d (bodyLoop fuel p stmts)
  | 0, _, _ => rfl
  | fuel + 1, p, stmts => by
    rw [bodyLoop, bodyLoop]
    simp only [check_shift]
    split
    · rw [statement_shift]
      cases statement fuel p with
      | none => rfl
      | some x =>
        obtain ⟨stmt, p1⟩ := x
        cases stmt with
        | none =>
          simp only [shiftPResult, Option.map, relocateOptional_none]
          exact bodyLoop_shift pre d fuel p1 stmts
        | some s =>
          simp only [shiftPResult, Option.map, relocateOptional_some]
          have := bodyLoop_shift pre d fuel p1 (stmts ++ [some s])
          rw [relocateEntries_append, relocateEntries_single] at this
          exact this
    · rfl

theorem functionDeclaration_shift (pre : List Char) (d fuel : Nat) (p : Parser) :
    functionDeclaration fuel (p.shift pre d) =
      shiftPResult pre d (functionDeclaration fuel p) := by
  have tail : ∀ (p1 : Parser) (shifted plain : Option ASTNode),
      shifted = relocateOptional d plain →
      (match (if (!check (consume (consume p1 TokenType.TOKEN_IDENTIFIER
              "Expect function name.".toList) TokenType.TOKEN_LEFT_PAREN
              "Expect '(' after function name.".toList) TokenType.TOKEN_RIGHT_PAREN) = true then
            paramLoop fuel ((consume (consume p1 TokenType.TOKEN_IDENTIFIER
              "Expect function name.".toList) TokenType.TOKEN_LEFT_PAREN
              "Expect '(' after function name.".toList).shift pre d) []
          else some ([], (consume (consume p1 TokenType.TOKEN_IDENTIFIER
              "Expect function name.".toList) TokenType.TOKEN_LEFT_PAREN
              "Expect '(' after function name.".toList).shift pre d)) with
        | none => none
        | some (params, p4) =>
          match bodyLoop fuel (consume (consume p4 TokenType.TOKEN_RIGHT_PAREN
              "Expect ')' after parameters.".toList) TokenType.TOKEN_LEFT_BRACE
              "Expect '\x7b' before function body.".toList) [] with
          | none => none
          | some (bodyStatements, p7) =>
            some (some (createFunctionNode (consume p1 TokenType.TOKEN_IDENTIFIER
                "Expect function name.".toList).previous.lexeme params shifted
                (some (createProgramNode bodyStatements))),
              consume p7 TokenType.TOKEN_RIGHT_BRACE
                "Expect '\x7d' after function body.".toList)) =
      shiftPResult pre d
        (match (if (!check (consume (consume p1 TokenType.TOKEN_IDENTIFIER
              "Expect function name.".toList) TokenType.TOKEN_LEFT_PAREN
              "Expect '(' after function name.".toList) TokenType.TOKEN_RIGHT_PAREN) = true then
            paramLoop fuel (consume (consume p1 TokenType.TOKEN_IDENTIFIER
              "Expect function name.".toList) TokenType.TOKEN_LEFT_PAREN
              "Expect '(' after function name.".toList) []
          else some ([], consume (consume p1 TokenType.TOKEN_IDENTIFIER
              "Expect function name.".toList) TokenType.TOKEN_LEFT_PAREN
              "Expect '(' after function name.".toList)) with
        | none => none
        | some (params, p4) =>
          match bodyLoop fuel (consume (consume p4 TokenType.TOKEN_RIGHT_PAREN
              "Expect ')' after parameters.".toList) TokenType.TOKEN_LEFT_BRACE
              "Expect '\x7b' before function body.".toList) [] with
          | none => none
          | some (bodyStatements, p7) =>
            some (some (createFunctionNode (consume p1 TokenType.TOKEN_IDENTIFIER
                "Expect function name.".toList).previous.lexeme params plain
                (some (createProgramNode bodyStatements))),
              consume p7 TokenType.TOKEN_RIGHT_BRACE
                "Expect '\x7d' after function body.".toList)) := by
    intro p1 shifted plain hsh
    subst hsh
    generalize (consume p1 TokenType.TOKEN_IDENTIFIER "Expect function name.".toList).previous.lexeme
      = name
    generalize consume (consume p1 TokenType.TOKEN_IDENTIFIER "Expect function name.".toList)
      TokenType.TOKEN_LEFT_PAREN "Expect '(' after function name.".toList = p3
    have hparams : (if (!check p3 TokenType.TOKEN_RIGHT_PAREN) = true then
          paramLoop fuel (p3.shift pre d) []
        else some ([], p3.shift pre d)) =
        shiftNodes pre d (if (!check p3 TokenType.TOKEN_RIGHT_PAREN) = true then
          paramLoop fuel p3 [] else some ([], p3)) := by
      split
      · have := paramLoop_shift pre d fuel p3 []
        simpa [relocateNodes] using this
      · simp [shiftNodes, relocateNodes]
    rw [hparams]
    generalize (if (!check p3 TokenType.TOKEN_RIGHT_PAREN) = true then
      paramLoop fuel p3 [] else some ([], p3)) = pr
    cases pr with
    | none => rfl
    | some x =>
      obtain ⟨params, p4⟩ := x
      simp only [shiftNodes, Option.map, consume_shift]
      have hbody := bodyLoop_shift pre d fuel (consume (consume p4 TokenType.TOKEN_RIGHT_PAREN
        "Expect ')' after parameters.".toList) TokenType.TOKEN_LEFT_BRACE
        "Expect '\x7b' before function body.".toList) []
      rw [relocateEntries_nil] at hbody
      rw [hbody]
      cases bodyLoop fuel (consume (consume p4 TokenType.TOKEN_RIGHT_PAREN
        "Expect ')' after parameters.".toList) TokenType.TOKEN_LEFT_BRACE
        "Expect '\x7b' before function body.".toList) [] with
      | none => rfl
      | some y =>
        simp only [shiftEntries, shiftPResult, Option.map, consume_shift, relocateOptional_some,
          relocate_functionNode, relocate_programNode]
  unfold functionDeclaration
  rw [peekType_shift]
  generalize decide (peekType p ∈ typeKeywords ++ [TokenType.TOKEN_VOID]) = hasType
  cases hasType
  · simp only [Bool.false_eq_true, if_false, consume_shift, check_shift, shift_previous,
      bump_lexeme]
    exact tail p none none (by rw [relocateOptional_none])
  · simp only [if_true]
    rw [parserAdvance_shift]
    generalize p.advance = q
    rw [shift_previous]
    simp only [consume_shift, check_shift, shift_previous, bump_lexeme]
    exact tail q (some (createLiteralNode (q.previous.bump d)))
      (some (createLiteralNode q.previous))
      (by rw [relocateOptional_some, createLiteralNode_bump])

theorem includeDeclaration_shift (pre : List Char) (d : Nat) : ∀ (fuel : Nat) (p : Parser),
    includeDeclaration fuel (p.shift pre d) = shiftPResult pre d (includeDeclaration fuel p)
  | 0, _ => rfl
  | fuel + 1, p => by
    rw [includeDeclaration, includeDeclaration, check_shift]
    have : (p.shift pre d).current.type = p.current.type := rfl
    rw [this]
    split
    · rw [parserAdvance_shift]
      exact includeDeclaration_shift pre d fuel p.advance
    · simp only [shiftPResult, Option.map, relocateOptional_none]

theorem declaration_shift (pre : List Char) (d fuel : Nat) (p : Parser) :
    declaration fuel (p.shift pre d) = shiftPResult pre d (declaration fuel p) := by
  unfold declaration
  simp only [check_shift, pmatch_shift, matchAny_shift, parserAdvance_shift]
  split
  · exact includeDeclaration_shift pre d fuel _
  · split
    · exact functionDeclaration_shift pre d fuel _
    · split
      · exact varDeclaration_shift pre d fuel _
      · exact statement_shift pre d fuel p

theorem parseLoop_shift (pre : List Char) (d : Nat) : ∀ (fuel : Nat) (p : Parser)
    (statements : List (Option ASTNode)),
    parseLoop fuel (p.shift pre d) (relocateEntries d statements) =
      shiftEntries pre d (parseLoop fuel p statements)
  | 0, _, _ => rfl
  | fuel + 1, p, statements => by
    rw [parseLoop, parseLoop]
    simp only [check_shift]
    split
    · rw [declaration_shift]
      cases declaration fuel p with
      | none => rfl
      | some x =>
        obtain ⟨stmt, p1⟩ := x
        cases stmt with
        | none =>
          simp only [shiftPResult, Option.map, relocateOptional_none]
          exact parseLoop_shift pre d fuel p1 statements
        | some s =>
          simp only [shiftPResult, Option.map, relocateOptional_some]
          have := parseLoop_shift pre d fuel p1 (statements ++ [some s])
          rw [relocateEntries_append, relocateEntries_single] at this
          exact this
    · rfl

theorem advanceN_last (p : Parser) (k : Nat) : p.advanceN (k + 1) = (p.advanceN k).advance := by
  rw [advanceN_add p k 1, Parser.advanceN, Parser.advanceN]

theorem parseLoop_of_include (fuel k : Nat) (p : Parser)
    (hinc : p.current.type = TokenType.TOKEN_INCLUDE)
    (hskip : ∀ i, i < k → includeStop (p.advanceN (i + 1)).current.type = false)
    (hstop : includeStop (p.advanceN (k + 1)).current.type = true) (hk : k < fuel)
    (statements : List (Option ASTNode)) :
    parseLoop (fuel + 1) p statements = parseLoop fuel (p.advanceN (k + 1)) statements := by
  have hdecl : declaration fuel p = some (none, p.advanceN (k + 1)) := by
    have hc : check p TokenType.TOKEN_INCLUDE = true := by simp [check, hinc]
    rw [declaration, if_pos hc, advanceN_step]
    exact includeDeclaration_skip k fuel p.advance
      (fun i hi => by
        have := hskip i hi
        rwa [advanceN_step] at this)
      (by rwa [advanceN_step] at hstop) hk
  have hne : (!check p TokenType.TOKEN_EOF) = true := by simp [check, hinc]
  rw [parseLoop, if_pos hne, hdecl]

theorem parseLoop_at_func (fuel : Nat) (p : Parser) (x : Token)
    (hfunc : p.current.type = TokenType.TOKEN_FUNC) (statements : List (Option ASTNode)) :
    parseLoop fuel { p with previous := x } statements = parseLoop fuel p statements := by
  cases fuel with
  | zero => rfl
  | succ fuel =>
    have hdecl : declaration fuel { p with previous := x } = declaration fuel p := by
      have h1 : check { p with previous := x } TokenType.TOKEN_INCLUDE = false := by
        simp [check, hfunc]
      have h2 : check p TokenType.TOKEN_INCLUDE = false := by simp [check, hfunc]
      have h3 : pmatch { p with previous := x } TokenType.TOKEN_FUNC = (true, p.advance) := by
        simp [pmatch, check, hfunc, Parser.advance]
      have h4 : pmatch p TokenType.TOKEN_FUNC = (true, p.advance) := by
        simp [pmatch, check, hfunc]
      rw [declaration, declaration, h1, h2, h3, h4]
      simp only [Bool.false_eq_true, if_false, if_true]
    have hc : check { p with previous := x } TokenType.TOKEN_EOF = check p TokenType.TOKEN_EOF :=
      rfl
    rw [parseLoop, parseLoop, hc, hdecl]
    split
    · cases declaration fuel p with
      | none => rfl
      | some r => rfl
    · cases h : check p TokenType.TOKEN_EOF with
      | false => simp [h] at *
      | true => simp [check, hfunc] at h

theorem parse_behind_include (pre source : List Char) (k d fuel : Nat)
    (hinc : (parserAt (pre ++ source)).current.type = TokenType.TOKEN_INCLUDE)
    (hskip : ∀ i, i < k →
      includeStop ((parserAt (pre ++ source)).advanceN (i + 1)).current.type = false)
    (hnext : scanToken ((parserAt (pre ++ source)).advanceN k).lexer =
      shiftResult pre d (scanToken (initLexer source)))
    (hfunc : (parserAt source).current.type = TokenType.TOKEN_FUNC) (hk : k < fuel) :
    parse (fuel + 1) (pre ++ source) = shiftPResult pre d (parse fuel source) := by
  have hflags := advanceN_flags (parserAt (pre ++ source)) k
  have hstate : (parserAt (pre ++ source)).advanceN (k + 1) =
      { (parserAt source).shift pre d with
        previous := ((parserAt (pre ++ source)).advanceN k).current } := by
    rw [advanceN_last]
    simp only [Parser.advance, hnext, shiftResult, hflags.1, hflags.2.1, hflags.2.2]
    simp [parserAt, initParser, Parser.advance, Parser.shift]
  have hcur : ((parserAt source).shift pre d).current.type = TokenType.TOKEN_FUNC := hfunc
  have hstop : includeStop ((parserAt (pre ++ source)).advanceN (k + 1)).current.type = true := by
    rw [hstate]
    show includeStop ((parserAt source).shift pre d).current.type = true
    rw [hcur]
    rfl
  have hloop : parseLoop (fuel + 1) (parserAt (pre ++ source)) [] =
      shiftEntries pre d (parseLoop fuel (parserAt source) []) := by
    rw [parseLoop_of_include fuel k _ hinc hskip hstop hk, hstate,
      parseLoop_at_func fuel _ _ hcur]
    have := parseLoop_shift pre d fuel (parserAt source) []
    rw [relocateEntries_nil] at this
    exact this
  unfold parse
  have e1 : initParser (initLexer (pre ++ source)) = parserAt (pre ++ source) := rfl
  have e2 : initParser (initLexer source) = parserAt source := rfl
  rw [e1, e2, hloop]
  cases parseLoop fuel (parserAt source) [] with
  | none => rfl
  | some x =>
    obtain ⟨statements, p⟩ := x
    simp only [shiftEntries, Option.map]
    have hflag : (p.shift pre d).hadError = p.hadError := rfl
    rw [hflag]
    split
    · simp only [shiftPResult, Option.map, relocateOptional_none]
    · simp only [shiftPResult, Option.map, relocateOptional_some, relocate_programNode]

/-- C21 (amended): at an `#include` token `declaration` returns no node and
writes no diagnostic, and it consumes the directive together with every
token up to the next `func` keyword or the end of input: when the `k` tokens
behind `#include` are neither, and the token after them is, the parser
continues at that token (given more than `k` units of fuel), and the main
loop of `parse` goes on from there with the statement list it had.  Hence
for every source that begins with the keyword `func`, put behind a text
`pre` that holds an `#include` directive of `k` further tokens and `d`
newlines (the token scanned after those `k` is the first token of the
source, `d` lines down), `parse` gives what it gives on the source alone:
the same tree with the token lines increased by `d`, the same error flag,
the same diagnostics `d` lines down, and no result exactly when there is
none.  A directive followed on the same line by a function parses to the
very same Program as the function alone. -/
theorem include_skips_to_func :
    (∀ (k fuel : Nat) (p : Parser), p.current.type = TokenType.TOKEN_INCLUDE →
      (∀ i, i < k → includeStop (p.advanceN (i + 1)).current.type = false) →
      includeStop (p.advanceN (k + 1)).current.type = true → k < fuel →
      declaration fuel p = some (none, p.advanceN (k + 1)) ∧
      (p.advanceN (k + 1)).hadError = p.hadError ∧
      (p.advanceN (k + 1)).diagnostics = p.diagnostics ∧
      ∀ statements, parseLoop (fuel + 1) p statements =
        parseLoop fuel (p.advanceN (k + 1)) statements) ∧
    (∀ (pre source : List Char) (k d fuel : Nat),
      (parserAt (pre ++ source)).current.type = TokenType.TOKEN_INCLUDE →
      (∀ i, i < k →
        includeStop ((parserAt (pre ++ source)).advanceN (i + 1)).current.type = false) →
      scanToken ((parserAt (pre ++ source)).advanceN k).lexer =
        shiftResult pre d (scanToken (initLexer source)) →
      (parserAt source).current.type = TokenType.TOKEN_FUNC → k < fuel →
      parse (fuel + 1) (pre ++ source) = shiftPResult pre d (parse fuel source)) ∧
    (∃ p, parse 60 srcIncludeThenFunc = some (some oneTree, p)) ∧
    (∃ p, parse 60 srcFuncAlone = some (some oneTree, p)) := by
  refine ⟨?_, parse_behind_include, parse_eq_of_beq (by decide!), parse_eq_of_beq (by decide!)⟩
  intro k fuel p hinc hskip hstop hk
  have hdecl : declaration fuel p = some (none, p.advanceN (k + 1)) := by
    have hc : check p TokenType.TOKEN_INCLUDE = true := by simp [check, hinc]
    rw [declaration, if_pos hc, advanceN_step]
    exact includeDeclaration_skip k fuel p.advance
      (fun i hi => by
        have := hskip i hi
        rwa [advanceN_step] at this)
      (by rwa [advanceN_step] at hstop) hk
  obtain ⟨h1, _, h3⟩ := advanceN_flags p (k + 1)
  exact ⟨hdecl, h1, h3, parseLoop_of_include fuel k p hinc hskip hstop hk⟩

/-- Witness for C21 (amended): in `srcIncludeThenLet` the eight tokens
behind `#include` (`<`, `io`, `>`, `let`, `x`, `=`, `1` and `;`) are skipped
and the parser continues at the keyword `func`; and the two functions of
`srcTwoFunctions` behind the line `#include <io>` parse as they do alone,
one line further down. -/
theorem include_skips_to_func_witness :
    (parserAt srcIncludeThenLet).current.type = TokenType.TOKEN_INCLUDE ∧
    ((parserAt srcIncludeThenLet).advanceN 9).current.type = TokenType.TOKEN_FUNC ∧
    (declaration 20 (parserAt srcIncludeThenLet) =
        some (none, (parserAt srcIncludeThenLet).advanceN (8 + 1)) ∧
      ((parserAt srcIncludeThenLet).advanceN (8 + 1)).hadError
        = (parserAt srcIncludeThenLet).hadError ∧
      ((parserAt srcIncludeThenLet).advanceN (8 + 1)).diagnostics
        = (parserAt srcIncludeThenLet).diagnostics ∧
      ∀ statements, parseLoop (20 + 1) (parserAt srcIncludeThenLet) statements =
        parseLoop 20 ((parserAt srcIncludeThenLet).advanceN (8 + 1)) statements) ∧
    parse (60 + 1) (includeLine ++ srcTwoFunctions) =
      shiftPResult includeLine 1 (parse 60 srcTwoFunctions) ∧
    (parse 60 srcTwoFunctions).map (fun r => r.1.map statementCount) = some (some 2) ∧
    (parse 61 (includeLine ++ srcTwoFunctions)).map (fun r => r.1.map statementCount)
      = some (some 2) :=
  ⟨by decide!, by decide!,
    include_skips_to_func.1 8 20 (parserAt srcIncludeThenLet) (by decide!)
      (by decide!) (by decide!) (by decide),
    include_skips_to_func.2.1 includeLine srcTwoFunctions 3 1 60 (by decide!) (by decide!)
      (by decide!) (by decide!) (by decide),
    by decide!, by decide!⟩

/-! ## Return statements are not compared with the declared return type -/

/-- C40: `typeCheck` never compares the value of a return statement with the
declared return type of the enclosing function.  A Return node whose value is
a literal, a variable reference or a call is accepted on every symbol table
(the call returns 1 and leaves the table as it was), since the value falls
into the `default` case.  The program `func int f() \x7b return 1.5; \x7d` parses to
a function declared `int` whose body returns a value that `getTypeInfo` types
as `float`; the two types are not compatible, and `typeCheck` succeeds. -/
theorem typeCheck_return_ignores_declared_type :
    (∀ (fuel line l : Nat) (token : Token) (symbols : SymbolTable),
      ∃ r, typeCheck (fuel + 2)
            (some (ASTNode.returnStmt line (some (ASTNode.literal l token)))) symbols = some r ∧
        r.ok = true ∧ r.symbols = symbols) ∧
    (∀ (fuel line l : Nat) (name : List Char) (symbols : SymbolTable),
      ∃ r, typeCheck (fuel + 2)
            (some (ASTNode.returnStmt line (some (ASTNode.variable l name)))) symbols = some r ∧
        r.ok = true ∧ r.symbols = symbols) ∧
    (∀ (fuel line l : Nat) (callee : Option ASTNode) (args : List (Option ASTNode))
        (symbols : SymbolTable),
      ∃ r, typeCheck (fuel + 2)
            (some (ASTNode.returnStmt line (some (ASTNode.call l callee args)))) symbols = some r ∧
        r.ok = true ∧ r.symbols = symbols) ∧
    (∃ p, parse 60 srcReturnFloat = some (some returnFloatTree, p)) ∧
    (∀ (fuel : Nat) (symbols : SymbolTable),
      getTypeInfo (fuel + 1) (some floatValue) symbols
          = some (some (createTypeInfo "float".toList 4 true)) ∧
        getTypeInfo (fuel + 1) (some (ASTNode.literal 1 intToken)) symbols
          = some (some (createTypeInfo "int".toList 4 true))) ∧
    areTypesCompatible (some (createTypeInfo "int".toList 4 true))
      (some (createTypeInfo "float".toList 4 true)) = false ∧
    (typeCheck 60 (some returnFloatTree) createSymbolTable).map (fun r => r.ok) = some true ∧
    (checkSource 60 srcReturnFloat).map (fun r => r.ok) = some true := by
  refine ⟨?_, ?_, ?_, parse_eq_of_beq (by decide!), ?_, by decide!, by decide!, by decide!⟩
  · intro fuel line l token symbols
    exact ⟨_, rfl, rfl, rfl⟩
  · intro fuel line l name symbols
    exact ⟨_, rfl, rfl, rfl⟩
  · intro fuel line l callee args symbols
    exact ⟨_, rfl, rfl, rfl⟩
  · intro fuel symbols
    exact ⟨rfl, rfl⟩

/-! ## Panic mode is never left -/

theorem reaches_panic {p q : Parser} (h : Reaches p q) (hp : p.panicMode = true) :
    q.panicMode = true ∧ q.diagnostics = p.diagnostics := by
  induction h with
  | refl => exact ⟨hp, rfl⟩
  | advance _ ih => exact ih
  | error tok msg _ ih => rw [errorAt_panic _ _ _ ih.1]; exact ih

theorem panicOnce_of_reaches {p q : Parser} (h : Reaches p q) (hp : panicOnce p) :
    panicOnce q := by
  induction h with
  | refl => exact hp
  | advance _ ih => exact ih
  | error tok msg h1 ih =>
    rename_i q1
    cases hm : q1.panicMode with
    | true => rw [errorAt_panic _ _ _ hm]; exact ih
    | false =>
      refine ⟨fun h => ?_, fun _ => ?_⟩
      · rw [errorAt_panicMode] at h; cases h
      · simp [errorAt, hm, ih.1 hm]

theorem panicOnce_initParser (lx : Lexer) : panicOnce (initParser lx) :=
  ⟨fun _ => rfl, fun h => by cases h⟩

theorem parse_reach {fuel : Nat} {source : List Char} {r : Option ASTNode} {p : Parser}
    (h : parse fuel source = some (r, p)) : Reaches (initParser (initLexer source)) p := by
  simp only [parse] at h
  split at h
  · cases h
  · rename_i ss q hl
    have hq := parseLoop_reach fuel hl
    split at h <;> (cases h; exact hq)

/-- The counterexample of C37: in `srcTwoErrors` the `return` statements of
the first and of the third function lack their `;`, and the second function
is matched without error in between.  The parser writes the diagnostic of
line 1 only and ends in panic mode, although the third function alone (on the
same line 3) is reported. -/
theorem second_error_not_reported :
    (parse 60 srcTwoErrors).map (fun r => (r.1.isSome, r.2.diagnostics, r.2.panicMode))
      = some (false, [missingSemicolon 1], true) ∧
    (parse 60 srcSecondError).map (fun r => (r.1.isSome, r.2.diagnostics, r.2.panicMode))
      = some (false, [missingSemicolon 3], true) := by
  exact ⟨by decide!, by decide!⟩

/-- C37 (amended): panic mode suppresses diagnostics for the rest of the
parse.  `errorAt` is the only place that writes `panicMode` after
`initParser`, and it sets it: once the flag is set, parsing any further
declaration, whatever it matches, leaves the flag set and writes no
diagnostic.  Hence every parse writes at most one diagnostic, and it ends in
panic mode exactly when it wrote one; a second, independent syntax error in
a later declaration is not reported. -/
theorem panicMode_never_cleared :
    (∀ (fuel : Nat) (p q : Parser) (r : Option ASTNode),
      declaration fuel p = some (r, q) → p.panicMode = true →
        q.panicMode = true ∧ q.diagnostics = p.diagnostics) ∧
    (∀ (fuel : Nat) (p q : Parser) (ss r : List (Option ASTNode)),
      parseLoop fuel p ss = some (r, q) → p.panicMode = true →
        q.panicMode = true ∧ q.diagnostics = p.diagnostics) ∧
    (∀ (fuel : Nat) (source : List Char) (r : Option ASTNode) (p : Parser),
      parse fuel source = some (r, p) →
        p.diagnostics.length ≤ 1 ∧ (p.panicMode = true ↔ p.diagnostics.length = 1) ∧
        (p.hadError = true ↔ p.diagnostics.length = 1)) := by
  refine ⟨fun fuel p q r h hp => reaches_panic (declaration_reach h) hp,
    fun fuel p q ss r h hp => reaches_panic (parseLoop_reach fuel h) hp, ?_⟩
  intro fuel source r p h
  have hr := parse_reach h
  have ho := panicOnce_of_reaches hr (panicOnce_initParser _)
  have hs := panicSound_of_reaches hr (panicSound_initParser _)
  have hf := errorFlagSound_of_reaches hr (errorFlagSound_init _)
  cases hm : p.panicMode with
  | false =>
    have hd := ho.1 hm
    have he : p.hadError = false := by
      cases hh : p.hadError with
      | false => rfl
      | true => exact absurd hd (hf.mp hh)
    simp [hd, he]
  | true =>
    have hd := ho.2 hm
    have he : p.hadError = true := hs hm
    simp [hd, he]

/-- Witness for C37: the parse of `srcTwoErrors`. -/
theorem panicMode_never_cleared_witness :
    ∃ p, parse 60 srcTwoErrors = some (none, p) ∧
      p.diagnostics.length ≤ 1 ∧ (p.panicMode = true ↔ p.diagnostics.length = 1) ∧
      (p.hadError = true ↔ p.diagnostics.length = 1) :=
  (parse_eq_of_beq (by decide! :
    (parse 60 srcTwoErrors).map (fun r => beqOpt r.1 none) = some true)).elim
    (fun p hp => ⟨p, hp, panicMode_never_cleared.2.2 60 srcTwoErrors none p hp⟩)

/-! ## Calls use the flattened callee name -/

theorem dotJoined_snoc (components : List (List Char)) (name : List Char)
    (h : components ≠ []) :
    dotJoined (components ++ [name]) = dotJoined components ++ ['.'] ++ name := by
  induction components with
  | nil => exact absurd rfl h
  | cons c rest ih =>
    cases rest with
    | nil => simp [dotJoined, List.intercalate, List.intersperse]
    | cons d rest2 =>
      have := ih (by simp)
      simp only [dotJoined, List.intercalate, List.cons_append, List.intersperse,
        List.flatten_cons, List.append_assoc] at this ⊢
      have e : rest2.append [name] = rest2 ++ [name] := rfl
      rw [e, this]

theorem nameChain_ne_nil {node : ASTNode} {components : List (List Char)}
    (h : NameChain node components) : components ≠ [] := by
  cases h <;> simp

theorem getCalleeName_chain {node : ASTNode} {components : List (List Char)}
    (h : NameChain node components) :
    getCalleeNameOfNode node = some (dotJoined components) := by
  induction h with
  | base line name => simp [getCalleeNameOfNode, dotJoined, List.intercalate, List.intersperse]
  | member line object components name hc ih =>
    rw [getCalleeNameOfNode, ih, dotJoined_snoc _ _ (nameChain_ne_nil hc)]

theorem flattenName_length (name : List Char) : (flattenName name).length = name.length := by
  simp [flattenName]

/-- C32: for a call whose callee is a variable or a member-access chain,
`genCall` emits, after the code of the arguments, the single line `call N`,
where `N` is the dot-joined full name of the callee with every `.` replaced
by `_` and every other character unchanged and in place (the callee
`sys.IO.print.PrintInt` gives `call sys_IO_print_PrintInt`); `flattenName`
preserves the length, is the identity on names without dots, is idempotent,
and its result holds no dot. -/
theorem genCall_flattened_name :
    (∀ (ctx : CGContext) (callee : ASTNode) (components : List (List Char))
        (args : List (Option ASTNode)) (line : Nat),
      NameChain callee components →
        genCall ctx (some callee) args
          = genArgs ctx args 0 ++ [Instr.call (flattenName (dotJoined components))] ∧
        genExpression ctx (some (ASTNode.call line (some callee) args))
          = genCall ctx (some callee) args) ∧
    (∀ name : List Char, (flattenName name).length = name.length) ∧
    (∀ (name : List Char) (i : Nat) (c : Char), name.get? i = some c →
      (flattenName name).get? i = some (if c = '.' then '_' else c)) ∧
    (∀ name : List Char, '.' ∉ name → flattenName name = name) ∧
    (∀ name : List Char, flattenName (flattenName name) = flattenName name) ∧
    (∀ name : List Char, '.' ∉ flattenName name) ∧
    NameChain printIntCallee ["sys".toList, "IO".toList, "print".toList, "PrintInt".toList] ∧
    (∀ ctx : CGContext,
      (genCall ctx (some printIntCallee) []).map Instr.render
        = ["\tcall sys_IO_print_PrintInt\n".toList]) := by
  refine ⟨?_, flattenName_length, ?_, ?_, ?_, ?_, ?_, ?_⟩
  · intro ctx callee components args line h
    refine ⟨?_, ?_⟩
    · simp only [genCall, getCalleeName, getCalleeName_chain h]
    · simp only [genExpression, genExpressionNode, genCall]
  · intro name i c h
    simp only [flattenName, List.get?_eq_getElem?, List.getElem?_map] at h ⊢
    rw [h]; rfl
  · intro name h
    simp only [flattenName]
    conv_rhs => rw [← List.map_id name]
    apply List.map_congr_left
    intro c hc
    have : c ≠ '.' := fun e => h (e ▸ hc)
    simp [this]
  · intro name
    simp only [flattenName, List.map_map]
    apply List.map_congr_left
    intro c _
    by_cases hc : c = '.' <;> simp [hc]
  · intro name h
    simp only [flattenName, List.mem_map] at h
    obtain ⟨c, _, hc⟩ := h
    by_cases hd : c = '.' <;> simp [hd] at hc
  · exact NameChain.member 1 _ ["sys".toList, "IO".toList, "print".toList] _
      (NameChain.member 1 _ ["sys".toList, "IO".toList] _
        (NameChain.member 1 _ ["sys".toList] _ (NameChain.base 1 _)))
  · intro ctx
    rfl

/-- Witness for C32: the callee `sys.IO.print.PrintInt`. -/
theorem genCall_flattened_name_witness :
    NameChain printIntCallee ["sys".toList, "IO".toList, "print".toList, "PrintInt".toList] ∧
    genCall (CGContext.mk none 0 none 0 []) (some printIntCallee) []
      = genArgs (CGContext.mk none 0 none 0 []) [] 0 ++
        [Instr.call (flattenName (dotJoined
          ["sys".toList, "IO".toList, "print".toList, "PrintInt".toList]))] ∧
    flattenName (dotJoined ["sys".toList, "IO".toList, "print".toList, "PrintInt".toList])
      = "sys_IO_print_PrintInt".toList :=
  ⟨genCall_flattened_name.2.2.2.2.2.2.1,
    (genCall_flattened_name.1 (CGContext.mk none 0 none 0 []) printIntCallee _ [] 1
      genCall_flattened_name.2.2.2.2.2.2.1).1, by decide⟩

/-! ## Stack slots of parameters and locals -/

theorem firstIndex_of_first (s : List Char) : ∀ (l : List (List Char)) (i k : Nat),
    l.get? k = some s → (∀ j, j < k → l.get? j ≠ some s) → firstIndex l s i = some (i + k)
  | [], i, k, h, _ => by simp at h
  | n :: rest, i, 0, h, _ => by
    simp only [List.get?_cons_zero, Option.some.injEq] at h
    simp [firstIndex, h]
  | n :: rest, i, k + 1, h, hfirst => by
    have hn : n ≠ s := by
      have := hfirst 0 (by omega)
      simpa using this
    rw [firstIndex, if_neg hn,
      firstIndex_of_first s rest (i + 1) k (by simpa using h)
        (fun j hj => by simpa using hfirst (j + 1) (by omega))]
    congr 1
    omega

theorem paramNamesOf_length : ∀ {params : List ASTNode} {names : List (List Char)},
    paramNamesOf params = some names → names.length = params.length
  | [], names, h => by
    simp only [paramNamesOf, Option.some.injEq] at h
    rw [← h]
    rfl
  | p :: rest, names, h => by
    cases p
    case varDecl line name type init =>
      simp only [paramNamesOf] at h
      cases hr : paramNamesOf rest with
      | none => rw [hr] at h; cases h
      | some names1 =>
        rw [hr] at h
        simp only [Option.some.injEq] at h
        rw [← h]
        simp [paramNamesOf_length hr]
    all_goals simp [paramNamesOf] at h

/-- The context that `genFunction` leaves for the body of a function with
the given parameter and local names resolves a name among the parameters
first and then among the locals. -/
theorem slotIndexOf_frame (ctx : CGContext) (names locals : List (List Char))
    (x : List Char) :
    slotIndexOf
        { ctx with
          paramCount := names.length
          paramNames := if names.length > 0 then some names else none
          localCount := locals.length
          localNames := if locals.length > 0 then some locals else none } x
      = match firstIndex names x 0 with
        | some i => some i
        | none => (firstIndex locals x 0).map (fun j => names.length + j) := by
  have en : List.take names.length names = names := List.take_length names
  have el : List.take locals.length locals = locals := List.take_length locals
  have locals_part :
      (match (if locals.length > 0 then some locals else none : Option (List (List Char))) with
        | none => none
        | some ns =>
          match firstIndex (List.take locals.length ns) x 0 with
          | some i => some (names.length + i)
          | none => none)
        = (firstIndex locals x 0).map (fun j => names.length + j) := by
    by_cases hl : locals.length > 0
    · simp only [hl, if_true, el]
      cases firstIndex locals x 0 <;> rfl
    · have : locals = [] := List.length_eq_zero.mp (by omega)
      subst this
      rfl
  unfold slotIndexOf
  dsimp only
  by_cases hn : names.length > 0
  · simp only [hn, if_true, en]
    cases h1 : firstIndex names x 0 with
    | some i => rfl
    | none => exact locals_part
  · have : names = [] := List.length_eq_zero.mp (by omega)
    subst this
    exact locals_part

theorem freeNamesLoop_eq (size : Nat) : ∀ (remaining i : Nat),
    freeNamesLoop size remaining i
      = if remaining = 0 ∨ i + remaining ≤ size
        then some ((List.range remaining).map (fun k => i + k))
        else none
  | 0, i => by
    simp [freeNamesLoop]
  | remaining + 1, i => by
    rw [freeNamesLoop, freeNamesLoop_eq size remaining (i + 1)]
    by_cases h : i + (remaining + 1) ≤ size
    · have h1 : i < size := by omega
      have h2 : remaining = 0 ∨ i + 1 + remaining ≤ size := Or.inr (by omega)
      have h3 : remaining + 1 = 0 ∨ i + (remaining + 1) ≤ size := Or.inr h
      simp only [h1, h2, h3, if_true, Option.map_some', Option.some.injEq]
      rw [List.range_succ_eq_map]
      simp only [List.map_cons, Nat.add_zero, List.map_map, List.cons.injEq, true_and]
      apply List.map_congr_left
      intro k _
      simp only [Function.comp_apply]
      omega
    · have h3 : ¬ (remaining + 1 = 0 ∨ i + (remaining + 1) ≤ size) := by omega
      by_cases h1 : i < size
      · have h2 : ¬ (remaining = 0 ∨ i + 1 + remaining ≤ size) := by omega
        simp only [h3, h1, h2, if_true, if_false, Option.map_none']
      · simp only [h3, h1, if_false]

theorem clearNames_some (names : List (List Char)) (count : Nat) :
    clearNames (some names) count
      = if count ≤ names.length then some (List.range count) else none := by
  simp only [clearNames, freeNamesLoop_eq, Nat.zero_add]
  by_cases h : count ≤ names.length
  · rw [if_pos (Or.inr h), if_pos h]
    simp
  · have : ¬ (count = 0 ∨ count ≤ names.length) := by omega
    rw [if_neg this, if_neg h]

theorem cleanupInBounds_iff (ctx : CGContext) (paramCount localCount : Nat) :
    cleanupInBounds ctx paramCount localCount = true ↔
      (∀ old, ctx.paramNames = some old → paramCount ≤ old.length) ∧
      (∀ old, ctx.localNames = some old → localCount ≤ old.length) := by
  have key : ∀ (o : Option (List (List Char))) (n : Nat),
      (clearNames o n).isSome = true ↔ ∀ old, o = some old → n ≤ old.length := by
    intro o n
    cases o with
    | none => simp [clearNames]
    | some names =>
      rw [clearNames_some]
      by_cases h : n ≤ names.length
      · simp [h]
      · simp [h]
  simp only [cleanupInBounds, Bool.and_eq_true, key]

theorem genFunction_eq (ctx : CGContext) (line : Nat) (name : List Char)
    (params : List ASTNode) (returnType : Option ASTNode) (l2 : Nat)
    (statements : List (Option ASTNode)) (names : List (List Char))
    (h : paramNamesOf params = some names)
    (hc : cleanupInBounds ctx params.length (localNamesOf statements).length = true) :
    genFunction ctx
        (ASTNode.functionDecl line name params returnType
          (some (ASTNode.program l2 statements)))
      = some
        (frameLines name params.length (localNamesOf statements).length ++
          genStatements (bodyContext ctx names (localNamesOf statements)) params.length
            statements ++
          [Instr.movImm "0".toList Reg.rax] ++ emitEpilogue,
        bodyContext ctx names (localNamesOf statements)) := by
  have hl := paramNamesOf_length h
  simp only [genFunction, h, hc, if_true, frameLines, bodyContext, stackSizeOf, hl,
    List.append_assoc]

theorem genFunction_out_of_bounds (ctx : CGContext) (line : Nat) (name : List Char)
    (params : List ASTNode) (returnType : Option ASTNode) (l2 : Nat)
    (statements : List (Option ASTNode))
    (hc : cleanupInBounds ctx params.length (localNamesOf statements).length = false) :
    genFunction ctx
        (ASTNode.functionDecl line name params returnType
          (some (ASTNode.program l2 statements))) = none := by
  simp only [genFunction, hc, Bool.false_eq_true, if_false]
  cases paramNamesOf params <;> rfl

theorem slotIndexOf_bodyContext (ctx : CGContext) (names locals : List (List Char))
    (x : List Char) :
    slotIndexOf (bodyContext ctx names locals) x
      = match firstIndex names x 0 with
        | some i => some i
        | none => (firstIndex locals x 0).map (fun j => names.length + j) :=
  slotIndexOf_frame ctx names locals x

theorem slotIndexOf_param (ctx : CGContext) {names : List (List Char)}
    (locals : List (List Char)) {x : List Char} {i : Nat}
    (h : names.get? i = some x) (hfirst : ∀ k, k < i → names.get? k ≠ some x) :
    slotIndexOf (bodyContext ctx names locals) x = some i := by
  rw [slotIndexOf_bodyContext, firstIndex_of_first x names 0 i h hfirst]
  simp

theorem slotIndexOf_local (ctx : CGContext) {names locals : List (List Char)}
    {x : List Char} {j : Nat} (hx : x ∉ names)
    (h : locals.get? j = some x) (hfirst : ∀ k, k < j → locals.get? k ≠ some x) :
    slotIndexOf (bodyContext ctx names locals) x = some (names.length + j) := by
  rw [slotIndexOf_bodyContext, (firstIndex_none x names 0).mpr hx,
    firstIndex_of_first x locals 0 j h hfirst]
  simp

theorem slotIndexOf_none (ctx : CGContext) {names locals : List (List Char)}
    {x : List Char} (hx : x ∉ names) (hl : x ∉ locals) :
    slotIndexOf (bodyContext ctx names locals) x = none := by
  rw [slotIndexOf_bodyContext, (firstIndex_none x names 0).mpr hx,
    (firstIndex_none x locals 0).mpr hl]
  rfl

theorem first_of_mem {l : List (List Char)} {x : List Char} (h : x ∈ l) :
    ∃ i, l.get? i = some x ∧ ∀ k, k < i → l.get? k ≠ some x := by
  cases hf : firstIndex l x 0 with
  | none => exact absurd h ((firstIndex_none x l 0).mp hf)
  | some i =>
    obtain ⟨_, h2, h3⟩ := firstIndex_some x l 0 i hf
    exact ⟨i, by simpa using h2, fun k hk => h3 k (by omega)⟩

theorem immValue_zero : immValue "0".toList = some 0 := by decide

/-- C34: in the context in which `genFunction` generates the body of a
function, a variable reference whose name is neither a parameter nor a
directly declared local makes `genExpression` emit a comment and
`mov $0, %rax`, which runs without fault and leaves 0 in `%rax`; nothing
else is written and the generator goes on.  A name that is a parameter is
loaded from the slot of its first occurrence among the parameters, also when
a local has the same name; a name that is only a local is loaded from the
slot of that local, behind the parameters.  `genFunction` generates the body
in this context whenever its clean-up loops stay inside the name arrays that
the previous function left. -/
theorem variable_reference_slot_or_zero (ctx : CGContext) (line : Nat) (name : List Char)
    (params : List ASTNode) (returnType : Option ASTNode) (l2 : Nat)
    (statements : List (Option ASTNode)) (names : List (List Char))
    (h : paramNamesOf params = some names) :
    (cleanupInBounds ctx params.length (localNamesOf statements).length = true →
      ∃ lines,
        genFunction ctx
            (ASTNode.functionDecl line name params returnType
              (some (ASTNode.program l2 statements)))
          = some (lines, bodyContext ctx names (localNamesOf statements))) ∧
    ∀ (l : Nat) (x : List Char),
      (x ∉ names → x ∉ localNamesOf statements →
        genExpression (bodyContext ctx names (localNamesOf statements))
            (some (ASTNode.variable l x))
            = [Instr.comment ("variable ".toList ++ x ++
                  " not found in locals/params, default 0".toList),
                Instr.movImm "0".toList Reg.rax] ∧
          ∀ (env : Env) (m : Machine),
            exec env (genExpression (bodyContext ctx names (localNamesOf statements))
                (some (ASTNode.variable l x))) m
              = some (m.set Reg.rax 0)) ∧
      (x ∈ names →
        ∃ i, names.get? i = some x ∧ (∀ k, k < i → names.get? k ≠ some x) ∧
          genExpression (bodyContext ctx names (localNamesOf statements))
              (some (ASTNode.variable l x))
            = [Instr.load (8 * (i + 1)) Reg.rax]) ∧
      (x ∉ names → x ∈ localNamesOf statements →
        ∃ j, (localNamesOf statements).get? j = some x ∧
          (∀ k, k < j → (localNamesOf statements).get? k ≠ some x) ∧
          genExpression (bodyContext ctx names (localNamesOf statements))
              (some (ASTNode.variable l x))
            = [Instr.load (8 * (params.length + j + 1)) Reg.rax]) := by
  refine ⟨fun hc =>
    ⟨_, genFunction_eq ctx line name params returnType l2 statements names h hc⟩, ?_⟩
  intro l x
  refine ⟨?_, ?_, ?_⟩
  · intro hx hl
    have e : genExpression (bodyContext ctx names (localNamesOf statements))
        (some (ASTNode.variable l x))
          = [Instr.comment ("variable ".toList ++ x ++
                " not found in locals/params, default 0".toList),
              Instr.movImm "0".toList Reg.rax] := by
      simp only [genExpression, genExpressionNode, slotIndexOf_none ctx hx hl]
    refine ⟨e, ?_⟩
    intro env m
    rw [e]
    simp only [exec, step, immValue_zero]
  · intro hx
    obtain ⟨i, hi, hfirst⟩ := first_of_mem hx
    refine ⟨i, hi, hfirst, ?_⟩
    simp only [genExpression, genExpressionNode, slotIndexOf_param ctx _ hi hfirst]
  · intro hx hl
    obtain ⟨j, hj, hfirst⟩ := first_of_mem hl
    refine ⟨j, hj, hfirst, ?_⟩
    simp only [genExpression, genExpressionNode, slotIndexOf_local ctx hx hj hfirst,
      paramNamesOf_length h]

/-- Witness for C34: the function `srcSlots`, generated behind a function
with three parameters and two locals, with the names `g` (neither parameter
nor local), `b` (second parameter) and `d` (second local). -/
theorem variable_reference_slot_or_zero_witness :
    paramNamesOf slotParams = some ["a".toList, "b".toList] ∧
    cleanupInBounds priorContext slotParams.length (localNamesOf slotBody).length = true ∧
    (∃ lines,
      genFunction priorContext slotFunction
        = some (lines, bodyContext priorContext ["a".toList, "b".toList]
            (localNamesOf slotBody))) ∧
    genExpression (bodyContext priorContext ["a".toList, "b".toList] (localNamesOf slotBody))
        (some (ASTNode.variable 0 "g".toList))
      = [Instr.comment "variable g not found in locals/params, default 0".toList,
          Instr.movImm "0".toList Reg.rax] ∧
    genExpression (bodyContext priorContext ["a".toList, "b".toList] (localNamesOf slotBody))
        (some (ASTNode.variable 0 "b".toList))
      = [Instr.load 16 Reg.rax] ∧
    genExpression (bodyContext priorContext ["a".toList, "b".toList] (localNamesOf slotBody))
        (some (ASTNode.variable 0 "d".toList))
      = [Instr.load 32 Reg.rax] := by
  obtain ⟨hg, hv⟩ :=
    variable_reference_slot_or_zero priorContext 0 "f".toList slotParams
      (some (ASTNode.literal 1 intToken)) 0 slotBody ["a".toList, "b".toList] rfl
  refine ⟨rfl, by decide, hg (by decide), ?_, ?_, ?_⟩
  · exact ((hv 0 "g".toList).1 (by decide) (by decide)).1
  · obtain ⟨i, hi, _, he⟩ := (hv 0 "b".toList).2.1 (by decide)
    have : i = 1 := by
      rcases i with _ | _ | k
      · exact absurd hi (by decide)
      · rfl
      · simp at hi
    rw [he, this]
  · obtain ⟨j, hj, _, he⟩ := (hv 0 "d".toList).2.2 (by decide) (by decide)
    have hl : localNamesOf slotBody = ["c".toList, "d".toList] := rfl
    rw [hl] at hj
    have : j = 1 := by
      rcases j with _ | _ | k
      · exact absurd hj (by decide)
      · rfl
      · simp at hj
    rw [he, this]
    rfl

/-! ## Layout of the stack frame -/

theorem subImm_not_mem_binaryOpCode (op : TokenType) (v : Nat) (r : Reg) :
    Instr.subImm v r ∉ binaryOpCode op := by
  unfold binaryOpCode
  split <;> simp

theorem subImm_not_mem_genLiteral (ctx : CGContext) (t : Token) (v : Nat) (r : Reg) :
    Instr.subImm v r ∉ genLiteral ctx t := by
  unfold genLiteral
  split
  · simp
  · split
    · split <;> simp
    · simp

mutual

theorem subImm_not_mem_genExpressionNode (ctx : CGContext) (v : Nat) (r : Reg) :
    ∀ n : ASTNode, Instr.subImm v r ∉ genExpressionNode ctx n
  | .literal _ t => by
    simp only [genExpressionNode]
    exact subImm_not_mem_genLiteral ctx t v r
  | .variable _ name => by
    simp only [genExpressionNode]
    split <;> simp
  | .binary _ op left right => by
    simp only [genExpressionNode, List.mem_append, not_or]
    exact ⟨⟨⟨⟨subImm_not_mem_genExpression ctx v r left, by simp⟩,
      subImm_not_mem_genExpression ctx v r right⟩, by simp⟩,
      subImm_not_mem_binaryOpCode _ v r⟩
  | .call _ callee args => by
    simp only [genExpressionNode, List.mem_append, not_or]
    refine ⟨subImm_not_mem_genArgs ctx v r args 0, ?_⟩
    split <;> simp
  | .get _ _ _ => by simp [genExpressionNode]
  | .program _ _ => by simp [genExpressionNode]
  | .functionDecl _ _ _ _ _ => by simp [genExpressionNode]
  | .varDecl _ _ _ _ => by simp [genExpressionNode]
  | .assign _ _ _ => by simp [genExpressionNode]
  | .returnStmt _ _ => by simp [genExpressionNode]
  | .includeNode _ _ => by simp [genExpressionNode]

theorem subImm_not_mem_genExpression (ctx : CGContext) (v : Nat) (r : Reg) :
    ∀ n : Option ASTNode, Instr.subImm v r ∉ genExpression ctx n
  | none => by simp [genExpression]
  | some n => by
    simp only [genExpression]
    exact subImm_not_mem_genExpressionNode ctx v r n

theorem subImm_not_mem_genArgs (ctx : CGContext) (v : Nat) (r : Reg) :
    ∀ (args : List (Option ASTNode)) (i : Nat), Instr.subImm v r ∉ genArgs ctx args i
  | [], i => by simp [genArgs]
  | arg :: rest, i => by
    simp only [genArgs]
    split
    · simp
    · simp only [List.mem_append, not_or]
      exact ⟨⟨subImm_not_mem_genExpression ctx v r arg, by simp⟩,
        subImm_not_mem_genArgs ctx v r rest (i + 1)⟩

end

theorem call_not_mem_storeParams (name : List Char) :
    ∀ n i : Nat, Instr.call name ∉ storeParams n i
  | 0, i => by simp [storeParams]
  | n + 1, i => by
    simp only [storeParams]
    split
    · simp
    · simp only [List.mem_cons, not_or]
      exact ⟨by simp, call_not_mem_storeParams name n (i + 1)⟩

theorem tail_returns_zero (env : Env) (m : Machine) :
    ∃ m1, runToRet env [Instr.movImm "0".toList Reg.rax, Instr.leave, Instr.ret] m = some m1 ∧
      m1.reg Reg.rax = 0 := by
  simp only [runToRet, step, immValue_zero]
  exact ⟨_, rfl, by simp⟩

/-- The counterexample of C33: the routine generated for
`func f() \x7b initSystem(); \x7d`, which is not named `main`, contains
`call initSystem`, and the routine generated for
`func main() \x7b initSystem(); \x7d` contains it twice. -/
theorem body_call_of_initSystem :
    (∃ p, parse 60 srcCallsInit
      = some (some (ASTNode.program 0 [some callsInitFunction]), p)) ∧
    (genFunction emptyContext callsInitFunction).map (fun r => r.1.map Instr.render)
      = some ["\t.globl f\n".toList, "f:\n".toList, "\tpush %rbp\n".toList,
          "\tmov %rsp, %rbp\n".toList, "\tcall initSystem\n".toList,
          "\tmov $0, %rax\n".toList, "\tleave\n".toList, "\tret\n".toList] ∧
    (∃ p, parse 60 srcMainCallsInit
      = some (some (ASTNode.program 0 [some mainCallsInitFunction]), p)) ∧
    (genFunction emptyContext mainCallsInitFunction).map
        (fun r => r.1.count (Instr.call "initSystem".toList)) = some 2 :=
  ⟨parse_eq_of_beq (by decide!), by decide!, parse_eq_of_beq (by decide!), by decide!⟩

/-- C33 (amended): for a call of `genFunction` that runs to its end, that is,
whose clean-up loops stay inside the name arrays that the previous function
left, the text emitted for a function declaration is the frame, the code of
the body statements and the three lines `mov $0, %rax`, `leave`, `ret`.  The
frame starts with `.globl <name>` and the label `<name>:`; it contains
`call initSystem` exactly when the function is named `main`, then exactly
once and as its last line, that is before every instruction generated from a
body statement.  The three closing lines reach the `ret` with 0 in `%rax`,
so control that reaches the end of the body returns 0. -/
theorem genFunction_routine_shape (ctx : CGContext) (line : Nat) (name : List Char)
    (params : List ASTNode) (returnType : Option ASTNode) (l2 : Nat)
    (statements : List (Option ASTNode)) (names : List (List Char))
    (h : paramNamesOf params = some names)
    (hc : cleanupInBounds ctx params.length (localNamesOf statements).length = true) :
    ∃ lines ctx1 frame,
      genFunction ctx
          (ASTNode.functionDecl line name params returnType
            (some (ASTNode.program l2 statements))) = some (lines, ctx1) ∧
      ctx1 = bodyContext ctx names (localNamesOf statements) ∧
      lines = frame ++ genStatements ctx1 params.length statements ++
        [Instr.movImm "0".toList Reg.rax, Instr.leave, Instr.ret] ∧
      frame.take 2 = [Instr.globl name, Instr.label name] ∧
      lines.take 2 = [Instr.globl name, Instr.label name] ∧
      (name = "main".toList →
        frame.count (Instr.call "initSystem".toList) = 1 ∧
        frame.getLast? = some (Instr.call "initSystem".toList)) ∧
      (name ≠ "main".toList → ∀ callee, Instr.call callee ∉ frame) ∧
      (∀ (env : Env) (m m1 : Machine),
        exec env (frame ++ genStatements ctx1 params.length statements) m = some m1 →
        ∃ m2, runToRet env lines m = some m2 ∧ m2.reg Reg.rax = 0) := by
  refine ⟨_, _, frameLines name params.length (localNamesOf statements).length,
    genFunction_eq ctx line name params returnType l2 statements names h hc, rfl,
    ?_, ?_, ?_, ?_, ?_, ?_⟩
  · simp only [emitEpilogue, List.append_assoc, List.singleton_append]
  · simp only [frameLines, emitPrologue, List.append_assoc, List.cons_append, List.take_succ_cons,
      List.take_zero]
  · simp only [frameLines, emitPrologue, List.append_assoc, List.cons_append, List.take_succ_cons,
      List.take_zero]
  · intro hm
    have hs := call_not_mem_storeParams "initSystem".toList params.length 0
    refine ⟨?_, ?_⟩
    · simp only [frameLines, emitPrologue, hm, if_true, List.count_append,
        List.count_eq_zero_of_not_mem hs]
      split <;> simp [List.count_cons]
    · simp only [frameLines, hm, if_true, ← List.append_assoc]
      exact List.getLast?_concat _
  · intro hm callee
    have hs := call_not_mem_storeParams callee params.length 0
    simp only [frameLines, emitPrologue, hm, if_false, List.mem_append, hs, or_false,
      List.append_nil]
    split <;> simp
  · intro env m m1 hrun
    have e : frameLines name params.length (localNamesOf statements).length ++
          genStatements (bodyContext ctx names (localNamesOf statements)) params.length
            statements ++ [Instr.movImm "0".toList Reg.rax] ++ emitEpilogue
        = (frameLines name params.length (localNamesOf statements).length ++
          genStatements (bodyContext ctx names (localNamesOf statements)) params.length
            statements) ++ [Instr.movImm "0".toList Reg.rax, Instr.leave, Instr.ret] := by
      simp only [emitEpilogue, List.append_assoc, List.singleton_append]
    rw [e, runToRet_append env _ _ m m1 hrun]
    exact tail_returns_zero env m1

/-- Witness for C33: the function `f` of `srcSlots`, generated behind a
function with three parameters and two locals, and `main` of `srcMain`. -/
theorem genFunction_routine_shape_witness :
    paramNamesOf slotParams = some ["a".toList, "b".toList] ∧
    cleanupInBounds priorContext slotParams.length (localNamesOf slotBody).length = true ∧
    (∃ lines ctx1,
      genFunction priorContext slotFunction = some (lines, ctx1) ∧
      lines.take 2 = [Instr.globl "f".toList, Instr.label "f".toList]) ∧
    (genFunction priorContext slotFunction).map
        (fun r => r.1.count (Instr.call "initSystem".toList)) = some 0 ∧
    (codegen_generateExecutable mainTree).map
        (fun lines => lines.count (Instr.call "initSystem".toList)) = some 1 := by
  obtain ⟨lines, ctx1, frame, hg, _, _, _, h2, _⟩ :=
    genFunction_routine_shape priorContext 0 "f".toList slotParams
      (some (ASTNode.literal 1 intToken)) 0 slotBody ["a".toList, "b".toList] rfl
      (by decide)
  exact ⟨rfl, by decide, ⟨lines, ctx1, hg, h2⟩, by decide!, by decide!⟩

/-! ## Argument registers are loaded while later arguments are still evaluated -/

theorem immValue_three : immValue "3".toList = some 3 := by decide

theorem immValue_eight : immValue "8".toList = some 8 := by decide

theorem nestedArgs_lines (ctx : CGContext) :
    genArgs ctx nestedArgs 0
      = [Instr.movImm "1".toList Reg.rax, Instr.movReg Reg.rax Reg.rdi,
          Instr.movImm "2".toList Reg.rax, Instr.movReg Reg.rax Reg.rdi,
          Instr.call "g".toList, Instr.movReg Reg.rax Reg.rsi] := rfl

theorem divisionArgs_lines (ctx : CGContext) :
    genArgs ctx divisionArgs 0
      = [Instr.movImm "1".toList Reg.rax, Instr.movReg Reg.rax Reg.rdi,
          Instr.movImm "2".toList Reg.rax, Instr.movReg Reg.rax Reg.rsi,
          Instr.movImm "3".toList Reg.rax, Instr.movReg Reg.rax Reg.rdx,
          Instr.movImm "8".toList Reg.rax, Instr.pushReg Reg.rax,
          Instr.movImm "2".toList Reg.rax, Instr.popReg Reg.rbx,
          Instr.movReg Reg.rax Reg.rcx, Instr.movReg Reg.rbx Reg.rax, Instr.cqo,
          Instr.idiv Reg.rcx, Instr.movReg Reg.rax Reg.rcx] := rfl

theorem one_mod_word : 1 % WORD = 1 := by decide

theorem two_mod_word : 2 % WORD = 2 := by decide

theorem three_mod_word : 3 % WORD = 3 := by decide

theorem eight_mod_word : 8 % WORD = 8 := by decide

theorem nestedArgs_run (env : Env) (ctx : CGContext) (m : Machine) :
    ∃ m0, m0.reg Reg.rdi = 2 ∧
      exec env (genArgs ctx nestedArgs 0) m
        = (env.call "g".toList m0).map (fun s => s.set Reg.rsi (s.reg Reg.rax)) := by
  refine ⟨(((m.set Reg.rax 1).set Reg.rdi 1).set Reg.rax 2).set Reg.rdi 2, by
    simp only [set_reg, reduceCtorEq, ↓reduceIte]; decide, ?_⟩
  rw [nestedArgs_lines]
  simp only [exec, step, immValue_one, immValue_two, set_reg, reduceCtorEq, ↓reduceIte,
    one_mod_word, two_mod_word]
  generalize env.call "g".toList _ = r
  cases r <;> rfl

theorem toSigned_two : toSigned 64 2 = 2 := by decide

theorem toSigned_eight : toSigned 128 (0 % WORD * WORD + 8 % WORD) = 8 := by decide

theorem idiv_eight_by_two (env : Env) (m : Machine) (hax : m.reg Reg.rax = 8)
    (hdx : m.reg Reg.rdx = 0) (hcx : m.reg Reg.rcx = 2) :
    step env (Instr.idiv Reg.rcx) m = some ((m.set Reg.rax 4).set Reg.rdx 0) := by
  have h0 : ¬ ((2 : Int) = 0) := by decide
  have h1 : Int.tdiv 8 2 = 4 := by decide
  have h2 : Int.tmod 8 2 = 0 := by decide
  have h3 : ¬ ((4 : Int) < -((WORD / 2 : Nat) : Int) ∨ ((WORD / 2 : Nat) : Int) ≤ (4 : Int)) := by
    decide
  have h4 : ((4 : Int) % ((WORD : Nat) : Int)).toNat = 4 := by decide
  have h5 : ((0 : Int) % ((WORD : Nat) : Int)).toNat = 0 := by decide
  simp only [step, hax, hdx, hcx, toSigned_two, toSigned_eight, h0, h1, h2, h3, h4, h5, if_false]

theorem eightByTwo_upto_cqo (env : Env) (s : Machine) :
    ∃ s1, exec env [Instr.movImm "8".toList Reg.rax, Instr.pushReg Reg.rax,
          Instr.movImm "2".toList Reg.rax, Instr.popReg Reg.rbx,
          Instr.movReg Reg.rax Reg.rcx, Instr.movReg Reg.rbx Reg.rax, Instr.cqo] s = some s1 ∧
      s1.reg Reg.rax = 8 ∧ s1.reg Reg.rdx = 0 ∧ s1.reg Reg.rcx = 2 ∧
      s1.reg Reg.rdi = s.reg Reg.rdi ∧ s1.reg Reg.rsi = s.reg Reg.rsi := by
  simp only [exec, step, immValue_two, immValue_eight]
  have hlt := addrBelow_lt (s.reg Reg.rsp) 8
  have hax : (if addrBelow (s.reg Reg.rsp) 8 % WORD % WORD = addrBelow (s.reg Reg.rsp) 8 then
          8 % WORD
        else s.mem (addrBelow (s.reg Reg.rsp) 8 % WORD % WORD)) % WORD % WORD = 8 := by
    rw [Nat.mod_eq_of_lt hlt, Nat.mod_eq_of_lt hlt, if_pos rfl]
    decide
  refine ⟨_, rfl, ?_, ?_, ?_, ?_, ?_⟩
  · simp only [set_reg, set_mem, store_reg, store_mem, reduceCtorEq, ↓reduceIte]
    exact hax
  · simp only [set_reg, set_mem, store_reg, store_mem, reduceCtorEq, ↓reduceIte]
    rw [hax]
    decide
  · simp only [set_reg, set_mem, store_reg, store_mem, reduceCtorEq, ↓reduceIte]
    decide
  · simp only [set_reg, set_mem, store_reg, store_mem, reduceCtorEq, ↓reduceIte]
  · simp only [set_reg, set_mem, store_reg, store_mem, reduceCtorEq, ↓reduceIte]

theorem eightByTwo_run (env : Env) (s : Machine) :
    ∃ s1, exec env [Instr.movImm "8".toList Reg.rax, Instr.pushReg Reg.rax,
          Instr.movImm "2".toList Reg.rax, Instr.popReg Reg.rbx,
          Instr.movReg Reg.rax Reg.rcx, Instr.movReg Reg.rbx Reg.rax, Instr.cqo,
          Instr.idiv Reg.rcx] s = some s1 ∧
      s1.reg Reg.rax = 4 ∧ s1.reg Reg.rdx = 0 ∧
      s1.reg Reg.rdi = s.reg Reg.rdi ∧ s1.reg Reg.rsi = s.reg Reg.rsi := by
  obtain ⟨s0, h0, hax, hdx, hcx, hdi, hsi⟩ := eightByTwo_upto_cqo env s
  have e := exec_append env [Instr.movImm "8".toList Reg.rax, Instr.pushReg Reg.rax,
          Instr.movImm "2".toList Reg.rax, Instr.popReg Reg.rbx,
          Instr.movReg Reg.rax Reg.rcx, Instr.movReg Reg.rbx Reg.rax, Instr.cqo]
          [Instr.idiv Reg.rcx] s
  rw [h0] at e
  refine ⟨(s0.set Reg.rax 4).set Reg.rdx 0, ?_, ?_, ?_, ?_, ?_⟩
  · have e2 : exec env [Instr.idiv Reg.rcx] s0 = some ((s0.set Reg.rax 4).set Reg.rdx 0) := by
      simp only [exec, idiv_eight_by_two env s0 hax hdx hcx]
    rw [← e2]
    exact e
  · simp only [set_reg, reduceCtorEq, ↓reduceIte]; decide
  · simp only [set_reg, reduceCtorEq, ↓reduceIte]; decide
  · simp only [set_reg, reduceCtorEq, ↓reduceIte]; exact hdi
  · simp only [set_reg, reduceCtorEq, ↓reduceIte]; exact hsi

theorem exec_three (env : Env) (a b c : List Instr) (m s1 s2 : Machine)
    (h1 : exec env a m = some s1) (h2 : exec env b s1 = some s2) :
    exec env (a ++ (b ++ c)) m = exec env c s2 := by
  rw [exec_append, h1, Option.some_bind, exec_append, h2, Option.some_bind]

theorem divisionArgs_run (env : Env) (ctx : CGContext) (m : Machine) :
    ∃ m1, exec env (genArgs ctx divisionArgs 0) m = some m1 ∧
      m1.reg Reg.rdi = 1 ∧ m1.reg Reg.rsi = 2 ∧ m1.reg Reg.rdx = 0 ∧ m1.reg Reg.rcx = 4 := by
  rw [divisionArgs_lines]
  have e1 : exec env
      [Instr.movImm "1".toList Reg.rax, Instr.movReg Reg.rax Reg.rdi,
        Instr.movImm "2".toList Reg.rax, Instr.movReg Reg.rax Reg.rsi,
        Instr.movImm "3".toList Reg.rax, Instr.movReg Reg.rax Reg.rdx] m
      = some ((((((m.set Reg.rax 1).set Reg.rdi 1).set Reg.rax 2).set Reg.rsi 2).set
          Reg.rax 3).set Reg.rdx 3) := by
    simp only [exec, step, immValue_one, immValue_two, immValue_three, set_reg, reduceCtorEq,
      ↓reduceIte, one_mod_word, two_mod_word, three_mod_word]
  obtain ⟨s1, h1, hax, hdx, hdi, hsi⟩ := eightByTwo_run env
    ((((((m.set Reg.rax 1).set Reg.rdi 1).set Reg.rax 2).set Reg.rsi 2).set
          Reg.rax 3).set Reg.rdx 3)
  have key := exec_three env
    [Instr.movImm "1".toList Reg.rax, Instr.movReg Reg.rax Reg.rdi,
      Instr.movImm "2".toList Reg.rax, Instr.movReg Reg.rax Reg.rsi,
      Instr.movImm "3".toList Reg.rax, Instr.movReg Reg.rax Reg.rdx]
    [Instr.movImm "8".toList Reg.rax, Instr.pushReg Reg.rax,
      Instr.movImm "2".toList Reg.rax, Instr.popReg Reg.rbx,
      Instr.movReg Reg.rax Reg.rcx, Instr.movReg Reg.rbx Reg.rax, Instr.cqo,
      Instr.idiv Reg.rcx]
    [Instr.movReg Reg.rax Reg.rcx] m _ s1 e1 h1
  simp only [List.cons_append, List.nil_append] at key
  refine ⟨s1.set Reg.rcx (s1.reg Reg.rax), ?_, ?_, ?_, ?_, ?_⟩
  · rw [key]; rfl
  · simp only [set_reg, reduceCtorEq, ↓reduceIte] at hdi ⊢
    rw [hdi]; decide
  · simp only [set_reg, reduceCtorEq, ↓reduceIte] at hsi ⊢
    rw [hsi]; decide
  · simp only [set_reg, reduceCtorEq, ↓reduceIte]
    exact hdx
  · simp only [set_reg, reduceCtorEq, ↓reduceIte]
    rw [hax]; decide

theorem argRegs_get {k : Nat} {r : Reg} (h : argRegs.get? k = some r) :
    (k = 0 ∧ r = Reg.rdi) ∨ (k = 1 ∧ r = Reg.rsi) ∨ (k = 2 ∧ r = Reg.rdx) ∨
      (k = 3 ∧ r = Reg.rcx) ∨ (k = 4 ∧ r = Reg.r8) ∨ (k = 5 ∧ r = Reg.r9) := by
  rcases k with _ | _ | _ | _ | _ | _ | k <;>
    simp [argRegs] at h <;> simp [h]

theorem argRegs_lt {k : Nat} (h : k < 6) : ∃ r, argRegs.get? k = some r := by
  rcases k with _ | _ | _ | _ | _ | _ | k
  · exact ⟨_, rfl⟩
  · exact ⟨_, rfl⟩
  · exact ⟨_, rfl⟩
  · exact ⟨_, rfl⟩
  · exact ⟨_, rfl⟩
  · exact ⟨_, rfl⟩
  · omega

theorem argRegs_scratch {k : Nat} {r : Reg} (h : argRegs.get? k = some r) :
    r ≠ Reg.rax ∧ r ≠ Reg.rbx ∧ r ≠ Reg.rsp := by
  rcases argRegs_get h with ⟨_, e⟩ | ⟨_, e⟩ | ⟨_, e⟩ | ⟨_, e⟩ | ⟨_, e⟩ | ⟨_, e⟩ <;>
    subst e <;> decide

theorem argRegs_inj {k j : Nat} {r : Reg} (h1 : argRegs.get? k = some r)
    (h2 : argRegs.get? j = some r) : k = j := by
  rcases argRegs_get h1 with ⟨a, e⟩ | ⟨a, e⟩ | ⟨a, e⟩ | ⟨a, e⟩ | ⟨a, e⟩ | ⟨a, e⟩ <;>
    rcases argRegs_get h2 with ⟨b, f⟩ | ⟨b, f⟩ | ⟨b, f⟩ | ⟨b, f⟩ | ⟨b, f⟩ | ⟨b, f⟩ <;>
    (subst a; subst b; first | rfl | (rw [e] at f; cases f))

/-- For arguments that are arithmetic expressions over plain integer
literals with `+`, `-` and `*`, the argument loop of `genCall` leaves every
argument in its register: evaluating a later argument changes only `%rax`,
`%rbx` and memory below the stack pointer. -/
theorem genArgs_arith_run : ∀ (args : List ASTNode) (i : Nat), i + args.length ≤ 6 →
    (∀ e, e ∈ args → isArith e = true ∧ shortLiterals e = true ∧
      plainLiterals e = true ∧ e.size < 2305843009213693952) →
    ∀ (env : Env) (ctx : CGContext) (m : Machine),
      ∃ m1, exec env (genArgs ctx (args.map some) i) m = some m1 ∧
        (∀ (k : Nat) (e : ASTNode) (r : Reg), args.get? k = some e →
          argRegs.get? (i + k) = some r →
          ((m1.reg r : Nat) : Int) = evalArith e % ((WORD : Nat) : Int)) ∧
        (∀ r, r ≠ Reg.rax → r ≠ Reg.rbx → r ≠ Reg.rsp →
          (∀ k, i ≤ k → argRegs.get? k ≠ some r) → m1.reg r = m.reg r)
  | [], i, _, _, env, ctx, m => by
    refine ⟨m, rfl, ?_, fun r _ _ _ _ => rfl⟩
    intro k e r hk
    simp at hk
  | arg :: rest, i, hlen, hargs, env, ctx, m => by
    simp only [List.length_cons] at hlen
    obtain ⟨r0, hr0⟩ := argRegs_lt (show i < 6 by omega)
    obtain ⟨ha, hs, hp, hsize⟩ := hargs arg (List.mem_cons_self _ _)
    obtain ⟨m2, hm2, hval, _, hkeep, _⟩ :=
      genExpression_arith_run arg.size arg (le_refl _) ha hs hp hsize env ctx m
    obtain ⟨m1, hm1, hregs, hrest⟩ :=
      genArgs_arith_run rest (i + 1) (by omega)
        (fun e he => hargs e (List.mem_cons_of_mem _ he)) env ctx
        (m2.set r0 (m2.reg Reg.rax))
    obtain ⟨n0, n1, n2⟩ := argRegs_scratch hr0
    have hlt : m2.reg Reg.rax < WORD := by
      have h0 : (0 : Int) < ((WORD : Nat) : Int) := by decide
      have := Int.emod_lt_of_pos (evalArith arg) h0
      rw [← hval] at this
      exact_mod_cast this
    refine ⟨m1, ?_, ?_, ?_⟩
    · simp only [List.map_cons, genArgs, hr0, genExpression, List.append_assoc]
      rw [exec_append, hm2, Option.some_bind, exec_append]
      simp only [exec, step, Option.some_bind]
      exact hm1
    · intro k e r hk hr
      cases k with
      | zero =>
        simp only [List.get?_cons_zero, Option.some.injEq] at hk
        subst hk
        simp only [Nat.add_zero] at hr
        rw [hr0] at hr
        cases hr
        rw [hrest r0 n0 n1 n2 (fun k hk hc => by have := argRegs_inj hc hr0; omega)]
        simp only [set_reg, if_true, Nat.mod_eq_of_lt hlt]
        exact hval
      | succ k =>
        simp only [List.get?_cons_succ] at hk
        exact hregs k e r hk (by rw [← hr]; congr 1; omega)
    · intro r h1 h2 h3 hnot
      rw [hrest r h1 h2 h3 (fun k hk => hnot k (by omega))]
      have hne : r ≠ r0 := fun e => hnot i (le_refl _) (e ▸ hr0)
      simp only [set_reg, hne, if_false]
      exact hkeep r h1 h2 h3

/-- C35 (code defect): `genCall` moves every argument into its register as
soon as it is evaluated, and the code of a later argument may overwrite
that register.  For at most six arguments that are arithmetic expressions
with `+`, `-` and `*` over integer literals that are plain numerals (no
leading zero, value below 2^64, at most 63 characters), every argument
register holds the value of its argument when the loop is done (the state
in which the emitted `call` runs).  For `f(1, g(2))` the code of the second
argument contains `mov %rax, %rdi`: `g` is called with `%rdi = 2`, and
`%rdi` holds what `g` left there, 2 when `g` keeps its registers, not 1.  For
`f(1, 2, 3, 8 / 2)` the division of the fourth argument runs `cqo` and
`idiv`, which leave the remainder 0 in `%rdx`, where 3 had been loaded. -/
theorem genCall_clobbers_argument_registers :
    (∀ (ctx : CGContext) (callee : Option ASTNode) (args : List (Option ASTNode))
        (name : List Char), getCalleeName callee = some name →
      genCall ctx callee args = genArgs ctx args 0 ++ [Instr.call (flattenName name)]) ∧
    (∀ (args : List ASTNode), args.length ≤ 6 →
      (∀ e, e ∈ args → isArith e = true ∧ shortLiterals e = true ∧
        plainLiterals e = true ∧ e.size < 2305843009213693952) →
      ∀ (env : Env) (ctx : CGContext) (m : Machine),
        ∃ m1, exec env (genArgs ctx (args.map some) 0) m = some m1 ∧
          ∀ (k : Nat) (e : ASTNode) (r : Reg), args.get? k = some e →
            argRegs.get? k = some r →
            ((m1.reg r : Nat) : Int) = evalArith e % ((WORD : Nat) : Int)) ∧
    ((∃ q, expression 40 (parserAt srcNestedCall)
        = some (some (ASTNode.call 0 calleeF nestedArgs), q)) ∧
      (∀ ctx : CGContext, (genCall ctx calleeF nestedArgs).map Instr.render
        = ["\tmov $1, %rax\n".toList, "\tmov %rax, %rdi\n".toList, "\tmov $2, %rax\n".toList,
            "\tmov %rax, %rdi\n".toList, "\tcall g\n".toList, "\tmov %rax, %rsi\n".toList,
            "\tcall f\n".toList]) ∧
      (∀ (env : Env) (ctx : CGContext) (m : Machine),
        ∃ m0, m0.reg Reg.rdi = 2 ∧
          exec env (genArgs ctx nestedArgs 0) m
            = (env.call "g".toList m0).map (fun s => s.set Reg.rsi (s.reg Reg.rax))) ∧
      (∀ (ctx : CGContext) (m : Machine),
        (exec quietEnv (genArgs ctx nestedArgs 0) m).map (fun s => s.reg Reg.rdi)
          = some 2)) ∧
    ((∃ q, expression 40 (parserAt srcDivisionCall)
        = some (some (ASTNode.call 0 calleeF divisionArgs), q)) ∧
      (∀ ctx : CGContext, (genCall ctx calleeF divisionArgs).map Instr.render
        = ["\tmov $1, %rax\n".toList, "\tmov %rax, %rdi\n".toList, "\tmov $2, %rax\n".toList,
            "\tmov %rax, %rsi\n".toList, "\tmov $3, %rax\n".toList,
            "\tmov %rax, %rdx\n".toList, "\tmov $8, %rax\n".toList, "\tpush %rax\n".toList,
            "\tmov $2, %rax\n".toList, "\tpop %rbx\n".toList, "\tmov %rax, %rcx\n".toList,
            "\tmov %rbx, %rax\n".toList, "\tcqo\n".toList, "\tidiv %rcx\n".toList,
            "\tmov %rax, %rcx\n".toList, "\tcall f\n".toList]) ∧
      (∀ (env : Env) (ctx : CGContext) (m : Machine),
        ∃ m1, exec env (genArgs ctx divisionArgs 0) m = some m1 ∧
          m1.reg Reg.rdi = 1 ∧ m1.reg Reg.rsi = 2 ∧ m1.reg Reg.rdx = 0 ∧
          m1.reg Reg.rcx = 4)) := by
  refine ⟨?_, ?_, ⟨expression_eq_of_beq (by decide!), fun ctx => rfl, nestedArgs_run, ?_⟩,
    ⟨expression_eq_of_beq (by decide!), fun ctx => rfl, divisionArgs_run⟩⟩
  · intro ctx callee args name h
    simp only [genCall, h]
  · intro args hlen hargs env ctx m
    obtain ⟨m1, h1, h2, _⟩ := genArgs_arith_run args 0 (by omega) hargs env ctx m
    exact ⟨m1, h1, fun k e r hk hr => h2 k e r hk (by simpa using hr)⟩
  · intro ctx m
    obtain ⟨m0, h0, h1⟩ := nestedArgs_run quietEnv ctx m
    rw [h1]
    simp only [quietEnv, Option.map_some', set_reg, reduceCtorEq, ↓reduceIte, h0]

/-- Witness for the second part of C35: the arguments of `f(1, 1 + 2)`. -/
theorem genCall_clobbers_argument_registers_witness :
    ∃ m1, exec quietEnv
        (genArgs emptyContext ([numberLiteral "1".toList, onePlusTwo].map some) 0)
        idleMachine = some m1 ∧
      ((m1.reg Reg.rdi : Nat) : Int) = 1 ∧ ((m1.reg Reg.rsi : Nat) : Int) = 3 := by
  obtain ⟨m1, h1, h2⟩ := genCall_clobbers_argument_registers.2.1
    [numberLiteral "1".toList, onePlusTwo] (by decide)
    (by
      intro e he
      simp only [List.mem_cons, List.mem_singleton, List.not_mem_nil, or_false] at he
      rcases he with rfl | rfl <;> decide) quietEnv emptyContext idleMachine
  refine ⟨m1, h1, ?_, ?_⟩
  · rw [h2 0 _ Reg.rdi rfl rfl]; decide
  · rw [h2 1 _ Reg.rsi rfl rfl]; decide

/-! ## The clean-up loops run with the counts of the new function -/

/-- C36 (code defect): `genFunction` assigns `ctx->paramCount` and
`ctx->localCount` the counts of the new function before it runs the
clean-up loops over the arrays of the previous function, so the loops visit
the indices below the new count.  The old list is discarded completely,
with every read inside the array, exactly when the list is NULL or the new
count equals its length.  With a larger new count the loop reads the old
array outside its bounds (a function with one parameter followed by one
with two); with a smaller one the strings from the new count on are never
freed (a function with two locals followed by one with none). -/
theorem genFunction_cleanup_uses_new_count :
    (∀ (names : List (List Char)) (count : Nat),
      clearNames (some names) count
        = if count ≤ names.length then some (List.range count) else none) ∧
    (∀ (names : List (List Char)) (count : Nat),
      clearNames (some names) count = some (List.range names.length) ↔
        count = names.length) ∧
    (∀ (ctx : CGContext) (names locals : List (List Char)) (line l2 : Nat)
        (name : List Char) (params : List ASTNode) (returnType : Option ASTNode)
        (statements : List (Option ASTNode)),
      genFunctionCleanup (bodyContext ctx names locals)
          (ASTNode.functionDecl line name params returnType
            (some (ASTNode.program l2 statements)))
        = some
          (if names.length = 0 then some []
            else if params.length ≤ names.length then some (List.range params.length)
            else none,
          if locals.length = 0 then some []
            else if (localNamesOf statements).length ≤ locals.length
              then some (List.range (localNamesOf statements).length)
            else none)) ∧
    ((∃ p, parse 60 srcOneThenTwo
        = some (some (ASTNode.program 0 [some oneParamFunction, some twoParamFunction]), p)) ∧
      (genFunction emptyContext oneParamFunction).map (fun r => r.2.paramNames)
        = some (some ["a".toList]) ∧
      (genFunction emptyContext oneParamFunction).bind
          (fun r => genFunctionCleanup r.2 twoParamFunction) = some (none, some [])) ∧
    ((∃ p, parse 60 srcTwoLocalsThenNone
        = some (some (ASTNode.program 0 [some twoLocalsFunction, some noLocalsFunction]),
            p)) ∧
      (genFunction emptyContext twoLocalsFunction).map (fun r => r.2.localNames)
        = some (some ["a".toList, "b".toList]) ∧
      (genFunction emptyContext twoLocalsFunction).bind
          (fun r => genFunctionCleanup r.2 noLocalsFunction) = some (some [], some [])) := by
  refine ⟨clearNames_some, ?_, ?_, ⟨parse_eq_of_beq (by decide!), by decide!, by decide!⟩,
    ⟨parse_eq_of_beq (by decide!), by decide!, by decide!⟩⟩
  · intro names count
    rw [clearNames_some]
    constructor
    · intro h
      by_cases hc : count ≤ names.length
      · rw [if_pos hc] at h
        have := congrArg List.length (Option.some.inj h)
        simpa using this
      · rw [if_neg hc] at h
        cases h
    · intro h
      rw [h, if_pos (le_refl _)]
  · intro ctx names locals line l2 name params returnType statements
    simp only [genFunctionCleanup, bodyContext]
    congr 2
    · by_cases h0 : names.length = 0
      · have : ¬ names.length > 0 := by omega
        simp only [h0, gt_iff_lt, Nat.lt_irrefl, if_true, if_false, clearNames]
      · have : names.length > 0 := by omega
        simp only [h0, this, if_true, if_false, clearNames_some]
    · by_cases h0 : locals.length = 0
      · have : ¬ locals.length > 0 := by omega
        simp only [h0, gt_iff_lt, Nat.lt_irrefl, if_true, if_false, clearNames]
      · have : locals.length > 0 := by omega
        simp only [h0, this, if_true, if_false, clearNames_some]

/-! ## Keywords of the v0.2 scanner -/

theorem wordStart_facts {c : Char} (h : (isalpha c || c == '_') = true) :
    c ≠ NUL ∧ (c == ' ' || c == '\t' || c == '\r') = false ∧ (c == '\n') = false ∧
      (c == '/') = false ∧ (c == '#') = false := by
  have hge : 65 ≤ c.toNat := by
    simp only [isalpha, Bool.or_eq_true, Bool.and_eq_true, decide_eq_true_eq, beq_iff_eq] at h
    rcases h with (⟨h1, _⟩ | ⟨h1, _⟩) | h1
    · omega
    · omega
    · rw [h1]; decide
  have hne : ∀ d : Char, d.toNat < 65 → (c == d) = false := by
    intro d hd
    cases hb : c == d
    · rfl
    · rw [beq_iff_eq] at hb
      rw [hb] at hge
      omega
  refine ⟨?_, ?_, hne '\n' (by decide), hne '/' (by decide), hne '#' (by decide)⟩
  · intro e
    rw [e] at hge
    revert hge
    decide
  · rw [hne ' ' (by decide), hne '\t' (by decide), hne '\r' (by decide)]
    rfl

theorem isIdentChar_NUL : isIdentChar NUL = false := by decide

theorem v02_scanToken_word (w : List Char) (hw : isWord w = true) :
    V02.scanToken (initLexer w)
      = (makeToken (wordLexer w) (V02.identifierType (wordLexer w)), wordLexer w) := by
  cases w with
  | nil => simp [isWord] at hw
  | cons c cs =>
    simp only [isWord, Bool.and_eq_true, List.all_eq_true] at hw
    obtain ⟨hc, hcs⟩ := hw
    obtain ⟨hnul, h1, h2, h3, h4⟩ := wordStart_facts hc
    have hpeek : peek (initLexer (c :: cs)) = c := rfl
    have hskip : skipWhitespace (initLexer (c :: cs)) = initLexer (c :: cs) :=
      skipWhitespace_of_peek (by rw [hpeek]; exact h1) (by rw [hpeek]; exact h2)
        (by rw [hpeek]; exact h3)
    have hend : isAtEnd (initLexer (c :: cs)) = false := by
      show (c == NUL) = false
      exact beq_false_of_ne hnul
    have hloop : identifierLoop (c :: cs).length (advance (initLexer (c :: cs))).2
        = (advance (initLexer (c :: cs))).2.skip cs.length :=
      identifierLoop_run cs (c :: cs).length (advance (initLexer (c :: cs))).2 []
        (by rw [List.append_nil]; rfl) hcs isIdentChar_NUL (by simp)
    have hlx : (advance (initLexer (c :: cs))).2.skip cs.length = wordLexer (c :: cs) := by
      simp only [advance, initLexer, Lexer.skip, wordLexer, List.length_cons, Nat.zero_add,
        Lexer.mk.injEq, true_and]
      exact ⟨Nat.add_comm _ _, trivial⟩
    unfold V02.scanToken
    simp only [hskip]
    have hstart : ({ initLexer (c :: cs) with start := (initLexer (c :: cs)).current } : Lexer)
        = initLexer (c :: cs) := rfl
    rw [hstart, hend]
    simp only [Bool.false_eq_true, if_false]
    unfold V02.scanBody
    simp only []
    have hadv : (advance (initLexer (c :: cs))).1 = c := rfl
    rw [hadv, if_neg (by rw [h4]; simp), if_pos hc]
    unfold V02.identifier
    simp only []
    have hsrc : (advance (initLexer (c :: cs))).2.source = c :: cs := rfl
    rw [hsrc, hloop, hlx]

theorem slice_wordLexer (w : List Char) : slice (wordLexer w) = w := by
  simp [slice, wordLexer]

theorem v02_if_start (rest : List Char) :
    V02.identifierType (wordLexer ('i' :: 'f' :: rest)) = TokenType.TOKEN_IF := by
  simp [V02.identifierType, wordLexer, charAt]

theorem ite_type_ne (x : TokenType) (c : Prop) [Decidable c] (a b : TokenType)
    (ha : a ≠ x) (hb : b ≠ x) : (if c then a else b) ≠ x := by
  split <;> assumption

theorem isIdentChar_ne_NUL {c : Char} (h : isIdentChar c = true) : (c == NUL) = false := by
  cases hb : c == NUL
  · rfl
  · rw [beq_iff_eq] at hb
    rw [hb, isIdentChar_NUL] at h
    cases h

theorem v02_int_check (w : List Char) (hw : isWord w = true) (k : TokenType) :
    V02.checkKeyword (wordLexer w) 2 2 "t".toList k = TokenType.TOKEN_IDENTIFIER := by
  unfold V02.checkKeyword
  by_cases hlen : w.length = 4
  · match w, hw, hlen with
    | [a, b, c, d], hw, _ =>
      simp only [isWord, Bool.and_eq_true, List.all_eq_true, List.mem_cons, List.mem_singleton,
        List.not_mem_nil, or_false] at hw
      have hd := isIdentChar_ne_NUL (hw.2 d (Or.inr (Or.inr rfl)))
      have hm : V02.memcmpN (wordLexer [a, b, c, d]) 2 "t".toList 2 = false := by
        simp [V02.memcmpN, wordLexer, charAt, List.range, List.range.loop, hd]
      rw [hm]
      simp
  · have : (wordLexer w).current - (wordLexer w).start ≠ 2 + 2 := by
      simp only [wordLexer, Nat.sub_zero]
      exact hlen
    simp [this]

/-- The v0.2 scanner never classifies a word as `TOKEN_INT`. -/
theorem v02_never_int (w : List Char) (hw : isWord w = true) :
    V02.identifierType (wordLexer w) ≠ TokenType.TOKEN_INT := by
  unfold V02.identifierType
  simp only []
  rw [v02_int_check w hw]
  repeat' apply ite_type_ne
  all_goals decide


theorem memcmpN_word (w : List Char) (off : Nat) (rest : List Char)
    (hlen : w.length = off + rest.length) :
    V02.memcmpN (wordLexer w) off rest rest.length = decide (w.drop off = rest) := by
  have key : V02.memcmpN (wordLexer w) off rest rest.length = true ↔ w.drop off = rest := by
    simp only [V02.memcmpN, wordLexer, List.all_eq_true, List.mem_range, Nat.zero_add,
      beq_iff_eq, charAt]
    constructor
    · intro h
      apply List.ext_getElem
      · simp only [List.length_drop]; omega
      · intro k h1 h2
        have hk := h k h2
        rw [List.getD_eq_getElem _ _ (by omega),
          List.getD_eq_getElem _ _ (by simp only [List.length_append, List.length_singleton]; omega),
          List.getElem_append_left h2] at hk
        rw [List.getElem_drop]
        exact hk
    · intro h k hk
      subst h
      rw [List.getD_eq_getElem _ _ (by omega),
        List.getD_eq_getElem _ _ (by simp only [List.length_append, List.length_singleton]; omega),
        List.getElem_append_left hk, List.getElem_drop]
  cases hm : V02.memcmpN (wordLexer w) off rest rest.length
  · have : ¬ (w.drop off = rest) := fun e => by rw [key.mpr e] at hm; cases hm
    simp [this]
  · simp [key.mp hm]

theorem checkKeyword_word (w : List Char) (off n : Nat) (rest : List Char)
    (hn : n = rest.length) (hr : rest ≠ []) (k : TokenType) :
    V02.checkKeyword (wordLexer w) off n rest k
      = if rest = w.drop off then k else TokenType.TOKEN_IDENTIFIER := by
  subst hn
  unfold V02.checkKeyword
  by_cases hlen : w.length = off + rest.length
  · have h1 : (wordLexer w).current - (wordLexer w).start = off + rest.length := by
      simp only [wordLexer, Nat.sub_zero]
      exact hlen
    rw [memcmpN_word w off rest hlen]
    by_cases hd : w.drop off = rest
    · simp [h1, hd]
    · have hd2 : ¬ (rest = w.drop off) := fun e => hd e.symm
      simp [h1, hd, hd2]
  · have h1 : ¬ ((wordLexer w).current - (wordLexer w).start = off + rest.length) := by
      simp only [wordLexer, Nat.sub_zero]
      exact hlen
    have hd : ¬ (w.drop off = rest) := by
      intro e
      have hl := congrArg List.length e
      simp only [List.length_drop] at hl
      have : rest.length ≠ 0 := fun h0 => hr (List.length_eq_zero.mp h0)
      omega
    have hd2 : ¬ (rest = w.drop off) := fun e => hd e.symm
    simp [h1, hd2]

theorem tableKind_cons (s : String) (k : TokenType) (t : List (String × TokenType))
    (w : List Char) :
    tableKind ((s, k) :: t) w = if s.toList = w then k else tableKind t w := by
  unfold tableKind
  rw [List.find?_cons]
  by_cases h : s.toList = w
  · subst h
    simp only [beq_self_eq_true, if_true]
  · have hb : (s.toList == w) = false := by simpa using h
    simp only [hb, h, if_false]

theorem tableKind_keywordTable (w : List Char) :
    tableKind keywordTable w
      = if ['c', 'l', 'a', 's', 's'] = w then TokenType.TOKEN_CLASS
        else if ['e', 'l', 's', 'e'] = w then TokenType.TOKEN_ELSE
        else if ['f', 'a', 'l', 's', 'e'] = w then TokenType.TOKEN_FALSE
        else if ['f', 'o', 'r'] = w then TokenType.TOKEN_FOR
        else if ['f', 'u', 'n', 'c'] = w then TokenType.TOKEN_FUNC
        else if ['i', 'f'] = w then TokenType.TOKEN_IF
        else if ['i', 'n', 't'] = w then TokenType.TOKEN_INT
        else if ['l', 'e', 't'] = w then TokenType.TOKEN_LET
        else if ['n', 'u', 'l', 'l'] = w then TokenType.TOKEN_NULL
        else if ['r', 'e', 't', 'u', 'r', 'n'] = w then TokenType.TOKEN_RETURN
        else if ['s', 't', 'r', 'i', 'n', 'g'] = w then TokenType.TOKEN_STRING_TYPE
        else if ['s', 'u', 'p', 'e', 'r'] = w then TokenType.TOKEN_SUPER
        else if ['t', 'h', 'i', 's'] = w then TokenType.TOKEN_THIS
        else if ['t', 'r', 'u', 'e'] = w then TokenType.TOKEN_TRUE
        else if ['v', 'a', 'r'] = w then TokenType.TOKEN_VAR
        else if ['v', 'o', 'i', 'd'] = w then TokenType.TOKEN_VOID
        else if ['w', 'h', 'i', 'l', 'e'] = w then TokenType.TOKEN_WHILE
        else TokenType.TOKEN_IDENTIFIER := by
  simp only [keywordTable, tableKind_cons]
  rfl

theorem v02_check_class (w : List Char) (k : TokenType) :
    V02.checkKeyword (wordLexer w) 1 4 "lass".toList k
      = if ['l', 'a', 's', 's'] = w.drop 1 then k else TokenType.TOKEN_IDENTIFIER :=
  checkKeyword_word w 1 4 "lass".toList rfl (by decide) k

theorem v02_check_else (w : List Char) (k : TokenType) :
    V02.checkKeyword (wordLexer w) 1 3 "lse".toList k
      = if ['l', 's', 'e'] = w.drop 1 then k else TokenType.TOKEN_IDENTIFIER :=
  checkKeyword_word w 1 3 "lse".toList rfl (by decide) k

theorem v02_check_false (w : List Char) (k : TokenType) :
    V02.checkKeyword (wordLexer w) 2 3 "lse".toList k
      = if ['l', 's', 'e'] = w.drop 2 then k else TokenType.TOKEN_IDENTIFIER :=
  checkKeyword_word w 2 3 "lse".toList rfl (by decide) k

theorem v02_check_for (w : List Char) (k : TokenType) :
    V02.checkKeyword (wordLexer w) 2 1 "r".toList k
      = if ['r'] = w.drop 2 then k else TokenType.TOKEN_IDENTIFIER :=
  checkKeyword_word w 2 1 "r".toList rfl (by decide) k

theorem v02_check_func (w : List Char) (k : TokenType) :
    V02.checkKeyword (wordLexer w) 2 2 "nc".toList k
      = if ['n', 'c'] = w.drop 2 then k else TokenType.TOKEN_IDENTIFIER :=
  checkKeyword_word w 2 2 "nc".toList rfl (by decide) k

theorem v02_check_let (w : List Char) (k : TokenType) :
    V02.checkKeyword (wordLexer w) 1 2 "et".toList k
      = if ['e', 't'] = w.drop 1 then k else TokenType.TOKEN_IDENTIFIER :=
  checkKeyword_word w 1 2 "et".toList rfl (by decide) k

theorem v02_check_null (w : List Char) (k : TokenType) :
    V02.checkKeyword (wordLexer w) 1 3 "ull".toList k
      = if ['u', 'l', 'l'] = w.drop 1 then k else TokenType.TOKEN_IDENTIFIER :=
  checkKeyword_word w 1 3 "ull".toList rfl (by decide) k

theorem v02_check_return (w : List Char) (k : TokenType) :
    V02.checkKeyword (wordLexer w) 1 5 "eturn".toList k
      = if ['e', 't', 'u', 'r', 'n'] = w.drop 1 then k else TokenType.TOKEN_IDENTIFIER :=
  checkKeyword_word w 1 5 "eturn".toList rfl (by decide) k

theorem v02_check_super (w : List Char) (k : TokenType) :
    V02.checkKeyword (wordLexer w) 2 3 "per".toList k
      = if ['p', 'e', 'r'] = w.drop 2 then k else TokenType.TOKEN_IDENTIFIER :=
  checkKeyword_word w 2 3 "per".toList rfl (by decide) k

theorem v02_check_string (w : List Char) (k : TokenType) :
    V02.checkKeyword (wordLexer w) 2 4 "ring".toList k
      = if ['r', 'i', 'n', 'g'] = w.drop 2 then k else TokenType.TOKEN_IDENTIFIER :=
  checkKeyword_word w 2 4 "ring".toList rfl (by decide) k

theorem v02_check_this (w : List Char) (k : TokenType) :
    V02.checkKeyword (wordLexer w) 2 2 "is".toList k
      = if ['i', 's'] = w.drop 2 then k else TokenType.TOKEN_IDENTIFIER :=
  checkKeyword_word w 2 2 "is".toList rfl (by decide) k

theorem v02_check_true (w : List Char) (k : TokenType) :
    V02.checkKeyword (wordLexer w) 2 2 "ue".toList k
      = if ['u', 'e'] = w.drop 2 then k else TokenType.TOKEN_IDENTIFIER :=
  checkKeyword_word w 2 2 "ue".toList rfl (by decide) k

theorem v02_check_var (w : List Char) (k : TokenType) :
    V02.checkKeyword (wordLexer w) 2 1 "r".toList k
      = if ['r'] = w.drop 2 then k else TokenType.TOKEN_IDENTIFIER :=
  checkKeyword_word w 2 1 "r".toList rfl (by decide) k

theorem v02_check_void (w : List Char) (k : TokenType) :
    V02.checkKeyword (wordLexer w) 2 2 "id".toList k
      = if ['i', 'd'] = w.drop 2 then k else TokenType.TOKEN_IDENTIFIER :=
  checkKeyword_word w 2 2 "id".toList rfl (by decide) k

theorem v02_check_while (w : List Char) (k : TokenType) :
    V02.checkKeyword (wordLexer w) 1 4 "hile".toList k
      = if ['h', 'i', 'l', 'e'] = w.drop 1 then k else TokenType.TOKEN_IDENTIFIER :=
  checkKeyword_word w 1 4 "hile".toList rfl (by decide) k

/-- For a word that does not begin with `i`, `identifierType` of the v0.2
scanner returns the kind of the keyword table. -/
theorem v02_kind_table (c0 : Char) (tl : List Char) (hi : c0 ≠ 'i') :
    V02.identifierType (wordLexer (c0 :: tl)) = tableKind keywordTable (c0 :: tl) := by
  rw [tableKind_keywordTable]
  unfold V02.identifierType
  simp only []
  have h0 : charAt (wordLexer (c0 :: tl)).source (wordLexer (c0 :: tl)).start = c0 := rfl
  have hlen : (wordLexer (c0 :: tl)).current - (wordLexer (c0 :: tl)).start
      = tl.length + 1 := rfl
  have h1 : charAt (wordLexer (c0 :: tl)).source ((wordLexer (c0 :: tl)).start + 1)
      = tl.getD 0 NUL := rfl
  rw [h0, hlen, h1]
  simp only [v02_check_class, v02_check_else, v02_check_false, v02_check_for, v02_check_func, v02_check_let, v02_check_null, v02_check_return, v02_check_super, v02_check_string, v02_check_this, v02_check_true, v02_check_var, v02_check_void, v02_check_while]
  have hib : (c0 == 'i') = false := by simpa using hi
  simp only [hib, Bool.false_eq_true, if_false]
  by_cases h_c : c0 = 'c'
  · subst h_c
    simp
  by_cases h_e : c0 = 'e'
  · subst h_e
    simp
  by_cases h_f : c0 = 'f'
  · subst h_f
    cases tl with
    | nil => simp
    | cons c1 tl2 =>
      by_cases k_a : c1 = 'a'
      · subst k_a
        simp
      by_cases k_o : c1 = 'o'
      · subst k_o
        simp
      by_cases k_u : c1 = 'u'
      · subst k_u
        simp
      have m_a : ¬ 'a' = c1 := fun e => k_a e.symm
      have m_o : ¬ 'o' = c1 := fun e => k_o e.symm
      have m_u : ¬ 'u' = c1 := fun e => k_u e.symm
      simp [k_a, m_a, k_o, m_o, k_u, m_u]
  by_cases h_l : c0 = 'l'
  · subst h_l
    simp
  by_cases h_n : c0 = 'n'
  · subst h_n
    simp
  by_cases h_r : c0 = 'r'
  · subst h_r
    simp
  by_cases h_s : c0 = 's'
  · subst h_s
    cases tl with
    | nil => simp
    | cons c1 tl2 =>
      by_cases k_u : c1 = 'u'
      · subst k_u
        simp
      by_cases k_t : c1 = 't'
      · subst k_t
        simp
      have m_u : ¬ 'u' = c1 := fun e => k_u e.symm
      have m_t : ¬ 't' = c1 := fun e => k_t e.symm
      simp [k_u, m_u, k_t, m_t]
  by_cases h_t : c0 = 't'
  · subst h_t
    cases tl with
    | nil => simp
    | cons c1 tl2 =>
      by_cases k_h : c1 = 'h'
      · subst k_h
        simp
      by_cases k_r : c1 = 'r'
      · subst k_r
        simp
      have m_h : ¬ 'h' = c1 := fun e => k_h e.symm
      have m_r : ¬ 'r' = c1 := fun e => k_r e.symm
      simp [k_h, m_h, k_r, m_r]
  by_cases h_v : c0 = 'v'
  · subst h_v
    cases tl with
    | nil => simp
    | cons c1 tl2 =>
      by_cases k_a : c1 = 'a'
      · subst k_a
        simp
      by_cases k_o : c1 = 'o'
      · subst k_o
        simp
      have m_a : ¬ 'a' = c1 := fun e => k_a e.symm
      have m_o : ¬ 'o' = c1 := fun e => k_o e.symm
      simp [k_a, m_a, k_o, m_o]
  by_cases h_w : c0 = 'w'
  · subst h_w
    simp
  have g_c : ¬ 'c' = c0 := fun e => h_c e.symm
  have g_e : ¬ 'e' = c0 := fun e => h_e e.symm
  have g_f : ¬ 'f' = c0 := fun e => h_f e.symm
  have g_l : ¬ 'l' = c0 := fun e => h_l e.symm
  have g_n : ¬ 'n' = c0 := fun e => h_n e.symm
  have g_r : ¬ 'r' = c0 := fun e => h_r e.symm
  have g_s : ¬ 's' = c0 := fun e => h_s e.symm
  have g_t : ¬ 't' = c0 := fun e => h_t e.symm
  have g_v : ¬ 'v' = c0 := fun e => h_v e.symm
  have g_w : ¬ 'w' = c0 := fun e => h_w e.symm
  have g_i : ¬ 'i' = c0 := fun e => hi e.symm
  simp [h_c, g_c, h_e, g_e, h_f, g_f, h_l, g_l, h_n, g_n, h_r, g_r, h_s, g_s, h_t, g_t, h_v, g_v, h_w, g_w, g_i]

/-- For a word that begins with `i`, `identifierType` of the v0.2 scanner
looks at the second character only: `f` gives `TOKEN_IF`, everything else an
identifier. -/
theorem v02_kind_i (tl : List Char) (hw : isWord ('i' :: tl) = true) :
    V02.identifierType (wordLexer ('i' :: tl))
      = if tl.head? = some 'f' then TokenType.TOKEN_IF else TokenType.TOKEN_IDENTIFIER := by
  have hint := v02_int_check ('i' :: tl) hw TokenType.TOKEN_INT
  unfold V02.identifierType
  simp only []
  rw [hint]
  have h0 : charAt (wordLexer ('i' :: tl)).source (wordLexer ('i' :: tl)).start = 'i' := rfl
  have hlen : (wordLexer ('i' :: tl)).current - (wordLexer ('i' :: tl)).start
      = tl.length + 1 := rfl
  have h1 : charAt (wordLexer ('i' :: tl)).source ((wordLexer ('i' :: tl)).start + 1)
      = tl.getD 0 NUL := rfl
  rw [h0, hlen, h1]
  cases tl with
  | nil => simp
  | cons c1 tl2 =>
    by_cases hf : c1 = 'f'
    · subst hf
      simp
    · simp [hf]

/-- C38 (code defect): in the v0.2 scanner `identifierType` returns
`TOKEN_IF` for the second character `f` without calling `checkKeyword`, and
tests `int` with `checkKeyword(lexer, 2, 2, "t", TOKEN_INT)`, whose length 2
asks for a lexeme of four characters that ends in the NUL of the literal.
A source that consists of one word `w` is scanned as one token with the
lexeme `w`.  When `w` does not begin with `i`, its kind is the one of the
keyword table: the keyword with the spelling `w`, an identifier for every
other word.  When `w` begins with `i`, the kind is `TOKEN_IF` for every word
whose second character is `f` and an identifier otherwise, so no word is
`TOKEN_INT`.  On the keyword table the scanner returns the claimed kind for
every spelling except `int`, which is an identifier; `iffy` and `if_x` are
`TOKEN_IF`. -/
theorem v02_if_and_int_misclassified :
    (∀ w : List Char, isWord w = true →
      (V02.scanToken (initLexer w)).1
        = { type := V02.identifierType (wordLexer w), lexeme := w, line := 1 }) ∧
    (∀ (c : Char) (rest : List Char), isWord (c :: rest) = true → c ≠ 'i' →
      (V02.scanToken (initLexer (c :: rest))).1.type
        = tableKind keywordTable (c :: rest)) ∧
    (∀ rest : List Char, isWord ('i' :: rest) = true →
      (V02.scanToken (initLexer ('i' :: rest))).1.type
        = if rest.head? = some 'f' then TokenType.TOKEN_IF
          else TokenType.TOKEN_IDENTIFIER) ∧
    (∀ w : List Char, isWord w = true →
      (V02.scanToken (initLexer w)).1.type ≠ TokenType.TOKEN_INT) ∧
    v02Kinds keywordTable
      = [("class", TokenType.TOKEN_CLASS), ("else", TokenType.TOKEN_ELSE),
          ("false", TokenType.TOKEN_FALSE), ("for", TokenType.TOKEN_FOR),
          ("func", TokenType.TOKEN_FUNC), ("if", TokenType.TOKEN_IF),
          ("int", TokenType.TOKEN_IDENTIFIER), ("let", TokenType.TOKEN_LET),
          ("null", TokenType.TOKEN_NULL), ("return", TokenType.TOKEN_RETURN),
          ("string", TokenType.TOKEN_STRING_TYPE), ("super", TokenType.TOKEN_SUPER),
          ("this", TokenType.TOKEN_THIS), ("true", TokenType.TOKEN_TRUE),
          ("var", TokenType.TOKEN_VAR), ("void", TokenType.TOKEN_VOID),
          ("while", TokenType.TOKEN_WHILE)] ∧
    v02Kinds [("iffy", TokenType.TOKEN_IDENTIFIER), ("if_x", TokenType.TOKEN_IDENTIFIER),
        ("superX", TokenType.TOKEN_IDENTIFIER), ("Int", TokenType.TOKEN_IDENTIFIER)]
      = [("iffy", TokenType.TOKEN_IF), ("if_x", TokenType.TOKEN_IF),
          ("superX", TokenType.TOKEN_IDENTIFIER), ("Int", TokenType.TOKEN_IDENTIFIER)] ∧
    (V02.scanToken (initLexer "int x = iffy;".toList)).1
      = { type := TokenType.TOKEN_IDENTIFIER, lexeme := "int".toList, line := 1 } := by
  refine ⟨?_, ?_, ?_, ?_, by decide!, by decide!, by decide!⟩
  · intro w hw
    rw [v02_scanToken_word w hw]
    simp only [makeToken, slice_wordLexer]
    rfl
  · intro c rest hw hc
    rw [v02_scanToken_word _ hw]
    exact v02_kind_table c rest hc
  · intro rest hw
    rw [v02_scanToken_word _ hw]
    exact v02_kind_i rest hw
  · intro w hw
    rw [v02_scanToken_word w hw]
    exact v02_never_int w hw

/-- Witness for C38: the words `int`, `iffy` and `while`. -/
theorem v02_if_and_int_misclassified_witness :
    isWord "int".toList = true ∧
    (V02.scanToken (initLexer "int".toList)).1.type ≠ TokenType.TOKEN_INT ∧
    isWord "iffy".toList = true ∧
    (V02.scanToken (initLexer "iffy".toList)).1.type = TokenType.TOKEN_IF ∧
    isWord "while".toList = true ∧
    (V02.scanToken (initLexer "while".toList)).1.type = TokenType.TOKEN_WHILE :=
  ⟨by decide, v02_if_and_int_misclassified.2.2.2.1 "int".toList (by decide), by decide,
    v02_if_and_int_misclassified.2.2.1 "ffy".toList (by decide), by decide,
    (v02_if_and_int_misclassified.2.1 'w' "hile".toList (by decide) (by decide)).trans
      (by decide)⟩

/-! ## The scanner stays inside its source -/

theorem lineCommentLoop_start (n : Nat) : ∀ lx, (lineCommentLoop n lx).start = lx.start := by
  induction n with
  | zero => intro lx; rfl
  | succ n ih =>
    intro lx
    simp only [lineCommentLoop]
    split
    · rw [ih]; rfl
    · rfl

theorem identifierLoop_start (n : Nat) : ∀ lx, (identifierLoop n lx).start = lx.start := by
  induction n with
  | zero => intro lx; rfl
  | succ n ih =>
    intro lx
    simp only [identifierLoop]
    split
    · rw [ih]; rfl
    · rfl

theorem digitLoop_start (n : Nat) : ∀ lx, (digitLoop n lx).start = lx.start := by
  induction n with
  | zero => intro lx; rfl
  | succ n ih =>
    intro lx
    simp only [digitLoop]
    split
    · rw [ih]; rfl
    · rfl

theorem alphaLoop_start (n : Nat) : ∀ lx, (alphaLoop n lx).start = lx.start := by
  induction n with
  | zero => intro lx; rfl
  | succ n ih =>
    intro lx
    simp only [alphaLoop]
    split
    · rw [ih]; rfl
    · rfl

theorem stringLoop_start (n : Nat) : ∀ lx, (stringLoop n lx).start = lx.start := by
  induction n with
  | zero => intro lx; rfl
  | succ n ih =>
    intro lx
    simp only [stringLoop]
    split
    · rw [ih]
      split <;> rfl
    · rfl

theorem lexMatch_start (lx : Lexer) (c : Char) : (lexMatch lx c).2.start = lx.start := by
  unfold lexMatch
  split
  · rfl
  · split <;> rfl

/-- What `scanToken` returns next to a lexer state: a token that is an error
token or spells the slice between `start` and the cursor, with the start
where the given state had it. -/
theorem ite_tokenOf (c : Prop) [Decidable c] (x : Nat) (a b : Token × Lexer)
    (ha : a.2.start = x ∧ (a.1.type ≠ TokenType.TOKEN_ERROR → a.1.lexeme = slice a.2))
    (hb : b.2.start = x ∧ (b.1.type ≠ TokenType.TOKEN_ERROR → b.1.lexeme = slice b.2)) :
    (if c then a else b).2.start = x ∧
      ((if c then a else b).1.type ≠ TokenType.TOKEN_ERROR →
        (if c then a else b).1.lexeme = slice (if c then a else b).2) := by
  split <;> assumption

theorem makeToken_tokenOf (lx : Lexer) (t : TokenType) :
    (makeToken lx t, lx).2.start = lx.start ∧
      ((makeToken lx t, lx).1.type ≠ TokenType.TOKEN_ERROR →
        (makeToken lx t, lx).1.lexeme = slice (makeToken lx t, lx).2) :=
  ⟨rfl, fun _ => rfl⟩

theorem errorToken_tokenOf (lx : Lexer) (m : List Char) :
    (errorToken lx m, lx).2.start = lx.start ∧
      ((errorToken lx m, lx).1.type ≠ TokenType.TOKEN_ERROR →
        (errorToken lx m, lx).1.lexeme = slice (errorToken lx m, lx).2) :=
  ⟨rfl, fun h => absurd rfl h⟩

theorem identifier_tokenOf (lx : Lexer) :
    (identifier lx).2.start = lx.start ∧
      ((identifier lx).1.type ≠ TokenType.TOKEN_ERROR →
        (identifier lx).1.lexeme = slice (identifier lx).2) :=
  ⟨identifierLoop_start _ lx, fun _ => rfl⟩

theorem number_tokenOf (lx : Lexer) :
    (number lx).2.start = lx.start ∧
      ((number lx).1.type ≠ TokenType.TOKEN_ERROR →
        (number lx).1.lexeme = slice (number lx).2) := by
  refine ⟨?_, fun _ => rfl⟩
  simp only [number]
  split
  · rw [digitLoop_start]
    show (digitLoop lx.source.length lx).start = lx.start
    exact digitLoop_start _ lx
  · exact digitLoop_start _ lx

theorem string_tokenOf (lx : Lexer) :
    (string lx).2.start = lx.start ∧
      ((string lx).1.type ≠ TokenType.TOKEN_ERROR →
        (string lx).1.lexeme = slice (string lx).2) := by
  simp only [string]
  split
  · exact ⟨stringLoop_start _ lx, fun h => absurd rfl h⟩
  · exact ⟨stringLoop_start _ lx, fun _ => rfl⟩

theorem twoCharToken_tokenOf (lx : Lexer) (e : Char) (yes no : TokenType) :
    (twoCharToken lx e yes no).2.start = lx.start ∧
      ((twoCharToken lx e yes no).1.type ≠ TokenType.TOKEN_ERROR →
        (twoCharToken lx e yes no).1.lexeme = slice (twoCharToken lx e yes no).2) :=
  ⟨lexMatch_start lx e, fun _ => rfl⟩

theorem scanBody_tokenOf (lx : Lexer) :
    (scanBody lx).2.start = lx.start ∧
      ((scanBody lx).1.type ≠ TokenType.TOKEN_ERROR →
        (scanBody lx).1.lexeme = slice (scanBody lx).2) := by
  unfold scanBody
  simp only []
  refine ite_tokenOf _ _ _ _ ?_ ?_
  · have hs : (alphaLoop (advance lx).2.source.length (advance lx).2).start = lx.start :=
      alphaLoop_start _ _
    refine ite_tokenOf _ _ _ _ ⟨hs, fun _ => rfl⟩ ⟨hs, fun h => absurd rfl h⟩
  refine ite_tokenOf _ _ _ _ (identifier_tokenOf _) ?_
  refine ite_tokenOf _ _ _ _ (number_tokenOf _) ?_
  iterate 15 refine ite_tokenOf _ _ _ _ (makeToken_tokenOf _ _) ?_
  iterate 7 refine ite_tokenOf _ _ _ _ (twoCharToken_tokenOf _ _ _ _) ?_
  refine ite_tokenOf _ _ _ _ (string_tokenOf _) ?_
  exact errorToken_tokenOf _ _

theorem scanToken_tokenOf (lx : Lexer) :
    (scanToken lx).2.start = (skipWhitespace lx).current ∧
      (scanToken lx).2.start ≤ (scanToken lx).2.current ∧
      ((scanToken lx).1.type ≠ TokenType.TOKEN_ERROR →
        (scanToken lx).1.lexeme = slice (scanToken lx).2) := by
  unfold scanToken
  simp only []
  split
  · exact ⟨rfl, le_refl _, fun _ => rfl⟩
  · have h := scanBody_tokenOf { skipWhitespace lx with start := (skipWhitespace lx).current }
    have h2 := scanBody_adv { skipWhitespace lx with start := (skipWhitespace lx).current }
    have h3 := h2.2.1
    simp only [advance_current] at h3
    refine ⟨h.1, ?_, h.2⟩
    rw [h.1]
    show (skipWhitespace lx).current ≤ _
    omega

theorem two_chars_inside {lx : Lexer} {d : Char} (h : peekNext lx = d) (hd : d ≠ NUL) :
    lx.current + 2 ≤ lx.source.length := by
  have h2 := lt_of_not_atEnd (not_atEnd_of_peekNext h hd).2
  simp only [advance] at h2
  omega

theorem isdigit_ne_NUL {c : Char} (h : isdigit c = true) : c ≠ NUL := by
  intro e
  rw [e, isdigit_NUL] at h
  cases h

theorem slice_length {lx : Lexer} (h : lx.current ≤ lx.source.length) :
    (slice lx).length = lx.current - lx.start := by
  simp only [slice, List.length_take, List.length_drop]
  omega

theorem scanState_source (n : Nat) : ∀ lx : Lexer, (scanState n lx).source = lx.source := by
  induction n with
  | zero => intro lx; rfl
  | succ n ih =>
    intro lx
    rw [scanState, ih, scanToken_source]

theorem scanState_start_le (n : Nat) (s : List Char) :
    (scanState n (initLexer s)).start ≤ (scanState n (initLexer s)).current := by
  cases n with
  | zero => exact le_refl _
  | succ n =>
    rw [scanState_succ_right]
    exact (scanToken_tokenOf _).2.1

/-- C39: the v1.0 scanner never moves past the end of its source.  In every
state reachable from `initLexer s` by calls of `scanToken`,
`start ≤ current ≤ |s|`.  Every token that is not an error token spells the
slice of `s` from `start` to the cursor, which lies inside `s`.  A character
is consumed behind a test that it is not the terminator, and the places
that step over two characters do so only when both lie inside the source:
the opener of a block comment, its closer (the loop stops at the terminator
or in front of `*/`), the decimal point followed by a digit, and the second
character of an operator, which `match` consumes only when it is there. -/
theorem scanner_stays_inside_source :
    (∀ (s : List Char) (n : Nat),
      (scanState n (initLexer s)).source = s ∧
      (scanState n (initLexer s)).start ≤ (scanState n (initLexer s)).current ∧
      (scanState n (initLexer s)).current ≤ s.length) ∧
    (∀ (s : List Char) (n : Nat),
      (scanNth n (initLexer s)).type ≠ TokenType.TOKEN_ERROR →
        (scanNth n (initLexer s)).lexeme
          = (s.drop (scanState (n + 1) (initLexer s)).start).take
              (scanNth n (initLexer s)).lexeme.length ∧
        (scanState (n + 1) (initLexer s)).start + (scanNth n (initLexer s)).lexeme.length
          = (scanState (n + 1) (initLexer s)).current ∧
        (scanState (n + 1) (initLexer s)).current ≤ s.length) ∧
    (∀ lx : Lexer, isAtEnd lx = false → lx.current + 1 ≤ lx.source.length) ∧
    (∀ lx : Lexer, peek lx = '/' → peekNext lx = '*' →
      lx.current + 2 ≤ lx.source.length) ∧
    (∀ lx : Lexer, isAtEnd (blockCommentLoop lx.source.length lx) = false →
      peek (blockCommentLoop lx.source.length lx) = '*' ∧
      peekNext (blockCommentLoop lx.source.length lx) = '/' ∧
      (blockCommentLoop lx.source.length lx).current + 2 ≤ lx.source.length) ∧
    (∀ lx : Lexer, peek lx = '.' → isdigit (peekNext lx) = true →
      lx.current + 2 ≤ lx.source.length) ∧
    (∀ (lx : Lexer) (expected : Char),
      ((lexMatch lx expected).1 = true →
        lx.current + 1 ≤ lx.source.length ∧
        (lexMatch lx expected).2.current = lx.current + 1) ∧
      ((lexMatch lx expected).1 = false → (lexMatch lx expected).2 = lx)) := by
  have hb : ∀ (s : List Char) (n : Nat), (scanState n (initLexer s)).current ≤ s.length := by
    intro s n
    have h := scanState_inBounds n (initLexer s) (Nat.zero_le _)
    simp only [Lexer.inBounds, scanState_source] at h
    exact h
  refine ⟨fun s n => ⟨scanState_source n _, scanState_start_le n s, hb s n⟩, ?_,
    fun lx h => lt_of_not_atEnd h, ?_, ?_, ?_, ?_⟩
  · intro s n herr
    have hstate : scanState (n + 1) (initLexer s) = (scanToken (scanState n (initLexer s))).2 :=
      scanState_succ_right n _
    have ht := scanToken_tokenOf (scanState n (initLexer s))
    have hlex : (scanNth n (initLexer s)).lexeme = slice (scanState (n + 1) (initLexer s)) := by
      rw [hstate]
      exact ht.2.2 herr
    have hcur := hb s (n + 1)
    have hle := scanState_start_le (n + 1) s
    have hsrc := scanState_source (n + 1) (initLexer s)
    have hlen : (scanNth n (initLexer s)).lexeme.length
        = (scanState (n + 1) (initLexer s)).current - (scanState (n + 1) (initLexer s)).start := by
      rw [hlex]
      exact slice_length (by rw [hsrc]; exact hcur)
    refine ⟨?_, by omega, hcur⟩
    rw [hlen]
    conv_lhs => rw [hlex]
    simp only [slice, hsrc]
    rfl
  · intro lx _ h2
    exact two_chars_inside h2 (by decide)
  · intro lx hne
    obtain ⟨h1, h2⟩ := blockCommentLoop_exit lx.source.length lx (by omega) hne
    have h3 := two_chars_inside h2 (by decide)
    rw [(blockCommentLoop_adv lx.source.length lx).1] at h3
    exact ⟨h1, h2, h3⟩
  · intro lx _ h2
    exact two_chars_inside rfl (isdigit_ne_NUL h2)
  · intro lx expected
    unfold lexMatch
    split
    · exact ⟨fun h => Bool.noConfusion h, fun _ => rfl⟩
    · rename_i hne
      split
      · exact ⟨fun h => Bool.noConfusion h, fun _ => rfl⟩
      · refine ⟨fun _ => ⟨?_, rfl⟩, fun h => Bool.noConfusion h⟩
        have := lt_of_not_atEnd (show isAtEnd lx = false by simpa using hne)
        omega

/-- Witness for C39: the second token of `a<=1.5/*x*/`. -/
theorem scanner_stays_inside_source_witness :
    (scanNth 1 (initLexer "a<=1.5/*x*/".toList)).type ≠ TokenType.TOKEN_ERROR ∧
    (scanNth 1 (initLexer "a<=1.5/*x*/".toList)).lexeme
      = ("a<=1.5/*x*/".toList.drop (scanState 2 (initLexer "a<=1.5/*x*/".toList)).start).take
          (scanNth 1 (initLexer "a<=1.5/*x*/".toList)).lexeme.length ∧
    (scanNth 1 (initLexer "a<=1.5/*x*/".toList)).lexeme = "<=".toList ∧
    (scanState 2 (initLexer "a<=1.5/*x*/".toList)).current = 3 :=
  ⟨by decide,
    (scanner_stays_inside_source.2.1 "a<=1.5/*x*/".toList 1 (by decide)).1,
    by decide, by decide⟩

end Mino
